import Mathlib

/-! e-cloud: the tree over the flat node store.

A shallow embedding of the node store (`repository/mongo_file_repo.go`) and of the
tree operations of `controllers/files.go` (move, recursive collect, cascading delete).

The `nodes` collection is a list of documents in insertion order.  A document keeps
the BSON shape of its `parent_id` field (absent, a string, or an object id), because
`CreateNode`, `UpdateNodeParent` and `ListChildren` treat the three shapes differently.
-/

namespace ECloud

/-! ## Object ids (`primitive.ObjectID`) -/

/-- A BSON object id: 12 bytes, kept as their 24 hexadecimal digits. -/
abbrev ObjectID := { l : List (Fin 16) // l.length = 24 }

/-- One lower-case hexadecimal digit, as `ObjectID.Hex` prints it. -/
def hexDigit (d : Fin 16) : Char :=
  if d.val < 10 then Char.ofNat (48 + d.val) else Char.ofNat (87 + d.val)

/-- Value of a hexadecimal digit; `encoding/hex` accepts both letter cases. -/
def fromHexChar (c : Char) : Option (Fin 16) :=
  if 48 ≤ c.toNat ∧ c.toNat ≤ 57 then some (Fin.ofNat (c.toNat - 48))
  else if 97 ≤ c.toNat ∧ c.toNat ≤ 102 then some (Fin.ofNat (c.toNat - 87))
  else if 65 ≤ c.toNat ∧ c.toNat ≤ 70 then some (Fin.ofNat (c.toNat - 55))
  else none

/-- Decode a run of hexadecimal digits; `none` as soon as one character is not a digit. -/
def decodeHex : List Char → Option (List (Fin 16))
  | [] => some []
  | c :: cs =>
    match fromHexChar c, decodeHex cs with
    | some d, some ds => some (d :: ds)
    | _, _ => none

/-- The method `ObjectID.Hex`: the 24 lower-case digits of the id. -/
def ObjectID.Hex (o : ObjectID) : String := String.mk (o.val.map hexDigit)

/-- The function `primitive.ObjectIDFromHex`: the string must be exactly 24 hexadecimal
digits (a string of 24 bytes that is not 24 one-byte digits fails to decode). -/
def ObjectIDFromHex (s : String) : Option ObjectID :=
  match decodeHex s.data with
  | some l => if h : l.length = 24 then some ⟨l, h⟩ else none
  | none => none

/-! ## Records -/

/-- The BSON value of the `parent_id` field of a stored document. -/
inductive ParentField where
  | absent : ParentField
  | str (s : String) : ParentField
  | oid (o : ObjectID) : ParentField
  deriving DecidableEq

/-- A document of the `nodes` collection.  `_id` is always an object id: `CreateNode`
never sends one (`bson:"_id,omitempty"` with an empty `ID`), so the database assigns it. -/
structure Doc where
  id : ObjectID
  owner_id : String
  parent_id : ParentField
  name : String
  type : String
  size : Int
  mime : String
  path : String
  created_at : Nat
  updated_at : Nat
  deriving DecidableEq

/-- The struct `models.Node`, what the driver decodes a document into (`Typ` is the Go
field `Type`, a reserved word here). -/
structure Node where
  ID : String
  OwnerID : String
  ParentID : String
  Name : String
  Typ : String
  Size : Int
  Mime : String
  Path : String
  CreatedAt : Nat
  UpdatedAt : Nat
  deriving DecidableEq

/-- Decoding of the `parent_id` field into the Go string `ParentID`: an absent field
leaves the zero value, an object id is decoded as its hex form. -/
def ParentField.decode : ParentField → String
  | .absent => ""
  | .str s => s
  | .oid o => o.Hex

/-- Decoding of a stored document into a `models.Node` (`cur.Decode(&n)`). -/
def Doc.decode (d : Doc) : Node :=
  { ID := d.id.Hex, OwnerID := d.owner_id, ParentID := d.parent_id.decode, Name := d.name,
    Typ := d.type, Size := d.size, Mime := d.mime, Path := d.path,
    CreatedAt := d.created_at, UpdatedAt := d.updated_at }

/-- The `nodes` collection, in insertion order. -/
abbrev Store := List Doc

/-- The decoded records of a store. -/
def Store.nodes (st : Store) : List Node := st.map Doc.decode

/-! ## The node store (`repository.MongoFileRepo`)

Driver calls are taken to reach the database and come back: the only failures kept are
the ones the repository code raises itself (a malformed id, no matching document, a
duplicate key).  The clock (`time.Now()`) is the argument `now`. -/

/-- The method `MongoFileRepo.FindNodeByID`: an error for a malformed id, `none` (Go
`nil, nil`) when no document has this `_id`, else the decoded first match. -/
def FindNodeByID (st : Store) (id : String) : Except String (Option Node) :=
  match ObjectIDFromHex id with
  | none => .error "the provided hex string is not a valid ObjectID"
  | some oid => .ok ((st.find? (fun d => d.id = oid)).map Doc.decode)

/-- The filter on `parent_id` that `ListChildren` builds: `{"$exists": false}` for the
empty id, `{"$in": [oid, parentID]}` when the id parses as an object id, else equality
with the string. -/
def parentMatches (parentID : String) (f : ParentField) : Bool :=
  if parentID = "" then
    match f with
    | .absent => true
    | _ => false
  else
    match ObjectIDFromHex parentID with
    | some oid =>
      match f with
      | .oid o => o = oid
      | .str s => s = parentID
      | .absent => false
    | none =>
      match f with
      | .str s => s = parentID
      | _ => false

/-- The method `MongoFileRepo.ListChildren`: the decoded documents of the owner whose
`parent_id` passes the filter, in collection order. -/
def ListChildren (st : Store) (ownerID parentID : String) : List Node :=
  (st.filter (fun d => d.owner_id = ownerID && parentMatches parentID d.parent_id)).map
    Doc.decode

/-- The driver call `UpdateOne`: apply `f` to the first document that passes `p`; `none`
when no document matches (`MatchedCount == 0`). -/
def updateOne (p : Doc → Bool) (f : Doc → Doc) : Store → Option Store
  | [] => none
  | d :: ds => if p d then some (f d :: ds) else (updateOne p f ds).map (fun r => d :: r)

/-- The method `MongoFileRepo.UpdateNodeParent`: `$set` of `parent_id` to the string
given (the empty string included) and of `updated_at`, on the document with this `_id`
and owner. -/
def UpdateNodeParent (st : Store) (now : Nat) (ownerID nodeID parentID : String) :
    Except String Store :=
  match ObjectIDFromHex nodeID with
  | none => .error "the provided hex string is not a valid ObjectID"
  | some oid =>
    match updateOne (fun d => d.id = oid && d.owner_id = ownerID)
        (fun d => { d with parent_id := .str parentID, updated_at := now }) st with
    | none => .error "node not found or not owner"
    | some st' => .ok st'

/-- The `parent_id` field that `CreateNode` writes: left out when `ParentID` is empty
(`omitempty`), an object id when the string parses as one, else the string. -/
def createParentField (parentID : String) : ParentField :=
  if parentID = "" then .absent
  else
    match ObjectIDFromHex parentID with
    | some poid => .oid poid
    | none => .str parentID

/-- The method `MongoFileRepo.CreateNode`, for a node whose `ID` is empty, as every caller
passes it: the database assigns the id `fresh`, and the insert fails on a duplicate key.
Returns the new store and the node with its `ID` and timestamps filled in. -/
def CreateNode (st : Store) (now : Nat) (fresh : ObjectID) (n : Node) :
    Except String (Store × Node) :=
  if st.any (fun d => d.id = fresh) then .error "duplicate key"
  else
    .ok (st ++ [{ id := fresh, owner_id := n.OwnerID, parent_id := createParentField n.ParentID,
                  name := n.Name, type := n.Typ, size := n.Size, mime := n.Mime, path := n.Path,
                  created_at := now, updated_at := now }],
         { n with ID := fresh.Hex, CreatedAt := now, UpdatedAt := now })

/-- The driver call `DeleteOne`: drop the first document that passes `p`, if any. -/
def deleteOne (p : Doc → Bool) : Store → Store
  | [] => []
  | d :: ds => if p d then ds else d :: deleteOne p ds

/-- The method `MongoFileRepo.DeleteNode`: an error for a malformed id, else the store
without the document of this `_id` (no error when there is none). -/
def DeleteNode (st : Store) (id : String) : Except String Store :=
  match ObjectIDFromHex id with
  | none => .error "the provided hex string is not a valid ObjectID"
  | some oid => .ok (deleteOne (fun d => d.id = oid) st)

/-! ## The world the handlers run in -/

/-- A mutating call made on the node store or the blob store. -/
inductive Call where
  | updateNodeParent (ownerID nodeID parentID : String) : Call
  | deleteNode (id : String) : Call
  | deleteFile (path : String) : Call
  | createNode (id : String) : Call
  | saveFile (path : String) : Call
  deriving DecidableEq

/-- Node store, blob store (the paths that exist) and the trace of mutating calls. -/
structure World where
  nodes : Store
  blobs : List String
  trace : List Call
  deriving DecidableEq

/-- The call `_ = storage.DeleteFile(path)` (`os.Remove`): the path is gone afterwards;
the error for a missing path is dropped by every caller in `files.go`. -/
def World.deleteFile (w : World) (path : String) : World :=
  { w with blobs := w.blobs.filter (fun p => p ≠ path), trace := w.trace ++ [.deleteFile path] }

/-- The call `_ = fileRepo.DeleteNode(id)`: the error for a malformed id is dropped. -/
def World.deleteNode (w : World) (id : String) : World :=
  match DeleteNode w.nodes id with
  | .ok st => { w with nodes := st, trace := w.trace ++ [.deleteNode id] }
  | .error _ => { w with trace := w.trace ++ [.deleteNode id] }

/-- The struct `FolderStat` (`Typ` is the Go field `Type`).  `Percent` is a Go `float64`;
the field holds the number that the `float64` stands for. -/
structure FolderStat where
  Typ : String
  Count : Nat
  Percent : ℚ
  deriving DecidableEq

/-- The struct `FolderStatsResponse`. -/
structure FolderStatsResponse where
  ParentID : String
  TotalItems : Nat
  Stats : List FolderStat
  deriving DecidableEq

/-- The struct `UnzipResponse`. -/
structure UnzipResponse where
  Message : String
  CreatedCount : Nat
  CreatedNodes : List Node
  CreatedPaths : List String
  RootParentID : String
  Timestamp : Nat
  deriving DecidableEq

/-- Body of a response: a JSON value, or the file sent by `c.File` with the file name of
its `Content-Disposition` header. -/
inductive Body where
  | error (msg : String) : Body
  | node (n : Node) : Body
  | nodes (ns : List Node) : Body
  | null : Body
  | none : Body
  | stats (r : FolderStatsResponse) : Body
  | unzip (r : UnzipResponse) : Body
  | file (path name : String) : Body
  deriving DecidableEq

/-- Status code and body written by a handler. -/
structure Response where
  status : Nat
  body : Body
  deriving DecidableEq

/-! ## Tree operations (`controllers/files.go`) -/

/-- The request body `moveReq`. -/
structure moveReq where
  ParentID : String
  deriving DecidableEq

/-- State of the worklist loop of `collectNodesRecursive`: the stack (its top is the last
element, as in the Go slice), the expanded folder ids and the result so far. -/
structure CollectState where
  stack : List String
  visitedFolders : List String
  result : List Node
  deriving DecidableEq

/-- The inner loop `for _, ch := range children`: every child is appended to the result and
the id of every folder child is pushed. -/
def pushChildren (stack : List String) (result : List Node) (children : List Node) :
    List String × List Node :=
  children.foldl
    (fun acc ch => (if ch.Typ = "folder" then acc.1 ++ [ch.ID] else acc.1, acc.2 ++ [ch]))
    (stack, result)

/-- The loop `for len(stack) > 0` of `collectNodesRecursive`, run for at most `fuel`
iterations; `none` when the stack is not empty after that many. -/
def collectLoop (st : Store) (ownerID : String) : Nat → CollectState → Option CollectState
  | 0, s => if s.stack = [] then some s else none
  | fuel + 1, s =>
    match s.stack.getLast? with
    | none => some s
    | some p =>
      let stack := s.stack.dropLast
      if p ≠ "" ∧ p ∈ s.visitedFolders then
        collectLoop st ownerID fuel { s with stack := stack }
      else
        let visited := if p ≠ "" then p :: s.visitedFolders else s.visitedFolders
        let children := ListChildren st ownerID p
        let r := pushChildren stack s.result children
        collectLoop st ownerID fuel { stack := r.1, visitedFolders := visited, result := r.2 }

/-- Number of iterations that always suffices for the worklist loop on a store. -/
def collectFuel (st : Store) : Nat := (st.length + 1) * (st.length + 1)

/-- The function `collectNodesRecursive`: the result of the worklist loop started with the
stack `[parentID]`. -/
def collectNodesRecursive (st : Store) (ownerID parentID : String) : Option (List Node) :=
  (collectLoop st ownerID (collectFuel st)
    { stack := [parentID], visitedFolders := [], result := [] }).map (fun s => s.result)

/-- The handler `MoveHandler`, for the authenticated owner `ownerID`, the path parameter
`id` and the bound body `req` (`none` when `ShouldBindJSON` fails). -/
def MoveHandler (w : World) (now : Nat) (ownerID id : String) (req : Option moveReq) :
    Option (Response × World) :=
  match req with
  | none => some (⟨400, .error "invalid request body"⟩, w)
  | some req =>
    match FindNodeByID w.nodes id with
    | .error e => some (⟨500, .error e⟩, w)
    | .ok none => some (⟨404, .error "node not found"⟩, w)
    | .ok (some node) =>
      if node.OwnerID ≠ ownerID then some (⟨403, .error "forbidden"⟩, w)
      else
        let newParentID := req.ParentID
        if node.ParentID = newParentID then some (⟨200, .node node⟩, w)
        else
          let checkParent : Option Response :=
            if newParentID ≠ "" then
              match FindNodeByID w.nodes newParentID with
              | .error e => some ⟨500, .error e⟩
              | .ok none => some ⟨404, .error "target parent not found"⟩
              | .ok (some parentNode) =>
                if parentNode.OwnerID ≠ ownerID then some ⟨403, .error "forbidden"⟩
                else if parentNode.Typ ≠ "folder" then
                  some ⟨400, .error "target parent is not a folder"⟩
                else none
            else none
          match checkParent with
          | some r => some (r, w)
          | none =>
            let update : Option (Response × World) :=
              let w1 : World :=
                { w with trace := w.trace ++ [.updateNodeParent ownerID node.ID newParentID] }
              match UpdateNodeParent w.nodes now ownerID node.ID newParentID with
              | .error e => some (⟨500, .error e⟩, w1)
              | .ok st => some (⟨200, .node { node with ParentID := newParentID }⟩,
                                { w1 with nodes := st })
            if node.Typ = "folder" ∧ newParentID ≠ "" then
              match collectNodesRecursive w.nodes ownerID node.ID with
              | none => none
              | some descendants =>
                if descendants.any (fun d => d.ID = newParentID) then
                  some (⟨400, .error "cannot move folder into its own descendant"⟩, w)
                else update
            else update

/-- The helper `DeleteRecursive`, with `fuel` bounding the depth of the recursion; `none`
when the recursion is deeper than that. -/
def DeleteRecursive : Nat → World → Node → Option World
  | 0, _, _ => none
  | fuel + 1, w, node =>
    (ListChildren w.nodes node.OwnerID node.ID).foldlM
      (fun w ch =>
        if ch.Typ = "file" then some ((w.deleteFile ch.Path).deleteNode ch.ID)
        else (DeleteRecursive fuel w ch).map (fun w1 => w1.deleteNode ch.ID))
      w

/-- The handler `DeleteHandler`, for the authenticated owner `ownerID` and the path
parameter `id`; `fuel` bounds the depth of `DeleteRecursive`. -/
def DeleteHandler (fuel : Nat) (w : World) (ownerID id : String) :
    Option (Response × World) :=
  match FindNodeByID w.nodes id with
  | .error _ => some (⟨404, .error "not found"⟩, w)
  | .ok none => some (⟨404, .error "not found"⟩, w)
  | .ok (some node) =>
    if node.OwnerID ≠ ownerID then some (⟨403, .error "forbidden"⟩, w)
    else
      let w1 : Option World :=
        if node.Typ = "folder" then
          (ListChildren w.nodes ownerID id).foldlM
            (fun w ch =>
              if ch.Typ = "file" then some ((w.deleteFile ch.Path).deleteNode ch.ID)
              else (DeleteRecursive fuel w ch).map (fun w1 => w1.deleteNode ch.ID))
            w
        else if node.Typ = "file" then some (w.deleteFile node.Path)
        else some w
      w1.map (fun w2 => (⟨204, .none⟩, w2.deleteNode id))

/-! ## Measures and predicates used to state the properties -/

/-- The ids (in hex form) of the documents of a store. -/
def storeIds (st : Store) : List String := st.map (fun d => d.id.Hex)

/-- Weight of a stack entry: an id of the store costs one iteration, any other entry (the
starting id may be one) may also push up to `st.length` children. -/
def stackWeight (st : Store) (p : String) : Nat :=
  if p ∈ storeIds st then 1 else st.length + 1

/-- Number of documents whose id has not been expanded yet. -/
def unvisited (st : Store) (visited : List String) : Nat :=
  (st.filter (fun d => decide (d.id.Hex ∉ visited))).length

/-- Bound on the number of iterations the worklist loop still makes from a state. -/
def collectMeasure (st : Store) (s : CollectState) : Nat :=
  (s.stack.map (stackWeight st)).sum + st.length * unvisited st s.visitedFolders

/-- Parent edge of the stored tree: both records are in the store and the `parent_id` of
`n` is the id of `p`. -/
def ParentEdge (st : Store) (p n : Node) : Prop :=
  p ∈ st.nodes ∧ n ∈ st.nodes ∧ n.ParentID = p.ID

/-- The record `d` is a descendant (direct or transitive) of the record `f`. -/
def Descendant (st : Store) (f d : Node) : Prop := Relation.TransGen (ParentEdge st) f d

/-- The parent relation is acyclic: no record is transitively its own ancestor. -/
def Acyclic (st : Store) : Prop := ∀ n, ¬ Relation.TransGen (ParentEdge st) n n

/-- Document ids are unique (the database enforces it on `_id`). -/
def UniqueIds (st : Store) : Prop := (st.map (fun d => d.id)).Nodup

instance (st : Store) : Decidable (UniqueIds st) := by
  unfold UniqueIds; infer_instance

/-- The parent invariant of the data model: a non-empty `parent_id` is the id of a folder
of the same owner. -/
def ParentInvariant (st : Store) : Prop :=
  ∀ n ∈ st.nodes, n.ParentID ≠ "" →
    ∃ p ∈ st.nodes, p.ID = n.ParentID ∧ p.Typ = "folder" ∧ p.OwnerID = n.OwnerID

instance (st : Store) : Decidable (ParentInvariant st) := by
  unfold ParentInvariant; infer_instance

/-- A well-formed store: unique ids, the parent invariant, and an acyclic parent relation. -/
structure WellFormed (st : Store) : Prop where
  unique : UniqueIds st
  parents : ParentInvariant st
  acyclic : Acyclic st

/-- The records of `ownerID` reachable from the id `start` by child edges through folders
of `ownerID`; a record is a child of `p` when its `parent_id` is `p`.  The starting record
is reached only if the store has a cycle through it. -/
inductive Reach (st : Store) (ownerID start : String) : Node → Prop where
  | child {n : Node} : n ∈ st.nodes → n.OwnerID = ownerID → n.ParentID = start →
      Reach st ownerID start n
  | step {m n : Node} : Reach st ownerID start m → m.Typ = "folder" → n ∈ st.nodes →
      n.OwnerID = ownerID → n.ParentID = m.ID → Reach st ownerID start n

/-- Every child listed for the id `p` is in the result, and every folder child has been
expanded. -/
def Expanded (st : Store) (ownerID : String) (sf : CollectState) (p : String) : Prop :=
  ∀ ch ∈ ListChildren st ownerID p,
    ch ∈ sf.result ∧ (ch.Typ = "folder" → ch.ID ∈ sf.visitedFolders)

/-! ## Sample stores -/

/-- The object id whose last hexadecimal digit is `k`, all others zero. -/
def oidN (k : Fin 16) : ObjectID := ⟨List.replicate 23 0 ++ [k], by simp⟩

/-- A document with the given id digit, owner, `parent_id` field, type and blob path. -/
def mkDoc (k : Fin 16) (owner : String) (pf : ParentField) (ty path : String) : Doc :=
  { id := oidN k, owner_id := owner, parent_id := pf, name := "n", type := ty, size := 0,
    mime := "", path := path, created_at := 0, updated_at := 0 }

/-- Owner `u` has a root folder (id 1) that holds a folder (id 2). -/
def sampleStore : Store :=
  [mkDoc 1 "u" .absent "folder" "", mkDoc 2 "u" (.oid (oidN 1)) "folder" ""]

/-- The sample store with empty blob store and trace. -/
def sampleWorld : World := { nodes := sampleStore, blobs := [], trace := [] }

/-- Depth of a record of the sample stores: 0 at root, 1 below the folder with id 1,
2 below the folder with id 2. -/
def sampleRank (n : Node) : Nat :=
  if n.ParentID = "" then 0 else if n.ParentID = (oidN 1).Hex then 1 else 2

/-- Owner `u` has a root folder (id 1) holding a folder (id 2) and a file (id 3), the folder
with id 2 holds a file (id 5); owner `v` has a root folder (id 4). -/
def mixedStore : Store :=
  [mkDoc 1 "u" .absent "folder" "", mkDoc 2 "u" (.oid (oidN 1)) "folder" "",
   mkDoc 3 "u" (.oid (oidN 1)) "file" "/data/u/a.txt", mkDoc 4 "v" .absent "folder" "",
   mkDoc 5 "u" (.str (oidN 2).Hex) "file" "/data/u/b.txt"]

/-- The mixed store with the two blobs of its files and an empty trace. -/
def mixedWorld : World :=
  { nodes := mixedStore, blobs := ["/data/u/a.txt", "/data/u/b.txt"], trace := [] }

/-- One round of the loop over the children in `DeleteHandler` and `DeleteRecursive`: a
file child has its blob and its record deleted, any other child is first emptied by `rec`
and then has its record deleted. -/
def delStep (rec : World → Node → Option World) (w : World) (ch : Node) : Option World :=
  if ch.Typ = "file" then some ((w.deleteFile ch.Path).deleteNode ch.ID)
  else (rec w ch).map (fun w1 => w1.deleteNode ch.ID)

/-- What holds of every world reached during a cascading delete started from the store
`st0`: only documents of `st0` remain, the children of a removed document are removed, and
`DeleteFile` has been called on the path of every removed file. -/
structure DeleteInv (st0 : Store) (w : World) : Prop where
  sub : w.nodes.Sublist st0
  closed : ∀ c ∈ st0, ∀ p ∈ st0, c.parent_id.decode = p.id.Hex → p ∉ w.nodes → c ∉ w.nodes
  files : ∀ f ∈ st0, f.type = "file" → f ∉ w.nodes → Call.deleteFile f.path ∈ w.trace

/-- Owner `u` has a root folder (id 1) holding a folder (id 2) and a file (id 3); the
folder with id 2 holds a file (id 5). -/
def treeStore : Store :=
  [mkDoc 1 "u" .absent "folder" "", mkDoc 2 "u" (.oid (oidN 1)) "folder" "",
   mkDoc 3 "u" (.oid (oidN 1)) "file" "/data/u/a.txt",
   mkDoc 5 "u" (.str (oidN 2).Hex) "file" "/data/u/b.txt"]

/-- The tree store with the two blobs of its files and an empty trace. -/
def treeWorld : World :=
  { nodes := treeStore, blobs := ["/data/u/a.txt", "/data/u/b.txt"], trace := [] }

/-- Contract of the recursive call inside the delete loop: started in a world that satisfies
the invariant, on a record of `st0`, it keeps the invariant, only removes documents, and
leaves no child of that record. -/
def RecSpec (st0 : Store) (rec : World → Node → Option World) : Prop :=
  ∀ w ch w1, DeleteInv st0 w → ch ∈ st0.nodes → rec w ch = some w1 →
    DeleteInv st0 w1 ∧ w1.nodes.Sublist w.nodes ∧
      ∀ c ∈ st0, c.parent_id.decode = ch.ID → c ∉ w1.nodes

/-- The recursive delete of the record `node` returns from every world whose documents are
documents of `st0`, as soon as the fuel is at least `k`. -/
def DeleteReturns (st0 : Store) (k : Nat) (node : Node) : Prop :=
  ∀ fuel, k ≤ fuel → ∀ w : World, w.nodes.Sublist st0 →
    ∃ w1, DeleteRecursive fuel w node = some w1

/-! ## Strings (`strings`, `path/filepath` on a Unix separator) -/

/-- Scan of `filepath.Ext` from the end of the path: `acc` holds the characters already
passed; the scan stops at the last dot of the last element, or gives nothing at a
separator. -/
def extScan : List Char → List Char → List Char
  | [], _ => []
  | c :: cs, acc =>
    if c = '/' then [] else if c = '.' then '.' :: acc else extScan cs (c :: acc)

/-- The function `filepath.Ext`: the suffix beginning at the final dot of the final element
of the path, empty if there is no dot. -/
def Ext (path : String) : String := String.mk (extScan path.data.reverse [])

/-- The call `strings.TrimPrefix(s, ".")`. -/
def trimDot (s : String) : String :=
  match s.data with
  | '.' :: cs => String.mk cs
  | _ => s

/-- The function `strings.ToLower`, over the case table `lower` of `unicode.ToLower`. -/
def ToLower (lower : Char → Char) (s : String) : String := String.mk (s.data.map lower)

/-! ## Folder statistics (`FolderStatsHandler`) -/

/-- The classification key of a gathered node: `folder` for a folder, else the lower-cased
extension of the name without its dot, or `unknown` when that is empty. -/
def statKey (lower : Char → Char) (n : Node) : String :=
  if n.Typ = "folder" then "folder"
  else
    let ext := ToLower lower (trimDot (Ext n.Name))
    if ext = "" then "unknown" else ext

/-- The statement `counts[key]++` on the map `counts`, kept as an association list in
order of first insertion. -/
def bump (key : String) : List (String × Nat) → List (String × Nat)
  | [] => [(key, 1)]
  | (k, v) :: rest => if k = key then (k, v + 1) :: rest else (k, v) :: bump key rest

/-- The map `counts` after the loop over the gathered nodes. -/
def countKeys (lower : Char → Char) (all : List Node) : List (String × Nat) :=
  all.foldl (fun counts n => bump (statKey lower n) counts) []

/-- Total of the counts stored under the key `k` in the map. -/
def bucketCount (k : String) (counts : List (String × Nat)) : Nat :=
  ((counts.filter (fun kv => decide (kv.1 = k))).map (fun kv => kv.2)).sum

/-! ## `float64` arithmetic

A finite, non-negative `float64` value is kept as `mant * 2 ^ exp`.  Every operation takes
the exact result, as a fraction of two naturals times a power of two, and rounds it to 53
significant bits, ties to the even significand (the default rounding of IEEE 754), each
operation on its own (no multiplication is fused with an addition).  The range of the
exponent is not kept: with operands that come from
counts of type `int` no result here overflows or is subnormal. -/

/-- A finite, non-negative `float64`: the value `mant * 2 ^ exp`. -/
structure Float64 where
  mant : Nat
  exp : Int
  deriving DecidableEq

/-- The number that a `float64` stands for. -/
def Float64.toRat (x : Float64) : ℚ := (x.mant : ℚ) * 2 ^ x.exp

/-- Number of binary digits of `n`, for `n` of at most `fuel` digits. -/
def bitsAux : Nat → Nat → Nat
  | 0, _ => 0
  | fuel + 1, n => if n = 0 then 0 else bitsAux fuel (n / 2) + 1

/-- Number of binary digits of `n` (zero for zero). -/
def bitLength (n : Nat) : Nat := bitsAux n n

/-- The integer nearest to `a / b`, the even one of the two when `a / b` lies half way. -/
def roundHalfEven (a b : Nat) : Nat :=
  let q := a / b
  let r := a % b
  if 2 * r < b then q
  else if b < 2 * r then q + 1
  else if q % 2 = 0 then q
  else q + 1

/-- The `float64` nearest to `a / b * 2 ^ e`: the fraction `a / b` is scaled by a power of
two so that it lies between `2 ^ 52` and `2 ^ 53`, rounded to an integer significand, and the
exponent is set to undo the scaling.  Zero for `a = 0`, and for `b = 0`, which no caller
passes. -/
def Float64.round (a b : Nat) (e : Int) : Float64 :=
  if a = 0 ∨ b = 0 then ⟨0, 0⟩
  else
    let la := bitLength a
    let lb := bitLength b
    let A := a * 2 ^ (lb + 53)
    let B := b * 2 ^ la
    if A < 2 ^ 53 * B then ⟨roundHalfEven A B, e + la - lb - 53⟩
    else ⟨roundHalfEven A (2 * B), e + la + 1 - lb - 53⟩

/-- The conversion `float64(n)` of an `int` that is not negative. -/
def Float64.ofInt (n : Nat) : Float64 := Float64.round n 1 0

/-- The quotient `x / y` of two `float64`. -/
def Float64.div (x y : Float64) : Float64 := Float64.round x.mant y.mant (x.exp - y.exp)

/-- The product `x * y` of two `float64`. -/
def Float64.mul (x y : Float64) : Float64 := Float64.round (x.mant * y.mant) 1 (x.exp + y.exp)

/-- The sum `x + y` of two `float64`. -/
def Float64.add (x y : Float64) : Float64 :=
  let e := min x.exp y.exp
  Float64.round (x.mant * 2 ^ (x.exp - e).toNat + y.mant * 2 ^ (y.exp - e).toNat) 1 e

/-- The conversion `int(x)` of a `float64` that is not negative: the fraction is dropped. -/
def Float64.toInt (x : Float64) : Nat :=
  if 0 ≤ x.exp then x.mant * 2 ^ x.exp.toNat else x.mant / 2 ^ (-x.exp).toNat

/-- The integer `int(pct*100+0.5)` that the handler computes for a bucket of `v` nodes out
of `total`, with `pct = (float64(v) / float64(total)) * 100.0`; the constants `100.0` and
`0.5` are the `float64` values `100 * 2 ^ 0` and `1 * 2 ^ (-1)`. -/
def percentUnits (v total : Nat) : Nat :=
  let pct := Float64.mul (Float64.div (Float64.ofInt v) (Float64.ofInt total)) ⟨100, 0⟩
  Float64.toInt (Float64.add (Float64.mul pct ⟨100, 0⟩) ⟨1, -1⟩)

/-- The `float64` that the handler stores in `Percent`: zero when `total` is zero, else
`float64(int(pct*100+0.5)) / 100.0`. -/
def percentFloat (v total : Nat) : Float64 :=
  if total > 0 then Float64.div (Float64.ofInt (percentUnits v total)) ⟨100, 0⟩
  else ⟨0, 0⟩

/-- The value of `Percent` for a bucket of `v` nodes out of `total`, as a number: the value
of the `float64` that `percentFloat` computes. -/
def percent (v total : Nat) : ℚ := (percentFloat v total).toRat

/-- The slice `stats` built by the loop `for k, v := range counts`.  Go visits the map in
an unspecified order; the list is given here in order of first insertion, and the
properties of `Stats` are stated for every reordering of it. -/
def buildStats (counts : List (String × Nat)) (total : Nat) : List FolderStat :=
  counts.map (fun kv => { Typ := kv.1, Count := kv.2, Percent := percent kv.2 total })

/-- The response of `FolderStatsHandler` for the gathered nodes `all`. -/
def statsResponse (lower : Char → Char) (parentID : String) (all : List Node) :
    FolderStatsResponse :=
  { ParentID := parentID, TotalItems := all.length,
    Stats := buildStats (countKeys lower all) all.length }

/-- The handler `FolderStatsHandler`, for the authenticated owner `ownerID`, the path
parameter `parentID` and the value `recursive` of the query parameter of that name. -/
def FolderStatsHandler (lower : Char → Char) (w : World) (ownerID parentID recursive : String) :
    Option (Response × World) :=
  let checkParent : Option Response :=
    if parentID ≠ "" then
      match FindNodeByID w.nodes parentID with
      | .error e => some ⟨500, .error e⟩
      | .ok none => some ⟨404, .error "parent not found"⟩
      | .ok (some parentNode) =>
        if parentNode.OwnerID ≠ ownerID then some ⟨403, .error "forbidden"⟩ else none
    else none
  match checkParent with
  | some r => some (r, w)
  | none =>
    let gathered : Option (List Node) :=
      if ToLower lower recursive = "true" then collectNodesRecursive w.nodes ownerID parentID
      else some (ListChildren w.nodes ownerID parentID)
    gathered.map (fun all => (⟨200, .stats (statsResponse lower parentID all)⟩, w))

/-- A gathered record with the given name and type. -/
def mkNode (name ty : String) : Node :=
  { ID := "", OwnerID := "u", ParentID := "", Name := name, Typ := ty, Size := 0, Mime := "",
    Path := "", CreatedAt := 0, UpdatedAt := 0 }

/-- Two folders, a file `a.TXT`, a file `b.txt`, a file without extension, a file whose
extension is `folder` and a file whose extension is `unknown`. -/
def sampleGathered : List Node :=
  [mkNode "docs" "folder", mkNode "a.TXT" "file", mkNode "pics" "folder", mkNode "b.txt" "file",
   mkNode "README" "file", mkNode "plan.folder" "file", mkNode "x.unknown" "file"]

/-! ## Deletion under failing blob deletions -/

/-- A pattern of `DeleteFile` failures: from the calls made so far and the path, whether
this call fails. -/
abbrev BlobFailures := List Call → String → Bool

/-- The call `_ = storage.DeleteFile(path)` under a failure pattern: a failing call leaves
the blob store as it is; the error is dropped either way. -/
def World.deleteFileWith (fails : BlobFailures) (w : World) (path : String) : World :=
  if fails w.trace path then { w with trace := w.trace ++ [.deleteFile path] }
  else w.deleteFile path

/-- The helper `DeleteRecursive` under a pattern of `DeleteFile` failures. -/
def DeleteRecursiveWith (fails : BlobFailures) : Nat → World → Node → Option World
  | 0, _, _ => none
  | fuel + 1, w, node =>
    (ListChildren w.nodes node.OwnerID node.ID).foldlM
      (fun w ch =>
        if ch.Typ = "file" then some ((w.deleteFileWith fails ch.Path).deleteNode ch.ID)
        else (DeleteRecursiveWith fails fuel w ch).map (fun w1 => w1.deleteNode ch.ID))
      w

/-- The handler `DeleteHandler` under a pattern of `DeleteFile` failures. -/
def DeleteHandlerWith (fails : BlobFailures) (fuel : Nat) (w : World) (ownerID id : String) :
    Option (Response × World) :=
  match FindNodeByID w.nodes id with
  | .error _ => some (⟨404, .error "not found"⟩, w)
  | .ok none => some (⟨404, .error "not found"⟩, w)
  | .ok (some node) =>
    if node.OwnerID ≠ ownerID then some (⟨403, .error "forbidden"⟩, w)
    else
      let w1 : Option World :=
        if node.Typ = "folder" then
          (ListChildren w.nodes ownerID id).foldlM
            (fun w ch =>
              if ch.Typ = "file" then some ((w.deleteFileWith fails ch.Path).deleteNode ch.ID)
              else (DeleteRecursiveWith fails fuel w ch).map (fun w1 => w1.deleteNode ch.ID))
            w
        else if node.Typ = "file" then some (w.deleteFileWith fails node.Path)
        else some w
      w1.map (fun w2 => (⟨204, .none⟩, w2.deleteNode id))

/-- The part of the world that blob deletions cannot touch: the node store and the trace
of calls. -/
def World.logical (w : World) : Store × List Call := (w.nodes, w.trace)

/-! ## Reading handlers (`ListHandler`, `ParentHandler`, `DownloadHandler`) -/

/-- The function `filepath.Base`: the last element of the path, after removal of trailing
separators; `.` for the empty path and `/` for a path of separators only. -/
def Base (path : String) : String :=
  if path = "" then "."
  else
    let stripped := path.data.reverse.dropWhile (fun c => c = '/')
    let last := (stripped.takeWhile (fun c => c ≠ '/')).reverse
    if last = [] then "/" else String.mk last

/-- The handlers `ListHandler` and `FoldersListHandler`: the children of `parentID` that
belong to the authenticated owner. -/
def ListHandler (w : World) (ownerID parentID : String) : Option (Response × World) :=
  some (⟨200, .nodes (ListChildren w.nodes ownerID parentID)⟩, w)

/-- The handler `ParentHandler`, for the authenticated owner `ownerID` and the path
parameter `id`. -/
def ParentHandler (w : World) (ownerID id : String) : Option (Response × World) :=
  if id = "" then some (⟨400, .error "parent_id required"⟩, w)
  else
    match FindNodeByID w.nodes id with
    | .error e => some (⟨500, .error e⟩, w)
    | .ok none => some (⟨404, .error "not found"⟩, w)
    | .ok (some node) =>
      if node.OwnerID ≠ ownerID then some (⟨403, .error "forbidden"⟩, w)
      else if node.ParentID = "" then some (⟨200, .null⟩, w)
      else
        match FindNodeByID w.nodes node.ParentID with
        | .error e => some (⟨500, .error e⟩, w)
        | .ok none => some (⟨200, .null⟩, w)
        | .ok (some parent) =>
          if parent.OwnerID ≠ ownerID then some (⟨403, .error "forbidden"⟩, w)
          else some (⟨200, .node parent⟩, w)

/-- The handler `DownloadHandler`, for the authenticated owner `ownerID` and the path
parameter `id`; `os.Stat` succeeds on the paths of the blob store. -/
def DownloadHandler (w : World) (ownerID id : String) : Option (Response × World) :=
  match FindNodeByID w.nodes id with
  | .error _ => some (⟨404, .error "not found"⟩, w)
  | .ok none => some (⟨404, .error "not found"⟩, w)
  | .ok (some node) =>
    if node.OwnerID ≠ ownerID then some (⟨403, .error "forbidden"⟩, w)
    else if node.Typ ≠ "file" then some (⟨400, .error "not a file"⟩, w)
    else if node.Path ∉ w.blobs then some (⟨404, .error "file missing on server"⟩, w)
    else some (⟨200, .file node.Path (Base node.Name)⟩, w)

/-- The node records that a response body carries. -/
def Body.nodesOf : Body → List Node
  | .node n => [n]
  | .nodes ns => ns
  | .unzip r => r.CreatedNodes
  | _ => []

/-- The documents of a store that belong to the owner `b`. -/
def Store.ownedBy (st : Store) (b : String) : Store :=
  st.filter (fun d => decide (d.owner_id = b))

/-! ## Paths (`strings`, `path`, `path/filepath` on a Unix separator) -/

/-- The call `strings.Split(s, "/")` on the characters of `s`: the pieces between the
separators, at least one piece. -/
def splitSlash : List Char → List (List Char)
  | [] => [[]]
  | c :: cs =>
    if c = '/' then [] :: splitSlash cs
    else
      match splitSlash cs with
      | seg :: rest => (c :: seg) :: rest
      | [] => [[c]]

/-- The call `strings.Split(s, "/")`. -/
def Split (s : String) : List String := (splitSlash s.data).map String.mk

/-- The call `strings.Join(parts, "/")`. -/
def joinSlash : List String → String
  | [] => ""
  | [p] => p
  | p :: q :: rest => String.mk (p.data ++ '/' :: (joinSlash (q :: rest)).data)

/-- The element walk of `path.Clean`: empty and `.` elements are dropped, a `..` element
removes the element before it when there is one that is not itself `..`, is dropped at the
root of a rooted path, and is kept otherwise.  `acc` is the result so far, last element
first. -/
def cleanSegs (rooted : Bool) : List String → List String → List String
  | [], acc => acc.reverse
  | seg :: rest, acc =>
    if seg = "" ∨ seg = "." then cleanSegs rooted rest acc
    else if seg = ".." then
      match acc with
      | top :: acc1 =>
        if top = ".." then cleanSegs rooted rest (".." :: acc) else cleanSegs rooted rest acc1
      | [] => if rooted then cleanSegs rooted rest [] else cleanSegs rooted rest [".."]
    else cleanSegs rooted rest (seg :: acc)

/-- The functions `path.Clean` and `filepath.Clean`: the shortest path equivalent to the
given one by lexical processing; `.` for an empty result. -/
def Clean (path : String) : String :=
  if path = "" then "."
  else
    let rooted := path.data.head? = some '/'
    let out := joinSlash (cleanSegs rooted (Split path) [])
    if rooted then String.mk ('/' :: out.data) else if out = "" then "." else out

/-- The functions `path.Join` and `filepath.Join`: the non-empty elements joined by the
separator, cleaned; the empty string when every element is empty. -/
def Join (elems : List String) : String :=
  match elems.filter (fun e => e ≠ "") with
  | [] => ""
  | es => Clean (joinSlash es)

/-- The function `filepath.Abs`, in the working directory `cwd`. -/
def Abs (cwd path : String) : String :=
  if path.data.head? = some '/' then Clean path else Join [cwd, path]

/-- The call `strings.TrimLeft(s, "/")`. -/
def trimLeftSlash (s : String) : String := String.mk (s.data.dropWhile (fun c => c = '/'))

/-- The call `strings.TrimRight(s, "/")`. -/
def trimRightSlash (s : String) : String :=
  String.mk (s.data.reverse.dropWhile (fun c => c = '/')).reverse

/-- The call `strings.ReplaceAll(s, old, new)` for one-character strings. -/
def replaceChar (old new : Char) (s : String) : String :=
  String.mk (s.data.map (fun c => if c = old then new else c))

/-- The call `strings.HasSuffix(s, "/")`. -/
def hasSuffixSlash (s : String) : Bool := s.data.getLast? = some '/'

/-- The function `strings.HasPrefix`. -/
def HasPrefix (s pre : String) : Bool := pre.data.isPrefixOf s.data

/-- The function `strings.TrimSuffix`. -/
def TrimSuffix (s suffix : String) : String :=
  if suffix.data.isSuffixOf s.data then String.mk (s.data.take (s.data.length - suffix.data.length))
  else s

/-- The Go `len` of a string: its length in bytes. -/
def byteLen (s : String) : Nat := s.utf8ByteSize

/-- The characters of the longest prefix that fits in `n` bytes. -/
def takeBytes : Nat → List Char → List Char
  | _, [] => []
  | n, c :: cs => if c.utf8Size ≤ n then c :: takeBytes (n - c.utf8Size) cs else []

/-- The slice `s[:n]` of a string longer than `n` bytes.  When the cut falls inside a
multi-byte character Go keeps its first bytes, which no string here can hold; the
character is dropped whole. -/
def sliceBytes (s : String) (n : Nat) : String := String.mk (takeBytes n s.data)

/-- The function `unicode.IsSpace`. -/
def isSpace (c : Char) : Bool :=
  let n := c.toNat
  (9 ≤ n ∧ n ≤ 13) ∨ n = 32 ∨ n = 133 ∨ n = 160 ∨ n = 5760 ∨ (8192 ≤ n ∧ n ≤ 8202) ∨
    n = 8232 ∨ n = 8233 ∨ n = 8239 ∨ n = 8287 ∨ n = 12288

/-- The function `strings.TrimSpace`. -/
def TrimSpace (s : String) : String :=
  String.mk ((s.data.dropWhile isSpace).reverse.dropWhile isSpace).reverse

/-- The function `sanitizeFileName` of the storage service. -/
def sanitizeFileName (name : String) : String :=
  let name := TrimSpace (Base name)
  if name = "" then "file" else name

/-! ## The storage service (`services.StorageService`)

File-system calls are taken to succeed; the failures kept are the ones the service
raises itself (a path it rejects, a file over the size limit). -/

/-- The struct `StorageService`, with the working directory of the process. -/
structure StorageService where
  BasePath : String
  MaxSize : Nat
  cwd : String
  deriving DecidableEq

/-- The method `StorageService.SaveFromReader`, for a reader that yields `size` bytes: the
physical path written and the number of bytes copied, or the error raised. -/
def SaveFromReader (s : StorageService) (ownerID relPath : String) (size : Nat) :
    Except String (String × Nat) :=
  if s.BasePath = "" then .error "storage base path not set"
  else
    let relPath := trimLeftSlash relPath
    let relPath := Clean (String.mk ('/' :: relPath.data))
    let relPath := trimLeftSlash relPath
    if relPath = "" then .error "empty relative path"
    else if (Split relPath).any (fun seg => seg = "..") then .error "invalid path segment"
    else
      let destPath := Join [s.BasePath, "owners", ownerID, relPath]
      let absBase := Abs s.cwd s.BasePath
      let absDest := Abs s.cwd destPath
      if absDest ≠ absBase ∧ ¬ HasPrefix absDest (String.mk (absBase.data ++ ['/'])) then
        .error "invalid destination path"
      else
        let n := if s.MaxSize > 0 then min size (s.MaxSize + 1) else size
        if s.MaxSize > 0 ∧ n > s.MaxSize then
          .error (String.mk ("file too large (max ".data ++ (toString s.MaxSize).data ++
            " bytes)".data))
        else .ok (absDest, n)

/-- The struct `multipart.FileHeader`, as far as the handlers read it. -/
structure FileHeader where
  Filename : String
  Size : Nat
  ContentType : String
  deriving DecidableEq

/-- The method `StorageService.SaveFile`, at the clock reading `ts` (`UnixNano`): the
stored name and the number of bytes written, or the error raised. -/
def SaveFile (s : StorageService) (ts : Nat) (ownerID : String) (fh : FileHeader) :
    Except String (String × Nat) :=
  if fh.Size > s.MaxSize ∧ s.MaxSize > 0 then .error "file too large"
  else
    let dir := Join [s.BasePath, ownerID]
    let safeName := sanitizeFileName fh.Filename
    let storedName := Join [dir, String.mk ((toString ts).data ++ '_' :: safeName.data)]
    .ok (storedName, fh.Size)

/-- A blob written at `path`: the path exists afterwards. -/
def World.saveFile (w : World) (path : String) : World :=
  { w with blobs := if path ∈ w.blobs then w.blobs else w.blobs ++ [path],
           trace := w.trace ++ [.saveFile path] }

/-- The call `fileRepo.CreateNode(node)` in a world, with the id `fresh` assigned by the
database: the new world and the node with its id, or the error. -/
def World.createNode (w : World) (now : Nat) (fresh : ObjectID) (n : Node) :
    Except String (World × Node) :=
  match CreateNode w.nodes now fresh n with
  | .error e => .error e
  | .ok (st, n1) => .ok ({ w with nodes := st, trace := w.trace ++ [.createNode n1.ID] }, n1)

/-! ## Creating handlers (`CreateFolderHandler`, `UploadHandler`) -/

/-- The request body `createFolderReq`. -/
structure createFolderReq where
  Name : String
  ParentID : String
  deriving DecidableEq

/-- The handler `CreateFolderHandler`, for the authenticated owner `ownerID` and the bound
body `req` (`none` when the JSON does not parse); the binding also fails on an empty
`name`, which is `required`. -/
def CreateFolderHandler (w : World) (now : Nat) (fresh : ObjectID) (ownerID : String)
    (req : Option createFolderReq) : Option (Response × World) :=
  match req with
  | none => some (⟨400, .error "invalid request body"⟩, w)
  | some req =>
    if req.Name = "" then some (⟨400, .error "Name is required"⟩, w)
    else
      let node : Node :=
        { ID := "", OwnerID := ownerID, ParentID := req.ParentID, Name := req.Name,
          Typ := "folder", Size := 0, Mime := "", Path := "", CreatedAt := 0, UpdatedAt := 0 }
      match w.createNode now fresh node with
      | .error e => some (⟨500, .error e⟩, w)
      | .ok (w1, n1) => some (⟨201, .node n1⟩, w1)

/-- The handler `UploadHandler`, for the authenticated owner `ownerID`, the form value
`parentID` and the uploaded file (`none` when the form has no file). -/
def UploadHandler (storage : StorageService) (w : World) (now : Nat) (fresh : ObjectID)
    (ownerID parentID : String) (file : Option FileHeader) : Option (Response × World) :=
  match file with
  | none => some (⟨400, .error "file required"⟩, w)
  | some fh =>
    match SaveFile storage now ownerID fh with
    | .error e => some (⟨500, .error e⟩, w)
    | .ok (savedPath, size) =>
      let w1 := w.saveFile savedPath
      let node : Node :=
        { ID := "", OwnerID := ownerID, ParentID := parentID, Name := fh.Filename,
          Typ := "file", Size := size, Mime := fh.ContentType, Path := savedPath,
          CreatedAt := 0, UpdatedAt := 0 }
      match w1.createNode now fresh node with
      | .error e => some (⟨500, .error e⟩, w1.deleteFile savedPath)
      | .ok (w2, n1) => some (⟨201, .node n1⟩, w2)

/-- A storage service rooted at `/srv/data`, with a limit of 1000 bytes per file. -/
def sampleStorage : StorageService := { BasePath := "/srv/data", MaxSize := 1000, cwd := "/srv" }

/-! ## Archive ingestion (`UnzipHandler`)

The archive is given as the entries `zip.OpenReader` lists.  The clock does not advance
during a request. -/

/-- An entry of the archive (`zip.File`), as far as the handler reads it: its name, the
directory and symbolic-link bits of its mode, whether `Open` fails, the number of bytes its
content decompresses to, and the type `http.DetectContentType` finds in its first bytes. -/
structure ZipEntry where
  Name : String
  IsDir : Bool
  IsSymlink : Bool
  OpenFails : Bool
  Size : Nat
  Detected : String
  deriving DecidableEq

/-- The uploaded file of an unzip request: its name, its size in bytes, and the entries of
the archive (`none` when `zip.OpenReader` rejects it). -/
structure ZipUpload where
  Filename : String
  Size : Nat
  Archive : Option (List ZipEntry)
  deriving DecidableEq

/-- What a request of `UnzipHandler` runs against: the clock, the ids the database assigns
to successive inserts, the table of `mime.TypeByExtension`, the case table of
`unicode.ToLower`, the storage service, and which delete calls fail. -/
structure UnzipEnv where
  now : Nat
  ids : Nat → ObjectID
  typeByExtension : String → String
  lower : Char → Char
  storage : StorageService
  deleteFileFails : BlobFailures
  deleteNodeFails : List Call → String → Bool

/-- The constant `maxZipSize`. -/
def maxZipSize : Nat := 200 * 2 ^ 20

/-- The constant `maxEntries`. -/
def maxEntries : Nat := 5000

/-- The constant `maxTotalExtractSize`. -/
def maxTotalExtractSize : Nat := 1024 * 2 ^ 20

/-- The constant `maxFilenameLength`. -/
def maxFilenameLength : Nat := 255

/-- The call `_ = fileRepo.DeleteNode(id)` under a failure pattern: a failing call leaves
the store as it is; the error is dropped either way. -/
def World.deleteNodeWith (fails : List Call → String → Bool) (w : World) (id : String) : World :=
  if fails w.trace id then { w with trace := w.trace ++ [.deleteNode id] } else w.deleteNode id

/-- The function `cleanupCreated`: `DeleteFile` on every saved path, first to last, then
`DeleteNode` on every created node, last to first. -/
def cleanupCreated (env : UnzipEnv) (w : World) (savedPaths : List String)
    (createdNodes : List Node) : World :=
  let w1 := savedPaths.foldl (fun w p => w.deleteFileWith env.deleteFileFails p) w
  createdNodes.reverse.foldl (fun w n => w.deleteNodeWith env.deleteNodeFails n.ID) w1

/-- The variables of `UnzipHandler` that change during the loop over the entries, with the
world and the number of inserts made so far. -/
structure UnzipState where
  world : World
  createdNodes : List Node
  createdPaths : List String
  dirNodeMap : List (String × String)
  totalEntries : Nat
  totalExtractedSize : Nat
  inserts : Nat

/-- The lookup `dirNodeMap[key]`. -/
def lookupDir (m : List (String × String)) (key : String) : Option String :=
  (m.find? (fun kv => kv.1 = key)).map (fun kv => kv.2)

/-- The assignment `dirNodeMap[key] = id`. -/
def setDir (m : List (String × String)) (key id : String) : List (String × String) :=
  (key, id) :: m.filter (fun kv => kv.1 ≠ key)

/-- The loop of the closure `createDirNode` over the parts from index `i` on, with
`curPathParts` and `curParent` as they stand: the state afterwards (nodes created before a
failure stay recorded) and the id of the last folder, or the error. -/
def createDirLoop (env : UnzipEnv) (ownerID : String) :
    List String → Nat → List String → String → UnzipState → UnzipState × Except String String
  | [], _, _, curParent, s => (s, .ok curParent)
  | p :: rest, i, curPathParts, curParent, s =>
    let curPathParts := curPathParts ++ [p]
    let key := joinSlash curPathParts
    match lookupDir s.dirNodeMap key with
    | some id => createDirLoop env ownerID rest (i + 1) curPathParts id s
    | none =>
      let node : Node :=
        { ID := "", OwnerID := ownerID, ParentID := curParent, Name := p, Typ := "folder",
          Size := 0, Mime := "", Path := "", CreatedAt := 0, UpdatedAt := 0 }
      match s.world.createNode env.now (env.ids s.inserts) node with
      | .error e => ({ s with inserts := s.inserts + 1 }, .error e)
      | .ok (w1, n1) =>
        let s1 : UnzipState :=
          { s with world := w1, createdNodes := s.createdNodes ++ [n1],
                   dirNodeMap := setDir s.dirNodeMap key n1.ID, inserts := s.inserts + 1 }
        if i > 1000 then (s1, .error "too deep path")
        else createDirLoop env ownerID rest (i + 1) curPathParts n1.ID s1

/-- The closure `createDirNode`, with `parentID` the id of the root folder of the
extraction. -/
def createDirNode (env : UnzipEnv) (ownerID parentID : String) (dirParts : List String)
    (s : UnzipState) : UnzipState × Except String String :=
  createDirLoop env ownerID dirParts 0 [] parentID s

/-- The content type given to an extracted file: the detected one, else the one of the
lower-cased extension, else `application/octet-stream`. -/
def entryMime (env : UnzipEnv) (detected fileName : String) : String :=
  let mimeType :=
    if detected = "" ∨ detected = "application/octet-stream" then
      let ext := ToLower env.lower (Ext fileName)
      if ext ≠ "" ∧ env.typeByExtension ext ≠ "" then env.typeByExtension ext else detected
    else detected
  if mimeType = "" then "application/octet-stream" else mimeType

/-- A failing exit of the loop: `cleanupCreated` and the error response. -/
def unzipFail (env : UnzipEnv) (s : UnzipState) (paths : List String) (status : Nat)
    (msg : String) : Except (Response × World) UnzipState :=
  .error (⟨status, .error msg⟩, cleanupCreated env s.world paths s.createdNodes)

/-- One round of the loop `for _, f := range zr.File`, after the entry count: the state for
the next round, or the response and world of a failing exit. -/
def processEntry (env : UnzipEnv) (ownerID rootID : String) (s : UnzipState) (f : ZipEntry) :
    Except (Response × World) UnzipState :=
  if f.Name = "" then .ok s
  else
    let name := trimLeftSlash (replaceChar '\\' '/' f.Name)
    let clean := replaceChar '\\' '/' (Clean name)
    if clean = "." ∨ clean = "" then .ok s
    else if (Split clean).any (fun pseg => pseg = "..") then
      unzipFail env s s.createdPaths 400 "zip contains invalid path segments"
    else if byteLen clean > 4096 then unzipFail env s s.createdPaths 400 "filename too long"
    else if f.IsDir ∨ hasSuffixSlash name then
      match createDirNode env ownerID rootID (Split (trimRightSlash clean)) s with
      | (s1, .error e) =>
        unzipFail env s1 s1.createdPaths 500
          (String.mk ("failed to create folder nodes: ".data ++ e.data))
      | (s1, .ok _) => .ok s1
    else if f.IsSymlink then .ok s
    else
      let parts := Split clean
      match parts.find? (fun comp => comp = "" ∨ byteLen comp > maxFilenameLength) with
      | some comp =>
        if comp = "" then unzipFail env s s.createdPaths 400 "invalid path in zip"
        else unzipFail env s s.createdPaths 400 "filename component too long"
      | none =>
        match createDirNode env ownerID rootID parts.dropLast s with
        | (s1, .error e) =>
          unzipFail env s1 s1.createdPaths 500
            (String.mk ("failed to create parent folders: ".data ++ e.data))
        | (s1, .ok parentForFile) =>
          if f.OpenFails then unzipFail env s1 s1.createdPaths 500 "failed to read zip entry"
          else
            let relPath := Join [rootID, clean]
            match SaveFromReader env.storage ownerID relPath
                (min f.Size (maxTotalExtractSize + 1)) with
            | .error e =>
              unzipFail env s1 s1.createdPaths 500
                (String.mk ("failed to save extracted file: ".data ++ e.data))
            | .ok (savedPath, size) =>
              let s2 : UnzipState :=
                { s1 with world := s1.world.saveFile savedPath,
                          totalExtractedSize := s1.totalExtractedSize + size }
              if s2.totalExtractedSize > maxTotalExtractSize then
                unzipFail env
                  { s2 with world := s2.world.deleteFileWith env.deleteFileFails savedPath }
                  (s2.createdPaths ++ [savedPath]) 400 "zip extracts to too much data"
              else
                let fileName := parts.getLast?.getD ""
                let node : Node :=
                  { ID := "", OwnerID := ownerID, ParentID := parentForFile, Name := fileName,
                    Typ := "file", Size := size, Mime := entryMime env f.Detected fileName,
                    Path := savedPath, CreatedAt := 0, UpdatedAt := 0 }
                match s2.world.createNode env.now (env.ids s2.inserts) node with
                | .error e =>
                  unzipFail env
                    { s2 with world := s2.world.deleteFileWith env.deleteFileFails savedPath,
                              inserts := s2.inserts + 1 }
                    (s2.createdPaths ++ [savedPath]) 500
                    (String.mk ("failed to create node: ".data ++ e.data))
                | .ok (w3, n1) =>
                  .ok { s2 with world := w3, createdNodes := s2.createdNodes ++ [n1],
                                createdPaths := s2.createdPaths ++ [savedPath],
                                inserts := s2.inserts + 1 }

/-- The loop `for _, f := range zr.File`: the entry count is checked first in every
round. -/
def unzipLoop (env : UnzipEnv) (ownerID rootID : String) :
    UnzipState → List ZipEntry → Except (Response × World) UnzipState
  | s, [] => .ok s
  | s, f :: rest =>
    let s := { s with totalEntries := s.totalEntries + 1 }
    if s.totalEntries > maxEntries then
      unzipFail env s s.createdPaths 400 "too many entries in zip"
    else
      match processEntry env ownerID rootID s f with
      | .error r => .error r
      | .ok s1 => unzipLoop env ownerID rootID s1 rest

/-- The name of the root folder of the extraction: the file name without its extension,
separators replaced, `unzipped` when empty, cut to 200 bytes, then `_` and the clock
reading. -/
def rootFolderName (filename : String) (now : Nat) : String :=
  let baseName := TrimSuffix filename (Ext filename)
  let baseName := replaceChar '\\' '_' (replaceChar '/' '_' baseName)
  let baseName := if baseName = "" then "unzipped" else baseName
  let baseName := if byteLen baseName > 200 then sliceBytes baseName 200 else baseName
  String.mk (baseName.data ++ '_' :: (toString now).data)

/-- The handler `UnzipHandler`, for the authenticated owner `ownerID`, the form value
`originalParentID` and the uploaded file (`none` when the form has no file). -/
def UnzipHandler (env : UnzipEnv) (w : World) (ownerID originalParentID : String)
    (file : Option ZipUpload) : Option (Response × World) :=
  match file with
  | none => some (⟨400, .error "file required"⟩, w)
  | some fh =>
    if min fh.Size (maxZipSize + 1) > maxZipSize then
      some (⟨400, .error "zip too large (limit 209715200 bytes)"⟩, w)
    else if min fh.Size (maxZipSize + 1) = 0 then some (⟨400, .error "empty zip"⟩, w)
    else
      match fh.Archive with
      | none => some (⟨400, .error "invalid zip archive"⟩, w)
      | some entries =>
        let rootNode : Node :=
          { ID := "", OwnerID := ownerID, ParentID := originalParentID,
            Name := rootFolderName fh.Filename env.now, Typ := "folder", Size := 0, Mime := "",
            Path := "", CreatedAt := 0, UpdatedAt := 0 }
        match w.createNode env.now (env.ids 0) rootNode with
        | .error e =>
          some (⟨500, .error (String.mk ("failed to create root folder node: ".data ++ e.data))⟩,
            w)
        | .ok (w1, root) =>
          let s0 : UnzipState :=
            { world := w1, createdNodes := [root], createdPaths := [], dirNodeMap := [],
              totalEntries := 0, totalExtractedSize := 0, inserts := 1 }
          match unzipLoop env ownerID root.ID s0 entries with
          | .error r => some r
          | .ok s =>
            some (⟨201, .unzip
              { Message := "unzipped successfully", CreatedCount := s.createdNodes.length,
                CreatedNodes := s.createdNodes, CreatedPaths := s.createdPaths,
                RootParentID := root.ID, Timestamp := env.now }⟩, s.world)

/-- An environment in which inserts get the ids 1, 2, 3, ... and no delete fails. -/
def sampleEnv : UnzipEnv :=
  { now := 7, ids := fun k => oidN (Fin.ofNat (k + 1)),
    typeByExtension := fun ext => if ext = ".txt" then "text/plain; charset=utf-8" else "",
    lower := Char.toLower, storage := sampleStorage,
    deleteFileFails := fun _ _ => false, deleteNodeFails := fun _ _ => false }

/-- The archive of the end-to-end scenario: `root.txt`, `sub/child.txt` and the directory
entry `sub/`. -/
def sampleArchive : List ZipEntry :=
  [⟨"root.txt", false, false, false, 5, "text/plain; charset=utf-8"⟩,
   ⟨"sub/child.txt", false, false, false, 6, "application/octet-stream"⟩,
   ⟨"sub/", true, false, false, 0, ""⟩]

/-- An archive whose second entry climbs out of the extraction folder. -/
def evilArchive : List ZipEntry :=
  [⟨"docs/a.txt", false, false, false, 5, "text/plain; charset=utf-8"⟩,
   ⟨"../../evil.txt", false, false, false, 6, "text/plain; charset=utf-8"⟩]

/-- A world with no node and no blob. -/
def emptyWorld : World := { nodes := [], blobs := [], trace := [] }

/-! ## Invariant of the archive ingestion -/

/-- The store holds a folder of the owner with this id. -/
def FolderOf (st : Store) (ownerID id : String) : Prop :=
  ∃ p ∈ st.nodes, p.ID = id ∧ p.Typ = "folder" ∧ p.OwnerID = ownerID

/-- What holds between the world `w0` before an unzip request and the world `w`, the
created nodes, the saved paths and the directory map at any point after the creation of the
root folder: `docs` are the documents inserted by the request, in order, and `t` the calls
it has made. -/
structure UnzipFacts (w0 : World) (ownerID rootID : String) (w : World) (nodes : List Node)
    (paths : List String) (dirMap : List (String × String)) (docs : List Doc)
    (t : List Call) : Prop where
  nodes_eq : w.nodes = w0.nodes ++ docs
  ids : docs.map (fun d => d.id.Hex) = nodes.map (fun n => n.ID)
  fresh : ∀ d ∈ docs, ∀ x ∈ w0.nodes, x.id ≠ d.id
  nodup : (docs.map (fun d => d.id)).Nodup
  owner : ∀ d ∈ docs, d.owner_id = ownerID
  parent : ∀ d ∈ docs, d.id.Hex = rootID ∨ FolderOf w.nodes ownerID d.parent_id.decode
  blobs : ∀ p ∈ w.blobs, p ∈ w0.blobs ∨ p ∈ paths
  trace_eq : w.trace = w0.trace ++ t
  created : ∀ id, Call.createNode id ∈ t → id ∈ nodes.map (fun n => n.ID)
  saved : ∀ p, Call.saveFile p ∈ t → p ∈ paths
  root : FolderOf w.nodes ownerID rootID
  dirs : ∀ kv ∈ dirMap, FolderOf w.nodes ownerID kv.2

/-- The invariant of the loop of `UnzipHandler`. -/
def UnzipInv (w0 : World) (ownerID rootID : String) (w : World) (nodes : List Node)
    (paths : List String) (dirMap : List (String × String)) : Prop :=
  ∃ docs t, UnzipFacts w0 ownerID rootID w nodes paths dirMap docs t

/-- The invariant, on a state of the loop. -/
def UnzipState.Inv (w0 : World) (ownerID rootID : String) (s : UnzipState) : Prop :=
  UnzipInv w0 ownerID rootID s.world s.createdNodes s.createdPaths s.dirNodeMap

/-- A failing exit after the creation of the root folder: a 400 or a 500, and the world is
the one `cleanupCreated` leaves when called with every node created and every path saved by
the request. -/
def UnzipExit (env : UnzipEnv) (w0 : World) (ownerID rootID : String)
    (x : Response × World) : Prop :=
  (x.1.status = 400 ∨ x.1.status = 500) ∧
    ∃ w nodes paths dirMap, UnzipInv w0 ownerID rootID w nodes paths dirMap ∧
      x.2 = cleanupCreated env w paths nodes

/-- What one round of the loop guarantees about its result: a next state that satisfies the
invariant with the entry count `te`, or a failing exit that is not the one of the entry-count
cap. -/
def EntrySpec (env : UnzipEnv) (w0 : World) (ownerID rootID : String) (te : Nat)
    (res : Except (Response × World) UnzipState) : Prop :=
  (∀ s1, res = .ok s1 → s1.Inv w0 ownerID rootID ∧ s1.totalEntries = te) ∧
  (∀ x, res = .error x → UnzipExit env w0 ownerID rootID x ∧
    x.1 ≠ ⟨400, .error "too many entries in zip"⟩)


/-- The environment `sampleEnv` with every delete call failing. -/
def failingEnv : UnzipEnv :=
  { sampleEnv with deleteFileFails := fun _ _ => true, deleteNodeFails := fun _ _ => true }

/-- An entry with an empty name, which the loop skips. -/
def skipEntry : ZipEntry := ⟨"", false, false, false, 0, ""⟩


/-- A successful round of the loop keeps the documents of the store `st`, in place, at the
front of the node store. -/
def KeepsNodes (st : Store) (res : Except (Response × World) UnzipState) : Prop :=
  ∀ s1, res = .ok s1 → st <+: s1.world.nodes


/-! ## A folder that is its own parent -/

/-- The sample world after the accepted request to move the folder with id 2 under
itself, at clock reading 7: its record has its own id as `parent_id`. -/
def selfParentWorld : World :=
  { nodes := [mkDoc 1 "u" .absent "folder" "",
              { mkDoc 2 "u" (.oid (oidN 1)) "folder" "" with
                  parent_id := .str (oidN 2).Hex, updated_at := 7 }],
    blobs := [],
    trace := [.updateNodeParent "u" (oidN 2).Hex (oidN 2).Hex] }

/-- The decoded record of the folder with id 2 in `selfParentWorld`. -/
def selfParentNode : Node :=
  { ID := (oidN 2).Hex, OwnerID := "u", ParentID := (oidN 2).Hex, Name := "n", Typ := "folder",
    Size := 0, Mime := "", Path := "", CreatedAt := 0, UpdatedAt := 7 }

/-! ## The loop body of `UnzipHandler` in two steps

`entryKind` is the part of the loop body that only reads the entry (from `name := f.Name`
up to `dirParts := parts[:len(parts)-1]`), `extractFile` the part from `f.Open()` on. -/

/-- What the loop body decides about an entry before it touches the stores: skip it
(`continue`), reject the archive with a 400 and this message, create the folders of a
directory entry, or extract a file with this cleaned name and these parts. -/
inductive EntryKind where
  | skip : EntryKind
  | reject (msg : String) : EntryKind
  | dir (parts : List String) : EntryKind
  | file (clean : String) (parts : List String) : EntryKind
  deriving DecidableEq

/-- The checks of the loop body on the name and the mode of an entry, in the order of the
code. -/
def entryKind (f : ZipEntry) : EntryKind :=
  if f.Name = "" then .skip
  else
    let name := trimLeftSlash (replaceChar '\\' '/' f.Name)
    let clean := replaceChar '\\' '/' (Clean name)
    if clean = "." ∨ clean = "" then .skip
    else if (Split clean).any (fun pseg => pseg = "..") then
      .reject "zip contains invalid path segments"
    else if byteLen clean > 4096 then .reject "filename too long"
    else if f.IsDir ∨ hasSuffixSlash name then .dir (Split (trimRightSlash clean))
    else if f.IsSymlink then .skip
    else
      let parts := Split clean
      match parts.find? (fun comp => comp = "" ∨ byteLen comp > maxFilenameLength) with
      | some comp =>
        if comp = "" then .reject "invalid path in zip"
        else .reject "filename component too long"
      | none => .file clean parts

/-- The loop body for a file entry from `rc, err := f.Open()` on, in the state `s1` left by
`createDirNode(dirParts)`, which returned `parentForFile`. -/
def extractFile (env : UnzipEnv) (ownerID rootID : String) (s1 : UnzipState)
    (parentForFile clean : String) (parts : List String) (f : ZipEntry) :
    Except (Response × World) UnzipState :=
  if f.OpenFails then unzipFail env s1 s1.createdPaths 500 "failed to read zip entry"
  else
    let relPath := Join [rootID, clean]
    match SaveFromReader env.storage ownerID relPath
        (min f.Size (maxTotalExtractSize + 1)) with
    | .error e =>
      unzipFail env s1 s1.createdPaths 500
        (String.mk ("failed to save extracted file: ".data ++ e.data))
    | .ok (savedPath, size) =>
      let s2 : UnzipState :=
        { s1 with world := s1.world.saveFile savedPath,
                  totalExtractedSize := s1.totalExtractedSize + size }
      if s2.totalExtractedSize > maxTotalExtractSize then
        unzipFail env
          { s2 with world := s2.world.deleteFileWith env.deleteFileFails savedPath }
          (s2.createdPaths ++ [savedPath]) 400 "zip extracts to too much data"
      else
        let fileName := parts.getLast?.getD ""
        let node : Node :=
          { ID := "", OwnerID := ownerID, ParentID := parentForFile, Name := fileName,
            Typ := "file", Size := size, Mime := entryMime env f.Detected fileName,
            Path := savedPath, CreatedAt := 0, UpdatedAt := 0 }
        match s2.world.createNode env.now (env.ids s2.inserts) node with
        | .error e =>
          unzipFail env
            { s2 with world := s2.world.deleteFileWith env.deleteFileFails savedPath,
                      inserts := s2.inserts + 1 }
            (s2.createdPaths ++ [savedPath]) 500
            (String.mk ("failed to create node: ".data ++ e.data))
        | .ok (w3, n1) =>
          .ok { s2 with world := w3, createdNodes := s2.createdNodes ++ [n1],
                        createdPaths := s2.createdPaths ++ [savedPath],
                        inserts := s2.inserts + 1 }

/-- The loop body after the entry count, put together from `entryKind`, `createDirNode`
and `extractFile`. -/
def entryStep (env : UnzipEnv) (ownerID rootID : String) (s : UnzipState) (f : ZipEntry) :
    Except (Response × World) UnzipState :=
  match entryKind f with
  | .skip => .ok s
  | .reject msg => unzipFail env s s.createdPaths 400 msg
  | .dir parts =>
    match createDirNode env ownerID rootID parts s with
    | (s1, .error e) =>
      unzipFail env s1 s1.createdPaths 500
        (String.mk ("failed to create folder nodes: ".data ++ e.data))
    | (s1, .ok _) => .ok s1
  | .file clean parts =>
    match createDirNode env ownerID rootID parts.dropLast s with
    | (s1, .error e) =>
      unzipFail env s1 s1.createdPaths 500
        (String.mk ("failed to create parent folders: ".data ++ e.data))
    | (s1, .ok parentForFile) => extractFile env ownerID rootID s1 parentForFile clean parts f


/-! ## Sample data for the archive ingestion -/

/-- The root folder that `UnzipHandler` creates first for `pack.zip`, owner `u1`, in the
empty world under `sampleEnv`. -/
def sampleRoot : Node :=
  { ID := (oidN 1).Hex, OwnerID := "u1", ParentID := "", Name := "pack_7", Typ := "folder",
    Size := 0, Mime := "", Path := "", CreatedAt := 7, UpdatedAt := 7 }

/-- The node to insert for `sampleRoot`, as the handler passes it to `CreateNode`. -/
def sampleRootRequest : Node :=
  { ID := "", OwnerID := "u1", ParentID := "", Name := "pack_7", Typ := "folder",
    Size := 0, Mime := "", Path := "", CreatedAt := 0, UpdatedAt := 0 }

/-- The world right after the creation of `sampleRoot`. -/
def rootedWorld : World :=
  { nodes := [{ id := oidN 1, owner_id := "u1", parent_id := .absent, name := "pack_7",
                type := "folder", size := 0, mime := "", path := "", created_at := 7,
                updated_at := 7 }],
    blobs := [],
    trace := [.createNode (oidN 1).Hex] }

/-- The state in which the loop over the entries starts, after the creation of
`sampleRoot`. -/
def rootedState : UnzipState :=
  { world := rootedWorld, createdNodes := [sampleRoot], createdPaths := [], dirNodeMap := [],
    totalEntries := 0, totalExtractedSize := 0, inserts := 1 }

/-- The environment `sampleEnv` with the storage limit of `main.go`, 100 MiB per file. -/
def limitedEnv : UnzipEnv :=
  { sampleEnv with storage := { sampleStorage with MaxSize := 100 * 2 ^ 20 } }

/-- The environment `sampleEnv` with a storage service without a limit per file. -/
def unlimitedEnv : UnzipEnv :=
  { sampleEnv with storage := { sampleStorage with MaxSize := 0 } }

/-- A file entry that extracts to one byte more than `maxTotalExtractSize`. -/
def bigEntry : ZipEntry := ⟨"big.bin", false, false, false, 2 ^ 30 + 1, ""⟩

/-- A name of 256 bytes. -/
def longName : String := String.mk (List.replicate 256 'a')

/-- A directory entry whose only path segment has 256 bytes. -/
def longDirEntry : ZipEntry :=
  ⟨String.mk (List.replicate 256 'a' ++ ['/']), true, false, false, 0, ""⟩

/-- A file entry below a directory whose name has 256 bytes. -/
def longFileEntry : ZipEntry :=
  ⟨String.mk (List.replicate 256 'a' ++ "/x.txt".data), false, false, false, 1,
    "text/plain; charset=utf-8"⟩

/-- A symbolic-link entry whose name climbs out of the extraction folder. -/
def evilLink : ZipEntry := ⟨"../link", false, true, false, 0, ""⟩

/-- A symbolic-link entry with a plain name. -/
def plainLink : ZipEntry := ⟨"docs/link", false, true, false, 0, ""⟩

/-- The exit of the loop body at the cap on the extracted bytes, for the entry `f` in the
state `s`, after `createDirNode` left the state `s1` and the blob `savedPath` was written:
the answer is 400 `zip extracts to too much data`; the blob just written is deleted right
after it was saved, before any other call; and when no delete fails the node store is the
one of `w0`, every blob left was in `w0`, and neither `savedPath` nor a path saved earlier
is a blob. -/
def CapExit (env : UnzipEnv) (w0 : World) (ownerID rootID : String) (s s1 : UnzipState)
    (f : ZipEntry) (savedPath : String) : Prop :=
  ∃ wf, processEntry env ownerID rootID s f =
      .error (⟨400, .error "zip extracts to too much data"⟩, wf) ∧
    (∃ t, wf.trace = s1.world.trace ++ [.saveFile savedPath, .deleteFile savedPath] ++ t) ∧
    ((∀ t p, env.deleteFileFails t p = false) → (∀ t id, env.deleteNodeFails t id = false) →
      wf.nodes = w0.nodes ∧ (∀ q ∈ wf.blobs, q ∈ w0.blobs) ∧ savedPath ∉ wf.blobs ∧
        ∀ p ∈ s1.createdPaths, p ∉ wf.blobs)


/-! ## File-system calls of `SaveFromReader` -/

/-- The function `filepath.Dir`: the path up to its last separator, cleaned. -/
def Dir (path : String) : String :=
  Clean (String.mk (path.data.reverse.dropWhile (fun c => c ≠ '/')).reverse)

/-- A call of `SaveFromReader` that changes the file system. -/
inductive FsCall where
  | mkdirAll (dir : String) : FsCall
  | createTemp : FsCall
  | writeTemp (n : Nat) : FsCall
  | rename (dest : String) : FsCall
  | removeTemp : FsCall
  deriving DecidableEq

/-- The method `StorageService.SaveFromReader` with the file-system calls it makes, in
order: `os.MkdirAll`, `os.CreateTemp`, `io.Copy` into the temporary file, `os.Rename`, and
the deferred `os.Remove` of the temporary file. -/
def SaveFromReaderFs (s : StorageService) (ownerID relPath : String) (size : Nat) :
    List FsCall × Except String (String × Nat) :=
  if s.BasePath = "" then ([], .error "storage base path not set")
  else
    let relPath := trimLeftSlash relPath
    let relPath := Clean (String.mk ('/' :: relPath.data))
    let relPath := trimLeftSlash relPath
    if relPath = "" then ([], .error "empty relative path")
    else if (Split relPath).any (fun seg => seg = "..") then ([], .error "invalid path segment")
    else
      let destPath := Join [s.BasePath, "owners", ownerID, relPath]
      let absBase := Abs s.cwd s.BasePath
      let absDest := Abs s.cwd destPath
      if absDest ≠ absBase ∧ ¬ HasPrefix absDest (String.mk (absBase.data ++ ['/'])) then
        ([], .error "invalid destination path")
      else
        let n := if s.MaxSize > 0 then min size (s.MaxSize + 1) else size
        let calls := [.mkdirAll (Dir absDest), .createTemp, .writeTemp n]
        if s.MaxSize > 0 ∧ n > s.MaxSize then
          (calls ++ [.removeTemp],
            .error (String.mk ("file too large (max ".data ++ (toString s.MaxSize).data ++
              " bytes)".data)))
        else (calls ++ [.rename absDest, .removeTemp], .ok (absDest, n))

/-! ## Order of creation and order of rollback -/

/-- The id of the node a call created, for a `CreateNode` call. -/
def createdId : Call → Option String
  | .createNode id => some id
  | _ => none

/-- The path a call wrote, for a blob write. -/
def savedPath : Call → Option String
  | .saveFile p => some p
  | _ => none

/-- The calls of an unzip request so far, against its lists: after the trace `tr0` of the
world before the request, the first call created the root folder `rootID`; the nodes of
`nodes` are the root folder and the nodes created by the calls after it, in that order; and
`paths` are the paths written by these calls, in that order. -/
def Aligned (tr0 : List Call) (rootID : String) (w : World) (nodes : List Node)
    (paths : List String) : Prop :=
  ∃ t, w.trace = tr0 ++ .createNode rootID :: t ∧
    nodes.map (fun n => n.ID) = rootID :: t.filterMap createdId ∧
    t.filterMap savedPath = paths

/-- What a part of the loop body guarantees for a property `Q` of the world, the created
nodes and the saved paths: the next state has it, and a failing exit runs `cleanupCreated`
on a world and lists that have it. -/
def StepSpec (env : UnzipEnv) (Q : World → List Node → List String → Prop)
    (res : Except (Response × World) UnzipState) : Prop :=
  (∀ s1, res = .ok s1 → Q s1.world s1.createdNodes s1.createdPaths) ∧
  (∀ x, res = .error x → ∃ w nodes paths, Q w nodes paths ∧
    x.2 = cleanupCreated env w paths nodes)

/-- Two files at top level, then an entry that climbs out of the extraction folder. -/
def twoFilesThenEvil : List ZipEntry :=
  [⟨"a.txt", false, false, false, 5, "text/plain; charset=utf-8"⟩,
   ⟨"b.txt", false, false, false, 6, "text/plain; charset=utf-8"⟩,
   ⟨"../evil.txt", false, false, false, 6, "text/plain; charset=utf-8"⟩]


/-! ## A folder reached under two spellings of its id -/

/-- The id of the folder with digit `a`, written in upper case. -/
def upperA : String := "00000000000000000000000A"

/-- Owner `u` has a folder (id `…0a`) that holds a folder (id `…02`), and the first folder
has been moved under itself with its id written in upper case. -/
def aliasWorld : World :=
  { nodes := [{ id := oidN 10, owner_id := "u", parent_id := .str upperA, name := "x",
                type := "folder", size := 0, mime := "", path := "", created_at := 7,
                updated_at := 8 },
              { id := oidN 2, owner_id := "u", parent_id := .oid (oidN 10), name := "y",
                type := "folder", size := 0, mime := "", path := "", created_at := 7,
                updated_at := 7 }],
    blobs := [],
    trace := [.createNode (oidN 10).Hex, .createNode (oidN 2).Hex,
              .updateNodeParent "u" (oidN 10).Hex upperA] }


/-! ## The tree of the created nodes -/

/-- The keys under which `createDirNode` looks up or stores the folders of `parts`, when it
has already walked `cur`: the joined path of every prefix, shortest first. -/
def prefixKeysFrom (cur : List String) : List String → List String
  | [] => []
  | p :: rest => joinSlash (cur ++ [p]) :: prefixKeysFrom (cur ++ [p]) rest

/-- The directory prefix paths of a list of parts: `a` and `a/b` for the parts `a`, `b`. -/
def prefixKeys (parts : List String) : List String := prefixKeysFrom [] parts

/-- The parts of the directories of an entry: the parts of a directory entry, all parts but
the last of an extracted file entry, none for an entry that is skipped. -/
def entryDirParts (f : ZipEntry) : List String :=
  match entryKind f with
  | .dir parts => parts
  | .file _ parts => parts.dropLast
  | _ => []

/-- Whether the entry is a file entry that is extracted. -/
def entryIsFile (f : ZipEntry) : Bool :=
  match entryKind f with
  | .file _ _ => true
  | _ => false

/-- The directory prefix paths that occur among the entries, with repetitions. -/
def archiveDirKeys (es : List ZipEntry) : List String :=
  es.flatMap (fun f => prefixKeys (entryDirParts f))

/-- The created nodes form a tree under the root folder `rootID`, and `dirMap` describes
its folders: every node is owned by `ownerID`; the first node is the root folder; every
other node has as `ParentID` the id of a folder that stands before it in the list; and
every entry of `dirMap` has as key a joined path `cur/p` and as value the id of a created
folder named `p` whose parent is the root folder when `cur` is empty, else the folder that
`dirMap` holds for `cur`. -/
def TreeShape (ownerID rootID : String) (nodes : List Node)
    (dirMap : List (String × String)) : Prop :=
  (∀ n ∈ nodes, n.OwnerID = ownerID) ∧
  (∃ root rest, nodes = root :: rest ∧ root.ID = rootID ∧ root.Typ = "folder") ∧
  (∀ pre n post, nodes = pre ++ n :: post → pre ≠ [] →
    ∃ p ∈ pre, p.ID = n.ParentID ∧ p.Typ = "folder") ∧
  (∀ kv ∈ dirMap, ∃ cur p n, kv.1 = joinSlash (cur ++ [p]) ∧ n ∈ nodes.tail ∧ n.ID = kv.2 ∧
    n.Typ = "folder" ∧ n.Name = p ∧ (cur = [] → n.ParentID = rootID) ∧
    (cur ≠ [] → (joinSlash cur, n.ParentID) ∈ dirMap))

/-- What holds of the created nodes, the saved paths and the directory map at the head of
every round of the loop: the tree shape, one entry of the map per key, the folders below
the root in order of creation against the values of the map, the paths of the file nodes
against the saved paths, and no node of a third type. -/
structure TreeFacts (ownerID rootID : String) (nodes : List Node) (paths : List String)
    (dirMap : List (String × String)) : Prop where
  shape : TreeShape ownerID rootID nodes dirMap
  keys : (dirMap.map (fun kv => kv.1)).Nodup
  folders : (nodes.tail.filter (fun n => n.Typ = "folder")).map (fun n => n.ID) =
    (dirMap.map (fun kv => kv.2)).reverse
  files : (nodes.filter (fun n => n.Typ = "file")).map (fun n => n.Path) = paths
  types : ∀ n ∈ nodes, n.Typ = "folder" ∨ n.Typ = "file"

/-- Two files in the same directory `a/b`. -/
def sharedDirArchive : List ZipEntry :=
  [⟨"a/b/x.txt", false, false, false, 5, "text/plain; charset=utf-8"⟩,
   ⟨"a/b/y.txt", false, false, false, 6, "text/plain; charset=utf-8"⟩]

/-! ## Requests that write an id in upper case -/

/-- Owner `u` has a root folder (id `…01`) that holds a folder (id `…0a`). -/
def nestedStore : Store :=
  [mkDoc 1 "u" .absent "folder" "", mkDoc 10 "u" (.oid (oidN 1)) "folder" ""]

/-- The nested store with empty blob store and trace. -/
def nestedWorld : World := { nodes := nestedStore, blobs := [], trace := [] }

/-- Owner `u` has a root folder (id `…0a`) and, at root, a file (id `…02`) with its blob. -/
def flatStore : Store :=
  [mkDoc 10 "u" .absent "folder" "", mkDoc 2 "u" .absent "file" "/data/u/b.txt"]

/-- The flat store with the blob of its file and an empty trace. -/
def flatWorld : World := { nodes := flatStore, blobs := ["/data/u/b.txt"], trace := [] }

/-- The flat world after the accepted request to move the file under the folder, at clock
reading 7: the file's `parent_id` is the folder's id, stored as the string of the request. -/
def filedWorld : World :=
  { nodes := [mkDoc 10 "u" .absent "folder" "",
              { mkDoc 2 "u" .absent "file" "/data/u/b.txt" with
                  parent_id := .str (oidN 10).Hex, updated_at := 7 }],
    blobs := ["/data/u/b.txt"],
    trace := [.updateNodeParent "u" (oidN 2).Hex (oidN 10).Hex] }

/-- The sample environment with inserts getting the ids 6, 7, 8, ..., which the mixed
store does not hold. -/
def lateEnv : UnzipEnv :=
  { sampleEnv with ids := fun k => oidN (Fin.ofNat (k + 6)) }

/-- A file entry that extracts to ten bytes less than `maxTotalExtractSize`. -/
def nearCapEntry : ZipEntry := ⟨"a.bin", false, false, false, 2 ^ 30 - 10, ""⟩

/-- A file entry that extracts to twenty bytes. -/
def smallEntry : ZipEntry := ⟨"b.bin", false, false, false, 20, ""⟩

/-! ## Gathered lists whose percentages lie half way -/

/-- Gathered nodes: 23 folders and 137 files `a.txt`. -/
def tieGathered : List Node :=
  List.replicate 23 (mkNode "docs" "folder") ++ List.replicate 137 (mkNode "a.txt" "file")

/-- Gathered nodes: 13 folders and 19 files `a.txt`. -/
def splitGathered : List Node :=
  List.replicate 13 (mkNode "docs" "folder") ++ List.replicate 19 (mkNode "a.txt" "file")

/-! # Theorems -/

/-! ## Object ids: printing and parsing -/

theorem fromHexChar_hexDigit : ∀ d : Fin 16, fromHexChar (hexDigit d) = some d := by decide

theorem decodeHex_map_hexDigit (l : List (Fin 16)) : decodeHex (l.map hexDigit) = some l := by
  induction l with
  | nil => rfl
  | cons d ds ih => simp [decodeHex, fromHexChar_hexDigit, ih]

theorem ObjectIDFromHex_Hex (o : ObjectID) : ObjectIDFromHex o.Hex = some o := by
  obtain ⟨l, hl⟩ := o
  simp [ObjectIDFromHex, ObjectID.Hex, decodeHex_map_hexDigit, hl]

theorem Hex_injective {a b : ObjectID} (h : a.Hex = b.Hex) : a = b := by
  have := ObjectIDFromHex_Hex a
  rw [h, ObjectIDFromHex_Hex] at this
  exact (Option.some.inj this).symm

theorem Hex_ne_empty (o : ObjectID) : o.Hex ≠ "" := by
  obtain ⟨l, hl⟩ := o
  intro h
  have h2 : (String.mk (l.map hexDigit)).data = "".data := by
    simpa [ObjectID.Hex] using congrArg String.data h
  have h3 : l = [] := by simpa using h2
  simp [h3] at hl

/-! ## What `ListChildren` returns -/

theorem parentMatches_Hex (o : ObjectID) (f : ParentField) :
    parentMatches o.Hex f = decide (f.decode = o.Hex) := by
  unfold parentMatches
  rw [if_neg (Hex_ne_empty o), ObjectIDFromHex_Hex]
  cases f with
  | absent => simp [ParentField.decode, (Hex_ne_empty o).symm]
  | str s => simp [ParentField.decode]
  | oid x =>
    simp only [ParentField.decode]
    by_cases hx : x = o
    · simp [hx]
    · have : x.Hex ≠ o.Hex := fun h => hx (Hex_injective h)
      simp [hx, this]

theorem mem_ListChildren {st : Store} {ownerID parentID : String} {n : Node} :
    n ∈ ListChildren st ownerID parentID ↔
      ∃ d ∈ st, d.owner_id = ownerID ∧ parentMatches parentID d.parent_id = true ∧
        d.decode = n := by
  simp [ListChildren, and_assoc]

theorem mem_ListChildren_Hex {st : Store} {ownerID : String} {o : ObjectID} {n : Node} :
    n ∈ ListChildren st ownerID o.Hex ↔
      n ∈ st.nodes ∧ n.OwnerID = ownerID ∧ n.ParentID = o.Hex := by
  rw [mem_ListChildren]
  constructor
  · rintro ⟨d, hd, ho, hp, rfl⟩
    rw [parentMatches_Hex] at hp
    exact ⟨List.mem_map_of_mem _ hd, ho, by simpa [Doc.decode] using hp⟩
  · rintro ⟨hn, ho, hp⟩
    obtain ⟨d, hd, rfl⟩ := List.mem_map.1 hn
    refine ⟨d, hd, ho, ?_, rfl⟩
    rw [parentMatches_Hex]
    simpa [Doc.decode] using hp

theorem ListChildren_mem_nodes {st : Store} {ownerID parentID : String} {n : Node}
    (h : n ∈ ListChildren st ownerID parentID) : n ∈ st.nodes := by
  obtain ⟨d, hd, -, -, rfl⟩ := mem_ListChildren.1 h
  exact List.mem_map_of_mem _ hd

theorem ListChildren_owner {st : Store} {ownerID parentID : String} {n : Node}
    (h : n ∈ ListChildren st ownerID parentID) : n.OwnerID = ownerID := by
  obtain ⟨d, -, ho, -, rfl⟩ := mem_ListChildren.1 h
  exact ho

theorem ListChildren_length_le (st : Store) (ownerID parentID : String) :
    (ListChildren st ownerID parentID).length ≤ st.length := by
  simp only [ListChildren, List.length_map]
  exact List.length_filter_le _ _

theorem node_ID_ne_empty {st : Store} {n : Node} (h : n ∈ st.nodes) : n.ID ≠ "" := by
  obtain ⟨d, -, rfl⟩ := List.mem_map.1 h
  exact Hex_ne_empty d.id

theorem pushChildren_eq (stack : List String) (result children : List Node) :
    pushChildren stack result children =
      (stack ++ (children.filter (fun ch => ch.Typ = "folder")).map (fun ch => ch.ID),
        result ++ children) := by
  unfold pushChildren
  induction children generalizing stack result with
  | nil => simp
  | cons c cs ih =>
    rw [List.foldl_cons, ih]
    by_cases hc : c.Typ = "folder" <;> simp [hc, List.filter_cons]
/-! ## Termination of the worklist loop -/

theorem stackWeight_pos (st : Store) (p : String) : 1 ≤ stackWeight st p := by
  unfold stackWeight; split <;> omega

theorem child_ID_mem_storeIds {st : Store} {ownerID parentID : String} {n : Node}
    (h : n ∈ ListChildren st ownerID parentID) : n.ID ∈ storeIds st := by
  obtain ⟨d, hd, -, -, rfl⟩ := mem_ListChildren.1 h
  exact List.mem_map_of_mem (fun d => d.id.Hex) hd

theorem sum_stackWeight_children (st : Store) (ownerID p : String) :
    (((ListChildren st ownerID p).filter (fun ch => ch.Typ = "folder")).map
      (fun ch => stackWeight st ch.ID)).sum ≤ st.length := by
  have h1 : ∀ l : List Node, (∀ n ∈ l, n.ID ∈ storeIds st) →
      (l.map (fun ch => stackWeight st ch.ID)).sum = l.length := by
    intro l hl
    induction l with
    | nil => rfl
    | cons a l ih =>
      have ha : stackWeight st a.ID = 1 := by
        simp [stackWeight, hl a (List.mem_cons_self _ _)]
      simp only [List.map_cons, List.sum_cons, List.length_cons, ha]
      rw [ih (fun n hn => hl n (List.mem_cons_of_mem _ hn))]
      omega
  rw [h1 _ (fun n hn => child_ID_mem_storeIds (List.mem_of_mem_filter hn))]
  exact le_trans (List.length_filter_le _ _) (ListChildren_length_le st ownerID p)

theorem unvisited_le (st : Store) (visited : List String) : unvisited st visited ≤ st.length :=
  List.length_filter_le _ _

theorem unvisited_cons_le (st : Store) (p : String) (visited : List String) :
    unvisited st (p :: visited) ≤ unvisited st visited := by
  unfold unvisited
  induction st with
  | nil => simp
  | cons d ds ih =>
    simp only [List.mem_cons] at ih
    by_cases h2 : d.id.Hex ∈ visited
    · simpa [List.filter_cons, h2] using ih
    · by_cases h1 : d.id.Hex = p
      · simp only [List.filter_cons, h2, h1, List.mem_cons, true_or, not_true_eq_false,
          decide_False, Bool.false_eq_true, if_false, not_false_eq_true, decide_True, if_true,
          List.length_cons]
        have h3 : d.id.Hex ∉ visited := h2
        simp only [h1] at h3
        simp only [h3, not_false_eq_true, decide_True, if_true, List.length_cons]
        omega
      · simp only [List.filter_cons, h2, h1, List.mem_cons, or_self, not_false_eq_true,
          decide_True, if_true, List.length_cons]
        omega

theorem unvisited_cons_lt (st : Store) (p : String) (visited : List String)
    (hp : p ∈ storeIds st) (hv : p ∉ visited) :
    unvisited st (p :: visited) < unvisited st visited := by
  unfold unvisited
  induction st with
  | nil => simp [storeIds] at hp
  | cons d ds ih =>
    have hle := unvisited_cons_le ds p visited
    unfold unvisited at hle
    simp only [List.mem_cons] at hle ih
    by_cases h1 : d.id.Hex = p
    · simp only [List.filter_cons, h1, List.mem_cons, true_or, not_true_eq_false,
        decide_False, Bool.false_eq_true, if_false, hv, not_false_eq_true, decide_True,
        if_true, List.length_cons]
      omega
    · have hp2 : p ∈ storeIds ds := by
        simp only [storeIds, List.map_cons, List.mem_cons] at hp
        rcases hp with hp | hp
        · exact absurd hp.symm h1
        · exact hp
      have ih2 := ih hp2
      by_cases h2 : d.id.Hex ∈ visited
      · simpa [List.filter_cons, h2] using ih2
      · simp only [List.filter_cons, h2, h1, List.mem_cons, or_self, not_false_eq_true,
          decide_True, if_true, List.length_cons]
        omega
theorem stack_nil_or_snoc (stack : List String) :
    stack = [] ∨ ∃ init p, stack = init ++ [p] := by
  rcases List.eq_nil_or_concat stack with h | ⟨init, p, h⟩
  · exact Or.inl h
  · exact Or.inr ⟨init, p, by rw [h, List.concat_eq_append]⟩

theorem collectLoop_nil (st : Store) (ownerID : String) (fuel : Nat) (v : List String)
    (r : List Node) : collectLoop st ownerID fuel ⟨[], v, r⟩ = some ⟨[], v, r⟩ := by
  cases fuel <;> simp [collectLoop]

theorem collectLoop_concat (st : Store) (ownerID : String) (fuel : Nat) (init : List String)
    (p : String) (v : List String) (r : List Node) :
    collectLoop st ownerID (fuel + 1) ⟨init ++ [p], v, r⟩ =
      if p ≠ "" ∧ p ∈ v then collectLoop st ownerID fuel ⟨init, v, r⟩
      else collectLoop st ownerID fuel
        ⟨init ++ ((ListChildren st ownerID p).filter (fun ch => ch.Typ = "folder")).map
            (fun ch => ch.ID),
          if p ≠ "" then p :: v else v, r ++ ListChildren st ownerID p⟩ := by
  simp only [collectLoop, List.getLast?_concat, List.dropLast_concat, pushChildren_eq]

theorem collectMeasure_visited (st : Store) (init : List String) (p : String)
    (v : List String) (r : List Node) :
    collectMeasure st ⟨init, v, r⟩ < collectMeasure st ⟨init ++ [p], v, r⟩ := by
  have := stackWeight_pos st p
  simp only [collectMeasure, List.map_append, List.sum_append, List.map_cons, List.map_nil,
    List.sum_cons, List.sum_nil]
  omega

theorem collectMeasure_expand (st : Store) (ownerID : String) (init : List String)
    (p : String) (v : List String) (r r1 : List Node) (h : ¬ (p ≠ "" ∧ p ∈ v)) :
    collectMeasure st
        ⟨init ++ ((ListChildren st ownerID p).filter (fun ch => ch.Typ = "folder")).map
            (fun ch => ch.ID),
          if p ≠ "" then p :: v else v, r1⟩ <
      collectMeasure st ⟨init ++ [p], v, r⟩ := by
  have hk := sum_stackWeight_children st ownerID p
  simp only [collectMeasure, List.map_append, List.sum_append, List.map_cons, List.map_nil,
    List.sum_cons, List.sum_nil, List.map_map, Function.comp_def]
  by_cases hp : p ∈ storeIds st
  · have hne : p ≠ "" := by
      intro h0
      obtain ⟨d, -, hd⟩ := List.mem_map.1 hp
      exact Hex_ne_empty d.id (hd.trans h0)
    have hv : p ∉ v := fun hv => h ⟨hne, hv⟩
    have hlt := unvisited_cons_lt st p v hp hv
    have hw : stackWeight st p = 1 := by simp [stackWeight, hp]
    rw [if_pos hne, hw]
    have : st.length * (unvisited st (p :: v) + 1) ≤ st.length * unvisited st v :=
      Nat.mul_le_mul_left _ hlt
    rw [Nat.mul_add, Nat.mul_one] at this
    omega
  · have hw : stackWeight st p = st.length + 1 := by simp [stackWeight, hp]
    rw [hw]
    have hle : unvisited st (if p ≠ "" then p :: v else v) ≤ unvisited st v := by
      split
      · exact unvisited_cons_le st p v
      · exact le_refl _
    have := Nat.mul_le_mul_left st.length hle
    omega

theorem collectLoop_isSome (st : Store) (ownerID : String) :
    ∀ (fuel : Nat) (s : CollectState), collectMeasure st s ≤ fuel →
      ∃ s1, collectLoop st ownerID fuel s = some s1 := by
  intro fuel
  induction fuel with
  | zero =>
    rintro ⟨stack, v, r⟩ h
    rcases stack_nil_or_snoc stack with rfl | ⟨init, p, rfl⟩
    · exact ⟨_, collectLoop_nil st ownerID 0 v r⟩
    · have := collectMeasure_visited st init p v r
      omega
  | succ fuel ih =>
    rintro ⟨stack, v, r⟩ h
    rcases stack_nil_or_snoc stack with rfl | ⟨init, p, rfl⟩
    · exact ⟨_, collectLoop_nil st ownerID _ v r⟩
    · rw [collectLoop_concat]
      split
      · apply ih
        have := collectMeasure_visited st init p v r
        omega
      · rename_i hc
        apply ih
        have := collectMeasure_expand st ownerID init p v r (r ++ ListChildren st ownerID p) hc
        omega

theorem collectLoop_fuel_mono (st : Store) (ownerID : String) :
    ∀ (fuel : Nat) (s s1 : CollectState), collectLoop st ownerID fuel s = some s1 →
      ∀ k, collectLoop st ownerID (fuel + k) s = some s1 := by
  intro fuel
  induction fuel with
  | zero =>
    rintro ⟨stack, v, r⟩ s1 h k
    rcases stack_nil_or_snoc stack with rfl | ⟨init, p, rfl⟩
    · rw [collectLoop_nil] at h ⊢; exact h
    · simp [collectLoop] at h
  | succ fuel ih =>
    rintro ⟨stack, v, r⟩ s1 h k
    rcases stack_nil_or_snoc stack with rfl | ⟨init, p, rfl⟩
    · rw [collectLoop_nil] at h ⊢; exact h
    · have e : fuel + 1 + k = (fuel + k) + 1 := by omega
      rw [e, collectLoop_concat]
      rw [collectLoop_concat] at h
      split
      · rename_i hc
        rw [if_pos hc] at h
        exact ih _ _ h k
      · rename_i hc
        rw [if_neg hc] at h
        exact ih _ _ h k

theorem collectMeasure_init (st : Store) (parentID : String) :
    collectMeasure st ⟨[parentID], [], []⟩ ≤ collectFuel st := by
  have h1 : stackWeight st parentID ≤ st.length + 1 := by
    unfold stackWeight; split <;> omega
  have h2 := unvisited_le st []
  have h3 := Nat.mul_le_mul_left st.length h2
  simp only [collectMeasure, collectFuel, List.map_cons, List.map_nil, List.sum_cons,
    List.sum_nil]
  nlinarith

/-- The traversal returns a result on every store, within `collectFuel st` iterations. -/
theorem collect_total (st : Store) (ownerID parentID : String) :
    ∃ sf, collectLoop st ownerID (collectFuel st)
      { stack := [parentID], visitedFolders := [], result := [] } = some sf ∧
      collectNodesRecursive st ownerID parentID = some sf.result := by
  obtain ⟨s1, h⟩ := collectLoop_isSome st ownerID (collectFuel st) ⟨[parentID], [], []⟩
    (collectMeasure_init st parentID)
  exact ⟨s1, h, by simp [collectNodesRecursive, h]⟩

/-- C7 Recursive Collect terminates on every store, malformed or not: for every store
state (cycles and self-parented folders included), owner and starting id (the empty root id
included), the worklist loop of `collectNodesRecursive` stops within `collectFuel st`
iterations and returns a result, and any larger number of iterations returns the same. -/
theorem collectNodesRecursive_terminates (st : Store) (ownerID parentID : String) :
    ∃ r, collectNodesRecursive st ownerID parentID = some r ∧
      ∀ k, (collectLoop st ownerID (collectFuel st + k)
        { stack := [parentID], visitedFolders := [], result := [] }).map (fun s => s.result) =
          some r := by
  obtain ⟨s1, h, h2⟩ := collect_total st ownerID parentID
  refine ⟨s1.result, h2, fun k => ?_⟩
  rw [collectLoop_fuel_mono st ownerID _ _ _ h k]
  rfl

/-! ## Completeness of the worklist traversal -/

theorem collectLoop_zero {st : Store} {ownerID : String} {s sf : CollectState}
    (h : collectLoop st ownerID 0 s = some sf) : s.stack = [] ∧ sf = s := by
  unfold collectLoop at h
  split at h
  · rename_i h0
    exact ⟨h0, (Option.some.inj h).symm⟩
  · cases h

theorem collectLoop_invariant (st : Store) (ownerID : String) :
    ∀ (fuel : Nat) (s sf : CollectState), collectLoop st ownerID fuel s = some sf →
      (∀ q ∈ s.visitedFolders, q ∈ sf.visitedFolders) ∧
      (∀ n ∈ s.result, n ∈ sf.result) ∧
      (∀ q ∈ s.stack, q ≠ "" → q ∈ sf.visitedFolders) ∧
      ("" ∈ s.stack → Expanded st ownerID sf "") ∧
      (∀ q ∈ sf.visitedFolders, q ∉ s.visitedFolders → Expanded st ownerID sf q) := by
  intro fuel
  induction fuel with
  | zero =>
    intro s sf h
    obtain ⟨h0, rfl⟩ := collectLoop_zero h
    refine ⟨fun _ h => h, fun _ h => h, ?_, ?_, ?_⟩
    · intro q hq; rw [h0] at hq; cases hq
    · intro hq; rw [h0] at hq; cases hq
    · intro q hq hn; exact absurd hq hn
  | succ fuel ih =>
    rintro ⟨stack, v, r⟩ sf h
    rcases stack_nil_or_snoc stack with rfl | ⟨init, p, rfl⟩
    · rw [collectLoop_nil] at h
      cases h
      refine ⟨fun _ h => h, fun _ h => h, ?_, ?_, ?_⟩
      · intro q hq; cases hq
      · intro hq; cases hq
      · intro q hq hn; exact absurd hq hn
    · rw [collectLoop_concat] at h
      by_cases hc : p ≠ "" ∧ p ∈ v
      · rw [if_pos hc] at h
        obtain ⟨h1, h2, h3, h4, h5⟩ := ih _ _ h
        refine ⟨h1, h2, ?_, ?_, h5⟩
        · intro q hq hne
          rcases List.mem_append.1 hq with hq | hq
          · exact h3 q hq hne
          · rw [List.mem_singleton.1 hq]; exact h1 p hc.2
        · intro hq
          rcases List.mem_append.1 hq with hq | hq
          · exact h4 hq
          · exact absurd (List.mem_singleton.1 hq).symm hc.1
      · rw [if_neg hc] at h
        obtain ⟨h1, h2, h3, h4, h5⟩ := ih _ _ h
        simp only at h1 h2 h3 h4 h5
        have hv : ∀ q ∈ v, q ∈ sf.visitedFolders := by
          intro q hq
          apply h1
          split
          · exact List.mem_cons_of_mem _ hq
          · exact hq
        have hexp : Expanded st ownerID sf p := by
          intro ch hch
          refine ⟨h2 ch (List.mem_append_right _ hch), fun hf => ?_⟩
          apply h3
          · apply List.mem_append_right
            have hmem : ch ∈ (ListChildren st ownerID p).filter
                (fun ch => decide (ch.Typ = "folder")) :=
              List.mem_filter.2 ⟨hch, by simpa using hf⟩
            exact List.mem_map_of_mem (fun ch => ch.ID) hmem
          · exact node_ID_ne_empty (ListChildren_mem_nodes hch)
        refine ⟨hv, fun n hn => h2 n (List.mem_append_left _ hn), ?_, ?_, ?_⟩
        · intro q hq hne
          rcases List.mem_append.1 hq with hq | hq
          · exact h3 q (List.mem_append_left _ hq) hne
          · rw [List.mem_singleton.1 hq] at hne ⊢
            apply h1
            rw [if_pos hne]
            exact List.mem_cons_self _ _
        · intro hq
          rcases List.mem_append.1 hq with hq | hq
          · exact h4 (List.mem_append_left _ hq)
          · rw [List.mem_singleton.1 hq]; exact hexp
        · intro q hq hn
          by_cases hq2 : q ∈ (if p ≠ "" then p :: v else v)
          · split at hq2
            · rcases List.mem_cons.1 hq2 with hq3 | hq3
              · rw [hq3]; exact hexp
              · exact absurd hq3 hn
            · exact absurd hq2 hn
          · exact h5 q hq hq2

/-- Every record reachable from the starting id is in the result of the traversal, when the
listing at the starting id is exact (it is at every id of the store). -/
theorem collect_complete {st : Store} {ownerID start : String} {r : List Node}
    (hs : ∀ n, n ∈ st.nodes → n.OwnerID = ownerID → n.ParentID = start →
      n ∈ ListChildren st ownerID start)
    (h : collectNodesRecursive st ownerID start = some r) {n : Node}
    (hn : Reach st ownerID start n) : n ∈ r := by
  unfold collectNodesRecursive at h
  obtain ⟨sf, hsf, rfl⟩ := Option.map_eq_some'.1 h
  obtain ⟨-, -, h3, h4, h5⟩ := collectLoop_invariant st ownerID _ _ _ hsf
  simp only at h3 h4 h5
  have hstart : Expanded st ownerID sf start := by
    by_cases h0 : start = ""
    · rw [h0]; exact h4 (by rw [h0]; exact List.mem_singleton_self _)
    · exact h5 start (h3 start (List.mem_singleton_self _) h0) (List.not_mem_nil _)
  have key : n ∈ sf.result ∧ (n.Typ = "folder" → n.ID ∈ sf.visitedFolders) := by
    induction hn with
    | child hm ho hp => exact hstart _ (hs _ hm ho hp)
    | @step m n _ hf hm ho hp ih =>
      have hexp : Expanded st ownerID sf m.ID := h5 _ (ih.2 hf) (List.not_mem_nil _)
      apply hexp
      have hmn : m ∈ st.nodes := by
        rename_i hr
        cases hr with
        | child a _ _ => exact a
        | step _ _ a _ _ => exact a
      obtain ⟨d, -, rfl⟩ := List.mem_map.1 hmn
      exact mem_ListChildren_Hex.2 ⟨hm, ho, hp⟩
  exact key.1
/-! ## Lookups in a store with unique ids -/

theorem find?_of_unique {st : Store} (hu : UniqueIds st) {d : Doc} (hd : d ∈ st) :
    st.find? (fun x => decide (x.id = d.id)) = some d := by
  unfold UniqueIds at hu
  induction st with
  | nil => cases hd
  | cons a as ih =>
    rw [List.map_cons, List.nodup_cons] at hu
    rcases List.mem_cons.1 hd with rfl | hd
    · simp
    · have hne : a.id ≠ d.id := by
        intro h
        exact hu.1 (h ▸ List.mem_map_of_mem (fun d => d.id) hd)
      rw [List.find?_cons_of_neg _ (by simpa using hne)]
      exact ih hu.2 hd

theorem FindNodeByID_of_mem {st : Store} (hu : UniqueIds st) {n : Node} (hn : n ∈ st.nodes) :
    FindNodeByID st n.ID = .ok (some n) := by
  obtain ⟨d, hd, rfl⟩ := List.mem_map.1 hn
  simp only [FindNodeByID, Doc.decode, ObjectIDFromHex_Hex]
  rw [find?_of_unique hu hd]
  rfl

theorem node_eq_of_ID_eq {st : Store} (hu : UniqueIds st) {p m : Node} (hp : p ∈ st.nodes)
    (hm : m ∈ st.nodes) (h : p.ID = m.ID) : p = m := by
  have h1 := FindNodeByID_of_mem hu hp
  rw [h, FindNodeByID_of_mem hu hm] at h1
  injection h1 with h2
  exact (Option.some.inj h2).symm

theorem Reach_mem {st : Store} {ownerID start : String} {n : Node}
    (h : Reach st ownerID start n) : n ∈ st.nodes := by
  cases h with
  | child a _ _ => exact a
  | step _ _ a _ _ => exact a

theorem Reach_of_Descendant {st : Store} (hu : UniqueIds st) (hp : ParentInvariant st)
    {f d : Node} (h : Descendant st f d) : Reach st d.OwnerID f.ID d := by
  induction h with
  | single e => exact Reach.child e.2.1 rfl e.2.2
  | @tail m d _ e ih =>
    obtain ⟨hm, hd, hpd⟩ := e
    have hne : d.ParentID ≠ "" := by rw [hpd]; exact node_ID_ne_empty hm
    obtain ⟨p, hp1, hp2, hp3, hp4⟩ := hp d hd hne
    have hpm : p = m := node_eq_of_ID_eq hu hp1 hm (hp2.trans hpd)
    subst hpm
    rw [hp4] at ih
    exact Reach.step ih hp3 hd rfl hpd

theorem acyclic_of_rank {st : Store} (rank : Node → Nat)
    (h : ∀ p ∈ st.nodes, ∀ n ∈ st.nodes, n.ParentID = p.ID → rank p < rank n) :
    Acyclic st := by
  have key : ∀ a b, Relation.TransGen (ParentEdge st) a b → rank a < rank b := by
    intro a b hab
    induction hab with
    | single e => exact h _ e.1 _ e.2.1 e.2.2
    | tail _ e ih => exact lt_trans ih (h _ e.1 _ e.2.1 e.2.2)
  intro n hn
  exact lt_irrefl _ (key n n hn)

theorem sampleStore_wellFormed : WellFormed sampleStore where
  unique := by decide
  parents := by decide
  acyclic := acyclic_of_rank sampleRank (by decide)

/-- Cycle rejection when the request writes the target as the store prints it: in a
well-formed store, for a folder F of the caller and a folder D of the caller that is a
descendant of F (direct or transitive), MoveHandler on F with target parent `D.ID` answers
400 "cannot move folder into its own descendant" and leaves the world as it
was: the node store is unchanged and no mutating call (UpdateNodeParent) is made. -/
theorem MoveHandler_rejects_descendant (w : World) (now : Nat) (ownerID : String)
    (F D : Node) (hwf : WellFormed w.nodes) (hF : F ∈ w.nodes.nodes)
    (hFo : F.OwnerID = ownerID) (hFt : F.Typ = "folder") (hD : Descendant w.nodes F D)
    (hDo : D.OwnerID = ownerID) (hDt : D.Typ = "folder") :
    MoveHandler w now ownerID F.ID (some ⟨D.ID⟩) =
      some (⟨400, .error "cannot move folder into its own descendant"⟩, w) := by
  have hDm : D ∈ w.nodes.nodes := by
    cases hD with
    | single e => exact e.2.1
    | tail _ e => exact e.2.1
  have hDne : D.ID ≠ "" := node_ID_ne_empty hDm
  have hpar : F.ParentID ≠ D.ID := by
    intro h
    exact hwf.acyclic F (Relation.TransGen.tail hD ⟨hDm, hF, h⟩)
  obtain ⟨sf, -, hr⟩ := collect_total w.nodes ownerID F.ID
  have hreach : Reach w.nodes ownerID F.ID D := hDo ▸ Reach_of_Descendant hwf.unique hwf.parents hD
  have hDr : D ∈ sf.result := by
    refine collect_complete ?_ hr hreach
    intro n hn ho hp
    obtain ⟨d, -, rfl⟩ := List.mem_map.1 hF
    exact mem_ListChildren_Hex.2 ⟨hn, ho, hp⟩
  have hany : sf.result.any (fun d => decide (d.ID = D.ID)) = true :=
    List.any_eq_true.2 ⟨D, hDr, by simp⟩
  simp [MoveHandler, FindNodeByID_of_mem hwf.unique hF, FindNodeByID_of_mem hwf.unique hDm,
    hFo, hDo, hFt, hDt, hpar, hDne, hr, hany]

theorem MoveHandler_rejects_descendant_witness :
    MoveHandler sampleWorld 7 "u" (mkDoc 1 "u" .absent "folder" "").decode.ID
        (some ⟨(mkDoc 2 "u" (.oid (oidN 1)) "folder" "").decode.ID⟩) =
      some (⟨400, .error "cannot move folder into its own descendant"⟩, sampleWorld) :=
  MoveHandler_rejects_descendant sampleWorld 7 "u" (mkDoc 1 "u" .absent "folder" "").decode
    (mkDoc 2 "u" (.oid (oidN 1)) "folder" "").decode sampleStore_wellFormed (by decide) rfl rfl
    (Relation.TransGen.single ⟨by decide, by decide, by decide⟩) rfl rfl
/-! ## Move: validation and the no-op -/

/-- C4 Idempotent no-op move: for a node of the caller, MoveHandler with a target parent
equal to the node's current `parent_id` answers 200 with the node as it was and leaves the
world as it was: no mutating call (UpdateNodeParent) is made, so no record is touched. -/
theorem MoveHandler_same_parent_noop (w : World) (now : Nat) (ownerID id : String)
    (node : Node) (hfind : FindNodeByID w.nodes id = .ok (some node))
    (hown : node.OwnerID = ownerID) :
    MoveHandler w now ownerID id (some ⟨node.ParentID⟩) = some (⟨200, .node node⟩, w) := by
  simp [MoveHandler, hfind, hown]

theorem MoveHandler_same_parent_noop_witness :
    MoveHandler sampleWorld 7 "u" (oidN 2).Hex
        (some ⟨(mkDoc 2 "u" (.oid (oidN 1)) "folder" "").decode.ParentID⟩) =
      some (⟨200, .node (mkDoc 2 "u" (.oid (oidN 1)) "folder" "").decode⟩, sampleWorld) :=
  MoveHandler_same_parent_noop sampleWorld 7 "u" (oidN 2).Hex
    (mkDoc 2 "u" (.oid (oidN 1)) "folder" "").decode rfl rfl

/-- C5 Move validation short-circuits before mutation: when the lookups do not fail,
MoveHandler answers 404 if the node is missing, else 403 if its owner is not the caller;
then, when the target differs from the current parent and is not empty, 404 if the target
parent is missing, else 403 if it belongs to another owner, else 400 if it is not a folder.
In each of these cases the world is returned as it was: the store is unchanged and no
mutating call (UpdateNodeParent) is made. -/
theorem MoveHandler_validation (w : World) (now : Nat) (ownerID id newParentID : String) :
    (FindNodeByID w.nodes id = .ok none →
      MoveHandler w now ownerID id (some ⟨newParentID⟩) =
        some (⟨404, .error "node not found"⟩, w)) ∧
    (∀ node, FindNodeByID w.nodes id = .ok (some node) → node.OwnerID ≠ ownerID →
      MoveHandler w now ownerID id (some ⟨newParentID⟩) =
        some (⟨403, .error "forbidden"⟩, w)) ∧
    (∀ node, FindNodeByID w.nodes id = .ok (some node) → node.OwnerID = ownerID →
      node.ParentID ≠ newParentID → newParentID ≠ "" →
      (FindNodeByID w.nodes newParentID = .ok none →
        MoveHandler w now ownerID id (some ⟨newParentID⟩) =
          some (⟨404, .error "target parent not found"⟩, w)) ∧
      (∀ parentNode, FindNodeByID w.nodes newParentID = .ok (some parentNode) →
        (parentNode.OwnerID ≠ ownerID →
          MoveHandler w now ownerID id (some ⟨newParentID⟩) =
            some (⟨403, .error "forbidden"⟩, w)) ∧
        (parentNode.OwnerID = ownerID → parentNode.Typ ≠ "folder" →
          MoveHandler w now ownerID id (some ⟨newParentID⟩) =
            some (⟨400, .error "target parent is not a folder"⟩, w)))) := by
  refine ⟨fun h => ?_, fun node h ho => ?_, fun node h ho hp hne => ⟨fun h2 => ?_,
    fun parentNode h2 => ⟨fun h3 => ?_, fun h3 h4 => ?_⟩⟩⟩
  · simp [MoveHandler, h]
  · simp [MoveHandler, h, ho]
  · simp [MoveHandler, h, ho, hp, hne, h2]
  · simp [MoveHandler, h, ho, hp, hne, h2, h3]
  · simp [MoveHandler, h, ho, hp, hne, h2, h3, h4]

theorem MoveHandler_validation_witness :
    MoveHandler mixedWorld 7 "u" (oidN 9).Hex (some ⟨""⟩) =
        some (⟨404, .error "node not found"⟩, mixedWorld) ∧
    MoveHandler mixedWorld 7 "v" (oidN 1).Hex (some ⟨(oidN 4).Hex⟩) =
        some (⟨403, .error "forbidden"⟩, mixedWorld) ∧
    MoveHandler mixedWorld 7 "u" (oidN 2).Hex (some ⟨(oidN 9).Hex⟩) =
        some (⟨404, .error "target parent not found"⟩, mixedWorld) ∧
    MoveHandler mixedWorld 7 "u" (oidN 2).Hex (some ⟨(oidN 4).Hex⟩) =
        some (⟨403, .error "forbidden"⟩, mixedWorld) ∧
    MoveHandler mixedWorld 7 "u" (oidN 2).Hex (some ⟨(oidN 3).Hex⟩) =
        some (⟨400, .error "target parent is not a folder"⟩, mixedWorld) :=
  ⟨(MoveHandler_validation mixedWorld 7 "u" (oidN 9).Hex "").1 rfl,
   (MoveHandler_validation mixedWorld 7 "v" (oidN 1).Hex (oidN 4).Hex).2.1 _ rfl (by decide),
   ((MoveHandler_validation mixedWorld 7 "u" (oidN 2).Hex (oidN 9).Hex).2.2 _ rfl rfl
      (by decide) (by decide)).1 rfl,
   (((MoveHandler_validation mixedWorld 7 "u" (oidN 2).Hex (oidN 4).Hex).2.2 _ rfl rfl
      (by decide) (by decide)).2 _ rfl).1 (by decide),
   (((MoveHandler_validation mixedWorld 7 "u" (oidN 2).Hex (oidN 3).Hex).2.2 _ rfl rfl
      (by decide) (by decide)).2 _ rfl).2 rfl (by decide)⟩
/-! ## Delete: existence and ownership checks -/

/-- C10 Delete checks existence and ownership first: DeleteHandler answers 404 when the
lookup of the node id finds nothing (or fails), and 403 when the node exists but its owner
is not the caller; in both cases the world is returned as it was: no blob and no node
record is deleted and no mutating call is made. -/
theorem DeleteHandler_checks_first (fuel : Nat) (w : World) (ownerID id : String) :
    (FindNodeByID w.nodes id = .ok none →
      DeleteHandler fuel w ownerID id = some (⟨404, .error "not found"⟩, w)) ∧
    (∀ e, FindNodeByID w.nodes id = .error e →
      DeleteHandler fuel w ownerID id = some (⟨404, .error "not found"⟩, w)) ∧
    (∀ node, FindNodeByID w.nodes id = .ok (some node) → node.OwnerID ≠ ownerID →
      DeleteHandler fuel w ownerID id = some (⟨403, .error "forbidden"⟩, w)) := by
  refine ⟨fun h => ?_, fun e h => ?_, fun node h ho => ?_⟩
  · simp [DeleteHandler, h]
  · simp [DeleteHandler, h]
  · simp [DeleteHandler, h, ho]

theorem DeleteHandler_checks_first_witness :
    DeleteHandler 3 mixedWorld "u" (oidN 9).Hex =
        some (⟨404, .error "not found"⟩, mixedWorld) ∧
    DeleteHandler 3 mixedWorld "u" "not-an-id" =
        some (⟨404, .error "not found"⟩, mixedWorld) ∧
    DeleteHandler 3 mixedWorld "v" (oidN 1).Hex =
        some (⟨403, .error "forbidden"⟩, mixedWorld) :=
  ⟨(DeleteHandler_checks_first 3 mixedWorld "u" (oidN 9).Hex).1 rfl,
   (DeleteHandler_checks_first 3 mixedWorld "u" "not-an-id").2.1 _ rfl,
   (DeleteHandler_checks_first 3 mixedWorld "v" (oidN 1).Hex).2.2 _ rfl (by decide)⟩

/-! ## Move: where the code departs from the specification -/

/-- C2 Self-move is not rejected: on the sample store, MoveHandler on the folder with
id 1 with its own id as target parent answers 200 and stores the folder as its own parent,
where the claim asks for a 400 and an unchanged parent. -/
theorem MoveHandler_self_move_accepted :
    MoveHandler sampleWorld 7 "u" (oidN 1).Hex (some ⟨(oidN 1).Hex⟩) =
      some (⟨200, .node { (mkDoc 1 "u" .absent "folder" "").decode with
                ParentID := (oidN 1).Hex }⟩,
        { nodes := [{ mkDoc 1 "u" .absent "folder" "" with
                        parent_id := .str (oidN 1).Hex, updated_at := 7 },
                    mkDoc 2 "u" (.oid (oidN 1)) "folder" ""],
          blobs := [],
          trace := [.updateNodeParent "u" (oidN 1).Hex (oidN 1).Hex] }) := by
  decide

/-- C3 Move does not keep the parent relation acyclic: the sample store is acyclic, and
after the (accepted) move of the folder with id 2 under itself the store has a record that
is its own parent. -/
theorem MoveHandler_breaks_acyclicity :
    Acyclic sampleWorld.nodes ∧
      ∃ r w1, MoveHandler sampleWorld 7 "u" (oidN 2).Hex (some ⟨(oidN 2).Hex⟩) = some (r, w1) ∧
        r.status = 200 ∧ ¬ Acyclic w1.nodes := by
  refine ⟨sampleStore_wellFormed.acyclic, _, _, rfl, rfl, fun h => ?_⟩
  refine h ({ (mkDoc 2 "u" (.oid (oidN 1)) "folder" "").decode with
    ParentID := (oidN 2).Hex, UpdatedAt := 7 }) (Relation.TransGen.single ⟨?_, ?_, rfl⟩)
  · decide
  · decide

/-- C6 A node moved to root is not listed at root: on the sample store, MoveHandler moves
the folder with id 2 to the empty parent with a 200; afterwards its record has the empty
`parent_id` (as a string), yet `ListChildren` for the owner and the empty parent returns
only the folder with id 1, whose `parent_id` field is absent. A folder created at root with
`CreateNode` is listed. -/
theorem root_listing_misses_moved_node :
    ∃ w1, MoveHandler sampleWorld 7 "u" (oidN 2).Hex (some ⟨""⟩) =
        some (⟨200, .node { (mkDoc 2 "u" (.oid (oidN 1)) "folder" "").decode with
                  ParentID := "" }⟩, w1) ∧
      (∃ n, FindNodeByID w1.nodes (oidN 2).Hex = .ok (some n) ∧ n.OwnerID = "u" ∧
        n.ParentID = "") ∧
      ListChildren w1.nodes "u" "" = [(mkDoc 1 "u" .absent "folder" "").decode] ∧
      (∃ st2 n2, CreateNode w1.nodes 8 (oidN 3)
          { ID := "", OwnerID := "u", ParentID := "", Name := "n", Typ := "folder", Size := 0,
            Mime := "", Path := "", CreatedAt := 0, UpdatedAt := 0 } = .ok (st2, n2) ∧
        (ListChildren st2 "u" "").map (fun n => n.ID) = [(oidN 1).Hex, (oidN 3).Hex]) := by
  refine ⟨_, rfl, ⟨_, rfl, rfl, rfl⟩, by decide, _, _, rfl, by decide⟩

/-- C8 Recursive Collect from root misses a node moved to root: in the store left by the
move of the folder with id 2 to the empty parent, that folder is reachable from the empty
starting id (its `parent_id` is empty), the store is well-formed, and
`collectNodesRecursive` for the owner and the empty id returns only the folder with id 1. -/
theorem collect_from_root_misses_moved_node :
    ∃ w1 r, MoveHandler sampleWorld 7 "u" (oidN 2).Hex (some ⟨""⟩) = some (r, w1) ∧
      r.status = 200 ∧ WellFormed w1.nodes ∧
      Reach w1.nodes "u" ""
        { (mkDoc 2 "u" (.oid (oidN 1)) "folder" "").decode with
            ParentID := "", UpdatedAt := 7 } ∧
      collectNodesRecursive w1.nodes "u" "" = some [(mkDoc 1 "u" .absent "folder" "").decode] := by
  refine ⟨_, _, rfl, rfl, ⟨by decide, by decide, acyclic_of_rank sampleRank (by decide)⟩,
    Reach.child (by decide) rfl rfl, by decide⟩
/-! ## Cascading delete -/

theorem DeleteRecursive_succ (fuel : Nat) (w : World) (node : Node) :
    DeleteRecursive (fuel + 1) w node =
      (ListChildren w.nodes node.OwnerID node.ID).foldlM (delStep (DeleteRecursive fuel)) w := by
  rfl

theorem DeleteHandler_folder (fuel : Nat) (w : World) (ownerID id : String) (node : Node)
    (hfind : FindNodeByID w.nodes id = .ok (some node)) (hown : node.OwnerID = ownerID)
    (hty : node.Typ = "folder") :
    DeleteHandler fuel w ownerID id =
      ((ListChildren w.nodes ownerID id).foldlM (delStep (DeleteRecursive fuel)) w).map
        (fun w2 => (⟨204, .none⟩, w2.deleteNode id)) := by
  simp only [DeleteHandler, hfind, hown, hty, ne_eq, not_true_eq_false, if_false, if_true]
  rfl

theorem deleteOne_sublist (p : Doc → Bool) (l : Store) : (deleteOne p l).Sublist l := by
  induction l with
  | nil => exact List.Sublist.refl _
  | cons d ds ih =>
    unfold deleteOne
    split
    · exact List.sublist_cons_self d ds
    · exact ih.cons₂ d

theorem not_mem_deleteOne {l : Store} (hn : (l.map (fun d => d.id)).Nodup) (d : Doc)
    (oid : ObjectID) (hd : d.id = oid) : d ∉ deleteOne (fun x => decide (x.id = oid)) l := by
  induction l with
  | nil => simp [deleteOne]
  | cons a as ih =>
    rw [List.map_cons, List.nodup_cons] at hn
    unfold deleteOne
    by_cases ha : a.id = oid
    · simp only [ha, decide_True, if_true]
      intro hmem
      exact hn.1 (by rw [ha, ← hd]; exact List.mem_map_of_mem (fun d => d.id) hmem)
    · simp only [ha, decide_False, Bool.false_eq_true, if_false, List.mem_cons, not_or]
      exact ⟨fun h => ha (h ▸ hd), ih hn.2⟩

theorem mem_deleteOne_of_ne {l : Store} {x : Doc} {oid : ObjectID} (hx : x ∈ l)
    (hne : x.id ≠ oid) : x ∈ deleteOne (fun x => decide (x.id = oid)) l := by
  induction l with
  | nil => cases hx
  | cons a as ih =>
    unfold deleteOne
    by_cases ha : a.id = oid
    · simp only [ha, decide_True, if_true]
      rcases List.mem_cons.1 hx with rfl | h
      · exact absurd ha hne
      · exact h
    · simp only [ha, decide_False, Bool.false_eq_true, if_false, List.mem_cons]
      rcases List.mem_cons.1 hx with rfl | h
      · exact Or.inl rfl
      · exact Or.inr (ih h)

theorem deleteNode_nodes (w : World) (o : ObjectID) :
    (w.deleteNode o.Hex).nodes = deleteOne (fun x => decide (x.id = o)) w.nodes := by
  simp [World.deleteNode, DeleteNode, ObjectIDFromHex_Hex]

theorem deleteNode_trace (w : World) (id : String) :
    (w.deleteNode id).trace = w.trace ++ [.deleteNode id] := by
  unfold World.deleteNode
  split <;> rfl

theorem deleteNode_sublist (w : World) (id : String) :
    (w.deleteNode id).nodes.Sublist w.nodes := by
  unfold World.deleteNode DeleteNode
  split
  · rename_i st h
    split at h
    · cases h
    · cases h
      exact deleteOne_sublist _ _
  · exact List.Sublist.refl _

theorem doc_eq_of_id_eq {st : Store} (hu : UniqueIds st) {a b : Doc} (ha : a ∈ st)
    (hb : b ∈ st) (h : a.id = b.id) : a = b := by
  have h1 := find?_of_unique hu ha
  rw [h, find?_of_unique hu hb] at h1
  exact (Option.some.inj h1).symm

theorem nodup_of_sublist {st0 l : Store} (hu : UniqueIds st0) (h : l.Sublist st0) :
    (l.map (fun d => d.id)).Nodup :=
  List.Nodup.sublist (h.map _) hu

/-- Deleting the record of the document `d` keeps the invariant when the children of `d` are
gone and, if `d` is a file, `DeleteFile` was called on its path. -/
theorem DeleteInv_deleteNode {st0 : Store} (hu : UniqueIds st0) {w : World}
    (hinv : DeleteInv st0 w) {d : Doc} (hd : d ∈ st0)
    (hch : ∀ c ∈ st0, c.parent_id.decode = d.id.Hex → c ∉ w.nodes)
    (hfile : d.type = "file" → Call.deleteFile d.path ∈ w.trace) :
    DeleteInv st0 (w.deleteNode d.id.Hex) ∧ d ∉ (w.deleteNode d.id.Hex).nodes := by
  have hsub := deleteNode_sublist w d.id.Hex
  have hgone : d ∉ (w.deleteNode d.id.Hex).nodes := by
    rw [deleteNode_nodes]
    exact not_mem_deleteOne (nodup_of_sublist hu hinv.sub) d d.id rfl
  have hkeep : ∀ x ∈ w.nodes, x ∉ (w.deleteNode d.id.Hex).nodes → x = d := by
    intro x hx hnx
    by_contra hne
    apply hnx
    rw [deleteNode_nodes]
    apply mem_deleteOne_of_ne hx
    intro hid
    exact hne (doc_eq_of_id_eq hu (hinv.sub.subset hx) hd hid)
  refine ⟨⟨hsub.trans hinv.sub, ?_, ?_⟩, hgone⟩
  · intro c hc p hp hcp hpn hcn
    have hcw : c ∈ w.nodes := hsub.subset hcn
    by_cases hpw : p ∈ w.nodes
    · have hpd : p = d := hkeep p hpw hpn
      subst hpd
      exact hch c hc hcp hcw
    · exact hinv.closed c hc p hp hcp hpw hcw
  · intro f hf hft hfn
    rw [deleteNode_trace]
    apply List.mem_append_left
    by_cases hfw : f ∈ w.nodes
    · have hfd : f = d := hkeep f hfw hfn
      subst hfd
      exact hfile hft
    · exact hinv.files f hf hft hfw

theorem DeleteInv_deleteFile {st0 : Store} {w : World} (hinv : DeleteInv st0 w)
    (path : String) : DeleteInv st0 (w.deleteFile path) :=
  ⟨hinv.sub, hinv.closed, fun f hf hft hfn =>
    List.mem_append_left _ (hinv.files f hf hft hfn)⟩
theorem parent_of_child {st0 : Store} (hu : UniqueIds st0) (hpar : ParentInvariant st0)
    {c d : Doc} (hc : c ∈ st0) (hd : d ∈ st0) (hcd : c.parent_id.decode = d.id.Hex) :
    d.type = "folder" ∧ d.owner_id = c.owner_id := by
  have hne : c.decode.ParentID ≠ "" := by
    show c.parent_id.decode ≠ ""
    rw [hcd]; exact Hex_ne_empty d.id
  obtain ⟨p, hp, hp1, hp2, hp3⟩ := hpar c.decode (List.mem_map_of_mem _ hc) hne
  have hpd : p = d.decode :=
    node_eq_of_ID_eq hu hp (List.mem_map_of_mem _ hd) (hp1.trans hcd)
  subst hpd
  exact ⟨hp2, hp3⟩

theorem delStep_spec {st0 : Store} (hu : UniqueIds st0) (hpar : ParentInvariant st0)
    {rec : World → Node → Option World} (hrec : RecSpec st0 rec) {w w1 : World} {d : Doc}
    (hinv : DeleteInv st0 w) (hd : d ∈ st0) (h : delStep rec w d.decode = some w1) :
    DeleteInv st0 w1 ∧ w1.nodes.Sublist w.nodes ∧ d ∉ w1.nodes := by
  unfold delStep at h
  by_cases hty : d.decode.Typ = "file"
  · rw [if_pos hty] at h
    cases h
    have hty2 : d.type = "file" := hty
    have h1 := DeleteInv_deleteNode hu (DeleteInv_deleteFile hinv d.path) hd
      (fun c hc hcd _ => by
        have := (parent_of_child hu hpar hc hd hcd).1
        rw [hty2] at this
        exact absurd this (by decide))
      (fun _ => by simp [World.deleteFile])
    exact ⟨h1.1, deleteNode_sublist _ _, h1.2⟩
  · rw [if_neg hty] at h
    obtain ⟨w2, hw2, rfl⟩ := Option.map_eq_some'.1 h
    obtain ⟨hi2, hs2, hc2⟩ := hrec w d.decode w2 hinv (List.mem_map_of_mem _ hd) hw2
    have h1 := DeleteInv_deleteNode hu hi2 hd hc2 (fun hf => absurd hf hty)
    exact ⟨h1.1, (deleteNode_sublist _ _).trans hs2, h1.2⟩

theorem delLoop_spec {st0 : Store} (hu : UniqueIds st0) (hpar : ParentInvariant st0)
    {rec : World → Node → Option World} (hrec : RecSpec st0 rec) :
    ∀ (L : List Node) (w w1 : World), (∀ ch ∈ L, ch ∈ st0.nodes) → DeleteInv st0 w →
      L.foldlM (delStep rec) w = some w1 →
      DeleteInv st0 w1 ∧ w1.nodes.Sublist w.nodes ∧
        ∀ ch ∈ L, ∀ d ∈ st0, d.decode = ch → d ∉ w1.nodes := by
  intro L
  induction L with
  | nil =>
    intro w w1 _ hinv h
    simp only [List.foldlM_nil] at h
    cases h
    exact ⟨hinv, List.Sublist.refl _, fun ch hch => by cases hch⟩
  | cons a as ih =>
    intro w w1 hL hinv h
    rw [List.foldlM_cons] at h
    cases hstep : delStep rec w a with
    | none => rw [hstep] at h; cases h
    | some w2 =>
      rw [hstep] at h
      obtain ⟨d0, hd0, rfl⟩ := List.mem_map.1 (hL a (List.mem_cons_self _ _))
      obtain ⟨hi2, hs2, hg2⟩ := delStep_spec hu hpar hrec hinv hd0 hstep
      obtain ⟨hi1, hs1, hg1⟩ := ih w2 w1 (fun ch hch => hL ch (List.mem_cons_of_mem _ hch))
        hi2 h
      refine ⟨hi1, hs1.trans hs2, ?_⟩
      intro ch hch d hd hdc
      rcases List.mem_cons.1 hch with rfl | hch
      · have hdd : d = d0 := by
          apply doc_eq_of_id_eq hu hd hd0
          apply Hex_injective
          exact congrArg Node.ID hdc
        subst hdd
        exact fun hmem => hg2 (hs1.subset hmem)
      · exact hg1 ch hch d hd hdc

theorem children_listed_gone {st0 : Store} (hu : UniqueIds st0) (hpar : ParentInvariant st0)
    {w w1 : World} (hsub : w1.nodes.Sublist w.nodes)
    {dn : Doc} (hdn : dn ∈ st0)
    (hgone : ∀ ch ∈ ListChildren w.nodes dn.owner_id dn.id.Hex, ∀ d ∈ st0,
      d.decode = ch → d ∉ w1.nodes) :
    ∀ c ∈ st0, c.parent_id.decode = dn.id.Hex → c ∉ w1.nodes := by
  intro c hc hcd hcw1
  have hcw : c ∈ w.nodes := hsub.subset hcw1
  have hlist : c.decode ∈ ListChildren w.nodes dn.owner_id dn.id.Hex := by
    refine mem_ListChildren.2 ⟨c, hcw, ((parent_of_child hu hpar hc hdn hcd).2).symm, ?_, rfl⟩
    rw [parentMatches_Hex]
    simpa using hcd
  exact hgone _ hlist c hc rfl hcw1

theorem DeleteRecursive_spec {st0 : Store} (hu : UniqueIds st0) (hpar : ParentInvariant st0) :
    ∀ fuel, RecSpec st0 (DeleteRecursive fuel) := by
  intro fuel
  induction fuel with
  | zero => intro w ch w1 _ _ h; cases h
  | succ fuel ih =>
    intro w ch w1 hinv hch h
    rw [DeleteRecursive_succ] at h
    obtain ⟨dn, hdn, rfl⟩ := List.mem_map.1 hch
    have hL : ∀ x ∈ ListChildren w.nodes dn.decode.OwnerID dn.decode.ID, x ∈ st0.nodes := by
      intro x hx
      obtain ⟨d, hd, rfl⟩ := List.mem_map.1 (ListChildren_mem_nodes hx)
      exact List.mem_map_of_mem _ (hinv.sub.subset hd)
    obtain ⟨hi1, hs1, hg1⟩ := delLoop_spec hu hpar ih _ w w1 hL hinv h
    exact ⟨hi1, hs1, children_listed_gone hu hpar hs1 hdn hg1⟩
/-! ## Termination of the cascading delete on an acyclic store -/

theorem childRel_acc {st : Store} (hac : Acyclic st) (n : Node) :
    Acc (fun c p => ParentEdge st p c) n := by
  classical
  by_cases hn : n ∈ st.nodes
  · let r : {x : Node // x ∈ st.nodes} → {x : Node // x ∈ st.nodes} → Prop :=
      fun a b => Relation.TransGen (ParentEdge st) b.1 a.1
    haveI : IsTrans _ r := ⟨fun a b c hab hbc => Relation.TransGen.trans hbc hab⟩
    haveI : IsIrrefl _ r := ⟨fun a h => hac a.1 h⟩
    have hfin : Finite {x : Node // x ∈ st.nodes} := (List.finite_toSet st.nodes).to_subtype
    have wf : WellFounded r := Finite.wellFounded_of_trans_of_irrefl r
    have key : ∀ a : {x : Node // x ∈ st.nodes}, Acc (fun c p => ParentEdge st p c) a.1 := by
      intro a
      induction a using wf.induction with
      | _ a ih =>
        refine Acc.intro _ (fun c hc => ?_)
        exact ih ⟨c, hc.2.1⟩ (Relation.TransGen.single hc)
    exact key ⟨n, hn⟩
  · exact Acc.intro _ (fun c hc => absurd hc.1 hn)
theorem delLoop_sublist {rec : World → Node → Option World}
    (hrec : ∀ w ch w1, rec w ch = some w1 → w1.nodes.Sublist w.nodes) :
    ∀ (L : List Node) (w w1 : World), L.foldlM (delStep rec) w = some w1 →
      w1.nodes.Sublist w.nodes := by
  intro L
  induction L with
  | nil =>
    intro w w1 h
    simp only [List.foldlM_nil] at h
    cases h
    exact List.Sublist.refl _
  | cons a as ih =>
    intro w w1 h
    rw [List.foldlM_cons] at h
    cases hstep : delStep rec w a with
    | none => rw [hstep] at h; cases h
    | some w2 =>
      rw [hstep] at h
      refine (ih w2 w1 h).trans ?_
      unfold delStep at hstep
      split at hstep
      · cases hstep
        exact deleteNode_sublist _ _
      · obtain ⟨w3, hw3, rfl⟩ := Option.map_eq_some'.1 hstep
        exact (deleteNode_sublist _ _).trans (hrec _ _ _ hw3)

theorem DeleteRecursive_sublist :
    ∀ fuel w node w1, DeleteRecursive fuel w node = some w1 → w1.nodes.Sublist w.nodes := by
  intro fuel
  induction fuel with
  | zero => intro w node w1 h; cases h
  | succ fuel ih =>
    intro w node w1 h
    rw [DeleteRecursive_succ] at h
    exact delLoop_sublist ih _ w w1 h

theorem delLoop_returns {st0 : Store} {fuel : Nat} :
    ∀ (L : List Node) (w : World),
      (∀ ch ∈ L, ∀ w : World, w.nodes.Sublist st0 → ∃ w1, DeleteRecursive fuel w ch = some w1) →
      w.nodes.Sublist st0 → ∃ w1, L.foldlM (delStep (DeleteRecursive fuel)) w = some w1 := by
  intro L
  induction L with
  | nil => intro w _ _; exact ⟨w, rfl⟩
  | cons a as ih =>
    intro w hL hw
    rw [List.foldlM_cons]
    have hstep : ∃ w2, delStep (DeleteRecursive fuel) w a = some w2 ∧ w2.nodes.Sublist st0 := by
      unfold delStep
      split
      · exact ⟨_, rfl, (deleteNode_sublist _ _).trans hw⟩
      · obtain ⟨w3, hw3⟩ := hL a (List.mem_cons_self _ _) w hw
        rw [hw3]
        exact ⟨_, rfl, (deleteNode_sublist _ _).trans
          ((DeleteRecursive_sublist _ _ _ _ hw3).trans hw)⟩
    obtain ⟨w2, h2, hs2⟩ := hstep
    rw [h2]
    exact ih w2 (fun ch hch => hL ch (List.mem_cons_of_mem _ hch)) hs2

theorem uniform_fuel {st0 : Store} :
    ∀ L : List Node, (∀ c ∈ L, ∃ k, DeleteReturns st0 k c) →
      ∃ K, ∀ c ∈ L, DeleteReturns st0 K c := by
  intro L
  induction L with
  | nil => intro _; exact ⟨0, fun c hc => by cases hc⟩
  | cons a as ih =>
    intro h
    obtain ⟨k1, hk1⟩ := h a (List.mem_cons_self _ _)
    obtain ⟨k2, hk2⟩ := ih (fun c hc => h c (List.mem_cons_of_mem _ hc))
    refine ⟨max k1 k2, fun c hc fuel hf w hw => ?_⟩
    rcases List.mem_cons.1 hc with rfl | hc
    · exact hk1 fuel (le_trans (le_max_left _ _) hf) w hw
    · exact hk2 c hc fuel (le_trans (le_max_right _ _) hf) w hw

theorem DeleteRecursive_returns {st0 : Store} (hac : Acyclic st0) (node : Node)
    (hnode : node ∈ st0.nodes) : ∃ k, DeleteReturns st0 k node := by
  induction childRel_acc hac node with
  | intro node _ ih =>
    obtain ⟨dn, hdn, rfl⟩ := List.mem_map.1 hnode
    have hall : ∀ c ∈ st0.nodes.filter (fun c => decide (c.ParentID = dn.decode.ID)),
        ∃ k, DeleteReturns st0 k c := by
      intro c hc
      obtain ⟨hc1, hc2⟩ := List.mem_filter.1 hc
      exact ih c ⟨hnode, hc1, by simpa using hc2⟩ hc1
    obtain ⟨K, hK⟩ := uniform_fuel _ hall
    refine ⟨K + 1, fun fuel hf w hw => ?_⟩
    obtain ⟨f, rfl⟩ : ∃ f, fuel = f + 1 := ⟨fuel - 1, by omega⟩
    rw [DeleteRecursive_succ]
    apply delLoop_returns _ w _ hw
    intro ch hch w2 hw2
    have hch2 : ch ∈ w.nodes.nodes ∧ ch.OwnerID = dn.decode.OwnerID ∧
        ch.ParentID = dn.id.Hex := mem_ListChildren_Hex.1 hch
    have hch3 : ch ∈ st0.nodes := by
      obtain ⟨d, hd, rfl⟩ := List.mem_map.1 hch2.1
      exact List.mem_map_of_mem _ (hw.subset hd)
    exact hK ch (List.mem_filter.2 ⟨hch3, by simpa using hch2.2.2⟩) f (by omega) w2 hw2
theorem node_not_mem_of_doc {st0 l : Store} (hu : UniqueIds st0) (hsub : l.Sublist st0)
    {d : Doc} (hd : d ∈ st0) (hgone : d ∉ l) : d.decode ∉ l.nodes := by
  intro hmem
  obtain ⟨d1, hd1, heq⟩ := List.mem_map.1 hmem
  have : d1 = d := doc_eq_of_id_eq hu (hsub.subset hd1) hd
    (Hex_injective (congrArg Node.ID heq))
  exact hgone (this ▸ hd1)

theorem descendant_docs_gone {st0 : Store} {w1 : World} (hinv : DeleteInv st0 w1)
    {dF : Doc}
    (hch : ∀ c ∈ st0, c.parent_id.decode = dF.id.Hex → c ∉ w1.nodes) {D : Node}
    (hD : Descendant st0 dF.decode D) : ∀ d ∈ st0, d.decode = D → d ∉ w1.nodes := by
  induction hD with
  | single e =>
    intro d hd hdD
    have h2 := e.2.2
    rw [← hdD] at h2
    exact hch d hd h2
  | tail _ e ih =>
    intro d hd hdD
    obtain ⟨dm, hdm, hdm2⟩ := List.mem_map.1 e.1
    have hm := ih dm hdm hdm2
    refine hinv.closed d hd dm hdm ?_ hm
    have := e.2.2
    rw [← hdD, ← hdm2] at this
    exact this

/-- Cascading delete when the request writes the id as the store prints it: in a well-formed
store (unique ids, every non-empty `parent_id` the id of a folder of the same owner,
acyclic), for a folder F of the caller, DeleteHandler on the id `F.ID` returns as soon as
the recursion depth allowed is large enough, answers
204, and afterwards the record of F and the record of every descendant of F are gone,
`ListChildren` on the id of F and on the id of every former descendant returns nothing for
every owner, and `DeleteFile` has been called on the blob path of every descendant file. -/
theorem DeleteHandler_cascade (w : World) (ownerID : String) (F : Node)
    (hwf : WellFormed w.nodes) (hF : F ∈ w.nodes.nodes) (hFo : F.OwnerID = ownerID)
    (hFt : F.Typ = "folder") :
    ∃ k, ∀ fuel, k ≤ fuel → ∃ w1,
      DeleteHandler fuel w ownerID F.ID = some (⟨204, .none⟩, w1) ∧
      F ∉ w1.nodes.nodes ∧
      (∀ D, Descendant w.nodes F D → D ∉ w1.nodes.nodes) ∧
      (∀ o, ListChildren w1.nodes o F.ID = []) ∧
      (∀ D o, Descendant w.nodes F D → ListChildren w1.nodes o D.ID = []) ∧
      (∀ D, Descendant w.nodes F D → D.Typ = "file" → Call.deleteFile D.Path ∈ w1.trace) := by
  obtain ⟨hu, hpar, hac⟩ := hwf
  obtain ⟨dF, hdF, rfl⟩ := List.mem_map.1 hF
  have hall : ∀ c ∈ w.nodes.nodes.filter (fun c => decide (c.ParentID = dF.decode.ID)),
      ∃ k, DeleteReturns w.nodes k c := fun c hc =>
    DeleteRecursive_returns hac c (List.mem_filter.1 hc).1
  obtain ⟨K, hK⟩ := uniform_fuel _ hall
  refine ⟨K, fun fuel hf => ?_⟩
  have hinv0 : DeleteInv w.nodes w :=
    ⟨List.Sublist.refl _, fun _ _ _ hp _ hpn => absurd hp hpn,
      fun _ hf0 _ hfn => absurd hf0 hfn⟩
  have hlist : ∀ ch ∈ ListChildren w.nodes ownerID dF.decode.ID, ch ∈ w.nodes.nodes :=
    fun ch hch => ListChildren_mem_nodes hch
  obtain ⟨w2, hw2⟩ := delLoop_returns (ListChildren w.nodes ownerID dF.decode.ID) w
    (fun ch hch w3 hw3 => hK ch (List.mem_filter.2 ⟨hlist ch hch, by
      simpa using (mem_ListChildren_Hex.1 hch).2.2⟩) fuel hf w3 hw3)
    (List.Sublist.refl _)
  obtain ⟨hi2, hs2, hg2⟩ := delLoop_spec hu hpar (DeleteRecursive_spec hu hpar fuel) _ w w2
    hlist hinv0 hw2
  have hch2 : ∀ c ∈ w.nodes, c.parent_id.decode = dF.id.Hex → c ∉ w2.nodes := by
    have hFo2 : dF.owner_id = ownerID := hFo
    apply children_listed_gone hu hpar hs2 hdF
    rw [hFo2]
    exact hg2
  obtain ⟨hi1, hgone⟩ := DeleteInv_deleteNode hu hi2 hdF hch2
    (fun hf0 => by
      have hFt2 : dF.type = "folder" := hFt
      rw [hFt2] at hf0
      exact absurd hf0 (by decide))
  have hch1 : ∀ c ∈ w.nodes, c.parent_id.decode = dF.id.Hex →
      c ∉ (w2.deleteNode dF.id.Hex).nodes :=
    fun c hc hcd hmem => hch2 c hc hcd ((deleteNode_sublist _ _).subset hmem)
  have hdesc : ∀ D, Descendant w.nodes dF.decode D → D ∉ (w2.deleteNode dF.id.Hex).nodes.nodes := by
    intro D hD
    have hDm : D ∈ w.nodes.nodes := by
      cases hD with
      | single e => exact e.2.1
      | tail _ e => exact e.2.1
    obtain ⟨dD, hdD, rfl⟩ := List.mem_map.1 hDm
    exact node_not_mem_of_doc hu hi1.sub hdD (descendant_docs_gone hi1 hch1 hD dD hdD rfl)
  have hnone : ∀ (X : Node) (o : String), X ∈ w.nodes.nodes →
      (∀ n, n ∈ w.nodes.nodes → n.ParentID = X.ID → n ∉ (w2.deleteNode dF.id.Hex).nodes.nodes) →
      ListChildren (w2.deleteNode dF.id.Hex).nodes o X.ID = [] := by
    intro X o hX hno
    apply List.eq_nil_iff_forall_not_mem.2
    intro n hn
    obtain ⟨dX, -, rfl⟩ := List.mem_map.1 hX
    obtain ⟨hn1, -, hn3⟩ := mem_ListChildren_Hex.1 hn
    have hn0 : n ∈ w.nodes.nodes := by
      obtain ⟨d, hd, rfl⟩ := List.mem_map.1 hn1
      exact List.mem_map_of_mem _ (hi1.sub.subset hd)
    exact hno n hn0 hn3 hn1
  refine ⟨w2.deleteNode dF.id.Hex, ?_, ?_, hdesc, ?_, ?_, ?_⟩
  · rw [DeleteHandler_folder fuel w ownerID dF.decode.ID dF.decode
      (FindNodeByID_of_mem hu hF) hFo hFt, hw2]
    rfl
  · exact node_not_mem_of_doc hu hi1.sub hdF hgone
  · intro o
    exact hnone dF.decode o hF
      (fun n hn hp => hdesc n (Relation.TransGen.single ⟨hF, hn, hp⟩))
  · intro D o hD
    have hDm : D ∈ w.nodes.nodes := by
      cases hD with
      | single e => exact e.2.1
      | tail _ e => exact e.2.1
    exact hnone D o hDm
      (fun n hn hp => hdesc n (Relation.TransGen.tail hD ⟨hDm, hn, hp⟩))
  · intro D hD hDt
    have hDm : D ∈ w.nodes.nodes := by
      cases hD with
      | single e => exact e.2.1
      | tail _ e => exact e.2.1
    obtain ⟨dD, hdD, rfl⟩ := List.mem_map.1 hDm
    exact hi1.files dD hdD hDt (descendant_docs_gone hi1 hch1 hD dD hdD rfl)

theorem treeStore_wellFormed : WellFormed treeStore where
  unique := by decide
  parents := by decide
  acyclic := acyclic_of_rank sampleRank (by decide)

theorem DeleteHandler_cascade_witness :
    ∃ k, ∀ fuel, k ≤ fuel → ∃ w1,
      DeleteHandler fuel treeWorld "u" (mkDoc 1 "u" .absent "folder" "").decode.ID =
        some (⟨204, .none⟩, w1) ∧
      (mkDoc 1 "u" .absent "folder" "").decode ∉ w1.nodes.nodes ∧
      (∀ D, Descendant treeWorld.nodes (mkDoc 1 "u" .absent "folder" "").decode D →
        D ∉ w1.nodes.nodes) ∧
      (∀ o, ListChildren w1.nodes o (mkDoc 1 "u" .absent "folder" "").decode.ID = []) ∧
      (∀ D o, Descendant treeWorld.nodes (mkDoc 1 "u" .absent "folder" "").decode D →
        ListChildren w1.nodes o D.ID = []) ∧
      (∀ D, Descendant treeWorld.nodes (mkDoc 1 "u" .absent "folder" "").decode D →
        D.Typ = "file" → Call.deleteFile D.Path ∈ w1.trace) :=
  DeleteHandler_cascade treeWorld "u" (mkDoc 1 "u" .absent "folder" "").decode
    treeStore_wellFormed (by decide) rfl rfl

/-! ## Folder statistics -/

theorem bump_sum (key : String) (counts : List (String × Nat)) :
    ((bump key counts).map (fun kv => kv.2)).sum = (counts.map (fun kv => kv.2)).sum + 1 := by
  induction counts with
  | nil => simp [bump]
  | cons kv rest ih =>
    obtain ⟨k, v⟩ := kv
    unfold bump
    by_cases h : k = key
    · simp only [h, if_true, List.map_cons, List.sum_cons]; omega
    · simp only [h, if_false, List.map_cons, List.sum_cons, ih]; omega

theorem foldl_bump_sum (lower : Char → Char) (all : List Node) (counts : List (String × Nat)) :
    ((all.foldl (fun counts n => bump (statKey lower n) counts) counts).map
      (fun kv => kv.2)).sum = (counts.map (fun kv => kv.2)).sum + all.length := by
  induction all generalizing counts with
  | nil => simp
  | cons n ns ih =>
    rw [List.foldl_cons, ih, bump_sum, List.length_cons]
    omega

theorem countKeys_sum (lower : Char → Char) (all : List Node) :
    ((countKeys lower all).map (fun kv => kv.2)).sum = all.length := by
  simpa [countKeys] using foldl_bump_sum lower all []

theorem buildStats_counts (counts : List (String × Nat)) (total : Nat) :
    (buildStats counts total).map (fun e => e.Count) = counts.map (fun kv => kv.2) := by
  simp [buildStats, Function.comp_def]

/-- C14 Stats consistency: for every list of gathered nodes, and every order in which the
buckets are emitted, the sum of `Count` over the entries of `Stats` equals `TotalItems`,
which equals the number of gathered nodes. -/
theorem stats_counts_sum_to_total (lower : Char → Char) (parentID : String) (all : List Node)
    (stats : List FolderStat) (hperm : stats.Perm (statsResponse lower parentID all).Stats) :
    (stats.map (fun e => e.Count)).sum = (statsResponse lower parentID all).TotalItems ∧
      (statsResponse lower parentID all).TotalItems = all.length := by
  refine ⟨?_, rfl⟩
  rw [(hperm.map (fun e => e.Count)).sum_eq]
  simp only [statsResponse]
  rw [buildStats_counts, countKeys_sum]

theorem stats_counts_sum_to_total_witness :
    (((statsResponse Char.toLower "" sampleGathered).Stats.reverse).map
        (fun e => e.Count)).sum = (statsResponse Char.toLower "" sampleGathered).TotalItems ∧
      (statsResponse Char.toLower "" sampleGathered).TotalItems = sampleGathered.length :=
  stats_counts_sum_to_total Char.toLower "" sampleGathered _ (List.reverse_perm _)

example : ((statsResponse Char.toLower "" sampleGathered).Stats.map (fun e => (e.Typ, e.Count))) = [("folder", 3), ("txt", 2), ("unknown", 2)] := by decide

theorem bump_keys (key : String) (counts : List (String × Nat)) (k : String) :
    k ∈ (bump key counts).map (fun kv => kv.1) ↔ k = key ∨ k ∈ counts.map (fun kv => kv.1) := by
  induction counts with
  | nil => simp [bump]
  | cons kv rest ih =>
    obtain ⟨k0, v0⟩ := kv
    unfold bump
    by_cases hk : k0 = key
    · subst hk
      simp only [if_true, List.map_cons, List.mem_cons]
      tauto
    · simp only [hk, if_false, List.map_cons, List.mem_cons, ih]
      tauto

theorem bump_nodup (key : String) (counts : List (String × Nat))
    (h : (counts.map (fun kv => kv.1)).Nodup) : ((bump key counts).map (fun kv => kv.1)).Nodup := by
  induction counts with
  | nil => simp [bump]
  | cons kv rest ih =>
    obtain ⟨k0, v0⟩ := kv
    rw [List.map_cons, List.nodup_cons] at h
    unfold bump
    by_cases hk : k0 = key
    · subst hk
      simp only [if_true, List.map_cons, List.nodup_cons]
      exact h
    · simp only [hk, if_false, List.map_cons, List.nodup_cons, bump_keys]
      exact ⟨by simpa using h.1, ih h.2⟩

theorem bucketCount_bump (key k : String) (counts : List (String × Nat)) :
    bucketCount k (bump key counts) = bucketCount k counts + if k = key then 1 else 0 := by
  induction counts with
  | nil =>
    by_cases h : key = k
    · simp [bump, bucketCount, h]
    · have h2 : ¬ k = key := fun e => h e.symm
      simp [bump, bucketCount, h, h2]
  | cons kv rest ih =>
    obtain ⟨k0, v0⟩ := kv
    unfold bump
    by_cases hk : k0 = key
    · subst hk
      by_cases h : k0 = k
      · subst h
        simp only [if_true, bucketCount, List.filter_cons, decide_True, List.map_cons,
          List.sum_cons]
        omega
      · have h2 : ¬ k = k0 := fun e => h e.symm
        simp [bucketCount, List.filter_cons, h, h2]
    · simp only [hk, if_false]
      unfold bucketCount at ih ⊢
      by_cases h : k0 = k
      · simp only [List.filter_cons, h, decide_True, if_true, List.map_cons, List.sum_cons, ih]
        omega
      · simp only [List.filter_cons, h, decide_False, Bool.false_eq_true, if_false, ih]

theorem bucketCount_foldl (lower : Char → Char) (k : String) (all : List Node)
    (counts : List (String × Nat)) :
    bucketCount k (all.foldl (fun counts n => bump (statKey lower n) counts) counts) =
      bucketCount k counts + all.countP (fun n => decide (statKey lower n = k)) := by
  induction all generalizing counts with
  | nil => simp
  | cons n ns ih =>
    rw [List.foldl_cons, ih, bucketCount_bump, List.countP_cons]
    by_cases h : statKey lower n = k
    · subst h
      simp only [if_true, decide_True]; omega
    · have h2 : ¬ k = statKey lower n := fun e => h e.symm
      simp only [h, h2, if_false, decide_False, Bool.false_eq_true]; omega

theorem countKeys_nodup (lower : Char → Char) (all : List Node) :
    ((countKeys lower all).map (fun kv => kv.1)).Nodup := by
  have key : ∀ (all : List Node) (counts : List (String × Nat)),
      (counts.map (fun kv => kv.1)).Nodup →
      ((all.foldl (fun counts n => bump (statKey lower n) counts) counts).map
        (fun kv => kv.1)).Nodup := by
    intro all
    induction all with
    | nil => intro counts h; exact h
    | cons n ns ih => intro counts h; exact ih _ (bump_nodup _ _ h)
  exact key all [] List.nodup_nil

theorem bucketCount_of_mem {counts : List (String × Nat)}
    (h : (counts.map (fun kv => kv.1)).Nodup) {k : String} {v : Nat} (hm : (k, v) ∈ counts) :
    bucketCount k counts = v := by
  induction counts with
  | nil => cases hm
  | cons kv rest ih =>
    obtain ⟨k0, v0⟩ := kv
    rw [List.map_cons, List.nodup_cons] at h
    unfold bucketCount
    rcases List.mem_cons.1 hm with heq | hm
    · injection heq with h1 h2
      subst h1; subst h2
      have hnone : rest.filter (fun kv => decide (kv.1 = k)) = [] := by
        apply List.filter_eq_nil_iff.2
        intro kv hkv hk
        exact h.1 (by
          have : kv.1 = k := by simpa using hk
          exact this ▸ List.mem_map_of_mem (fun kv => kv.1) hkv)
      simp [List.filter_cons, hnone]
    · have hne : k0 ≠ k := by
        rintro rfl
        exact h.1 (List.mem_map_of_mem (fun kv => kv.1) hm)
      have := ih h.2 hm
      unfold bucketCount at this
      simp [List.filter_cons, hne, this]

/-- The count of every bucket is the number of gathered nodes with its key. -/
theorem stats_entry_count (lower : Char → Char) (parentID : String) (all : List Node)
    {e : FolderStat} (he : e ∈ (statsResponse lower parentID all).Stats) :
    e.Count = all.countP (fun n => decide (statKey lower n = e.Typ)) := by
  simp only [statsResponse, buildStats, List.mem_map] at he
  obtain ⟨⟨k, v⟩, hkv, rfl⟩ := he
  have h1 := bucketCount_of_mem (countKeys_nodup lower all) hkv
  have h2 := bucketCount_foldl lower k all []
  simp only [bucketCount, List.filter_nil, List.map_nil, List.sum_nil, Nat.zero_add] at h2
  unfold countKeys bucketCount at h1
  rw [h1] at h2
  exact h2

/-- A key with at least one gathered node has a bucket. -/
theorem stats_entry_exists (lower : Char → Char) (parentID : String) (all : List Node)
    (k : String) (hpos : 0 < all.countP (fun n => decide (statKey lower n = k))) :
    ∃ e ∈ (statsResponse lower parentID all).Stats, e.Typ = k := by
  have h2 := bucketCount_foldl lower k all []
  simp only [bucketCount, List.filter_nil, List.map_nil, List.sum_nil, Nat.zero_add] at h2
  have hne : (countKeys lower all).filter (fun kv => decide (kv.1 = k)) ≠ [] := by
    intro h0
    unfold countKeys at h0
    rw [h0] at h2
    simp at h2
    omega
  obtain ⟨kv, hkv⟩ := List.exists_mem_of_ne_nil _ hne
  obtain ⟨hm, hk⟩ := List.mem_filter.1 hkv
  refine ⟨{ Typ := kv.1, Count := kv.2, Percent := percent kv.2 all.length }, ?_, by simpa using hk⟩
  simp only [statsResponse, buildStats, List.mem_map]
  exact ⟨kv, hm, rfl⟩

theorem countP_split (all : List Node) (p q r : Node → Bool)
    (h : ∀ n, p n = (q n || r n)) (hd : ∀ n, ¬ (q n = true ∧ r n = true)) :
    all.countP p = all.countP q + all.countP r := by
  induction all with
  | nil => rfl
  | cons n ns ih =>
    have h1 := h n
    have h2 := hd n
    simp only [List.countP_cons, ih, h1]
    cases hq : q n <;> cases hr : r n <;> simp_all <;> omega

/-- C15 (as stated, refuted) Stats classification: on the sample list, which has two
folders and one file without extension, the `folder` entry counts 3 (the file
`plan.folder` is keyed `folder`) and the `unknown` entry counts 2 (the file `x.unknown` is
keyed `unknown`). -/
theorem stats_folder_bucket_counts_files :
    ¬ (∀ e ∈ (statsResponse Char.toLower "" sampleGathered).Stats,
        (e.Typ = "folder" →
          e.Count = sampleGathered.countP (fun n => decide (n.Typ = "folder"))) ∧
        (e.Typ = "unknown" →
          e.Count = sampleGathered.countP
            (fun n => decide (n.Typ ≠ "folder" ∧ Ext n.Name = "")))) := by
  intro h
  obtain ⟨e, he, hty⟩ := stats_entry_exists Char.toLower "" sampleGathered "folder" (by decide)
  have h1 := (h e he).1 hty
  have h2 := stats_entry_count Char.toLower "" sampleGathered he
  rw [hty] at h2
  rw [h2] at h1
  revert h1
  decide

/-- C15 (amended) Stats classification: for every gathered list and every order of the
buckets, the Count of a `folder` entry is the number of nodes of type folder plus the
number of other nodes whose lower-cased extension is `folder`, and the Count of an
`unknown` entry is the number of non-folder nodes whose extension without its dot is
empty or lower-cases to `unknown`. -/
theorem stats_classification (lower : Char → Char) (parentID : String) (all : List Node)
    (stats : List FolderStat) (hperm : stats.Perm (statsResponse lower parentID all).Stats)
    (e : FolderStat) (he : e ∈ stats) :
    (e.Typ = "folder" →
      e.Count = all.countP (fun n => decide (n.Typ = "folder")) +
        all.countP (fun n => decide (n.Typ ≠ "folder" ∧
          ToLower lower (trimDot (Ext n.Name)) = "folder"))) ∧
    (e.Typ = "unknown" →
      e.Count = all.countP (fun n => decide (n.Typ ≠ "folder" ∧
        ToLower lower (trimDot (Ext n.Name)) = "")) +
        all.countP (fun n => decide (n.Typ ≠ "folder" ∧
          ToLower lower (trimDot (Ext n.Name)) = "unknown"))) := by
  have hc := stats_entry_count lower parentID all (hperm.subset he)
  constructor
  · intro hty
    rw [hc, hty]
    apply countP_split
    · intro n
      by_cases h1 : n.Typ = "folder"
      · simp [statKey, h1]
      · by_cases h2 : ToLower lower (trimDot (Ext n.Name)) = ""
        · simp [statKey, h1, h2]
        · simp [statKey, h1, h2]
    · intro n
      simp only [decide_eq_true_eq]
      tauto
  · intro hty
    rw [hc, hty]
    apply countP_split
    · intro n
      by_cases h1 : n.Typ = "folder"
      · simp [statKey, h1]
      · by_cases h2 : ToLower lower (trimDot (Ext n.Name)) = ""
        · simp [statKey, h1, h2]
        · simp [statKey, h1, h2]
    · intro n
      simp only [decide_eq_true_eq]
      rintro ⟨⟨_, h1⟩, ⟨_, h2⟩⟩
      rw [h1] at h2
      exact absurd h2 (by decide)

theorem stats_classification_witness :
    (3 : Nat) = sampleGathered.countP (fun n => decide (n.Typ = "folder")) +
        sampleGathered.countP (fun n => decide (n.Typ ≠ "folder" ∧
          ToLower Char.toLower (trimDot (Ext n.Name)) = "folder")) :=
  (stats_classification Char.toLower "" sampleGathered
    (statsResponse Char.toLower "" sampleGathered).Stats (List.Perm.refl _)
    ⟨"folder", 3, percent 3 7⟩ (List.mem_cons_self _ _)).1 rfl
/-! ## `float64` arithmetic: the rounding error -/

theorem bitsAux_spec : ∀ fuel n : Nat, n ≤ fuel →
    n < 2 ^ bitsAux fuel n ∧ (n ≠ 0 → 2 ^ bitsAux fuel n ≤ 2 * n) := by
  intro fuel
  induction fuel with
  | zero =>
    intro n hn
    have h0 : n = 0 := by omega
    subst h0
    exact ⟨by simp [bitsAux], fun h => absurd rfl h⟩
  | succ fuel ih =>
    intro n hn
    by_cases h0 : n = 0
    · subst h0
      exact ⟨by simp [bitsAux], fun h => absurd rfl h⟩
    · have hstep : bitsAux (fuel + 1) n = bitsAux fuel (n / 2) + 1 := by
        rw [bitsAux, if_neg h0]
      rw [hstep]
      obtain ⟨h1, h2⟩ := ih (n / 2) (by omega)
      rw [pow_succ]
      refine ⟨by omega, fun _ => ?_⟩
      by_cases h3 : n / 2 = 0
      · have hb : bitsAux fuel (n / 2) = 0 := by
          rw [h3]
          cases fuel with
          | zero => rfl
          | succ k => simp [bitsAux]
        rw [hb]
        omega
      · have := h2 h3
        omega

theorem lt_pow_bitLength (n : Nat) : n < 2 ^ bitLength n := (bitsAux_spec n n le_rfl).1

theorem pow_bitLength_le {n : Nat} (h : n ≠ 0) : 2 ^ bitLength n ≤ 2 * n :=
  (bitsAux_spec n n le_rfl).2 h

theorem roundHalfEven_error (a b : Nat) (hb : 0 < b) :
    |(roundHalfEven a b : ℚ) - (a : ℚ) / b| ≤ 1 / 2 := by
  have hbq : (0 : ℚ) < b := by exact_mod_cast hb
  have hdiv : (a : ℚ) / b = (a / b : ℕ) + ((a % b : ℕ) : ℚ) / b := by
    have h := Nat.div_add_mod a b
    have hq : ((b * (a / b) + a % b : ℕ) : ℚ) = a := by exact_mod_cast h
    rw [← hq]
    push_cast
    field_simp
    ring
  have hr : ((a % b : ℕ) : ℚ) < b := by exact_mod_cast Nat.mod_lt a hb
  have hr0 : (0 : ℚ) ≤ ((a % b : ℕ) : ℚ) := by positivity
  have hfrac0 : (0 : ℚ) ≤ ((a % b : ℕ) : ℚ) / b := by positivity
  unfold roundHalfEven
  dsimp only
  by_cases h1 : 2 * (a % b) < b
  · rw [if_pos h1, hdiv]
    have h1q : (2 : ℚ) * ((a % b : ℕ) : ℚ) < b := by exact_mod_cast h1
    have hf : ((a % b : ℕ) : ℚ) / b ≤ 1 / 2 := by
      rw [div_le_iff₀ hbq]
      linarith
    rw [abs_le]
    constructor <;> linarith
  · rw [if_neg h1]
    by_cases h2 : b < 2 * (a % b)
    · rw [if_pos h2, hdiv]
      have h2q : (b : ℚ) < 2 * ((a % b : ℕ) : ℚ) := by exact_mod_cast h2
      have hf : (1 : ℚ) / 2 ≤ ((a % b : ℕ) : ℚ) / b := by
        rw [le_div_iff₀ hbq]
        linarith
      have hf1 : ((a % b : ℕ) : ℚ) / b ≤ 1 := by
        rw [div_le_iff₀ hbq]
        linarith
      push_cast
      rw [abs_le]
      constructor <;> linarith
    · rw [if_neg h2]
      have h3 : 2 * (a % b) = b := by omega
      have h3q : (2 : ℚ) * ((a % b : ℕ) : ℚ) = b := by exact_mod_cast h3
      have hf : ((a % b : ℕ) : ℚ) / b = 1 / 2 := by
        rw [div_eq_iff (ne_of_gt hbq)]
        linarith
      by_cases h4 : a / b % 2 = 0
      · rw [if_pos h4, hdiv, hf]
        rw [abs_le]
        constructor <;> linarith
      · rw [if_neg h4, hdiv, hf]
        push_cast
        rw [abs_le]
        constructor <;> linarith

theorem scaled_error {m Q σ x : ℚ} (hm : |m - Q| ≤ 1 / 2) (hQ : 2 ^ 52 ≤ Q) (hσ : 0 < σ)
    (hx : Q * σ = x) : |m * σ - x| ≤ x / 2 ^ 53 := by
  have h1 : m * σ - x = (m - Q) * σ := by rw [← hx]; ring
  rw [h1, abs_mul, abs_of_pos hσ]
  have h2 : |m - Q| * σ ≤ 1 / 2 * σ := mul_le_mul_of_nonneg_right hm (le_of_lt hσ)
  have h3 : (1 : ℚ) / 2 * σ ≤ x / 2 ^ 53 := by
    rw [← hx, le_div_iff₀ (by positivity)]
    have : (2 : ℚ) ^ 52 * σ ≤ Q * σ := mul_le_mul_of_nonneg_right hQ (le_of_lt hσ)
    have e : (1 : ℚ) / 2 * σ * 2 ^ 53 = 2 ^ 52 * σ := by norm_num; ring
    rw [e]
    exact this
  exact le_trans h2 h3

theorem Float64.round_error (a b : Nat) (e : Int) (hb : 0 < b) :
    |(Float64.round a b e).toRat - (a : ℚ) / b * 2 ^ e| ≤ (a : ℚ) / b * 2 ^ e / 2 ^ 53 := by
  have hbq : (0 : ℚ) < b := by exact_mod_cast hb
  have h2 : (2 : ℚ) ≠ 0 := by norm_num
  by_cases ha : a = 0
  · subst ha
    simp [Float64.round, Float64.toRat]
  have hb0 : b ≠ 0 := by omega
  have haq : (0 : ℚ) < a := by exact_mod_cast Nat.pos_of_ne_zero ha
  have hla := pow_bitLength_le ha
  have hlb := lt_pow_bitLength b
  have hBpos : 0 < b * 2 ^ bitLength a := Nat.mul_pos hb (by positivity)
  have hlow : 2 ^ 52 * (b * 2 ^ bitLength a) ≤ a * 2 ^ (bitLength b + 53) := by
    have h1 : b * 2 ^ bitLength a ≤ 2 ^ bitLength b * (2 * a) :=
      Nat.mul_le_mul (le_of_lt hlb) hla
    calc 2 ^ 52 * (b * 2 ^ bitLength a) ≤ 2 ^ 52 * (2 ^ bitLength b * (2 * a)) :=
          Nat.mul_le_mul_left _ h1
      _ = a * 2 ^ (bitLength b + 53) := by rw [pow_add]; ring
  unfold Float64.round
  rw [if_neg (by rintro (h | h) <;> contradiction)]
  dsimp only
  by_cases hc : a * 2 ^ (bitLength b + 53) < 2 ^ 53 * (b * 2 ^ bitLength a)
  · rw [if_pos hc]
    unfold Float64.toRat
    dsimp only
    refine scaled_error (roundHalfEven_error _ _ hBpos) ?_ (by positivity) ?_
    · rw [le_div_iff₀ (by exact_mod_cast hBpos)]
      exact_mod_cast hlow
    · rw [zpow_sub₀ h2, zpow_sub₀ h2, zpow_add₀ h2]
      push_cast
      simp only [zpow_natCast]
      have h53 : (2 : ℚ) ^ (53 : ℤ) = 2 ^ 53 := by norm_cast
      rw [h53, pow_add]
      field_simp
      ring
  · rw [if_neg hc]
    unfold Float64.toRat
    dsimp only
    have hB2 : 0 < 2 * (b * 2 ^ bitLength a) := by omega
    refine scaled_error (roundHalfEven_error _ _ hB2) ?_ (by positivity) ?_
    · rw [le_div_iff₀ (by exact_mod_cast hB2)]
      have : 2 ^ 52 * (2 * (b * 2 ^ bitLength a)) ≤ a * 2 ^ (bitLength b + 53) := by omega
      exact_mod_cast this
    · rw [zpow_sub₀ h2, zpow_sub₀ h2, zpow_add₀ h2, zpow_add₀ h2]
      push_cast
      simp only [zpow_natCast, zpow_one]
      have h53 : (2 : ℚ) ^ (53 : ℤ) = 2 ^ 53 := by norm_cast
      rw [h53, pow_add]
      field_simp
      ring

theorem Float64.toRat_nonneg (x : Float64) : 0 ≤ x.toRat := by
  unfold Float64.toRat
  positivity

theorem Float64.round_near (a b : Nat) (e : Int) (hb : 0 < b) :
    (a : ℚ) / b * 2 ^ e * (1 - 1 / 2 ^ 53) ≤ (Float64.round a b e).toRat ∧
      (Float64.round a b e).toRat ≤ (a : ℚ) / b * 2 ^ e * (1 + 1 / 2 ^ 53) := by
  have h := abs_le.1 (Float64.round_error a b e hb)
  constructor
  · linarith [h.1]
  · linarith [h.2]

theorem Float64.ofInt_near (n : Nat) :
    (n : ℚ) * (1 - 1 / 2 ^ 53) ≤ (Float64.ofInt n).toRat ∧
      (Float64.ofInt n).toRat ≤ (n : ℚ) * (1 + 1 / 2 ^ 53) := by
  have h := Float64.round_near n 1 0 Nat.one_pos
  simpa [Float64.ofInt] using h

theorem Float64.mant_pos {x : Float64} (h : 0 < x.toRat) : 0 < x.mant := by
  rcases Nat.eq_zero_or_pos x.mant with h0 | h0
  · exfalso
    unfold Float64.toRat at h
    rw [h0] at h
    simp at h
  · exact h0

theorem Float64.div_near (x y : Float64) (hy : 0 < y.toRat) :
    x.toRat / y.toRat * (1 - 1 / 2 ^ 53) ≤ (Float64.div x y).toRat ∧
      (Float64.div x y).toRat ≤ x.toRat / y.toRat * (1 + 1 / 2 ^ 53) := by
  have hm := Float64.mant_pos hy
  have hmq : (0 : ℚ) < y.mant := by exact_mod_cast hm
  have h := Float64.round_near x.mant y.mant (x.exp - y.exp) hm
  have e : (x.mant : ℚ) / y.mant * 2 ^ (x.exp - y.exp) = x.toRat / y.toRat := by
    unfold Float64.toRat
    rw [zpow_sub₀ (by norm_num : (2 : ℚ) ≠ 0)]
    have h2 : (2 : ℚ) ^ y.exp ≠ 0 := by positivity
    field_simp
  rw [e] at h
  exact h

theorem Float64.mul_near (x y : Float64) :
    x.toRat * y.toRat * (1 - 1 / 2 ^ 53) ≤ (Float64.mul x y).toRat ∧
      (Float64.mul x y).toRat ≤ x.toRat * y.toRat * (1 + 1 / 2 ^ 53) := by
  have h := Float64.round_near (x.mant * y.mant) 1 (x.exp + y.exp) Nat.one_pos
  have e : ((x.mant * y.mant : ℕ) : ℚ) / (1 : ℕ) * 2 ^ (x.exp + y.exp) = x.toRat * y.toRat := by
    unfold Float64.toRat
    rw [zpow_add₀ (by norm_num : (2 : ℚ) ≠ 0)]
    push_cast
    ring
  rw [e] at h
  exact h

theorem Float64.shift_exp (m : Nat) (a e : Int) (h : e ≤ a) :
    ((m * 2 ^ (a - e).toNat : ℕ) : ℚ) * 2 ^ e = (m : ℚ) * 2 ^ a := by
  have h0 : (0 : ℤ) ≤ a - e := by omega
  have h1 : (2 : ℚ) ^ (a - e).toNat = 2 ^ (a - e) := by
    rw [← zpow_natCast, Int.toNat_of_nonneg h0]
  push_cast
  rw [h1, mul_assoc, ← zpow_add₀ (by norm_num : (2 : ℚ) ≠ 0)]
  congr 2
  omega

theorem Float64.add_near (x y : Float64) :
    (x.toRat + y.toRat) * (1 - 1 / 2 ^ 53) ≤ (Float64.add x y).toRat ∧
      (Float64.add x y).toRat ≤ (x.toRat + y.toRat) * (1 + 1 / 2 ^ 53) := by
  have h := Float64.round_near
    (x.mant * 2 ^ (x.exp - min x.exp y.exp).toNat + y.mant * 2 ^ (y.exp - min x.exp y.exp).toNat)
    1 (min x.exp y.exp) Nat.one_pos
  have e : ((x.mant * 2 ^ (x.exp - min x.exp y.exp).toNat +
      y.mant * 2 ^ (y.exp - min x.exp y.exp).toNat : ℕ) : ℚ) / (1 : ℕ) *
        2 ^ (min x.exp y.exp) = x.toRat + y.toRat := by
    have hx := Float64.shift_exp x.mant x.exp (min x.exp y.exp) (min_le_left _ _)
    have hy := Float64.shift_exp y.mant y.exp (min x.exp y.exp) (min_le_right _ _)
    unfold Float64.toRat
    rw [← hx, ← hy]
    push_cast
    ring
  rw [e] at h
  exact h

theorem Float64.toInt_floor (x : Float64) :
    (Float64.toInt x : ℚ) ≤ x.toRat ∧ x.toRat < (Float64.toInt x : ℚ) + 1 := by
  unfold Float64.toInt Float64.toRat
  by_cases h : 0 ≤ x.exp
  · rw [if_pos h]
    have h1 : (2 : ℚ) ^ x.exp.toNat = 2 ^ x.exp := by
      rw [← zpow_natCast, Int.toNat_of_nonneg h]
    push_cast
    rw [h1]
    constructor
    · exact le_rfl
    · linarith
  · rw [if_neg h]
    have h0 : (0 : ℤ) ≤ -x.exp := by omega
    have h1 : (2 : ℚ) ^ x.exp = 1 / 2 ^ (-x.exp).toNat := by
      rw [← zpow_natCast, Int.toNat_of_nonneg h0, zpow_neg]
      simp
    have hpos : 0 < 2 ^ (-x.exp).toNat := by positivity
    have hposq : (0 : ℚ) < ((2 ^ (-x.exp).toNat : ℕ) : ℚ) := by exact_mod_cast hpos
    have hd : (x.mant : ℚ) * 2 ^ x.exp = (x.mant : ℚ) / ((2 ^ (-x.exp).toNat : ℕ) : ℚ) := by
      rw [h1]
      push_cast
      ring
    rw [hd]
    constructor
    · rw [le_div_iff₀ hposq]
      exact_mod_cast Nat.div_mul_le_self _ _
    · rw [div_lt_iff₀ hposq]
      have := Nat.lt_div_mul_add (a := x.mant) hpos
      have h3 : x.mant < (x.mant / 2 ^ (-x.exp).toNat + 1) * 2 ^ (-x.exp).toNat := by
        rw [Nat.add_mul, Nat.one_mul]
        exact this
      exact_mod_cast h3

theorem percentUnits_near (v total : Nat) (ht : 0 < total) (hv : v ≤ total) :
    10000 * (v : ℚ) / total + 1 / 2 - 1 / 10 ^ 11 - 1 < (percentUnits v total : ℚ) ∧
      (percentUnits v total : ℚ) ≤ 10000 * (v : ℚ) / total + 1 / 2 + 1 / 10 ^ 11 := by
  have htq : (0 : ℚ) < total := by exact_mod_cast ht
  have hvq : (v : ℚ) ≤ total := by exact_mod_cast hv
  have hv0 : (0 : ℚ) ≤ v := by positivity
  have hx0 : (0 : ℚ) ≤ (v : ℚ) / total := by positivity
  have hx1 : (v : ℚ) / total ≤ 1 := by
    rw [div_le_iff₀ htq]
    linarith
  obtain ⟨fvl, fvu⟩ := Float64.ofInt_near v
  obtain ⟨ftl, ftu⟩ := Float64.ofInt_near total
  have hu1 : (0 : ℚ) < 1 - 1 / 2 ^ 53 := by norm_num
  have hu2 : (0 : ℚ) < 1 + 1 / 2 ^ 53 := by norm_num
  have hftpos : 0 < (Float64.ofInt total).toRat :=
    lt_of_lt_of_le (mul_pos htq hu1) ftl
  have hfv0 := Float64.toRat_nonneg (Float64.ofInt v)
  obtain ⟨ql, qu⟩ := Float64.div_near (Float64.ofInt v) (Float64.ofInt total) hftpos
  have hq0 := Float64.toRat_nonneg (Float64.div (Float64.ofInt v) (Float64.ofInt total))
  -- the quotient of the two converted counts
  have hru : (Float64.ofInt v).toRat / (Float64.ofInt total).toRat ≤
      (v : ℚ) / total * ((1 + 1 / 2 ^ 53) / (1 - 1 / 2 ^ 53)) := by
    have h1 : (Float64.ofInt v).toRat / (Float64.ofInt total).toRat ≤
        ((v : ℚ) * (1 + 1 / 2 ^ 53)) / ((total : ℚ) * (1 - 1 / 2 ^ 53)) :=
      div_le_div₀ (by positivity) fvu (mul_pos htq hu1) ftl
    have h2 : ((v : ℚ) * (1 + 1 / 2 ^ 53)) / ((total : ℚ) * (1 - 1 / 2 ^ 53)) =
        (v : ℚ) / total * ((1 + 1 / 2 ^ 53) / (1 - 1 / 2 ^ 53)) := by
      field_simp
    rw [h2] at h1
    exact h1
  have hrl : (v : ℚ) / total * ((1 - 1 / 2 ^ 53) / (1 + 1 / 2 ^ 53)) ≤
      (Float64.ofInt v).toRat / (Float64.ofInt total).toRat := by
    have h1 : ((v : ℚ) * (1 - 1 / 2 ^ 53)) / ((total : ℚ) * (1 + 1 / 2 ^ 53)) ≤
        (Float64.ofInt v).toRat / (Float64.ofInt total).toRat :=
      div_le_div₀ hfv0 fvl hftpos ftu
    have h2 : ((v : ℚ) * (1 - 1 / 2 ^ 53)) / ((total : ℚ) * (1 + 1 / 2 ^ 53)) =
        (v : ℚ) / total * ((1 - 1 / 2 ^ 53) / (1 + 1 / 2 ^ 53)) := by
      field_simp
    rw [h2] at h1
    exact h1
  obtain ⟨pl, pu⟩ := Float64.mul_near
    (Float64.div (Float64.ofInt v) (Float64.ofInt total)) ⟨100, 0⟩
  obtain ⟨yl, yu⟩ := Float64.mul_near
    (Float64.mul (Float64.div (Float64.ofInt v) (Float64.ofInt total)) ⟨100, 0⟩) ⟨100, 0⟩
  obtain ⟨zl, zu⟩ := Float64.add_near
    (Float64.mul (Float64.mul (Float64.div (Float64.ofInt v) (Float64.ofInt total)) ⟨100, 0⟩)
      ⟨100, 0⟩) ⟨1, -1⟩
  obtain ⟨nl, nu⟩ := Float64.toInt_floor
    (Float64.add (Float64.mul (Float64.mul (Float64.div (Float64.ofInt v) (Float64.ofInt total))
      ⟨100, 0⟩) ⟨100, 0⟩) ⟨1, -1⟩)
  have h100 : (⟨100, 0⟩ : Float64).toRat = 100 := by norm_num [Float64.toRat]
  have hhalf : (⟨1, -1⟩ : Float64).toRat = 1 / 2 := by norm_num [Float64.toRat]
  rw [h100] at pl pu yl yu
  rw [hhalf] at zl zu
  have hp0 := Float64.toRat_nonneg
    (Float64.mul (Float64.div (Float64.ofInt v) (Float64.ofInt total)) ⟨100, 0⟩)
  have hy0 := Float64.toRat_nonneg
    (Float64.mul (Float64.mul (Float64.div (Float64.ofInt v) (Float64.ofInt total)) ⟨100, 0⟩)
      ⟨100, 0⟩)
  generalize (Float64.ofInt v).toRat / (Float64.ofInt total).toRat = r at ql qu hru hrl
  generalize (Float64.div (Float64.ofInt v) (Float64.ofInt total)).toRat = q at ql qu pl pu hq0
  generalize (Float64.mul (Float64.div (Float64.ofInt v) (Float64.ofInt total))
    ⟨100, 0⟩).toRat = p at pl pu yl yu hp0
  generalize (Float64.mul (Float64.mul (Float64.div (Float64.ofInt v) (Float64.ofInt total))
    ⟨100, 0⟩) ⟨100, 0⟩).toRat = y at yl yu zl zu hy0
  generalize (Float64.add (Float64.mul (Float64.mul (Float64.div (Float64.ofInt v)
    (Float64.ofInt total)) ⟨100, 0⟩) ⟨100, 0⟩) ⟨1, -1⟩).toRat = z at zl zu nl nu
  have hn : (percentUnits v total : ℚ) ≤ z ∧ z < (percentUnits v total : ℚ) + 1 := ⟨nl, nu⟩
  generalize (percentUnits v total : ℚ) = n at hn ⊢
  have e1 : 10000 * (v : ℚ) / total = 10000 * ((v : ℚ) / total) := by ring
  rw [e1]
  generalize (v : ℚ) / total = x at hx0 hx1 hru hrl
  -- upper bounds
  have qU : q ≤ x * ((1 + 1 / 2 ^ 53) ^ 2 / (1 - 1 / 2 ^ 53)) := by
    calc q ≤ r * (1 + 1 / 2 ^ 53) := qu
      _ ≤ x * ((1 + 1 / 2 ^ 53) / (1 - 1 / 2 ^ 53)) * (1 + 1 / 2 ^ 53) :=
          mul_le_mul_of_nonneg_right hru (le_of_lt hu2)
      _ = x * ((1 + 1 / 2 ^ 53) ^ 2 / (1 - 1 / 2 ^ 53)) := by ring
  have pU : p ≤ x * (100 * (1 + 1 / 2 ^ 53) ^ 3 / (1 - 1 / 2 ^ 53)) := by
    calc p ≤ q * 100 * (1 + 1 / 2 ^ 53) := pu
      _ ≤ x * ((1 + 1 / 2 ^ 53) ^ 2 / (1 - 1 / 2 ^ 53)) * 100 * (1 + 1 / 2 ^ 53) :=
          mul_le_mul_of_nonneg_right (mul_le_mul_of_nonneg_right qU (by norm_num))
            (le_of_lt hu2)
      _ = x * (100 * (1 + 1 / 2 ^ 53) ^ 3 / (1 - 1 / 2 ^ 53)) := by ring
  have yU : y ≤ x * (10000 * (1 + 1 / 2 ^ 53) ^ 4 / (1 - 1 / 2 ^ 53)) := by
    calc y ≤ p * 100 * (1 + 1 / 2 ^ 53) := yu
      _ ≤ x * (100 * (1 + 1 / 2 ^ 53) ^ 3 / (1 - 1 / 2 ^ 53)) * 100 * (1 + 1 / 2 ^ 53) :=
          mul_le_mul_of_nonneg_right (mul_le_mul_of_nonneg_right pU (by norm_num))
            (le_of_lt hu2)
      _ = x * (10000 * (1 + 1 / 2 ^ 53) ^ 4 / (1 - 1 / 2 ^ 53)) := by ring
  have zU : z ≤ x * (10000 * (1 + 1 / 2 ^ 53) ^ 5 / (1 - 1 / 2 ^ 53)) +
      1 / 2 * (1 + 1 / 2 ^ 53) := by
    calc z ≤ (y + 1 / 2) * (1 + 1 / 2 ^ 53) := zu
      _ ≤ (x * (10000 * (1 + 1 / 2 ^ 53) ^ 4 / (1 - 1 / 2 ^ 53)) + 1 / 2) *
            (1 + 1 / 2 ^ 53) :=
          mul_le_mul_of_nonneg_right (by linarith) (le_of_lt hu2)
      _ = x * (10000 * (1 + 1 / 2 ^ 53) ^ 5 / (1 - 1 / 2 ^ 53)) +
            1 / 2 * (1 + 1 / 2 ^ 53) := by ring
  -- lower bounds
  have qL : x * ((1 - 1 / 2 ^ 53) ^ 2 / (1 + 1 / 2 ^ 53)) ≤ q := by
    calc x * ((1 - 1 / 2 ^ 53) ^ 2 / (1 + 1 / 2 ^ 53))
        = x * ((1 - 1 / 2 ^ 53) / (1 + 1 / 2 ^ 53)) * (1 - 1 / 2 ^ 53) := by ring
      _ ≤ r * (1 - 1 / 2 ^ 53) := mul_le_mul_of_nonneg_right hrl (le_of_lt hu1)
      _ ≤ q := ql
  have pL : x * (100 * (1 - 1 / 2 ^ 53) ^ 3 / (1 + 1 / 2 ^ 53)) ≤ p := by
    calc x * (100 * (1 - 1 / 2 ^ 53) ^ 3 / (1 + 1 / 2 ^ 53))
        = x * ((1 - 1 / 2 ^ 53) ^ 2 / (1 + 1 / 2 ^ 53)) * 100 * (1 - 1 / 2 ^ 53) := by ring
      _ ≤ q * 100 * (1 - 1 / 2 ^ 53) :=
          mul_le_mul_of_nonneg_right (mul_le_mul_of_nonneg_right qL (by norm_num))
            (le_of_lt hu1)
      _ ≤ p := pl
  have yL : x * (10000 * (1 - 1 / 2 ^ 53) ^ 4 / (1 + 1 / 2 ^ 53)) ≤ y := by
    calc x * (10000 * (1 - 1 / 2 ^ 53) ^ 4 / (1 + 1 / 2 ^ 53))
        = x * (100 * (1 - 1 / 2 ^ 53) ^ 3 / (1 + 1 / 2 ^ 53)) * 100 * (1 - 1 / 2 ^ 53) := by
          ring
      _ ≤ p * 100 * (1 - 1 / 2 ^ 53) :=
          mul_le_mul_of_nonneg_right (mul_le_mul_of_nonneg_right pL (by norm_num))
            (le_of_lt hu1)
      _ ≤ y := yl
  have zL : x * (10000 * (1 - 1 / 2 ^ 53) ^ 5 / (1 + 1 / 2 ^ 53)) +
      1 / 2 * (1 - 1 / 2 ^ 53) ≤ z := by
    calc x * (10000 * (1 - 1 / 2 ^ 53) ^ 5 / (1 + 1 / 2 ^ 53)) + 1 / 2 * (1 - 1 / 2 ^ 53)
        = (x * (10000 * (1 - 1 / 2 ^ 53) ^ 4 / (1 + 1 / 2 ^ 53)) + 1 / 2) *
            (1 - 1 / 2 ^ 53) := by ring
      _ ≤ (y + 1 / 2) * (1 - 1 / 2 ^ 53) :=
          mul_le_mul_of_nonneg_right (by linarith) (le_of_lt hu1)
      _ ≤ z := zl
  -- the constants
  have kU0 : (0 : ℚ) ≤ 10000 * (1 + 1 / 2 ^ 53) ^ 5 / (1 - 1 / 2 ^ 53) - 10000 := by norm_num
  have kU : (10000 : ℚ) * (1 + 1 / 2 ^ 53) ^ 5 / (1 - 1 / 2 ^ 53) - 10000 +
      1 / 2 * (1 / 2 ^ 53) ≤ 1 / 10 ^ 11 := by norm_num
  have kL0 : (0 : ℚ) ≤ 10000 - 10000 * (1 - 1 / 2 ^ 53) ^ 5 / (1 + 1 / 2 ^ 53) := by norm_num
  have kL : (10000 : ℚ) - 10000 * (1 - 1 / 2 ^ 53) ^ 5 / (1 + 1 / 2 ^ 53) +
      1 / 2 * (1 / 2 ^ 53) ≤ 1 / 10 ^ 11 := by norm_num
  have mU := mul_le_mul_of_nonneg_right hx1 kU0
  have mL := mul_le_mul_of_nonneg_right hx1 kL0
  constructor
  · linarith [hn.2]
  · linarith [hn.1]

theorem percent_zero_total (v : Nat) : percent v 0 = 0 := by
  simp [percent, percentFloat, Float64.toRat]

theorem percent_pos_total (v total : Nat) (h : 0 < total) :
    percent v total =
      (Float64.div (Float64.ofInt (percentUnits v total)) ⟨100, 0⟩).toRat := by
  unfold percent percentFloat
  rw [if_pos h]

theorem percentUnits_le (v total : Nat) (ht : 0 < total) (hv : v ≤ total) :
    percentUnits v total ≤ 10000 := by
  have h := (percentUnits_near v total ht hv).2
  have htq : (0 : ℚ) < total := by exact_mod_cast ht
  have hvq : (v : ℚ) ≤ total := by exact_mod_cast hv
  have hx : 10000 * (v : ℚ) / total ≤ 10000 := by
    rw [div_le_iff₀ htq]
    linarith
  have h1 : (percentUnits v total : ℚ) < 10001 := by
    have : (1 : ℚ) / 10 ^ 11 < 1 / 2 := by norm_num
    linarith
  have h2 : percentUnits v total < 10001 := by exact_mod_cast h1
  omega

theorem percentUnits_floor (v total : Nat) (ht : 0 < total) (hv : v ≤ total) :
    ⌊10000 * (v : ℚ) / total + 1 / 2 - 1 / 10 ^ 11⌋ ≤ (percentUnits v total : ℤ) ∧
      (percentUnits v total : ℤ) ≤ ⌊10000 * (v : ℚ) / total + 1 / 2 + 1 / 10 ^ 11⌋ := by
  obtain ⟨h1, h2⟩ := percentUnits_near v total ht hv
  constructor
  · have h3 : ⌊10000 * (v : ℚ) / total + 1 / 2 - 1 / 10 ^ 11⌋ < (percentUnits v total : ℤ) + 1 := by
      rw [Int.floor_lt]
      push_cast
      linarith
    omega
  · rw [Int.le_floor]
    push_cast
    exact h2

theorem hundred_exact :
    (Float64.div (Float64.ofInt 10000) ⟨100, 0⟩).toRat = 100 := by
  have h : Float64.div (Float64.ofInt 10000) ⟨100, 0⟩ = ⟨7036874417766400, -46⟩ := by
    set_option maxRecDepth 100000 in decide
  rw [h]
  norm_num [Float64.toRat]

theorem percent_near_units (v total : Nat) (ht : 0 < total) (hv : v ≤ total) :
    |percent v total - (percentUnits v total : ℚ) / 100| ≤ 1 / 10 ^ 13 ∧
      0 ≤ percent v total ∧ percent v total ≤ 100 := by
  have hn := percentUnits_le v total ht hv
  rw [percent_pos_total v total ht]
  obtain ⟨ol, ou⟩ := Float64.ofInt_near (percentUnits v total)
  have h100 : (⟨100, 0⟩ : Float64).toRat = 100 := by norm_num [Float64.toRat]
  obtain ⟨dl, du⟩ := Float64.div_near (Float64.ofInt (percentUnits v total)) ⟨100, 0⟩
    (by rw [h100]; norm_num)
  rw [h100] at dl du
  have hd0 := Float64.toRat_nonneg (Float64.div (Float64.ofInt (percentUnits v total)) ⟨100, 0⟩)
  have ho0 := Float64.toRat_nonneg (Float64.ofInt (percentUnits v total))
  have hu1 : (0 : ℚ) < 1 - 1 / 2 ^ 53 := by norm_num
  have hu2 : (0 : ℚ) < 1 + 1 / 2 ^ 53 := by norm_num
  have hnq : (percentUnits v total : ℚ) ≤ 10000 := by exact_mod_cast hn
  have hn0 : (0 : ℚ) ≤ (percentUnits v total : ℚ) := by positivity
  have hle : (Float64.div (Float64.ofInt (percentUnits v total)) ⟨100, 0⟩).toRat ≤ 100 := by
    rcases Nat.lt_or_ge (percentUnits v total) 10000 with hlt | hge
    · have hq : (percentUnits v total : ℚ) ≤ 9999 := by
        have : percentUnits v total ≤ 9999 := by omega
        exact_mod_cast this
      have h1 : (Float64.ofInt (percentUnits v total)).toRat / 100 * (1 + 1 / 2 ^ 53) ≤
          (percentUnits v total : ℚ) * (1 + 1 / 2 ^ 53) / 100 * (1 + 1 / 2 ^ 53) :=
        mul_le_mul_of_nonneg_right (by linarith) (le_of_lt hu2)
      have h2 : (percentUnits v total : ℚ) * (1 + 1 / 2 ^ 53) / 100 * (1 + 1 / 2 ^ 53) ≤
          9999 * (1 + 1 / 2 ^ 53) / 100 * (1 + 1 / 2 ^ 53) := by
        have := mul_le_mul_of_nonneg_right hq
          (by positivity : (0 : ℚ) ≤ (1 + 1 / 2 ^ 53) / 100 * (1 + 1 / 2 ^ 53))
        linarith
      have h3 : (9999 : ℚ) * (1 + 1 / 2 ^ 53) / 100 * (1 + 1 / 2 ^ 53) ≤ 100 := by norm_num
      linarith
    · have he : percentUnits v total = 10000 := by omega
      rw [he, hundred_exact]
  refine ⟨?_, hd0, hle⟩
  generalize (Float64.div (Float64.ofInt (percentUnits v total)) ⟨100, 0⟩).toRat = d
    at dl du hd0 hle ⊢
  generalize (Float64.ofInt (percentUnits v total)).toRat = o at ol ou dl du ho0
  generalize (percentUnits v total : ℚ) = n at ol ou hnq hn0 ⊢
  have dU : d ≤ n * ((1 + 1 / 2 ^ 53) ^ 2 / 100) := by
    calc d ≤ o / 100 * (1 + 1 / 2 ^ 53) := du
      _ ≤ n * (1 + 1 / 2 ^ 53) / 100 * (1 + 1 / 2 ^ 53) :=
          mul_le_mul_of_nonneg_right (by linarith) (le_of_lt hu2)
      _ = n * ((1 + 1 / 2 ^ 53) ^ 2 / 100) := by ring
  have dL : n * ((1 - 1 / 2 ^ 53) ^ 2 / 100) ≤ d := by
    calc n * ((1 - 1 / 2 ^ 53) ^ 2 / 100)
        = n * (1 - 1 / 2 ^ 53) / 100 * (1 - 1 / 2 ^ 53) := by ring
      _ ≤ o / 100 * (1 - 1 / 2 ^ 53) :=
          mul_le_mul_of_nonneg_right (by linarith) (le_of_lt hu1)
      _ ≤ d := dl
  have kU0 : (0 : ℚ) ≤ (1 + 1 / 2 ^ 53) ^ 2 / 100 - 1 / 100 := by norm_num
  have kU : (10000 : ℚ) * ((1 + 1 / 2 ^ 53) ^ 2 / 100 - 1 / 100) ≤ 1 / 10 ^ 13 := by norm_num
  have kL0 : (0 : ℚ) ≤ 1 / 100 - (1 - 1 / 2 ^ 53) ^ 2 / 100 := by norm_num
  have kL : (10000 : ℚ) * (1 / 100 - (1 - 1 / 2 ^ 53) ^ 2 / 100) ≤ 1 / 10 ^ 13 := by norm_num
  have mU := mul_le_mul_of_nonneg_right hnq kU0
  have mL := mul_le_mul_of_nonneg_right hnq kL0
  rw [abs_le]
  constructor <;> linarith

theorem percent_error (v total : Nat) (ht : 0 < total) (hv : v ≤ total) :
    |percent v total - 100 * (v : ℚ) / total| ≤ 5 / 1000 + 1 / 10 ^ 12 := by
  obtain ⟨h1, -, -⟩ := percent_near_units v total ht hv
  obtain ⟨h2, h3⟩ := percentUnits_near v total ht hv
  have h4 := abs_le.1 h1
  have e : 100 * (v : ℚ) / total = (10000 * (v : ℚ) / total) / 100 := by ring
  rw [e, abs_le]
  have k1 : (1 : ℚ) / 10 ^ 13 + (1 / 2 + 1 / 10 ^ 11) / 100 ≤ 5 / 1000 + 1 / 10 ^ 12 := by
    norm_num
  constructor <;> linarith [h4.1, h4.2]

/-! ## Percentages of the statistics -/

theorem stats_entry_le_total (lower : Char → Char) (parentID : String) (all : List Node)
    {e : FolderStat} (he : e ∈ (statsResponse lower parentID all).Stats) :
    e.Count ≤ all.length := by
  rw [stats_entry_count lower parentID all he]
  exact List.countP_le_length _

theorem stats_entry_percent (lower : Char → Char) (parentID : String) (all : List Node)
    {e : FolderStat} (he : e ∈ (statsResponse lower parentID all).Stats) :
    e.Percent = percent e.Count all.length := by
  simp only [statsResponse, buildStats, List.mem_map] at he
  obtain ⟨kv, -, rfl⟩ := he
  rfl

theorem tieGathered_stats :
    (statsResponse Char.toLower "" tieGathered).Stats =
      [⟨"folder", 23, percent 23 160⟩, ⟨"txt", 137, percent 137 160⟩] := by
  have h : countKeys Char.toLower tieGathered = [("folder", 23), ("txt", 137)] := by
    set_option maxRecDepth 100000 in decide
  have hl : tieGathered.length = 160 := by
    set_option maxRecDepth 100000 in decide
  simp only [statsResponse, buildStats, h, hl, List.map_cons, List.map_nil]

theorem splitGathered_stats :
    (statsResponse Char.toLower "" splitGathered).Stats =
      [⟨"folder", 13, percent 13 32⟩, ⟨"txt", 19, percent 19 32⟩] := by
  have h : countKeys Char.toLower splitGathered = [("folder", 13), ("txt", 19)] := by
    set_option maxRecDepth 100000 in decide
  have hl : splitGathered.length = 32 := by
    set_option maxRecDepth 100000 in decide
  simp only [statsResponse, buildStats, h, hl, List.map_cons, List.map_nil]

theorem percent_23_160 : percent 23 160 = 8089590830664253 / 562949953421312 := by
  have h : percentFloat 23 160 = ⟨8089590830664253, -49⟩ := by
    set_option maxRecDepth 100000 in decide
  unfold percent
  rw [h]
  norm_num [Float64.toRat]

theorem percent_13_32 : percent 13 32 = 5718164151876977 / 140737488355328 := by
  have h : percentFloat 13 32 = ⟨5718164151876977, -47⟩ := by
    set_option maxRecDepth 100000 in decide
  unfold percent
  rw [h]
  norm_num [Float64.toRat]

theorem percent_19_32 : percent 19 32 = 8356992058539377 / 140737488355328 := by
  have h : percentFloat 19 32 = ⟨8356992058539377, -47⟩ := by
    set_option maxRecDepth 100000 in decide
  unfold percent
  rw [h]
  norm_num [Float64.toRat]

/-- C16, as stated, fails: of 160 gathered nodes 23 are folders, so `10000 * 23 / 160 + 1/2`
is exactly 1438; the handler computes in `float64`, where `23 / 160 * 100 * 100 + 0.5` comes
out just below 1438, `int` gives 1437, and `Percent` is the `float64` nearest to 14.37, so
`Percent * 100` is not `floor(10000 * Count / total + 1/2)`. -/
theorem stats_percent_tie_rounds_down :
    ∃ e ∈ (statsResponse Char.toLower "" tieGathered).Stats,
      0 < tieGathered.length ∧ e.Count = 23 ∧ tieGathered.length = 160 ∧
      percentUnits 23 160 = 1437 ∧
      ⌊((10000 * e.Count : ℕ) : ℚ) / tieGathered.length + 1 / 2⌋ = 1438 ∧
      e.Percent = 8089590830664253 / 562949953421312 ∧
      e.Percent * 100 ≠
        ((⌊((10000 * e.Count : ℕ) : ℚ) / tieGathered.length + 1 / 2⌋ : ℤ) : ℚ) := by
  have hl : tieGathered.length = 160 := by
    set_option maxRecDepth 100000 in decide
  have hfl : ⌊((10000 * 23 : ℕ) : ℚ) / (160 : ℕ) + 1 / 2⌋ = 1438 := by
    have e : ((10000 * 23 : ℕ) : ℚ) / (160 : ℕ) + 1 / 2 = ((1438 : ℤ) : ℚ) := by norm_num
    rw [e, Int.floor_intCast]
  refine ⟨⟨"folder", 23, percent 23 160⟩, ?_, ?_, rfl, hl, ?_, ?_, percent_23_160, ?_⟩
  · rw [tieGathered_stats]
    exact List.mem_cons_self _ _
  · rw [hl]
    decide
  · set_option maxRecDepth 100000 in decide
  · rw [hl]
    exact hfl
  · rw [hl]
    show percent 23 160 * 100 ≠ ((⌊((10000 * 23 : ℕ) : ℚ) / (160 : ℕ) + 1 / 2⌋ : ℤ) : ℚ)
    rw [hfl, percent_23_160]
    norm_num

/-- C16 Stats percentage rounding, as amended: for every bucket of the response, when the
total is positive, `Percent` is `float64(n) / 100.0` for the integer `n = int(pct*100+0.5)`
that the handler computes in `float64`; `n` lies between `floor(10000 * Count / total + 1/2 -
10^-11)` and `floor(10000 * Count / total + 1/2 + 10^-11)`, so it is
`floor(10000 * Count / total + 1/2)` unless that number is within `10^-11` of an integer;
`Percent` differs from `n / 100` by at most `10^-13`, and `0 ≤ Percent ≤ 100`; when the
total is zero the percentage is zero. -/
theorem stats_percent_rounding (lower : Char → Char) (parentID : String) (all : List Node)
    (e : FolderStat) (he : e ∈ (statsResponse lower parentID all).Stats) :
    (0 < all.length →
      e.Percent =
        (Float64.div (Float64.ofInt (percentUnits e.Count all.length)) ⟨100, 0⟩).toRat ∧
      ⌊10000 * (e.Count : ℚ) / all.length + 1 / 2 - 1 / 10 ^ 11⌋ ≤
        (percentUnits e.Count all.length : ℤ) ∧
      (percentUnits e.Count all.length : ℤ) ≤
        ⌊10000 * (e.Count : ℚ) / all.length + 1 / 2 + 1 / 10 ^ 11⌋ ∧
      |e.Percent - (percentUnits e.Count all.length : ℚ) / 100| ≤ 1 / 10 ^ 13 ∧
      0 ≤ e.Percent ∧ e.Percent ≤ 100) ∧
    (all.length = 0 → e.Percent = 0) := by
  have hle := stats_entry_le_total lower parentID all he
  rw [stats_entry_percent lower parentID all he]
  refine ⟨fun h => ⟨percent_pos_total _ _ h, (percentUnits_floor _ _ h hle).1,
    (percentUnits_floor _ _ h hle).2, percent_near_units _ _ h hle⟩, fun h => ?_⟩
  rw [h]
  exact percent_zero_total _

theorem stats_percent_rounding_witness :
    (0 < sampleGathered.length →
      (⟨"folder", 3, percent 3 7⟩ : FolderStat).Percent =
        (Float64.div (Float64.ofInt (percentUnits (⟨"folder", 3, percent 3 7⟩ : FolderStat).Count
          sampleGathered.length)) ⟨100, 0⟩).toRat ∧
      ⌊10000 * ((⟨"folder", 3, percent 3 7⟩ : FolderStat).Count : ℚ) / sampleGathered.length +
          1 / 2 - 1 / 10 ^ 11⌋ ≤
        (percentUnits (⟨"folder", 3, percent 3 7⟩ : FolderStat).Count
          sampleGathered.length : ℤ) ∧
      (percentUnits (⟨"folder", 3, percent 3 7⟩ : FolderStat).Count
          sampleGathered.length : ℤ) ≤
        ⌊10000 * ((⟨"folder", 3, percent 3 7⟩ : FolderStat).Count : ℚ) / sampleGathered.length +
          1 / 2 + 1 / 10 ^ 11⌋ ∧
      |(⟨"folder", 3, percent 3 7⟩ : FolderStat).Percent -
        (percentUnits (⟨"folder", 3, percent 3 7⟩ : FolderStat).Count
          sampleGathered.length : ℚ) / 100| ≤ 1 / 10 ^ 13 ∧
      0 ≤ (⟨"folder", 3, percent 3 7⟩ : FolderStat).Percent ∧
      (⟨"folder", 3, percent 3 7⟩ : FolderStat).Percent ≤ 100) ∧
    (sampleGathered.length = 0 → (⟨"folder", 3, percent 3 7⟩ : FolderStat).Percent = 0) :=
  stats_percent_rounding Char.toLower "" sampleGathered ⟨"folder", 3, percent 3 7⟩
    (List.mem_cons_self _ _)

theorem buildStats_percent_sum (counts : List (String × Nat)) (total : Nat) (h : 0 < total)
    (hle : ∀ kv ∈ counts, kv.2 ≤ total) :
    |((buildStats counts total).map (fun e => e.Percent)).sum -
      100 * (((counts.map (fun kv => kv.2)).sum : ℕ) : ℚ) / total| ≤
        (counts.length : ℚ) * (5 / 1000 + 1 / 10 ^ 12) := by
  induction counts with
  | nil => simp [buildStats]
  | cons kv rest ih =>
    have h1 := percent_error kv.2 total h (hle kv (List.mem_cons_self _ _))
    have ih1 := ih (fun x hx => hle x (List.mem_cons_of_mem _ hx))
    have e : ((buildStats (kv :: rest) total).map (fun e => e.Percent)).sum -
        100 * ((((kv :: rest).map (fun kv => kv.2)).sum : ℕ) : ℚ) / total =
        (percent kv.2 total - 100 * (kv.2 : ℚ) / total) +
        (((buildStats rest total).map (fun e => e.Percent)).sum -
          100 * (((rest.map (fun kv => kv.2)).sum : ℕ) : ℚ) / total) := by
      simp only [buildStats, List.map_cons, List.sum_cons, List.map_map]
      push_cast
      ring
    rw [e]
    refine le_trans (abs_add _ _) ?_
    simp only [List.length_cons, Nat.cast_add, Nat.cast_one]
    linarith

/-- C17, as stated, fails: of 32 gathered nodes 13 are folders and 19 are files `a.txt`; the
two percentages are the `float64` values nearest to 40.63 and 59.38, and in exact arithmetic
their sum exceeds 100 by more than `2 * 0.005`. -/
theorem percent_sum_exceeds_tolerance :
    0 < splitGathered.length ∧
    (statsResponse Char.toLower "" splitGathered).Stats.length = 2 ∧
    ((statsResponse Char.toLower "" splitGathered).Stats.length : ℚ) * (5 / 1000) <
      |((statsResponse Char.toLower "" splitGathered).Stats.map (fun e => e.Percent)).sum -
        100| := by
  have hl : splitGathered.length = 32 := by
    set_option maxRecDepth 100000 in decide
  refine ⟨by rw [hl]; decide, by rw [splitGathered_stats]; rfl, ?_⟩
  rw [splitGathered_stats]
  simp only [List.map_cons, List.map_nil, List.sum_cons, List.sum_nil, List.length_cons,
    List.length_nil]
  rw [percent_13_32, percent_19_32]
  norm_num [abs_of_pos]

/-- C17 Stats percentages sum to about 100, as amended: for every gathered list with
total > 0, and every order of the buckets, the sum of the `Percent` values, taken in exact
arithmetic, differs from 100 by at most `k * (0.005 + 10^-12)`, `k` the number of buckets:
the rounding tolerance of two decimals plus the error of the `float64` operations. -/
theorem stats_percent_sum (lower : Char → Char) (parentID : String) (all : List Node)
    (stats : List FolderStat) (hpos : 0 < all.length)
    (hperm : stats.Perm (statsResponse lower parentID all).Stats) :
    |(stats.map (fun e => e.Percent)).sum - 100| ≤
      (stats.length : ℚ) * (5 / 1000 + 1 / 10 ^ 12) := by
  have ht : (0 : ℚ) < all.length := by exact_mod_cast hpos
  rw [(hperm.map (fun e => e.Percent)).sum_eq, hperm.length_eq]
  have hle : ∀ kv ∈ countKeys lower all, kv.2 ≤ all.length := by
    intro kv hkv
    have hm : (⟨kv.1, kv.2, percent kv.2 all.length⟩ : FolderStat) ∈
        (statsResponse lower parentID all).Stats := by
      simp only [statsResponse, buildStats, List.mem_map]
      exact ⟨kv, hkv, rfl⟩
    exact stats_entry_le_total lower parentID all hm
  have h := buildStats_percent_sum (countKeys lower all) all.length hpos hle
  rw [countKeys_sum] at h
  have e : 100 * ((all.length : ℕ) : ℚ) / all.length = 100 := by field_simp
  rw [e] at h
  simpa [statsResponse, buildStats] using h

theorem stats_percent_sum_witness :
    |((statsResponse Char.toLower "" sampleGathered).Stats.map (fun e => e.Percent)).sum - 100| ≤
      ((statsResponse Char.toLower "" sampleGathered).Stats.length : ℚ) *
        (5 / 1000 + 1 / 10 ^ 12) :=
  stats_percent_sum Char.toLower "" sampleGathered _ (by decide) (List.Perm.refl _)

/-! ## Blob-deletion failures and the logical deletion -/

theorem logical_deleteNode {w w1 : World} (h : w.logical = w1.logical) (id : String) :
    (w.deleteNode id).logical = (w1.deleteNode id).logical := by
  have hn : w.nodes = w1.nodes := congrArg Prod.fst h
  have ht : w.trace = w1.trace := congrArg Prod.snd h
  unfold World.deleteNode
  rw [hn]
  cases DeleteNode w1.nodes id <;> simp [World.logical, ht]

theorem logical_deleteFileWith (fails : BlobFailures) {w w1 : World}
    (h : w.logical = w1.logical) (path : String) :
    (w.deleteFileWith fails path).logical = (w1.deleteFile path).logical := by
  have hn : w.nodes = w1.nodes := congrArg Prod.fst h
  have ht : w.trace = w1.trace := congrArg Prod.snd h
  unfold World.deleteFileWith World.deleteFile
  split <;> simp [World.logical, hn, ht]

theorem foldlM_logical {f g : World → Node → Option World}
    (hfg : ∀ w w1 ch, w.logical = w1.logical →
      (f w ch).map World.logical = (g w1 ch).map World.logical) :
    ∀ (L : List Node) (w w1 : World), w.logical = w1.logical →
      (L.foldlM f w).map World.logical = (L.foldlM g w1).map World.logical := by
  intro L
  induction L with
  | nil => intro w w1 h; simpa using h
  | cons a as ih =>
    intro w w1 h
    rw [List.foldlM_cons, List.foldlM_cons]
    have h1 := hfg w w1 a h
    cases hf : f w a with
    | none =>
      rw [hf] at h1
      cases hg : g w1 a with
      | none => rfl
      | some b => rw [hg] at h1; cases h1
    | some a1 =>
      rw [hf] at h1
      cases hg : g w1 a with
      | none => rw [hg] at h1; cases h1
      | some b =>
        rw [hg] at h1
        exact ih a1 b (Option.some.inj h1)

theorem delStepWith_logical (fails : BlobFailures) (fuel : Nat)
    (ih : ∀ w w1 node, w.logical = w1.logical →
      (DeleteRecursiveWith fails fuel w node).map World.logical =
        (DeleteRecursive fuel w1 node).map World.logical)
    (w w1 : World) (ch : Node) (h : w.logical = w1.logical) :
    (if ch.Typ = "file" then some ((w.deleteFileWith fails ch.Path).deleteNode ch.ID)
      else (DeleteRecursiveWith fails fuel w ch).map (fun w1 => w1.deleteNode ch.ID)).map
        World.logical =
      (delStep (DeleteRecursive fuel) w1 ch).map World.logical := by
  unfold delStep
  split
  · simp only [Option.map_some']
    exact congrArg some (logical_deleteNode (logical_deleteFileWith fails h _) _)
  · have h1 := ih w w1 ch h
    cases hf : DeleteRecursiveWith fails fuel w ch with
    | none =>
      rw [hf] at h1
      cases hg : DeleteRecursive fuel w1 ch with
      | none => rfl
      | some b => rw [hg] at h1; cases h1
    | some a1 =>
      rw [hf] at h1
      cases hg : DeleteRecursive fuel w1 ch with
      | none => rw [hg] at h1; cases h1
      | some b =>
        rw [hg] at h1
        simp only [Option.map_some']
        exact congrArg some (logical_deleteNode (Option.some.inj h1) _)

theorem DeleteRecursiveWith_succ (fails : BlobFailures) (fuel : Nat) (w : World) (node : Node) :
    DeleteRecursiveWith fails (fuel + 1) w node =
      (ListChildren w.nodes node.OwnerID node.ID).foldlM
        (fun w ch =>
          if ch.Typ = "file" then some ((w.deleteFileWith fails ch.Path).deleteNode ch.ID)
          else (DeleteRecursiveWith fails fuel w ch).map (fun w1 => w1.deleteNode ch.ID))
        w := by
  rfl

theorem DeleteRecursiveWith_logical (fails : BlobFailures) :
    ∀ fuel w w1 node, w.logical = w1.logical →
      (DeleteRecursiveWith fails fuel w node).map World.logical =
        (DeleteRecursive fuel w1 node).map World.logical := by
  intro fuel
  induction fuel with
  | zero => intro w w1 node _; rfl
  | succ fuel ih =>
    intro w w1 node h
    have hn : w.nodes = w1.nodes := congrArg Prod.fst h
    rw [DeleteRecursive_succ, DeleteRecursiveWith_succ, hn]
    exact foldlM_logical (delStepWith_logical fails fuel ih) _ w w1 h

theorem DeleteHandlerWith_logical (fails : BlobFailures) (fuel : Nat) (w : World)
    (ownerID id : String) :
    (DeleteHandlerWith fails fuel w ownerID id).map (fun r => (r.1, r.2.logical)) =
      (DeleteHandler fuel w ownerID id).map (fun r => (r.1, r.2.logical)) := by
  unfold DeleteHandlerWith DeleteHandler
  cases hfind : FindNodeByID w.nodes id with
  | error e => rfl
  | ok o =>
    cases o with
    | none => rfl
    | some node =>
      simp only
      split
      · rfl
      · have key : ∀ (a b : Option World), a.map World.logical = b.map World.logical →
            (a.map (fun w2 => ((⟨204, .none⟩ : Response), w2.deleteNode id))).map
              (fun r => (r.1, r.2.logical)) =
            (b.map (fun w2 => ((⟨204, .none⟩ : Response), w2.deleteNode id))).map
              (fun r => (r.1, r.2.logical)) := by
          intro a b hab
          cases a with
          | none => cases b with
            | none => rfl
            | some b => cases hab
          | some a => cases b with
            | none => cases hab
            | some b =>
              simp only [Option.map_some']
              exact congrArg some (congrArg (Prod.mk _)
                (logical_deleteNode (Option.some.inj hab) id))
        apply key
        split
        · exact foldlM_logical
            (delStepWith_logical fails fuel (DeleteRecursiveWith_logical fails fuel)) _ w w rfl
        · split
          · simp only [Option.map_some']
            exact congrArg some (logical_deleteFileWith fails rfl _)
          · rfl

theorem DeleteHandler_returns (w : World) (ownerID id : String) (node : Node)
    (hfind : FindNodeByID w.nodes id = .ok (some node)) (hown : node.OwnerID = ownerID)
    (hac : Acyclic w.nodes) :
    ∃ k, ∀ fuel, k ≤ fuel → ∃ r, DeleteHandler fuel w ownerID id = some r := by
  by_cases hty : node.Typ = "folder"
  · have hall : ∀ c ∈ ListChildren w.nodes ownerID id, ∃ k, DeleteReturns w.nodes k c :=
      fun c hc => DeleteRecursive_returns hac c (ListChildren_mem_nodes hc)
    obtain ⟨K, hK⟩ := uniform_fuel _ hall
    refine ⟨K, fun fuel hf => ?_⟩
    obtain ⟨w2, hw2⟩ := delLoop_returns (ListChildren w.nodes ownerID id) w
      (fun ch hch w3 hw3 => hK ch hch fuel hf w3 hw3) (List.Sublist.refl _)
    rw [DeleteHandler_folder fuel w ownerID id node hfind hown hty, hw2]
    exact ⟨_, rfl⟩
  · refine ⟨0, fun fuel _ => ?_⟩
    by_cases hfile : node.Typ = "file"
    · simp [DeleteHandler, hfind, hown, hty, hfile]
    · simp [DeleteHandler, hfind, hown, hty, hfile]

/-- Blob-deletion failures change neither the answer nor the node records: for a node of
the caller and every pattern of DeleteFile failures, DeleteHandler ends with the same response and the
same node records as it does when no blob deletion fails, for every bound on the recursion
depth; whenever it answers, the answer is 204; and on a store with an acyclic parent
relation it answers as soon as the bound is large enough. -/
theorem DeleteHandler_blob_failures (fails : BlobFailures) (w : World) (ownerID id : String)
    (node : Node) (hfind : FindNodeByID w.nodes id = .ok (some node))
    (hown : node.OwnerID = ownerID) :
    (∀ fuel,
      (DeleteHandlerWith fails fuel w ownerID id).map (fun r => (r.1, r.2.nodes)) =
        (DeleteHandler fuel w ownerID id).map (fun r => (r.1, r.2.nodes)) ∧
      ∀ r, DeleteHandlerWith fails fuel w ownerID id = some r → r.1 = ⟨204, .none⟩) ∧
    (Acyclic w.nodes → ∃ k, ∀ fuel, k ≤ fuel →
      ∃ r, DeleteHandlerWith fails fuel w ownerID id = some r ∧ r.1 = ⟨204, .none⟩) := by
  have h204 : ∀ fuel r, DeleteHandlerWith fails fuel w ownerID id = some r →
      r.1 = ⟨204, .none⟩ := by
    intro fuel r hr
    simp only [DeleteHandlerWith, hfind, hown, ne_eq, not_true_eq_false, if_false] at hr
    obtain ⟨w2, -, rfl⟩ := Option.map_eq_some'.1 hr
    rfl
  refine ⟨fun fuel => ⟨?_, h204 fuel⟩, fun hac => ?_⟩
  · have h := congrArg (Option.map (fun p : Response × Store × List Call => (p.1, p.2.1)))
      (DeleteHandlerWith_logical fails fuel w ownerID id)
    simpa [Option.map_map, Function.comp_def, World.logical] using h
  · obtain ⟨k, hk⟩ := DeleteHandler_returns w ownerID id node hfind hown hac
    refine ⟨k, fun fuel hf => ?_⟩
    obtain ⟨r, hr⟩ := hk fuel hf
    have h := DeleteHandlerWith_logical fails fuel w ownerID id
    rw [hr] at h
    cases hw : DeleteHandlerWith fails fuel w ownerID id with
    | none => rw [hw] at h; cases h
    | some r1 => exact ⟨r1, rfl, h204 fuel r1 hw⟩

theorem DeleteHandler_blob_failures_witness :
    (∀ fuel,
      (DeleteHandlerWith (fun _ _ => true) fuel treeWorld "u" (oidN 1).Hex).map
          (fun r => (r.1, r.2.nodes)) =
        (DeleteHandler fuel treeWorld "u" (oidN 1).Hex).map (fun r => (r.1, r.2.nodes)) ∧
      ∀ r, DeleteHandlerWith (fun _ _ => true) fuel treeWorld "u" (oidN 1).Hex = some r →
        r.1 = ⟨204, .none⟩) ∧
    (Acyclic treeWorld.nodes → ∃ k, ∀ fuel, k ≤ fuel →
      ∃ r, DeleteHandlerWith (fun _ _ => true) fuel treeWorld "u" (oidN 1).Hex = some r ∧
        r.1 = ⟨204, .none⟩) :=
  DeleteHandler_blob_failures (fun _ _ => true) treeWorld "u" (oidN 1).Hex
    (mkDoc 1 "u" .absent "folder" "").decode rfl rfl


/-! ## Owner isolation -/

theorem FindNodeByID_some {st : Store} {id : String} {node : Node}
    (h : FindNodeByID st id = .ok (some node)) :
    ∃ oid d, ObjectIDFromHex id = some oid ∧ d ∈ st ∧ d.id = oid ∧ node = d.decode ∧
      st.find? (fun x => decide (x.id = oid)) = some d := by
  unfold FindNodeByID at h
  cases hx : ObjectIDFromHex id with
  | none => rw [hx] at h; cases h
  | some oid =>
    rw [hx] at h
    simp only at h
    injection h with h
    obtain ⟨d, hd, rfl⟩ := Option.map_eq_some'.1 h
    exact ⟨oid, d, rfl, List.mem_of_find?_eq_some hd,
      by simpa using List.find?_some hd, rfl, hd⟩

theorem collectLoop_result_all (st : Store) (ownerID : String) (P : Node → Prop)
    (hP : ∀ p n, n ∈ ListChildren st ownerID p → P n) :
    ∀ (fuel : Nat) (s sf : CollectState), collectLoop st ownerID fuel s = some sf →
      (∀ n ∈ s.result, P n) → ∀ n ∈ sf.result, P n := by
  intro fuel
  induction fuel with
  | zero =>
    intro s sf h hs
    obtain ⟨-, rfl⟩ := collectLoop_zero h
    exact hs
  | succ fuel ih =>
    rintro ⟨stack, v, r⟩ sf h hs
    rcases stack_nil_or_snoc stack with rfl | ⟨init, p, rfl⟩
    · rw [collectLoop_nil] at h
      cases h
      exact hs
    · rw [collectLoop_concat] at h
      split at h
      · exact ih _ _ h hs
      · refine ih _ _ h ?_
        intro n hn
        rcases List.mem_append.1 hn with hn | hn
        · exact hs n hn
        · exact hP p n hn

theorem collect_owner {st : Store} {ownerID parentID : String} {r : List Node}
    (h : collectNodesRecursive st ownerID parentID = some r) : ∀ n ∈ r, n.OwnerID = ownerID := by
  unfold collectNodesRecursive at h
  obtain ⟨sf, hsf, rfl⟩ := Option.map_eq_some'.1 h
  exact collectLoop_result_all st ownerID (fun n => n.OwnerID = ownerID)
    (fun _ _ hn => ListChildren_owner hn) _ _ _ hsf (fun n hn => by cases hn)

theorem ownedBy_deleteOne {l : Store} {oid : ObjectID} {b : String}
    (h : ∀ x ∈ l, x.id = oid → x.owner_id ≠ b) :
    Store.ownedBy (deleteOne (fun x => decide (x.id = oid)) l) b = Store.ownedBy l b := by
  induction l with
  | nil => rfl
  | cons a as ih =>
    unfold deleteOne
    by_cases ha : a.id = oid
    · have hb : a.owner_id ≠ b := h a (List.mem_cons_self _ _) ha
      simp [ha, Store.ownedBy, List.filter_cons, hb]
    · have ih' := ih (fun x hx => h x (List.mem_cons_of_mem _ hx))
      unfold Store.ownedBy at ih' ⊢
      simp only [ha, decide_False, Bool.false_eq_true, if_false, List.filter_cons, ih']

theorem ownedBy_updateOne {p : Doc → Bool} {f : Doc → Doc} {b : String}
    (hp : ∀ d, p d = true → d.owner_id ≠ b) (hf : ∀ d, (f d).owner_id = d.owner_id) :
    ∀ {st st1 : Store}, updateOne p f st = some st1 →
      Store.ownedBy st1 b = Store.ownedBy st b := by
  intro st
  induction st with
  | nil => intro st1 h; cases h
  | cons a as ih =>
    intro st1 h
    unfold updateOne at h
    by_cases ha : p a = true
    · rw [if_pos ha] at h
      cases h
      have h1 := hp a ha
      have h2 : (f a).owner_id ≠ b := by rw [hf]; exact h1
      simp [Store.ownedBy, List.filter_cons, h1, h2]
    · rw [if_neg ha] at h
      obtain ⟨r, hr, rfl⟩ := Option.map_eq_some'.1 h
      have := ih hr
      unfold Store.ownedBy at this ⊢
      simp only [List.filter_cons, this]

theorem ownedBy_deleteNode {st0 : Store} (hu : UniqueIds st0) {w : World}
    (hsub : w.nodes.Sublist st0) {d : Doc} (hd : d ∈ st0) {b : String} (hb : d.owner_id ≠ b)
    {id : String} (hid : ObjectIDFromHex id = some d.id) :
    Store.ownedBy (w.deleteNode id).nodes b = Store.ownedBy w.nodes b := by
  have : (w.deleteNode id).nodes = deleteOne (fun x => decide (x.id = d.id)) w.nodes := by
    simp [World.deleteNode, DeleteNode, hid]
  rw [this]
  apply ownedBy_deleteOne
  intro x hx hxd
  have : x = d := doc_eq_of_id_eq hu (hsub.subset hx) hd hxd
  rw [this]
  exact hb

theorem delStep_ownedBy {st0 : Store} (hu : UniqueIds st0) {b : String}
    {rec : World → Node → Option World}
    (hrec : ∀ w node w1, w.nodes.Sublist st0 → node.OwnerID ≠ b → rec w node = some w1 →
      Store.ownedBy w1.nodes b = Store.ownedBy w.nodes b ∧ w1.nodes.Sublist w.nodes)
    {w w1 : World} (hsub : w.nodes.Sublist st0) {d : Doc} (hd : d ∈ st0)
    (hb : d.owner_id ≠ b) (h : delStep rec w d.decode = some w1) :
    Store.ownedBy w1.nodes b = Store.ownedBy w.nodes b ∧ w1.nodes.Sublist w.nodes := by
  have hid : ObjectIDFromHex d.decode.ID = some d.id := ObjectIDFromHex_Hex d.id
  unfold delStep at h
  split at h
  · cases h
    refine ⟨?_, deleteNode_sublist _ _⟩
    have h1 : (w.deleteFile d.decode.Path).nodes = w.nodes := rfl
    rw [ownedBy_deleteNode hu (w := w.deleteFile d.decode.Path) (h1 ▸ hsub) hd hb hid, h1]
  · obtain ⟨w2, hw2, rfl⟩ := Option.map_eq_some'.1 h
    obtain ⟨h1, h2⟩ := hrec w d.decode w2 hsub hb hw2
    refine ⟨?_, (deleteNode_sublist _ _).trans h2⟩
    rw [ownedBy_deleteNode hu (h2.trans hsub) hd hb hid, h1]

theorem delLoop_ownedBy {st0 : Store} (hu : UniqueIds st0) {b : String}
    {rec : World → Node → Option World}
    (hrec : ∀ w node w1, w.nodes.Sublist st0 → node.OwnerID ≠ b → rec w node = some w1 →
      Store.ownedBy w1.nodes b = Store.ownedBy w.nodes b ∧ w1.nodes.Sublist w.nodes) :
    ∀ (L : List Node) (w w1 : World), (∀ ch ∈ L, ∃ d ∈ st0, d.decode = ch ∧ d.owner_id ≠ b) →
      w.nodes.Sublist st0 → L.foldlM (delStep rec) w = some w1 →
      Store.ownedBy w1.nodes b = Store.ownedBy w.nodes b ∧ w1.nodes.Sublist w.nodes := by
  intro L
  induction L with
  | nil =>
    intro w w1 _ _ h
    simp only [List.foldlM_nil] at h
    cases h
    exact ⟨rfl, List.Sublist.refl _⟩
  | cons a as ih =>
    intro w w1 hL hsub h
    rw [List.foldlM_cons] at h
    cases hstep : delStep rec w a with
    | none => rw [hstep] at h; cases h
    | some w2 =>
      rw [hstep] at h
      obtain ⟨d, hd, rfl, hb⟩ := hL a (List.mem_cons_self _ _)
      obtain ⟨h1, h2⟩ := delStep_ownedBy hu hrec hsub hd hb hstep
      obtain ⟨h3, h4⟩ := ih w2 w1 (fun ch hch => hL ch (List.mem_cons_of_mem _ hch))
        (h2.trans hsub) h
      exact ⟨h3.trans h1, h4.trans h2⟩

theorem children_docs {st0 : Store} {w : World} (hsub : w.nodes.Sublist st0)
    {ownerID parentID b : String} (hb : ownerID ≠ b) :
    ∀ ch ∈ ListChildren w.nodes ownerID parentID, ∃ d ∈ st0, d.decode = ch ∧ d.owner_id ≠ b := by
  intro ch hch
  obtain ⟨d, hd, ho, -, rfl⟩ := mem_ListChildren.1 hch
  exact ⟨d, hsub.subset hd, rfl, by rw [ho]; exact hb⟩

theorem DeleteRecursive_ownedBy {st0 : Store} (hu : UniqueIds st0) {b : String} :
    ∀ fuel w node w1, w.nodes.Sublist st0 → node.OwnerID ≠ b →
      DeleteRecursive fuel w node = some w1 →
      Store.ownedBy w1.nodes b = Store.ownedBy w.nodes b ∧ w1.nodes.Sublist w.nodes := by
  intro fuel
  induction fuel with
  | zero => intro w node w1 _ _ h; cases h
  | succ fuel ih =>
    intro w node w1 hsub hb h
    rw [DeleteRecursive_succ] at h
    exact delLoop_ownedBy hu ih _ w w1 (children_docs hsub hb) hsub h

theorem DeleteHandler_ownedBy {w : World} (hu : UniqueIds w.nodes) {a b : String} (hab : a ≠ b)
    {fuel : Nat} {id : String} {r : Response} {w1 : World}
    (h : DeleteHandler fuel w a id = some (r, w1)) :
    Store.ownedBy w1.nodes b = Store.ownedBy w.nodes b ∧ r.body.nodesOf = [] := by
  unfold DeleteHandler at h
  cases hfind : FindNodeByID w.nodes id with
  | error e => rw [hfind] at h; cases h; exact ⟨rfl, rfl⟩
  | ok o =>
    cases o with
    | none => rw [hfind] at h; cases h; exact ⟨rfl, rfl⟩
    | some node =>
      rw [hfind] at h
      simp only at h
      obtain ⟨oid, d, hoid, hd, hdid, rfl, -⟩ := FindNodeByID_some hfind
      by_cases hown : d.decode.OwnerID = a
      · rw [if_neg (by simpa using hown)] at h
        obtain ⟨w2, hw2, heq⟩ := Option.map_eq_some'.1 h
        cases heq
        have hdb : d.owner_id ≠ b := by
          have : d.owner_id = a := hown
          rw [this]; exact hab
        have hid : ObjectIDFromHex id = some d.id := by rw [hoid, hdid]
        refine ⟨?_, rfl⟩
        split at hw2
        · obtain ⟨h1, h2⟩ := delLoop_ownedBy hu (DeleteRecursive_ownedBy hu fuel) _ w w2
            (children_docs (List.Sublist.refl _) hab) (List.Sublist.refl _) hw2
          rw [ownedBy_deleteNode hu h2 hd hdb hid, h1]
        · split at hw2
          · cases hw2
            exact ownedBy_deleteNode hu (w := w.deleteFile d.decode.Path)
              (List.Sublist.refl _) hd hdb hid
          · cases hw2
            exact ownedBy_deleteNode hu (List.Sublist.refl _) hd hdb hid
      · rw [if_pos (by simpa using hown)] at h
        cases h
        exact ⟨rfl, rfl⟩

theorem UpdateNodeParent_ownedBy {st st1 : Store} {now : Nat} {a b nodeID parentID : String}
    (hab : a ≠ b) (h : UpdateNodeParent st now a nodeID parentID = .ok st1) :
    Store.ownedBy st1 b = Store.ownedBy st b := by
  unfold UpdateNodeParent at h
  split at h
  · cases h
  · split at h
    · cases h
    · rename_i st2 hup
      cases h
      refine ownedBy_updateOne ?_ ?_ hup
      · intro d hd
        simp only [Bool.and_eq_true, decide_eq_true_eq] at hd
        rw [hd.2]; exact hab
      · intro d; rfl

theorem MoveHandler_update_ownedBy {w : World} {now : Nat} {a b : String} (hab : a ≠ b)
    {node : Node} (hown : node.OwnerID = a) {newParentID : String} {r : Response} {w1 : World}
    (h : (match UpdateNodeParent w.nodes now a node.ID newParentID with
        | .error e => some ((⟨500, .error e⟩ : Response),
            ({ w with trace := w.trace ++ [.updateNodeParent a node.ID newParentID] } : World))
        | .ok st => some (⟨200, .node { node with ParentID := newParentID }⟩,
            { ({ w with trace := w.trace ++ [.updateNodeParent a node.ID newParentID] } : World)
                with nodes := st })) = some (r, w1)) :
    Store.ownedBy w1.nodes b = Store.ownedBy w.nodes b ∧ ∀ n ∈ r.body.nodesOf, n.OwnerID = a := by
  cases hup : UpdateNodeParent w.nodes now a node.ID newParentID with
  | error e =>
    rw [hup] at h
    cases h
    exact ⟨rfl, fun n hn => by cases hn⟩
  | ok st =>
    rw [hup] at h
    cases h
    refine ⟨UpdateNodeParent_ownedBy hab hup, fun n hn => ?_⟩
    simp only [Body.nodesOf, List.mem_singleton] at hn
    rw [hn]
    exact hown

theorem MoveHandler_ownedBy {w : World} {now : Nat} {a b : String} (hab : a ≠ b)
    {id : String} {req : Option moveReq} {r : Response} {w1 : World}
    (h : MoveHandler w now a id req = some (r, w1)) :
    Store.ownedBy w1.nodes b = Store.ownedBy w.nodes b ∧ ∀ n ∈ r.body.nodesOf, n.OwnerID = a := by
  have hsame : ∀ {r0 : Response}, some (r0, w) = some (r, w1) → r0.body.nodesOf = [] →
      Store.ownedBy w1.nodes b = Store.ownedBy w.nodes b ∧
        ∀ n ∈ r.body.nodesOf, n.OwnerID = a := by
    intro r0 he h0
    cases he
    exact ⟨rfl, fun n hn => by rw [h0] at hn; cases hn⟩
  unfold MoveHandler at h
  cases req with
  | none => exact hsame h rfl
  | some req =>
    simp only at h
    cases hfind : FindNodeByID w.nodes id with
    | error e => rw [hfind] at h; exact hsame h rfl
    | ok o =>
      cases o with
      | none => rw [hfind] at h; exact hsame h rfl
      | some node =>
        rw [hfind] at h
        simp only at h
        by_cases hown : node.OwnerID = a
        · rw [if_neg (by simpa using hown)] at h
          by_cases hpar : node.ParentID = req.ParentID
          · rw [if_pos hpar] at h
            cases h
            refine ⟨rfl, fun n hn => ?_⟩
            simp only [Body.nodesOf, List.mem_singleton] at hn
            rw [hn]; exact hown
          · rw [if_neg hpar] at h
            split at h
            · rename_i r0 hr0
              have hb0 : r0.body.nodesOf = [] := by
                split at hr0
                · split at hr0
                  · cases hr0; rfl
                  · cases hr0; rfl
                  · split at hr0
                    · cases hr0; rfl
                    · split at hr0
                      · cases hr0; rfl
                      · cases hr0
                · cases hr0
              exact hsame h hb0
            · split at h
              · split at h
                · cases h
                · split at h
                  · exact hsame h rfl
                  · exact MoveHandler_update_ownedBy hab hown h
              · exact MoveHandler_update_ownedBy hab hown h
        · rw [if_pos (by simpa using hown)] at h
          exact hsame h rfl

theorem FindNodeByID_ne_empty {st : Store} {id : String} {node : Node}
    (h : FindNodeByID st id = .ok (some node)) : id ≠ "" := by
  rintro rfl
  obtain ⟨oid, -, hoid, -⟩ := FindNodeByID_some h
  have h0 : ObjectIDFromHex "" = none := by decide
  rw [h0] at hoid
  cases hoid

theorem FolderStatsHandler_isolated {lower : Char → Char} {w : World} {a id recursive : String}
    {r : Response} {w1 : World}
    (h : FolderStatsHandler lower w a id recursive = some (r, w1)) :
    w1 = w ∧ r.body.nodesOf = [] ∧
      (r.status = 200 → ∃ all, r.body = .stats (statsResponse lower id all) ∧
        ∀ n ∈ all, n.OwnerID = a) := by
  unfold FolderStatsHandler at h
  simp only at h
  split at h
  · rename_i r0 hr0
    have : r0.body.nodesOf = [] ∧ r0.status ≠ 200 := by
      split at hr0
      · split at hr0
        · cases hr0; exact ⟨rfl, by simp⟩
        · cases hr0; exact ⟨rfl, by simp⟩
        · split at hr0
          · cases hr0; exact ⟨rfl, by simp⟩
          · cases hr0
      · cases hr0
    cases h
    exact ⟨rfl, this.1, fun h200 => absurd h200 this.2⟩
  · obtain ⟨all, hall, heq⟩ := Option.map_eq_some'.1 h
    cases heq
    refine ⟨rfl, rfl, fun _ => ⟨all, rfl, ?_⟩⟩
    split at hall
    · exact collect_owner hall
    · cases hall
      exact fun n hn => ListChildren_owner hn

theorem ParentHandler_isolated {w : World} {a id : String} {r : Response} {w1 : World}
    (h : ParentHandler w a id = some (r, w1)) :
    w1 = w ∧ ∀ n ∈ r.body.nodesOf, n.OwnerID = a := by
  have hsame : ∀ {r0 : Response}, some (r0, w) = some (r, w1) → r0.body.nodesOf = [] →
      w1 = w ∧ ∀ n ∈ r.body.nodesOf, n.OwnerID = a := by
    intro r0 he h0
    cases he
    exact ⟨rfl, fun n hn => by rw [h0] at hn; cases hn⟩
  unfold ParentHandler at h
  split at h
  · exact hsame h rfl
  · split at h
    · exact hsame h rfl
    · exact hsame h rfl
    · split at h
      · exact hsame h rfl
      · split at h
        · exact hsame h rfl
        · split at h
          · exact hsame h rfl
          · exact hsame h rfl
          · split at h
            · exact hsame h rfl
            · rename_i parent _ hpo
              cases h
              refine ⟨rfl, fun n hn => ?_⟩
              simp only [Body.nodesOf, List.mem_singleton] at hn
              rw [hn]
              exact not_not.1 hpo

theorem DownloadHandler_isolated {w : World} {a id : String} {r : Response} {w1 : World}
    (h : DownloadHandler w a id = some (r, w1)) :
    w1 = w ∧ r.body.nodesOf = [] ∧
      ∀ path name, r.body = .file path name →
        ∃ n, FindNodeByID w.nodes id = .ok (some n) ∧ n.OwnerID = a ∧ n.Path = path := by
  unfold DownloadHandler at h
  split at h
  · cases h; exact ⟨rfl, rfl, fun _ _ hb => by cases hb⟩
  · cases h; exact ⟨rfl, rfl, fun _ _ hb => by cases hb⟩
  · rename_i node hfind
    split at h
    · cases h; exact ⟨rfl, rfl, fun _ _ hb => by cases hb⟩
    · rename_i hown
      split at h
      · cases h; exact ⟨rfl, rfl, fun _ _ hb => by cases hb⟩
      · split at h
        · cases h; exact ⟨rfl, rfl, fun _ _ hb => by cases hb⟩
        · cases h
          refine ⟨rfl, rfl, fun path name hb => ?_⟩
          cases hb
          exact ⟨node, hfind, not_not.1 hown, rfl⟩

/-- C12 (as stated, refuted) Owner isolation: on the mixed store, the folder with id 4
belongs to `v`, and a list request of `u` that targets it is answered 200 with an empty
list, not Forbidden. -/
theorem list_of_foreign_folder_is_not_forbidden :
    (∃ n, FindNodeByID mixedWorld.nodes (oidN 4).Hex = .ok (some n) ∧ n.OwnerID = "v") ∧
      "u" ≠ "v" ∧
      ListHandler mixedWorld "u" (oidN 4).Hex = some (⟨200, .nodes []⟩, mixedWorld) :=
  ⟨⟨_, rfl, rfl⟩, by decide, by decide⟩

/-- C12 (amended) Owner isolation: on a store with unique ids, for owners A ≠ B and every
request made with A's identity to list, folder-stats, parent, download, move or delete:
every node in the response is owned by A (the statistics are those of nodes of A, the
file sent is that of a node of A), and the sub-store of B's nodes is the same before and
after; when the targeted node is owned by B, folder-stats, parent, download, move and delete
answer 403 and change nothing, while list answers 200 with nodes of A only; a move of a node
of A to a target parent owned by B answers 403 and changes nothing, unless the target is the
`parent_id` the node already has, which is the no-op answered 200. -/
theorem owner_isolation (lower : Char → Char) (w : World) (now fuel : Nat) (a b : String)
    (hab : a ≠ b) (hu : UniqueIds w.nodes) (id : String) :
    (∀ r w1, ListHandler w a id = some (r, w1) →
      w1 = w ∧ r.status = 200 ∧ ∀ n ∈ r.body.nodesOf, n.OwnerID = a) ∧
    (∀ recursive r w1, FolderStatsHandler lower w a id recursive = some (r, w1) →
      w1 = w ∧ r.body.nodesOf = [] ∧
        (r.status = 200 → ∃ all, r.body = .stats (statsResponse lower id all) ∧
          ∀ n ∈ all, n.OwnerID = a)) ∧
    (∀ r w1, ParentHandler w a id = some (r, w1) →
      w1 = w ∧ ∀ n ∈ r.body.nodesOf, n.OwnerID = a) ∧
    (∀ r w1, DownloadHandler w a id = some (r, w1) →
      w1 = w ∧ r.body.nodesOf = [] ∧
        ∀ path name, r.body = .file path name →
          ∃ n, FindNodeByID w.nodes id = .ok (some n) ∧ n.OwnerID = a ∧ n.Path = path) ∧
    (∀ req r w1, MoveHandler w now a id req = some (r, w1) →
      Store.ownedBy w1.nodes b = Store.ownedBy w.nodes b ∧
        ∀ n ∈ r.body.nodesOf, n.OwnerID = a) ∧
    (∀ r w1, DeleteHandler fuel w a id = some (r, w1) →
      Store.ownedBy w1.nodes b = Store.ownedBy w.nodes b ∧ r.body.nodesOf = []) ∧
    (∀ node, FindNodeByID w.nodes id = .ok (some node) → node.OwnerID = b →
      (∀ recursive, FolderStatsHandler lower w a id recursive =
        some (⟨403, .error "forbidden"⟩, w)) ∧
      ParentHandler w a id = some (⟨403, .error "forbidden"⟩, w) ∧
      DownloadHandler w a id = some (⟨403, .error "forbidden"⟩, w) ∧
      (∀ req, MoveHandler w now a id (some req) = some (⟨403, .error "forbidden"⟩, w)) ∧
      DeleteHandler fuel w a id = some (⟨403, .error "forbidden"⟩, w)) ∧
    (∀ node parent newParentID, FindNodeByID w.nodes id = .ok (some node) →
      node.OwnerID = a → node.ParentID ≠ newParentID →
      FindNodeByID w.nodes newParentID = .ok (some parent) → parent.OwnerID = b →
      MoveHandler w now a id (some ⟨newParentID⟩) = some (⟨403, .error "forbidden"⟩, w)) ∧
    (∀ node, FindNodeByID w.nodes id = .ok (some node) → node.OwnerID = a →
      MoveHandler w now a id (some ⟨node.ParentID⟩) = some (⟨200, .node node⟩, w)) := by
  refine ⟨?_, fun _ _ _ h => FolderStatsHandler_isolated h, fun _ _ h => ParentHandler_isolated h,
    fun _ _ h => DownloadHandler_isolated h, fun _ _ _ h => MoveHandler_ownedBy hab h,
    fun _ _ h => DeleteHandler_ownedBy hu hab h, ?_, ?_, ?_⟩
  · intro r w1 h
    unfold ListHandler at h
    cases h
    exact ⟨rfl, rfl, fun n hn => ListChildren_owner hn⟩
  · intro node hfind hown
    have hne : id ≠ "" := FindNodeByID_ne_empty hfind
    have hba : ¬ node.OwnerID = a := by rw [hown]; exact fun h => hab h.symm
    refine ⟨fun recursive => ?_, ?_, ?_, fun req => ?_, ?_⟩
    · simp [FolderStatsHandler, hne, hfind, hba]
    · simp [ParentHandler, hne, hfind, hba]
    · simp [DownloadHandler, hfind, hba]
    · simp [MoveHandler, hfind, hba]
    · simp [DeleteHandler, hfind, hba]
  · intro node parent newParentID hfind hown hpar hfind2 hpown
    have hne : newParentID ≠ "" := FindNodeByID_ne_empty hfind2
    have hba : ¬ parent.OwnerID = a := by rw [hpown]; exact fun h => hab h.symm
    simp [MoveHandler, hfind, hown, hpar, hne, hfind2, hba]
  · intro node hfind hown
    simp [MoveHandler, hfind, hown]

theorem owner_isolation_witness :
    ((∀ recursive, FolderStatsHandler Char.toLower mixedWorld "u" (oidN 4).Hex recursive =
        some (⟨403, .error "forbidden"⟩, mixedWorld)) ∧
      ParentHandler mixedWorld "u" (oidN 4).Hex = some (⟨403, .error "forbidden"⟩, mixedWorld) ∧
      DownloadHandler mixedWorld "u" (oidN 4).Hex =
        some (⟨403, .error "forbidden"⟩, mixedWorld) ∧
      (∀ req, MoveHandler mixedWorld 7 "u" (oidN 4).Hex (some req) =
        some (⟨403, .error "forbidden"⟩, mixedWorld)) ∧
      DeleteHandler 3 mixedWorld "u" (oidN 4).Hex =
        some (⟨403, .error "forbidden"⟩, mixedWorld)) ∧
    (∀ r w1, DeleteHandler 3 mixedWorld "u" (oidN 4).Hex = some (r, w1) →
      Store.ownedBy w1.nodes "v" = Store.ownedBy mixedWorld.nodes "v" ∧ r.body.nodesOf = []) :=
  ⟨(owner_isolation Char.toLower mixedWorld 7 3 "u" "v" (by decide) (by decide)
      (oidN 4).Hex).2.2.2.2.2.2.1 _ rfl rfl,
   (owner_isolation Char.toLower mixedWorld 7 3 "u" "v" (by decide) (by decide)
      (oidN 4).Hex).2.2.2.2.2.1⟩

/-! ## Archive ingestion: the invariant -/

theorem FolderOf_append {st : Store} {ownerID id : String} (h : FolderOf st ownerID id)
    (l : Store) : FolderOf (st ++ l) ownerID id := by
  obtain ⟨p, hp, h1⟩ := h
  refine ⟨p, ?_, h1⟩
  unfold Store.nodes at hp ⊢
  rw [List.map_append]
  exact List.mem_append_left _ hp

theorem FolderOf_parent_field {st : Store} {ownerID id : String} (h : FolderOf st ownerID id) :
    (createParentField id).decode = id := by
  obtain ⟨p, hp, h1, -⟩ := h
  obtain ⟨d, -, rfl⟩ := List.mem_map.1 hp
  have h2 : id = d.id.Hex := h1.symm
  subst h2
  simp [createParentField, Hex_ne_empty, ObjectIDFromHex_Hex, ParentField.decode]

theorem createNode_ok {w w1 : World} {now : Nat} {fresh : ObjectID} {n n1 : Node}
    (h : w.createNode now fresh n = .ok (w1, n1)) :
    ∃ d : Doc, (∀ x ∈ w.nodes, x.id ≠ fresh) ∧ w1.nodes = w.nodes ++ [d] ∧
      d.id = fresh ∧ d.owner_id = n.OwnerID ∧ d.parent_id = createParentField n.ParentID ∧
      d.type = n.Typ ∧ d.path = n.Path ∧
      w1.blobs = w.blobs ∧ w1.trace = w.trace ++ [.createNode fresh.Hex] ∧
      n1.ID = fresh.Hex ∧ n1.OwnerID = n.OwnerID ∧ n1.Typ = n.Typ ∧ n1.Path = n.Path := by
  unfold World.createNode CreateNode at h
  by_cases hany : (w.nodes.any (fun d => decide (d.id = fresh))) = true
  · simp [hany] at h
  · simp only [hany, Bool.false_eq_true, if_false] at h
    injection h with h
    injection h with h1 h2
    subst h1
    subst h2
    refine ⟨_, ?_, rfl, rfl, rfl, rfl, rfl, rfl, rfl, rfl, rfl, rfl, rfl, rfl⟩
    intro x hx hxe
    apply hany
    exact List.any_eq_true.2 ⟨x, hx, by simpa using hxe⟩

theorem UnzipFacts_createNode {w0 : World} {ownerID rootID : String} {w w1 : World}
    {nodes : List Node} {paths : List String} {dirMap : List (String × String)}
    {docs : List Doc} {t : List Call} {now : Nat} {fresh : ObjectID} {n n1 : Node}
    (hf : UnzipFacts w0 ownerID rootID w nodes paths dirMap docs t)
    (h : w.createNode now fresh n = .ok (w1, n1)) (ho : n.OwnerID = ownerID)
    (hp : FolderOf w.nodes ownerID n.ParentID) :
    ∃ d, UnzipFacts w0 ownerID rootID w1 (nodes ++ [n1]) paths dirMap (docs ++ [d])
        (t ++ [.createNode n1.ID]) ∧
      n1.ID = fresh.Hex ∧ (n.Typ = "folder" → FolderOf w1.nodes ownerID n1.ID) := by
  obtain ⟨d, hfresh, hnodes, hdid, hdo, hdp, hdt, -, hblobs, htrace, hid, -, -, -⟩ :=
    createNode_ok h
  have hmono : ∀ id, FolderOf w.nodes ownerID id → FolderOf w1.nodes ownerID id := by
    intro id hid
    rw [hnodes]
    exact FolderOf_append hid _
  refine ⟨d, ⟨?_, ?_, ?_, ?_, ?_, ?_, ?_, ?_, ?_, ?_, ?_, ?_⟩, hid, ?_⟩
  · rw [hnodes, hf.nodes_eq, List.append_assoc]
  · simp only [List.map_append, hf.ids, List.map_cons, List.map_nil, hid, hdid]
  · intro d1 hd x hx
    rcases List.mem_append.1 hd with hd | hd
    · exact hf.fresh d1 hd x hx
    · rw [List.mem_singleton.1 hd, hdid]
      exact hfresh x (by rw [hf.nodes_eq]; exact List.mem_append_left _ hx)
  · rw [List.map_append]
    refine List.Nodup.append hf.nodup (List.nodup_singleton _) ?_
    intro a ha1 ha2
    simp only [List.map_cons, List.map_nil, List.mem_singleton] at ha2
    obtain ⟨d1, hd, rfl⟩ := List.mem_map.1 ha1
    rw [hdid] at ha2
    exact hfresh d1 (by rw [hf.nodes_eq]; exact List.mem_append_right _ hd) ha2
  · intro d1 hd
    rcases List.mem_append.1 hd with hd | hd
    · exact hf.owner d1 hd
    · rw [List.mem_singleton.1 hd, hdo]; exact ho
  · intro d1 hd
    rcases List.mem_append.1 hd with hd | hd
    · exact (hf.parent d1 hd).imp id (hmono _)
    · rw [List.mem_singleton.1 hd]
      right
      rw [hdp, FolderOf_parent_field hp]
      exact hmono _ hp
  · intro p hp1
    rw [hblobs] at hp1
    exact hf.blobs p hp1
  · rw [htrace, hf.trace_eq, List.append_assoc, hid]
  · intro id hmem
    rw [List.map_append]
    rcases List.mem_append.1 hmem with hmem | hmem
    · exact List.mem_append_left _ (hf.created id hmem)
    · simp only [List.mem_singleton, Call.createNode.injEq] at hmem
      rw [hmem]
      exact List.mem_append_right _ (List.mem_singleton_self _)
  · intro p hmem
    rcases List.mem_append.1 hmem with hmem | hmem
    · exact hf.saved p hmem
    · simp at hmem
  · exact hmono _ hf.root
  · intro kv hkv
    exact hmono _ (hf.dirs kv hkv)
  · intro hty
    rw [hnodes]
    refine ⟨d.decode, ?_, by rw [hid, ← hdid]; rfl, by rw [← hty, ← hdt]; rfl,
      by rw [← ho, ← hdo]; rfl⟩
    unfold Store.nodes
    rw [List.map_append]
    exact List.mem_append_right _ (List.mem_singleton_self _)

theorem UnzipInv_saveFile {w0 : World} {ownerID rootID : String} {w : World}
    {nodes : List Node} {paths : List String} {dirMap : List (String × String)}
    (h : UnzipInv w0 ownerID rootID w nodes paths dirMap) (p : String) :
    UnzipInv w0 ownerID rootID (w.saveFile p) nodes (paths ++ [p]) dirMap := by
  obtain ⟨docs, t, hf⟩ := h
  refine ⟨docs, t ++ [.saveFile p], ⟨hf.nodes_eq, hf.ids, hf.fresh, hf.nodup, hf.owner,
    hf.parent, ?_, ?_, ?_, ?_, hf.root, hf.dirs⟩⟩
  · intro q hq
    simp only [World.saveFile] at hq
    split at hq
    · exact (hf.blobs q hq).imp id (List.mem_append_left _)
    · rcases List.mem_append.1 hq with hq | hq
      · exact (hf.blobs q hq).imp id (List.mem_append_left _)
      · exact Or.inr (List.mem_append_right _ hq)
  · simp only [World.saveFile, hf.trace_eq, List.append_assoc]
  · intro id hmem
    rcases List.mem_append.1 hmem with hmem | hmem
    · exact hf.created id hmem
    · simp at hmem
  · intro q hmem
    rcases List.mem_append.1 hmem with hmem | hmem
    · exact List.mem_append_left _ (hf.saved q hmem)
    · simp only [List.mem_singleton, Call.saveFile.injEq] at hmem
      rw [hmem]
      exact List.mem_append_right _ (List.mem_singleton_self _)

theorem deleteFileWith_facts (fails : BlobFailures) (w : World) (p : String) :
    (w.deleteFileWith fails p).nodes = w.nodes ∧
      (w.deleteFileWith fails p).trace = w.trace ++ [.deleteFile p] ∧
      (∀ q ∈ (w.deleteFileWith fails p).blobs, q ∈ w.blobs) ∧
      (fails w.trace p = false → (w.deleteFileWith fails p).blobs = w.blobs.filter (fun q => q ≠ p)) := by
  unfold World.deleteFileWith World.deleteFile
  by_cases hf : fails w.trace p = true
  · simp [hf]
  · simp only [hf, Bool.false_eq_true, if_false, true_and]
    exact ⟨fun q hq => List.mem_of_mem_filter hq, fun _ => trivial⟩

theorem UnzipInv_deleteFileWith {w0 : World} {ownerID rootID : String} {w : World}
    {nodes : List Node} {paths : List String} {dirMap : List (String × String)}
    (h : UnzipInv w0 ownerID rootID w nodes paths dirMap) (fails : BlobFailures) (p : String) :
    UnzipInv w0 ownerID rootID (w.deleteFileWith fails p) nodes paths dirMap := by
  obtain ⟨docs, t, hf⟩ := h
  obtain ⟨h1, h2, h3, -⟩ := deleteFileWith_facts fails w p
  refine ⟨docs, t ++ [.deleteFile p], ⟨by rw [h1]; exact hf.nodes_eq, hf.ids, hf.fresh,
    hf.nodup, hf.owner, by rw [h1]; exact hf.parent, fun q hq => hf.blobs q (h3 q hq), ?_, ?_,
    ?_, by rw [h1]; exact hf.root, by rw [h1]; exact hf.dirs⟩⟩
  · rw [h2, hf.trace_eq, List.append_assoc]
  · intro id hmem
    rcases List.mem_append.1 hmem with hmem | hmem
    · exact hf.created id hmem
    · simp at hmem
  · intro q hmem
    rcases List.mem_append.1 hmem with hmem | hmem
    · exact hf.saved q hmem
    · simp at hmem

theorem UnzipInv_setDir {w0 : World} {ownerID rootID : String} {w : World}
    {nodes : List Node} {paths : List String} {dirMap : List (String × String)}
    (h : UnzipInv w0 ownerID rootID w nodes paths dirMap) (key id : String)
    (hid : FolderOf w.nodes ownerID id) :
    UnzipInv w0 ownerID rootID w nodes paths (setDir dirMap key id) := by
  obtain ⟨docs, t, hf⟩ := h
  refine ⟨docs, t, ⟨hf.nodes_eq, hf.ids, hf.fresh, hf.nodup, hf.owner, hf.parent, hf.blobs,
    hf.trace_eq, hf.created, hf.saved, hf.root, ?_⟩⟩
  intro kv hkv
  unfold setDir at hkv
  rcases List.mem_cons.1 hkv with rfl | hkv
  · exact hid
  · exact hf.dirs kv (List.mem_of_mem_filter hkv)

theorem lookupDir_mem {m : List (String × String)} {key id : String}
    (h : lookupDir m key = some id) : ∃ kv ∈ m, kv.2 = id := by
  unfold lookupDir at h
  obtain ⟨kv, hkv, rfl⟩ := Option.map_eq_some'.1 h
  exact ⟨kv, List.mem_of_find?_eq_some hkv, rfl⟩

theorem createDirLoop_inv (env : UnzipEnv) {w0 : World} {ownerID rootID : String} :
    ∀ (parts : List String) (i : Nat) (cur : List String) (curParent : String) (s : UnzipState),
      s.Inv w0 ownerID rootID → FolderOf s.world.nodes ownerID curParent →
      (createDirLoop env ownerID parts i cur curParent s).1.Inv w0 ownerID rootID ∧
      (createDirLoop env ownerID parts i cur curParent s).1.totalEntries = s.totalEntries ∧
      (createDirLoop env ownerID parts i cur curParent s).1.totalExtractedSize =
        s.totalExtractedSize ∧
      (createDirLoop env ownerID parts i cur curParent s).1.createdPaths = s.createdPaths ∧
      ∀ id, (createDirLoop env ownerID parts i cur curParent s).2 = .ok id →
        FolderOf (createDirLoop env ownerID parts i cur curParent s).1.world.nodes ownerID id := by
  intro parts
  induction parts with
  | nil =>
    intro i cur curParent s hs hp
    refine ⟨hs, rfl, rfl, rfl, fun id hid => ?_⟩
    simp only [createDirLoop] at hid ⊢
    cases hid
    exact hp
  | cons p rest ih =>
    intro i cur curParent s hs hp
    unfold createDirLoop
    simp only
    cases hl : lookupDir s.dirNodeMap (joinSlash (cur ++ [p])) with
    | some id =>
      simp only
      obtain ⟨kv, hkv, rfl⟩ := lookupDir_mem hl
      obtain ⟨docs, t, hf⟩ := hs
      exact ih (i + 1) (cur ++ [p]) kv.2 s ⟨docs, t, hf⟩ (hf.dirs kv hkv)
    | none =>
      simp only
      cases hc : s.world.createNode env.now (env.ids s.inserts)
          { ID := "", OwnerID := ownerID, ParentID := curParent, Name := p, Typ := "folder",
            Size := 0, Mime := "", Path := "", CreatedAt := 0, UpdatedAt := 0 } with
      | error e =>
        simp only
        exact ⟨hs, trivial, trivial, trivial, fun id hid => by cases hid⟩
      | ok r =>
        obtain ⟨w1, n1⟩ := r
        simp only
        obtain ⟨docs, t, hf⟩ := hs
        obtain ⟨d, hf1, -, hfold⟩ := UnzipFacts_createNode hf hc rfl hp
        have hfo : FolderOf w1.nodes ownerID n1.ID := hfold rfl
        have hinv1 : UnzipState.Inv w0 ownerID rootID
            { s with world := w1, createdNodes := s.createdNodes ++ [n1],
                     dirNodeMap := setDir s.dirNodeMap (joinSlash (cur ++ [p])) n1.ID,
                     inserts := s.inserts + 1 } :=
          UnzipInv_setDir ⟨_, _, hf1⟩ _ _ hfo
        split
        · exact ⟨hinv1, rfl, rfl, rfl, fun id hid => by cases hid⟩
        · exact ih (i + 1) (cur ++ [p]) n1.ID _ hinv1 hfo

theorem EntrySpec_ok {env : UnzipEnv} {w0 : World} {ownerID rootID : String} {s1 : UnzipState}
    {te : Nat} (h : s1.Inv w0 ownerID rootID) (hte : s1.totalEntries = te) :
    EntrySpec env w0 ownerID rootID te (.ok s1) := by
  refine ⟨fun s2 h2 => ?_, fun x hx => ?_⟩
  · cases h2
    exact ⟨h, hte⟩
  · cases hx

theorem EntrySpec_fail {env : UnzipEnv} {w0 : World} {ownerID rootID : String} (te : Nat)
    {s : UnzipState} {paths : List String}
    (h : UnzipInv w0 ownerID rootID s.world s.createdNodes paths s.dirNodeMap)
    {status : Nat} {msg : String} (hst : status = 400 ∨ status = 500)
    (hmsg : (⟨status, .error msg⟩ : Response) ≠ ⟨400, .error "too many entries in zip"⟩) :
    EntrySpec env w0 ownerID rootID te (unzipFail env s paths status msg) := by
  refine ⟨fun s2 h2 => ?_, fun x hx => ?_⟩
  · cases h2
  · unfold unzipFail at hx
    cases hx
    exact ⟨⟨hst, _, _, _, _, h, rfl⟩, hmsg⟩

theorem status_500_ne (msg : String) :
    (⟨500, .error msg⟩ : Response) ≠ ⟨400, .error "too many entries in zip"⟩ := by
  intro h
  injection h with h1 _
  exact absurd h1 (by decide)


theorem EntrySpec_ite {env : UnzipEnv} {w0 : World} {ownerID rootID : String} {te : Nat}
    {c : Prop} [Decidable c] {a b : Except (Response × World) UnzipState}
    (ha : c → EntrySpec env w0 ownerID rootID te a)
    (hb : ¬c → EntrySpec env w0 ownerID rootID te b) :
    EntrySpec env w0 ownerID rootID te (if c then a else b) := by
  by_cases h : c
  · rw [if_pos h]
    exact ha h
  · rw [if_neg h]
    exact hb h

theorem createDirNode_inv (env : UnzipEnv) {w0 : World} {ownerID rootID : String}
    (parts : List String) (s : UnzipState) (hs : s.Inv w0 ownerID rootID) :
    (createDirNode env ownerID rootID parts s).1.Inv w0 ownerID rootID ∧
    (createDirNode env ownerID rootID parts s).1.totalEntries = s.totalEntries ∧
    (createDirNode env ownerID rootID parts s).1.totalExtractedSize = s.totalExtractedSize ∧
    (createDirNode env ownerID rootID parts s).1.createdPaths = s.createdPaths ∧
    ∀ id, (createDirNode env ownerID rootID parts s).2 = .ok id →
      FolderOf (createDirNode env ownerID rootID parts s).1.world.nodes ownerID id := by
  have hroot : FolderOf s.world.nodes ownerID rootID := by
    obtain ⟨docs, t, hf⟩ := hs
    exact hf.root
  exact createDirLoop_inv env parts 0 [] rootID s hs hroot

theorem processEntry_spec (env : UnzipEnv) {w0 : World} {ownerID rootID : String}
    (s : UnzipState) (f : ZipEntry) (hs : s.Inv w0 ownerID rootID) :
    EntrySpec env w0 ownerID rootID s.totalEntries (processEntry env ownerID rootID s f) := by
  delta processEntry
  refine EntrySpec_ite (fun _ => EntrySpec_ok hs rfl) (fun _ => ?_)
  dsimp only
  generalize replaceChar '\\' '/' (Clean (trimLeftSlash (replaceChar '\\' '/' f.Name))) = clean
  refine EntrySpec_ite (fun _ => EntrySpec_ok hs rfl) (fun _ => ?_)
  refine EntrySpec_ite (fun _ => EntrySpec_fail _ hs (Or.inl rfl) (by decide)) (fun _ => ?_)
  refine EntrySpec_ite (fun _ => EntrySpec_fail _ hs (Or.inl rfl) (by decide)) (fun _ => ?_)
  refine EntrySpec_ite (fun _ => ?_) (fun _ => ?_)
  · have hd := createDirNode_inv env (Split (trimRightSlash clean)) s hs
    generalize createDirNode env ownerID rootID (Split (trimRightSlash clean)) s = r at hd ⊢
    obtain ⟨s1, res⟩ := r
    cases res with
    | error e => exact EntrySpec_fail _ hd.1 (Or.inr rfl) (status_500_ne _)
    | ok id => exact EntrySpec_ok hd.1 hd.2.1
  refine EntrySpec_ite (fun _ => EntrySpec_ok hs rfl) (fun _ => ?_)
  generalize List.find? (fun comp => decide (comp = "" ∨ byteLen comp > maxFilenameLength))
    (Split clean) = found
  cases found with
  | some comp =>
    dsimp only
    exact EntrySpec_ite (fun _ => EntrySpec_fail _ hs (Or.inl rfl) (by decide))
      (fun _ => EntrySpec_fail _ hs (Or.inl rfl) (by decide))
  | none =>
    dsimp only
    have hd := createDirNode_inv env (Split clean).dropLast s hs
    generalize createDirNode env ownerID rootID (Split clean).dropLast s = r at hd ⊢
    obtain ⟨s1, res⟩ := r
    cases res with
    | error e => exact EntrySpec_fail _ hd.1 (Or.inr rfl) (status_500_ne _)
    | ok parentForFile =>
      obtain ⟨hi1, hte, -, -, hfo⟩ := hd
      have hpf : FolderOf s1.world.nodes ownerID parentForFile := hfo _ rfl
      rw [← hte]
      dsimp only
      refine EntrySpec_ite (fun _ => EntrySpec_fail _ hi1 (Or.inr rfl) (status_500_ne _))
        (fun _ => ?_)
      generalize SaveFromReader env.storage ownerID (Join [rootID, clean])
        (f.Size ⊓ (maxTotalExtractSize + 1)) = saved
      cases saved with
      | error e => exact EntrySpec_fail _ hi1 (Or.inr rfl) (status_500_ne _)
      | ok sp =>
        obtain ⟨savedPath, size⟩ := sp
        dsimp only
        have hi2 := UnzipInv_saveFile hi1 savedPath
        refine EntrySpec_ite (fun _ => ?_) (fun _ => ?_)
        · refine EntrySpec_fail _ ?_ (Or.inl rfl) (by decide)
          exact UnzipInv_deleteFileWith hi2 _ _
        · generalize hc : (s1.world.saveFile savedPath).createNode env.now (env.ids s1.inserts)
            _ = created
          cases created with
          | error e =>
            refine EntrySpec_fail _ ?_ (Or.inr rfl) (status_500_ne _)
            exact UnzipInv_deleteFileWith hi2 _ _
          | ok wn =>
            obtain ⟨w3, n1⟩ := wn
            obtain ⟨docs, t, hf2⟩ := hi2
            have hpf2 : FolderOf (s1.world.saveFile savedPath).nodes ownerID
                parentForFile := hpf
            obtain ⟨d, hf3, -, -⟩ := UnzipFacts_createNode hf2 hc rfl hpf2
            refine EntrySpec_ok ?_ rfl
            exact ⟨_, _, hf3⟩

/-! ### The rollback `cleanupCreated` -/

theorem deleteNodeWith_facts (fails : List Call → String → Bool) (w : World) (id : String) :
    (w.deleteNodeWith fails id).blobs = w.blobs ∧
      (w.deleteNodeWith fails id).trace = w.trace ++ [.deleteNode id] ∧
      (fails w.trace id = false → (w.deleteNodeWith fails id).nodes = (w.deleteNode id).nodes) := by
  unfold World.deleteNodeWith
  by_cases hf : fails w.trace id = true
  · rw [if_pos hf]
    refine ⟨rfl, rfl, fun h => ?_⟩
    rw [hf] at h
    cases h
  · rw [if_neg hf]
    refine ⟨?_, deleteNode_trace w id, fun _ => rfl⟩
    unfold World.deleteNode
    split <;> rfl

theorem cleanupFiles_facts (fails : BlobFailures) (paths : List String) :
    ∀ w : World,
      (paths.foldl (fun w p => w.deleteFileWith fails p) w).nodes = w.nodes ∧
      (paths.foldl (fun w p => w.deleteFileWith fails p) w).trace =
        w.trace ++ paths.map Call.deleteFile ∧
      ((∀ t p, fails t p = false) →
        (paths.foldl (fun w p => w.deleteFileWith fails p) w).blobs =
          w.blobs.filter (fun q => q ∉ paths)) := by
  induction paths with
  | nil =>
    intro w
    simp
  | cons p ps ih =>
    intro w
    obtain ⟨h1, h2, -, h4⟩ := deleteFileWith_facts fails w p
    obtain ⟨i1, i2, i3⟩ := ih (w.deleteFileWith fails p)
    simp only [List.foldl_cons]
    refine ⟨i1.trans h1, ?_, fun hno => ?_⟩
    · rw [i2, h2]
      simp
    · rw [i3 hno, h4 (hno _ _), List.filter_filter]
      apply List.filter_congr
      intro q _
      by_cases hq1 : q = p <;> by_cases hq2 : q ∈ ps <;> simp [hq1, hq2]

theorem cleanupNodes_facts (fails : List Call → String → Bool) (ids : List String) :
    ∀ w : World,
      (ids.foldl (fun w id => w.deleteNodeWith fails id) w).blobs = w.blobs ∧
      (ids.foldl (fun w id => w.deleteNodeWith fails id) w).trace =
        w.trace ++ ids.map Call.deleteNode := by
  induction ids with
  | nil =>
    intro w
    simp
  | cons p ps ih =>
    intro w
    obtain ⟨h1, h2, -⟩ := deleteNodeWith_facts fails w p
    obtain ⟨i1, i2⟩ := ih (w.deleteNodeWith fails p)
    simp only [List.foldl_cons]
    refine ⟨i1.trans h1, ?_⟩
    rw [i2, h2]
    simp

theorem deleteOne_append_last (base : Store) (d : Doc) (h : ∀ x ∈ base, x.id ≠ d.id) :
    deleteOne (fun x => decide (x.id = d.id)) (base ++ [d]) = base := by
  induction base with
  | nil => simp [deleteOne]
  | cons a as ih =>
    have ha : a.id ≠ d.id := h a (List.mem_cons_self _ _)
    rw [List.cons_append]
    unfold deleteOne
    rw [if_neg (by simpa using ha), ih (fun x hx => h x (List.mem_cons_of_mem _ hx))]

theorem cleanupNodes_nodes (fails : List Call → String → Bool)
    (hno : ∀ t id, fails t id = false) (base : Store) (docs : List Doc) :
    ∀ w : World, w.nodes = base ++ docs → (∀ d ∈ docs, ∀ x ∈ base, x.id ≠ d.id) →
      (docs.map (fun d => d.id)).Nodup →
      (((docs.map (fun d => d.id.Hex)).reverse).foldl
        (fun w id => w.deleteNodeWith fails id) w).nodes = base := by
  induction docs using List.reverseRecOn with
  | nil =>
    intro w hw _ _
    simpa using hw
  | append_singleton ds d ih =>
    intro w hw hfresh hnd
    simp only [List.map_append, List.map_cons, List.map_nil, List.reverse_append,
      List.reverse_cons, List.reverse_nil, List.nil_append, List.singleton_append,
      List.foldl_cons]
    apply ih
    · rw [(deleteNodeWith_facts fails w d.id.Hex).2.2 (hno _ _), deleteNode_nodes, hw,
        ← List.append_assoc]
      apply deleteOne_append_last
      intro x hx
      rcases List.mem_append.1 hx with hx | hx
      · exact hfresh d (by simp) x hx
      · intro hxe
        rw [List.map_append, List.nodup_append] at hnd
        exact hnd.2.2 (List.mem_map.2 ⟨x, hx, rfl⟩) (by simp [hxe])
    · intro d1 hd1 x hx
      exact hfresh d1 (List.mem_append_left _ hd1) x hx
    · rw [List.map_append, List.nodup_append] at hnd
      exact hnd.1

theorem cleanupCreated_trace (env : UnzipEnv) (w : World) (paths : List String)
    (nodes : List Node) :
    (cleanupCreated env w paths nodes).trace =
      w.trace ++ (paths.map Call.deleteFile ++
        nodes.reverse.map (fun n => Call.deleteNode n.ID)) := by
  unfold cleanupCreated
  simp only
  have h := (cleanupNodes_facts env.deleteNodeFails (nodes.reverse.map (fun n => n.ID))
    (paths.foldl (fun w p => w.deleteFileWith env.deleteFileFails p) w)).2
  rw [List.foldl_map] at h
  rw [h, (cleanupFiles_facts env.deleteFileFails paths w).2.1, List.map_map,
    List.append_assoc]
  rfl

theorem cleanupCreated_undo {env : UnzipEnv} {w0 : World} {ownerID rootID : String}
    {w : World} {nodes : List Node} {paths : List String} {dirMap : List (String × String)}
    (hi : UnzipInv w0 ownerID rootID w nodes paths dirMap)
    (hf : ∀ t p, env.deleteFileFails t p = false)
    (hn : ∀ t id, env.deleteNodeFails t id = false) :
    (cleanupCreated env w paths nodes).nodes = w0.nodes ∧
      ∀ q ∈ (cleanupCreated env w paths nodes).blobs, q ∈ w0.blobs ∧ q ∉ paths := by
  obtain ⟨docs, t, hfacts⟩ := hi
  obtain ⟨f1, -, f3⟩ := cleanupFiles_facts env.deleteFileFails paths w
  have hids : nodes.reverse.map (fun n => n.ID) = (docs.map (fun d => d.id.Hex)).reverse := by
    rw [hfacts.ids, List.map_reverse]
  have hfold : ∀ (l : List Node) (w : World),
      l.foldl (fun w n => w.deleteNodeWith env.deleteNodeFails n.ID) w =
        (l.map (fun n => n.ID)).foldl (fun w id => w.deleteNodeWith env.deleteNodeFails id) w := by
    intro l w
    rw [List.foldl_map]
  unfold cleanupCreated
  simp only
  rw [hfold, hids]
  refine ⟨?_, ?_⟩
  · exact cleanupNodes_nodes env.deleteNodeFails hn w0.nodes docs _
      (f1.trans hfacts.nodes_eq) hfacts.fresh hfacts.nodup
  · intro q hq
    rw [(cleanupNodes_facts env.deleteNodeFails _ _).1, f3 hf] at hq
    obtain ⟨hq1, hq2⟩ := List.mem_filter.1 hq
    have hq3 : q ∉ paths := by simpa using hq2
    rcases hfacts.blobs q hq1 with h | h
    · exact ⟨h, hq3⟩
    · exact absurd h hq3


/-! ### The loop over the entries -/

theorem unzipLoop_cons (env : UnzipEnv) (ownerID rootID : String) (s : UnzipState)
    (f : ZipEntry) (rest : List ZipEntry) :
    unzipLoop env ownerID rootID s (f :: rest) =
      if s.totalEntries + 1 > maxEntries then
        unzipFail env { s with totalEntries := s.totalEntries + 1 } s.createdPaths 400
          "too many entries in zip"
      else
        match processEntry env ownerID rootID { s with totalEntries := s.totalEntries + 1 } f with
        | .error r => .error r
        | .ok s1 => unzipLoop env ownerID rootID s1 rest := by
  rw [unzipLoop]

theorem Inv_totalEntries {w0 : World} {ownerID rootID : String} {s : UnzipState}
    (hs : s.Inv w0 ownerID rootID) (n : Nat) :
    UnzipState.Inv w0 ownerID rootID { s with totalEntries := n } := hs

theorem unzipLoop_spec (env : UnzipEnv) {w0 : World} {ownerID rootID : String} :
    ∀ (es : List ZipEntry) (s : UnzipState), s.Inv w0 ownerID rootID →
      (∀ s1, unzipLoop env ownerID rootID s es = .ok s1 →
        s1.Inv w0 ownerID rootID ∧ s1.totalEntries = s.totalEntries + es.length) ∧
      (∀ x, unzipLoop env ownerID rootID s es = .error x →
        UnzipExit env w0 ownerID rootID x ∧
          (s.totalEntries + es.length ≤ maxEntries →
            x.1 ≠ ⟨400, .error "too many entries in zip"⟩)) := by
  intro es
  induction es with
  | nil =>
    intro s hs
    refine ⟨fun s1 h => ?_, fun x h => ?_⟩
    · rw [unzipLoop] at h
      cases h
      exact ⟨hs, rfl⟩
    · rw [unzipLoop] at h
      cases h
  | cons f rest ih =>
    intro s hs
    rw [unzipLoop_cons]
    by_cases hcap : s.totalEntries + 1 > maxEntries
    · rw [if_pos hcap]
      refine ⟨fun s1 h => ?_, fun x h => ?_⟩
      · cases h
      · unfold unzipFail at h
        cases h
        refine ⟨⟨Or.inl rfl, _, _, _, _, hs, rfl⟩, fun hle => ?_⟩
        rw [List.length_cons] at hle
        omega
    · rw [if_neg hcap]
      have hp := processEntry_spec env { s with totalEntries := s.totalEntries + 1 } f
        (Inv_totalEntries hs _)
      generalize processEntry env ownerID rootID { s with totalEntries := s.totalEntries + 1 } f
        = res at hp ⊢
      cases res with
      | error r =>
        refine ⟨fun s1 h => ?_, fun x h => ?_⟩
        · cases h
        · cases h
          exact ⟨(hp.2 _ rfl).1, fun _ => (hp.2 _ rfl).2⟩
      | ok s2 =>
        obtain ⟨hi2, hte⟩ := hp.1 _ rfl
        have hte2 : s2.totalEntries = s.totalEntries + 1 := hte
        obtain ⟨ih1, ih2⟩ := ih s2 hi2
        refine ⟨fun s1 h => ?_, fun x h => ?_⟩
        · obtain ⟨h1, h2⟩ := ih1 s1 h
          refine ⟨h1, ?_⟩
          rw [h2, hte2, List.length_cons]
          omega
        · obtain ⟨h1, h2⟩ := ih2 x h
          refine ⟨h1, fun hle => h2 ?_⟩
          rw [List.length_cons] at hle
          omega

theorem unzipLoop_append (env : UnzipEnv) (ownerID rootID : String) (post : List ZipEntry) :
    ∀ (pre : List ZipEntry) (s s1 : UnzipState),
      unzipLoop env ownerID rootID s pre = .ok s1 →
      unzipLoop env ownerID rootID s (pre ++ post) = unzipLoop env ownerID rootID s1 post := by
  intro pre
  induction pre with
  | nil =>
    intro s s1 h
    rw [unzipLoop] at h
    cases h
    rfl
  | cons f rest ih =>
    intro s s1 h
    rw [List.cons_append, unzipLoop_cons]
    rw [unzipLoop_cons] at h
    by_cases hcap : s.totalEntries + 1 > maxEntries
    · rw [if_pos hcap] at h
      cases h
    · rw [if_neg hcap] at h ⊢
      generalize processEntry env ownerID rootID { s with totalEntries := s.totalEntries + 1 } f
        = res at h ⊢
      cases res with
      | error r => cases h
      | ok s2 => exact ih s2 s1 h

/-! ### The handler around the loop -/

theorem createRoot_inv {w w1 : World} {now : Nat} {fresh : ObjectID} {n root : Node}
    {ownerID : String} (hc : w.createNode now fresh n = .ok (w1, root))
    (ho : n.OwnerID = ownerID) (ht : n.Typ = "folder") :
    UnzipInv w ownerID root.ID w1 [root] [] [] := by
  obtain ⟨d, hfresh, hnodes, hdid, hdo, -, hdt, -, hblobs, htrace, hid, -, -, -⟩ :=
    createNode_ok hc
  have hfolder : FolderOf w1.nodes ownerID root.ID := by
    refine ⟨d.decode, ?_, ?_, ?_, ?_⟩
    · rw [hnodes]
      unfold Store.nodes
      simp
    · rw [hid, ← hdid]
      rfl
    · exact hdt.trans ht
    · exact hdo.trans ho
  refine ⟨[d], [.createNode root.ID], hnodes, ?_, ?_, ?_, ?_, ?_, ?_, ?_, ?_, ?_, hfolder, ?_⟩
  · simp [hid, hdid]
  · intro d1 hd1 x hx
    rw [List.mem_singleton.1 hd1, hdid]
    exact hfresh x hx
  · simp
  · intro d1 hd1
    rw [List.mem_singleton.1 hd1]
    exact hdo.trans ho
  · intro d1 hd1
    left
    rw [List.mem_singleton.1 hd1, hdid, hid]
  · intro p hp
    left
    rw [hblobs] at hp
    exact hp
  · rw [htrace, hid]
  · intro id hmem
    simpa using hmem
  · intro p hmem
    simp at hmem
  · intro kv hkv
    cases hkv

theorem UnzipHandler_shape (env : UnzipEnv) (w : World) (ownerID parentID filename : String)
    (size : Nat) :
    (∃ resp, (resp.status = 400 ∨ resp.status = 500) ∧
        resp ≠ ⟨400, .error "too many entries in zip"⟩ ∧
        ∀ es, UnzipHandler env w ownerID parentID (some ⟨filename, size, some es⟩) =
          some (resp, w)) ∨
    (∃ w1 root, UnzipInv w ownerID root.ID w1 [root] [] [] ∧
        (∀ es x, unzipLoop env ownerID root.ID ⟨w1, [root], [], [], 0, 0, 1⟩ es = .error x →
          UnzipHandler env w ownerID parentID (some ⟨filename, size, some es⟩) = some x) ∧
        (∀ es s, unzipLoop env ownerID root.ID ⟨w1, [root], [], [], 0, 0, 1⟩ es = .ok s →
          ∃ body, UnzipHandler env w ownerID parentID (some ⟨filename, size, some es⟩) =
            some (⟨201, body⟩, s.world))) := by
  by_cases h1 : min size (maxZipSize + 1) > maxZipSize
  · left
    refine ⟨⟨400, .error "zip too large (limit 209715200 bytes)"⟩, Or.inl rfl, by decide,
      fun es => ?_⟩
    unfold UnzipHandler
    dsimp only
    rw [if_pos h1]
  by_cases h2 : min size (maxZipSize + 1) = 0
  · left
    refine ⟨⟨400, .error "empty zip"⟩, Or.inl rfl, by decide, fun es => ?_⟩
    unfold UnzipHandler
    dsimp only
    rw [if_neg h1, if_pos h2]
  cases hc : w.createNode env.now (env.ids 0)
      { ID := "", OwnerID := ownerID, ParentID := parentID,
        Name := rootFolderName filename env.now, Typ := "folder", Size := 0, Mime := "",
        Path := "", CreatedAt := 0, UpdatedAt := 0 } with
  | error e =>
    left
    refine ⟨⟨500, .error (String.mk ("failed to create root folder node: ".data ++ e.data))⟩,
      Or.inr rfl, status_500_ne _, fun es => ?_⟩
    unfold UnzipHandler
    dsimp only
    rw [if_neg h1, if_neg h2, hc]
  | ok wn =>
    obtain ⟨w1, root⟩ := wn
    right
    refine ⟨w1, root, createRoot_inv hc rfl rfl, fun es x hx => ?_, fun es s hs => ?_⟩
    · unfold UnzipHandler
      dsimp only
      rw [if_neg h1, if_neg h2, hc]
      dsimp only
      rw [hx]
    · unfold UnzipHandler
      dsimp only
      rw [if_neg h1, if_neg h2, hc]
      dsimp only
      rw [hs]
      exact ⟨_, rfl⟩

theorem UnzipExit_status {env : UnzipEnv} {w0 : World} {ownerID rootID : String}
    {x : Response × World} (hx : UnzipExit env w0 ownerID rootID x) : x.1.status ≠ 201 := by
  rcases hx.1 with h | h <;> rw [h] <;> decide

theorem UnzipExit_rollback {env : UnzipEnv} {w0 : World} {ownerID rootID : String}
    {x : Response × World} (hx : UnzipExit env w0 ownerID rootID x) :
    ∃ (t : List Call) (nodes paths : List String),
      x.2.trace = w0.trace ++ t ++
        (paths.map Call.deleteFile ++ nodes.reverse.map Call.deleteNode) ∧
      (∀ id, Call.createNode id ∈ t → id ∈ nodes) ∧
      (∀ p, Call.saveFile p ∈ t → p ∈ paths) ∧
      ((∀ t p, env.deleteFileFails t p = false) → (∀ t id, env.deleteNodeFails t id = false) →
        x.2.nodes = w0.nodes ∧ ∀ q ∈ x.2.blobs, q ∈ w0.blobs ∧ q ∉ paths) := by
  obtain ⟨-, w, nodes, paths, dirMap, hi, hx2⟩ := hx
  have hundo := fun (hf : ∀ t p, env.deleteFileFails t p = false)
      (hn : ∀ t id, env.deleteNodeFails t id = false) => cleanupCreated_undo hi hf hn
  obtain ⟨docs, t, hfacts⟩ := hi
  refine ⟨t, nodes.map (fun n => n.ID), paths, ?_, hfacts.created, hfacts.saved, ?_⟩
  · rw [hx2, cleanupCreated_trace, hfacts.trace_eq, ← List.map_reverse, List.map_map]
    rfl
  · intro hf hn
    rw [hx2]
    exact hundo hf hn

theorem saved_paths_gone {w wf : World} {t : List Call} {nodes paths : List String}
    (htr : wf.trace = w.trace ++ t ++
      (paths.map Call.deleteFile ++ nodes.reverse.map Call.deleteNode))
    (hsaved : ∀ p, Call.saveFile p ∈ t → p ∈ paths)
    (hblobs : ∀ q ∈ wf.blobs, q ∈ w.blobs ∧ q ∉ paths) :
    ∀ t1, wf.trace = w.trace ++ t1 → ∀ p, Call.saveFile p ∈ t1 → p ∉ wf.blobs := by
  intro t1 ht1 p hp hmem
  rw [htr, List.append_assoc] at ht1
  have h := List.append_cancel_left ht1
  rw [← h] at hp
  rcases List.mem_append.1 hp with hp | hp
  · exact (hblobs p hmem).2 (hsaved p hp)
  · rcases List.mem_append.1 hp with hp | hp
    · obtain ⟨q, -, hq⟩ := List.mem_map.1 hp
      cases hq
    · obtain ⟨q, -, hq⟩ := List.mem_map.1 hp
      cases hq

theorem UnzipHandler_created {env : UnzipEnv} {w : World}
    {ownerID parentID filename : String} {size : Nat} {pre : List ZipEntry}
    (hpre : (UnzipHandler env w ownerID parentID (some ⟨filename, size, some pre⟩)).map
      (fun x => x.1.status) = some 201) :
    ∃ w1 root s, unzipLoop env ownerID root.ID ⟨w1, [root], [], [], 0, 0, 1⟩ pre = .ok s ∧
      s.Inv w ownerID root.ID ∧ s.totalEntries = pre.length ∧
      (∀ es x, unzipLoop env ownerID root.ID ⟨w1, [root], [], [], 0, 0, 1⟩ es = .error x →
        UnzipHandler env w ownerID parentID (some ⟨filename, size, some es⟩) = some x) ∧
      (∀ es s, unzipLoop env ownerID root.ID ⟨w1, [root], [], [], 0, 0, 1⟩ es = .ok s →
        ∃ body, UnzipHandler env w ownerID parentID (some ⟨filename, size, some es⟩) =
          some (⟨201, body⟩, s.world)) := by
  rcases UnzipHandler_shape env w ownerID parentID filename size with
    ⟨resp, hst, -, hall⟩ | ⟨w1, root, hinv, herr, hok⟩
  · rw [hall pre] at hpre
    simp only [Option.map_some', Option.some.injEq] at hpre
    rcases hst with h | h <;> rw [h] at hpre <;> cases hpre
  · have hspec := unzipLoop_spec env pre ⟨w1, [root], [], [], 0, 0, 1⟩ hinv
    cases hl : unzipLoop env ownerID root.ID ⟨w1, [root], [], [], 0, 0, 1⟩ pre with
    | error x =>
      rw [herr pre x hl] at hpre
      simp only [Option.map_some', Option.some.injEq] at hpre
      exact absurd hpre (UnzipExit_status (hspec.2 x hl).1)
    | ok s =>
      obtain ⟨h1, h2⟩ := hspec.1 s hl
      refine ⟨w1, root, s, hl, h1, ?_, herr, hok⟩
      rw [h2]
      simp

theorem traversal_entry {e : ZipEntry}
    (he : (Split (replaceChar '\\' '/' (Clean (trimLeftSlash
      (replaceChar '\\' '/' e.Name))))).any (fun pseg => pseg = "..") = true)
    (env : UnzipEnv) (ownerID rootID : String) (s : UnzipState) :
    processEntry env ownerID rootID s e =
      unzipFail env s s.createdPaths 400 "zip contains invalid path segments" := by
  have h1 : e.Name ≠ "" := by
    intro h
    rw [h] at he
    revert he
    decide
  have h2 : ¬ (replaceChar '\\' '/' (Clean (trimLeftSlash (replaceChar '\\' '/' e.Name))) = "."
      ∨ replaceChar '\\' '/' (Clean (trimLeftSlash (replaceChar '\\' '/' e.Name))) = "") := by
    intro h
    rcases h with h | h <;> rw [h] at he <;> revert he <;> decide
  delta processEntry
  rw [if_neg h1]
  dsimp only
  rw [if_neg h2, if_pos he]

/-- C18 Archive traversal defense: when the handler answers 201 on the entries `pre`, and
the cleaned, forward-slash-normalized name of the entry `e` has a `..` segment, then on the
archive `pre ++ e :: post` the handler answers 400, and when no delete fails the node store
is the one before the call, every blob left was there before the call, and no path saved
during the call is a blob afterwards. -/
theorem UnzipHandler_rejects_traversal (env : UnzipEnv) (w : World)
    (ownerID parentID filename : String) (size : Nat) (pre post : List ZipEntry) (e : ZipEntry)
    (hpre : (UnzipHandler env w ownerID parentID (some ⟨filename, size, some pre⟩)).map
      (fun x => x.1.status) = some 201)
    (he : (Split (replaceChar '\\' '/' (Clean (trimLeftSlash
      (replaceChar '\\' '/' e.Name))))).any (fun pseg => pseg = "..") = true) :
    ∃ resp wf,
      UnzipHandler env w ownerID parentID (some ⟨filename, size, some (pre ++ e :: post)⟩) =
        some (resp, wf) ∧
      resp.status = 400 ∧
      ((∀ t p, env.deleteFileFails t p = false) → (∀ t id, env.deleteNodeFails t id = false) →
        wf.nodes = w.nodes ∧ (∀ q ∈ wf.blobs, q ∈ w.blobs) ∧
        ∀ t, wf.trace = w.trace ++ t → ∀ p, Call.saveFile p ∈ t → p ∉ wf.blobs) := by
  obtain ⟨w1, root, s, hl, hinv, -, herr, -⟩ := UnzipHandler_created hpre
  have happ := unzipLoop_append env ownerID root.ID (e :: post) pre _ s hl
  have hexit : ∃ msg, unzipLoop env ownerID root.ID s (e :: post) =
      .error (⟨400, .error msg⟩, cleanupCreated env s.world s.createdPaths s.createdNodes) := by
    rw [unzipLoop_cons]
    by_cases hcap : s.totalEntries + 1 > maxEntries
    · rw [if_pos hcap]
      exact ⟨_, rfl⟩
    · rw [if_neg hcap, traversal_entry he]
      exact ⟨_, rfl⟩
  obtain ⟨msg, hexit⟩ := hexit
  rw [hexit] at happ
  refine ⟨_, _, herr _ _ happ, rfl, fun hf hn => ?_⟩
  have hx : UnzipExit env w ownerID root.ID
      (⟨400, .error msg⟩, cleanupCreated env s.world s.createdPaths s.createdNodes) :=
    ⟨Or.inl rfl, _, _, _, _, hinv, rfl⟩
  obtain ⟨t, nodes, paths, htr, -, hsaved, hundo⟩ := UnzipExit_rollback hx
  obtain ⟨hn1, hb1⟩ := hundo hf hn
  exact ⟨hn1, fun q hq => (hb1 q hq).1, saved_paths_gone htr hsaved hb1⟩

theorem UnzipHandler_rejects_traversal_witness :
    (UnzipHandler sampleEnv emptyWorld "u1" "" (some ⟨"pack.zip", 100,
      some [⟨"docs/a.txt", false, false, false, 5, "text/plain; charset=utf-8"⟩]⟩)).map
      (fun x => x.1.status) = some 201 ∧
    ∃ resp wf,
      UnzipHandler sampleEnv emptyWorld "u1" "" (some ⟨"pack.zip", 100,
        some ([⟨"docs/a.txt", false, false, false, 5, "text/plain; charset=utf-8"⟩] ++
          ⟨"../../evil.txt", false, false, false, 6, "text/plain; charset=utf-8"⟩ :: [])⟩) =
        some (resp, wf) ∧
      resp.status = 400 ∧
      ((∀ t p, sampleEnv.deleteFileFails t p = false) →
        (∀ t id, sampleEnv.deleteNodeFails t id = false) →
        wf.nodes = emptyWorld.nodes ∧ (∀ q ∈ wf.blobs, q ∈ emptyWorld.blobs) ∧
        ∀ t, wf.trace = emptyWorld.trace ++ t → ∀ p, Call.saveFile p ∈ t → p ∉ wf.blobs) :=
  ⟨by decide, UnzipHandler_rejects_traversal sampleEnv emptyWorld "u1" "" "pack.zip" 100
    [⟨"docs/a.txt", false, false, false, 5, "text/plain; charset=utf-8"⟩] []
    ⟨"../../evil.txt", false, false, false, 6, "text/plain; charset=utf-8"⟩ (by decide)
    (by decide)⟩

theorem UnzipHandler_exits {env : UnzipEnv} {w : World} {ownerID parentID : String}
    {file : Option ZipUpload} {resp : Response} {wf : World}
    (h : UnzipHandler env w ownerID parentID file = some (resp, wf))
    (hst : resp.status ≠ 201) :
    wf = w ∨ ∃ rootID, UnzipExit env w ownerID rootID (resp, wf) := by
  cases file with
  | none =>
    left
    unfold UnzipHandler at h
    simp only [Option.some.injEq, Prod.mk.injEq] at h
    exact h.2.symm
  | some fh =>
    obtain ⟨filename, size, arch⟩ := fh
    cases arch with
    | none =>
      left
      unfold UnzipHandler at h
      dsimp only at h
      by_cases h1 : min size (maxZipSize + 1) > maxZipSize
      · rw [if_pos h1] at h
        simp only [Option.some.injEq, Prod.mk.injEq] at h
        exact h.2.symm
      · rw [if_neg h1] at h
        by_cases h2 : min size (maxZipSize + 1) = 0
        · rw [if_pos h2] at h
          simp only [Option.some.injEq, Prod.mk.injEq] at h
          exact h.2.symm
        · rw [if_neg h2] at h
          simp only [Option.some.injEq, Prod.mk.injEq] at h
          exact h.2.symm
    | some es =>
      rcases UnzipHandler_shape env w ownerID parentID filename size with
        ⟨resp1, -, -, hall⟩ | ⟨w1, root, hinv, herr, hok⟩
      · left
        rw [hall es] at h
        simp only [Option.some.injEq, Prod.mk.injEq] at h
        exact h.2.symm
      · right
        have hspec := unzipLoop_spec env es ⟨w1, [root], [], [], 0, 0, 1⟩ hinv
        cases hl : unzipLoop env ownerID root.ID ⟨w1, [root], [], [], 0, 0, 1⟩ es with
        | error x =>
          rw [herr es x hl] at h
          simp only [Option.some.injEq] at h
          rw [← h]
          exact ⟨root.ID, (hspec.2 x hl).1⟩
        | ok s =>
          obtain ⟨body, hb⟩ := hok es s hl
          rw [hb] at h
          simp only [Option.some.injEq, Prod.mk.injEq] at h
          rw [← h.1] at hst
          exact absurd rfl hst

/-- C19 Rollback completeness and best-effort drain: whenever `UnzipHandler` answers with a
failure, under every pattern of failing deletes, the calls of the request are the calls `t`
of the extraction followed by `DeleteFile` on every path of a list `paths`, first to last,
and `DeleteNode` on every id of a list `nodes`, last to first; the id of every node created
in `t` (the root folder included) is in `nodes` and every path saved in `t` is in `paths`;
and when no delete fails the node store is the one before the call. -/
theorem UnzipHandler_rollback_complete (env : UnzipEnv) (w : World)
    (ownerID parentID : String) (file : Option ZipUpload) (resp : Response) (wf : World)
    (h : UnzipHandler env w ownerID parentID file = some (resp, wf))
    (hst : resp.status ≠ 201) :
    ∃ (t : List Call) (nodes paths : List String),
      wf.trace = w.trace ++ t ++
        (paths.map Call.deleteFile ++ nodes.reverse.map Call.deleteNode) ∧
      (∀ id, Call.createNode id ∈ t → id ∈ nodes) ∧
      (∀ p, Call.saveFile p ∈ t → p ∈ paths) ∧
      ((∀ t p, env.deleteFileFails t p = false) → (∀ t id, env.deleteNodeFails t id = false) →
        wf.nodes = w.nodes) := by
  rcases UnzipHandler_exits h hst with hw | ⟨rootID, hx⟩
  · refine ⟨[], [], [], ?_, fun id hid => ?_, fun p hp => ?_, fun _ _ => ?_⟩
    · rw [hw]
      simp
    · cases hid
    · cases hp
    · rw [hw]
  · obtain ⟨t, nodes, paths, htr, hc, hs, hundo⟩ := UnzipExit_rollback hx
    exact ⟨t, nodes, paths, htr, hc, hs, fun hf hn => (hundo hf hn).1⟩

theorem UnzipHandler_rollback_complete_witness :
    ∃ x, UnzipHandler failingEnv emptyWorld "u1" "" (some ⟨"pack.zip", 100, some evilArchive⟩) =
        some x ∧ x.1.status ≠ 201 ∧
      ∃ (t : List Call) (nodes paths : List String),
        x.2.trace = emptyWorld.trace ++ t ++
          (paths.map Call.deleteFile ++ nodes.reverse.map Call.deleteNode) ∧
        (∀ id, Call.createNode id ∈ t → id ∈ nodes) ∧
        (∀ p, Call.saveFile p ∈ t → p ∈ paths) ∧
        ((∀ t p, failingEnv.deleteFileFails t p = false) →
          (∀ t id, failingEnv.deleteNodeFails t id = false) → x.2.nodes = emptyWorld.nodes) := by
  have hs : (UnzipHandler failingEnv emptyWorld "u1" ""
      (some ⟨"pack.zip", 100, some evilArchive⟩)).map (fun x => x.1.status) = some 400 := by
    decide
  cases h : UnzipHandler failingEnv emptyWorld "u1" ""
      (some ⟨"pack.zip", 100, some evilArchive⟩) with
  | none =>
    rw [h] at hs
    cases hs
  | some x =>
    rw [h] at hs
    have hst : x.1.status ≠ 201 := by
      simp only [Option.map_some', Option.some.injEq] at hs
      rw [hs]
      decide
    exact ⟨x, rfl, hst,
      UnzipHandler_rollback_complete failingEnv emptyWorld "u1" "" _ x.1 x.2 h hst⟩

theorem unzipLoop_skip (env : UnzipEnv) (ownerID rootID : String) :
    ∀ (n : Nat) (s : UnzipState), s.totalEntries + n ≤ maxEntries →
      unzipLoop env ownerID rootID s (List.replicate n skipEntry) =
        .ok { s with totalEntries := s.totalEntries + n } := by
  intro n
  induction n with
  | zero =>
    intro s _
    rw [List.replicate_zero, unzipLoop]
    rfl
  | succ k ih =>
    intro s hle
    have hcap : ¬ s.totalEntries + 1 > maxEntries := by omega
    rw [List.replicate_succ, unzipLoop_cons, if_neg hcap]
    have hp : processEntry env ownerID rootID { s with totalEntries := s.totalEntries + 1 }
        skipEntry = .ok { s with totalEntries := s.totalEntries + 1 } := by
      have hn : skipEntry.Name = "" := rfl
      delta processEntry
      rw [if_pos hn]
    rw [hp]
    dsimp only
    rw [ih _ (by dsimp only; omega)]
    dsimp only
    rw [Nat.add_assoc, Nat.add_comm 1 k]

/-- C20 Entry-count cap: on an archive with more than `maxEntries` (5000) entries whose
first 5000 entries the handler ingests with a 201, the handler answers 400 "too many
entries in zip", and when no delete fails the node store is the one before the call, every
blob left was there before the call, and no path saved during the call is a blob
afterwards; on an archive with at most 5000 entries the handler never gives that answer. -/
theorem UnzipHandler_entry_cap (env : UnzipEnv) (w : World)
    (ownerID parentID filename : String) (size : Nat) (es : List ZipEntry) :
    (es.length > maxEntries →
      (UnzipHandler env w ownerID parentID
        (some ⟨filename, size, some (es.take maxEntries)⟩)).map (fun x => x.1.status) =
          some 201 →
      ∃ wf, UnzipHandler env w ownerID parentID (some ⟨filename, size, some es⟩) =
          some (⟨400, .error "too many entries in zip"⟩, wf) ∧
        ((∀ t p, env.deleteFileFails t p = false) →
          (∀ t id, env.deleteNodeFails t id = false) →
          wf.nodes = w.nodes ∧ (∀ q ∈ wf.blobs, q ∈ w.blobs) ∧
          ∀ t, wf.trace = w.trace ++ t → ∀ p, Call.saveFile p ∈ t → p ∉ wf.blobs)) ∧
    (es.length ≤ maxEntries → ∀ resp wf,
      UnzipHandler env w ownerID parentID (some ⟨filename, size, some es⟩) = some (resp, wf) →
      resp ≠ ⟨400, .error "too many entries in zip"⟩) := by
  constructor
  · intro hlen hpre
    obtain ⟨w1, root, s, hl, hinv, hte, herr, -⟩ := UnzipHandler_created hpre
    have hte2 : s.totalEntries = maxEntries := by
      rw [hte, List.length_take]
      omega
    have hdrop : ∃ f rest, es.drop maxEntries = f :: rest := by
      cases hd : es.drop maxEntries with
      | nil =>
        have := congrArg List.length hd
        rw [List.length_drop, List.length_nil] at this
        omega
      | cons f rest => exact ⟨f, rest, rfl⟩
    obtain ⟨f, rest, hd⟩ := hdrop
    have happ := unzipLoop_append env ownerID root.ID (es.drop maxEntries)
      (es.take maxEntries) _ s hl
    rw [List.take_append_drop, hd, unzipLoop_cons, if_pos (by omega)] at happ
    refine ⟨_, herr _ _ happ, fun hf hn => ?_⟩
    have hx : UnzipExit env w ownerID root.ID
        (⟨400, .error "too many entries in zip"⟩,
          cleanupCreated env s.world s.createdPaths s.createdNodes) :=
      ⟨Or.inl rfl, _, _, _, _, hinv, rfl⟩
    obtain ⟨t, nodes, paths, htr, -, hsaved, hundo⟩ := UnzipExit_rollback hx
    obtain ⟨hn1, hb1⟩ := hundo hf hn
    exact ⟨hn1, fun q hq => (hb1 q hq).1, saved_paths_gone htr hsaved hb1⟩
  · intro hlen resp wf h
    rcases UnzipHandler_shape env w ownerID parentID filename size with
      ⟨resp1, -, hne, hall⟩ | ⟨w1, root, hinv, herr, hok⟩
    · rw [hall es] at h
      simp only [Option.some.injEq, Prod.mk.injEq] at h
      rw [← h.1]
      exact hne
    · have hspec := unzipLoop_spec env es ⟨w1, [root], [], [], 0, 0, 1⟩ hinv
      cases hl : unzipLoop env ownerID root.ID ⟨w1, [root], [], [], 0, 0, 1⟩ es with
      | error x =>
        rw [herr es x hl] at h
        simp only [Option.some.injEq] at h
        have h2 := (hspec.2 x hl).2 (by simpa using hlen)
        rw [h] at h2
        exact h2
      | ok s =>
        obtain ⟨body, hb⟩ := hok es s hl
        rw [hb] at h
        simp only [Option.some.injEq, Prod.mk.injEq] at h
        rw [← h.1]
        intro hc
        injection hc with hc1 _
        exact absurd hc1 (by decide)

theorem UnzipHandler_entry_cap_witness :
    (List.replicate 5001 skipEntry).length > maxEntries ∧
    (UnzipHandler sampleEnv emptyWorld "u1" ""
      (some ⟨"pack.zip", 100, some ((List.replicate 5001 skipEntry).take maxEntries)⟩)).map
        (fun x => x.1.status) = some 201 ∧
    (∃ wf, UnzipHandler sampleEnv emptyWorld "u1" ""
        (some ⟨"pack.zip", 100, some (List.replicate 5001 skipEntry)⟩) =
          some (⟨400, .error "too many entries in zip"⟩, wf) ∧
        ((∀ t p, sampleEnv.deleteFileFails t p = false) →
          (∀ t id, sampleEnv.deleteNodeFails t id = false) →
          wf.nodes = emptyWorld.nodes ∧ (∀ q ∈ wf.blobs, q ∈ emptyWorld.blobs) ∧
          ∀ t, wf.trace = emptyWorld.trace ++ t → ∀ p, Call.saveFile p ∈ t → p ∉ wf.blobs)) ∧
    sampleArchive.length ≤ maxEntries ∧
    (∀ resp wf, UnzipHandler sampleEnv emptyWorld "u1" ""
        (some ⟨"pack.zip", 100, some sampleArchive⟩) = some (resp, wf) →
      resp ≠ ⟨400, .error "too many entries in zip"⟩) := by
  have hlen : (List.replicate 5001 skipEntry).length > maxEntries := by
    rw [List.length_replicate]
    decide
  have h0 : (UnzipHandler sampleEnv emptyWorld "u1" ""
      (some ⟨"pack.zip", 100, some []⟩)).map (fun x => x.1.status) = some 201 := by decide
  have h201 : (UnzipHandler sampleEnv emptyWorld "u1" ""
      (some ⟨"pack.zip", 100, some ((List.replicate 5001 skipEntry).take maxEntries)⟩)).map
        (fun x => x.1.status) = some 201 := by
    obtain ⟨w1, root, s, -, -, -, -, hok⟩ := UnzipHandler_created h0
    have hrep : (List.replicate 5001 skipEntry).take maxEntries =
        List.replicate maxEntries skipEntry := by
      rw [List.take_replicate]
      rfl
    obtain ⟨body, hb⟩ := hok _ _ (unzipLoop_skip sampleEnv "u1" root.ID maxEntries
      ⟨w1, [root], [], [], 0, 0, 1⟩ (by simp))
    rw [hrep, hb]
    rfl
  have hsmall : sampleArchive.length ≤ maxEntries := by decide
  exact ⟨hlen, h201,
    (UnzipHandler_entry_cap sampleEnv emptyWorld "u1" "" "pack.zip" 100 _).1 hlen h201, hsmall,
    (UnzipHandler_entry_cap sampleEnv emptyWorld "u1" "" "pack.zip" 100 _).2 hsmall⟩


/-! ### The loop only appends to the node store -/

theorem createNode_prefix {w w1 : World} {now : Nat} {fresh : ObjectID} {n n1 : Node}
    (h : w.createNode now fresh n = .ok (w1, n1)) : w.nodes <+: w1.nodes := by
  obtain ⟨d, -, hnodes, -⟩ := createNode_ok h
  rw [hnodes]
  exact List.prefix_append _ _

theorem createDirLoop_prefix (env : UnzipEnv) (ownerID : String) :
    ∀ (parts : List String) (i : Nat) (cur : List String) (curParent : String) (s : UnzipState),
      s.world.nodes <+: (createDirLoop env ownerID parts i cur curParent s).1.world.nodes := by
  intro parts
  induction parts with
  | nil =>
    intro i cur curParent s
    exact List.prefix_refl _
  | cons p rest ih =>
    intro i cur curParent s
    unfold createDirLoop
    simp only
    cases hl : lookupDir s.dirNodeMap (joinSlash (cur ++ [p])) with
    | some id =>
      simp only
      exact ih (i + 1) (cur ++ [p]) id s
    | none =>
      simp only
      cases hc : s.world.createNode env.now (env.ids s.inserts)
          { ID := "", OwnerID := ownerID, ParentID := curParent, Name := p, Typ := "folder",
            Size := 0, Mime := "", Path := "", CreatedAt := 0, UpdatedAt := 0 } with
      | error e =>
        simp only
        exact List.prefix_refl _
      | ok r =>
        obtain ⟨w1, n1⟩ := r
        simp only
        have hp := createNode_prefix hc
        split
        · exact hp
        · refine List.IsPrefix.trans hp ?_
          exact ih (i + 1) (cur ++ [p]) n1.ID
            ⟨w1, s.createdNodes ++ [n1], s.createdPaths,
              setDir s.dirNodeMap (joinSlash (cur ++ [p])) n1.ID, s.totalEntries,
              s.totalExtractedSize, s.inserts + 1⟩

theorem KeepsNodes_ok {st : Store} {s1 : UnzipState} (h : st <+: s1.world.nodes) :
    KeepsNodes st (.ok s1) := by
  intro s2 h2
  cases h2
  exact h

theorem KeepsNodes_fail (st : Store) (env : UnzipEnv) (s : UnzipState) (paths : List String)
    (status : Nat) (msg : String) : KeepsNodes st (unzipFail env s paths status msg) := by
  intro s2 h2
  cases h2

theorem KeepsNodes_ite {st : Store} {c : Prop} [Decidable c]
    {a b : Except (Response × World) UnzipState}
    (ha : c → KeepsNodes st a) (hb : ¬c → KeepsNodes st b) :
    KeepsNodes st (if c then a else b) := by
  by_cases h : c
  · rw [if_pos h]
    exact ha h
  · rw [if_neg h]
    exact hb h

theorem processEntry_prefix (env : UnzipEnv) (ownerID rootID : String) (s : UnzipState)
    (f : ZipEntry) : KeepsNodes s.world.nodes (processEntry env ownerID rootID s f) := by
  have hrefl : KeepsNodes s.world.nodes (.ok s) := KeepsNodes_ok (List.prefix_refl _)
  delta processEntry
  refine KeepsNodes_ite (fun _ => hrefl) (fun _ => ?_)
  dsimp only
  generalize replaceChar '\\' '/' (Clean (trimLeftSlash (replaceChar '\\' '/' f.Name))) = clean
  refine KeepsNodes_ite (fun _ => hrefl) (fun _ => ?_)
  refine KeepsNodes_ite (fun _ => KeepsNodes_fail _ _ _ _ _ _) (fun _ => ?_)
  refine KeepsNodes_ite (fun _ => KeepsNodes_fail _ _ _ _ _ _) (fun _ => ?_)
  refine KeepsNodes_ite (fun _ => ?_) (fun _ => ?_)
  · have hd := createDirLoop_prefix env ownerID (Split (trimRightSlash clean)) 0 [] rootID s
    unfold createDirNode
    generalize createDirLoop env ownerID (Split (trimRightSlash clean)) 0 [] rootID s = r
      at hd ⊢
    obtain ⟨s1, res⟩ := r
    cases res with
    | error e => exact KeepsNodes_fail _ _ _ _ _ _
    | ok id => exact KeepsNodes_ok hd
  refine KeepsNodes_ite (fun _ => hrefl) (fun _ => ?_)
  generalize List.find? (fun comp => decide (comp = "" ∨ byteLen comp > maxFilenameLength))
    (Split clean) = found
  cases found with
  | some comp =>
    dsimp only
    exact KeepsNodes_ite (fun _ => KeepsNodes_fail _ _ _ _ _ _)
      (fun _ => KeepsNodes_fail _ _ _ _ _ _)
  | none =>
    dsimp only
    have hd := createDirLoop_prefix env ownerID (Split clean).dropLast 0 [] rootID s
    unfold createDirNode
    generalize createDirLoop env ownerID (Split clean).dropLast 0 [] rootID s = r at hd ⊢
    obtain ⟨s1, res⟩ := r
    cases res with
    | error e => exact KeepsNodes_fail _ _ _ _ _ _
    | ok parentForFile =>
      dsimp only
      refine KeepsNodes_ite (fun _ => KeepsNodes_fail _ _ _ _ _ _) (fun _ => ?_)
      generalize SaveFromReader env.storage ownerID (Join [rootID, clean])
        (f.Size ⊓ (maxTotalExtractSize + 1)) = saved
      cases saved with
      | error e => exact KeepsNodes_fail _ _ _ _ _ _
      | ok sp =>
        obtain ⟨savedPath, size⟩ := sp
        dsimp only
        refine KeepsNodes_ite (fun _ => KeepsNodes_fail _ _ _ _ _ _) (fun _ => ?_)
        generalize hc : (s1.world.saveFile savedPath).createNode env.now (env.ids s1.inserts)
          _ = created
        cases created with
        | error e => exact KeepsNodes_fail _ _ _ _ _ _
        | ok wn =>
          obtain ⟨w3, n1⟩ := wn
          have hp : (s1.world.saveFile savedPath).nodes <+: w3.nodes := createNode_prefix hc
          exact KeepsNodes_ok (hd.trans hp)

theorem unzipLoop_prefix (env : UnzipEnv) (ownerID rootID : String) :
    ∀ (es : List ZipEntry) (s s1 : UnzipState), unzipLoop env ownerID rootID s es = .ok s1 →
      s.world.nodes <+: s1.world.nodes := by
  intro es
  induction es with
  | nil =>
    intro s s1 h
    rw [unzipLoop] at h
    cases h
    exact List.prefix_refl _
  | cons f rest ih =>
    intro s s1 h
    rw [unzipLoop_cons] at h
    by_cases hcap : s.totalEntries + 1 > maxEntries
    · rw [if_pos hcap] at h
      cases h
    · rw [if_neg hcap] at h
      have hp := processEntry_prefix env ownerID rootID
        { s with totalEntries := s.totalEntries + 1 } f
      generalize processEntry env ownerID rootID { s with totalEntries := s.totalEntries + 1 } f
        = res at h hp
      cases res with
      | error r => cases h
      | ok s2 => exact (hp s2 rfl).trans (ih s2 s1 h)

/-! ## The parent invariant under the mutating handlers -/

theorem ParentInvariant_of_keeps {st st1 : Store}
    (hinv : ParentInvariant st)
    (hkeep : ∀ p ∈ st.nodes, ∃ q ∈ st1.nodes, q.ID = p.ID ∧ q.Typ = p.Typ ∧
      q.OwnerID = p.OwnerID)
    (hnew : ∀ n ∈ st1.nodes, n ∈ st.nodes ∨
      (n.ParentID = "" ∨ FolderOf st n.OwnerID n.ParentID)) :
    ParentInvariant st1 := by
  intro n hn hne
  have hfo : FolderOf st n.OwnerID n.ParentID := by
    rcases hnew n hn with h | h | h
    · exact hinv n h hne
    · exact absurd h hne
    · exact h
  obtain ⟨p, hp, hid, hty, how⟩ := hfo
  obtain ⟨q, hq, h1, h2, h3⟩ := hkeep p hp
  exact ⟨q, hq, h1.trans hid, h2.trans hty, h3.trans how⟩

theorem createNode_parentInv {w w1 : World} {now : Nat} {fresh : ObjectID} {n n1 : Node}
    (hinv : ParentInvariant w.nodes) (hc : w.createNode now fresh n = .ok (w1, n1))
    (hpar : n.ParentID = "" ∨ FolderOf w.nodes n.OwnerID n.ParentID) :
    ParentInvariant w1.nodes := by
  obtain ⟨d, -, hnodes, -, hdo, hdp, -⟩ := createNode_ok hc
  refine ParentInvariant_of_keeps hinv (fun p hp => ⟨p, ?_, rfl, rfl, rfl⟩) (fun m hm => ?_)
  · rw [hnodes]
    unfold Store.nodes at hp ⊢
    rw [List.map_append]
    exact List.mem_append_left _ hp
  · rw [hnodes] at hm
    unfold Store.nodes at hm
    rw [List.map_append] at hm
    rcases List.mem_append.1 hm with hm | hm
    · exact Or.inl hm
    · right
      simp only [List.map_cons, List.map_nil, List.mem_singleton] at hm
      have hmp : m.ParentID = (createParentField n.ParentID).decode := by
        rw [hm, ← hdp]
        rfl
      have hmo : m.OwnerID = n.OwnerID := by
        rw [hm, ← hdo]
        rfl
      rcases hpar with h | h
      · left
        rw [hmp, h]
        rfl
      · right
        rw [hmp, hmo, FolderOf_parent_field h]
        exact h

theorem updateOne_split {p : Doc → Bool} {f : Doc → Doc} :
    ∀ {st st1 : Store}, updateOne p f st = some st1 →
      ∃ pre d post, st = pre ++ d :: post ∧ p d = true ∧ st1 = pre ++ f d :: post := by
  intro st
  induction st with
  | nil =>
    intro st1 h
    cases h
  | cons a as ih =>
    intro st1 h
    unfold updateOne at h
    by_cases ha : p a = true
    · rw [if_pos ha] at h
      cases h
      exact ⟨[], a, as, rfl, ha, rfl⟩
    · rw [if_neg ha] at h
      obtain ⟨r, hr, rfl⟩ := Option.map_eq_some'.1 h
      obtain ⟨pre, d, post, h1, h2, h3⟩ := ih hr
      exact ⟨a :: pre, d, post, by rw [h1]; rfl, h2, by rw [h3]; rfl⟩

theorem UpdateNodeParent_parentInv {st st1 : Store} {now : Nat} {a nodeID target : String}
    (hinv : ParentInvariant st) (htarget : target = "" ∨ FolderOf st a target)
    (h : UpdateNodeParent st now a nodeID target = .ok st1) : ParentInvariant st1 := by
  unfold UpdateNodeParent at h
  cases ho : ObjectIDFromHex nodeID with
  | none =>
    rw [ho] at h
    cases h
  | some oid =>
    rw [ho] at h
    dsimp only at h
    cases hu : updateOne (fun d => d.id = oid && d.owner_id = a)
        (fun d => { d with parent_id := .str target, updated_at := now }) st with
    | none =>
      rw [hu] at h
      cases h
    | some st2 =>
      rw [hu] at h
      cases h
      obtain ⟨pre, d, post, h1, h2, h3⟩ := updateOne_split hu
      simp only [Bool.and_eq_true, decide_eq_true_eq] at h2
      subst h1
      subst h3
      refine ParentInvariant_of_keeps hinv (fun p hp => ?_) (fun m hm => ?_)
      · unfold Store.nodes at hp ⊢
        simp only [List.map_append, List.map_cons, List.mem_append, List.mem_cons] at hp ⊢
        rcases hp with hp | hp | hp
        · exact ⟨p, Or.inl hp, rfl, rfl, rfl⟩
        · exact ⟨_, Or.inr (Or.inl rfl), by rw [hp]; rfl, by rw [hp]; rfl, by rw [hp]; rfl⟩
        · exact ⟨p, Or.inr (Or.inr hp), rfl, rfl, rfl⟩
      · unfold Store.nodes at hm ⊢
        simp only [List.map_append, List.map_cons, List.mem_append, List.mem_cons] at hm ⊢
        rcases hm with hm | hm | hm
        · exact Or.inl (Or.inl hm)
        · right
          rcases htarget with ht | ht
          · left
            rw [hm, ht]
            rfl
          · right
            have h4 : m.ParentID = target := by rw [hm]; rfl
            have h5 : m.OwnerID = a := by rw [hm]; exact h2.2
            rw [h4, h5]
            exact ht
        · exact Or.inl (Or.inr (Or.inr hm))

theorem FolderOf_of_find {st : Store} {a target : String} {parentNode : Node}
    (hfind : FindNodeByID st target = .ok (some parentNode))
    (hown : parentNode.OwnerID = a) (hty : parentNode.Typ = "folder")
    (hcanon : ∀ o, ObjectIDFromHex target = some o → o.Hex = target) :
    FolderOf st a target := by
  obtain ⟨oid, d, hoid, hd, hdid, hnode, -⟩ := FindNodeByID_some hfind
  refine ⟨parentNode, ?_, ?_, hty, hown⟩
  · rw [hnode]
    exact List.mem_map.2 ⟨d, hd, rfl⟩
  · rw [hnode, ← hcanon oid hoid, ← hdid]
    rfl

theorem MoveHandler_update_parentInv {w : World} {now : Nat} {a : String}
    (hinv : ParentInvariant w.nodes)
    {node : Node} {newParentID : String} {r : Response} {w1 : World}
    (htarget : newParentID = "" ∨ FolderOf w.nodes a newParentID)
    (h : (match UpdateNodeParent w.nodes now a node.ID newParentID with
        | .error e => some ((⟨500, .error e⟩ : Response),
            ({ w with trace := w.trace ++ [.updateNodeParent a node.ID newParentID] } : World))
        | .ok st => some (⟨200, .node { node with ParentID := newParentID }⟩,
            { ({ w with trace := w.trace ++ [.updateNodeParent a node.ID newParentID] } : World)
                with nodes := st })) = some (r, w1)) :
    ParentInvariant w1.nodes := by
  cases hup : UpdateNodeParent w.nodes now a node.ID newParentID with
  | error e =>
    rw [hup] at h
    cases h
    exact hinv
  | ok st =>
    rw [hup] at h
    cases h
    exact UpdateNodeParent_parentInv hinv htarget hup

theorem MoveHandler_parentInv {w : World} {now : Nat} {a id : String} {req : Option moveReq}
    {r : Response} {w1 : World} (hinv : ParentInvariant w.nodes)
    (hcanon : ∀ rq, req = some rq →
      ∀ o, ObjectIDFromHex rq.ParentID = some o → o.Hex = rq.ParentID)
    (h : MoveHandler w now a id req = some (r, w1)) : ParentInvariant w1.nodes := by
  have hsame : ∀ {r0 : Response}, some (r0, w) = some (r, w1) → ParentInvariant w1.nodes := by
    intro r0 he
    cases he
    exact hinv
  unfold MoveHandler at h
  cases req with
  | none => exact hsame h
  | some req =>
    have hcan := hcanon req rfl
    simp only at h
    cases hfind : FindNodeByID w.nodes id with
    | error e => rw [hfind] at h; exact hsame h
    | ok o =>
      cases o with
      | none => rw [hfind] at h; exact hsame h
      | some node =>
        rw [hfind] at h
        simp only at h
        by_cases hown : node.OwnerID = a
        · rw [if_neg (by simpa using hown)] at h
          by_cases hpar : node.ParentID = req.ParentID
          · rw [if_pos hpar] at h
            exact hsame h
          · rw [if_neg hpar] at h
            split at h
            · exact hsame h
            · rename_i hnone
              have htarget : req.ParentID = "" ∨ FolderOf w.nodes a req.ParentID := by
                by_cases he : req.ParentID = ""
                · exact Or.inl he
                · right
                  rw [if_pos (by simpa using he)] at hnone
                  cases hf2 : FindNodeByID w.nodes req.ParentID with
                  | error e => rw [hf2] at hnone; cases hnone
                  | ok o2 =>
                    cases o2 with
                    | none => rw [hf2] at hnone; cases hnone
                    | some parentNode =>
                      rw [hf2] at hnone
                      simp only at hnone
                      by_cases hpo : parentNode.OwnerID = a
                      · rw [if_neg (by simpa using hpo)] at hnone
                        by_cases hpt : parentNode.Typ = "folder"
                        · exact FolderOf_of_find hf2 hpo hpt hcan
                        · rw [if_pos (by simpa using hpt)] at hnone
                          cases hnone
                      · rw [if_pos (by simpa using hpo)] at hnone
                        cases hnone
              split at h
              · split at h
                · cases h
                · split at h
                  · exact hsame h
                  · exact MoveHandler_update_parentInv hinv htarget h
              · exact MoveHandler_update_parentInv hinv htarget h
        · rw [if_pos (by simpa using hown)] at h
          exact hsame h

theorem CreateFolderHandler_parentInv {w : World} {now : Nat} {fresh : ObjectID}
    {ownerID : String} {req : Option createFolderReq} {resp : Response} {w1 : World}
    (hinv : ParentInvariant w.nodes)
    (hpar : ∀ rq, req = some rq → rq.ParentID = "" ∨ FolderOf w.nodes ownerID rq.ParentID)
    (h : CreateFolderHandler w now fresh ownerID req = some (resp, w1)) :
    ParentInvariant w1.nodes := by
  have hsame : ∀ {r0 : Response}, some (r0, w) = some (resp, w1) →
      ParentInvariant w1.nodes := by
    intro r0 he
    cases he
    exact hinv
  unfold CreateFolderHandler at h
  cases req with
  | none => exact hsame h
  | some rq =>
    dsimp only at h
    by_cases hn : rq.Name = ""
    · rw [if_pos hn] at h
      exact hsame h
    · rw [if_neg hn] at h
      cases hc : w.createNode now fresh
          { ID := "", OwnerID := ownerID, ParentID := rq.ParentID, Name := rq.Name,
            Typ := "folder", Size := 0, Mime := "", Path := "", CreatedAt := 0,
            UpdatedAt := 0 } with
      | error e =>
        rw [hc] at h
        exact hsame h
      | ok wn =>
        obtain ⟨w2, n1⟩ := wn
        rw [hc] at h
        cases h
        exact createNode_parentInv hinv hc (hpar rq rfl)

theorem UploadHandler_parentInv {storage : StorageService} {w : World} {now : Nat}
    {fresh : ObjectID} {ownerID parentID : String} {file : Option FileHeader}
    {resp : Response} {w1 : World} (hinv : ParentInvariant w.nodes)
    (hpar : parentID = "" ∨ FolderOf w.nodes ownerID parentID)
    (h : UploadHandler storage w now fresh ownerID parentID file = some (resp, w1)) :
    ParentInvariant w1.nodes := by
  have hsame : ∀ {r0 : Response}, some (r0, w) = some (resp, w1) →
      ParentInvariant w1.nodes := by
    intro r0 he
    cases he
    exact hinv
  unfold UploadHandler at h
  cases file with
  | none => exact hsame h
  | some fh =>
    dsimp only at h
    cases hs : SaveFile storage now ownerID fh with
    | error e =>
      rw [hs] at h
      exact hsame h
    | ok sp =>
      obtain ⟨savedPath, size⟩ := sp
      rw [hs] at h
      dsimp only at h
      cases hc : (w.saveFile savedPath).createNode now fresh
          { ID := "", OwnerID := ownerID, ParentID := parentID, Name := fh.Filename,
            Typ := "file", Size := size, Mime := fh.ContentType, Path := savedPath,
            CreatedAt := 0, UpdatedAt := 0 } with
      | error e =>
        rw [hc] at h
        cases h
        exact hinv
      | ok wn =>
        obtain ⟨w2, n1⟩ := wn
        rw [hc] at h
        cases h
        have hinv1 : ParentInvariant (w.saveFile savedPath).nodes := hinv
        exact createNode_parentInv hinv1 hc hpar

theorem UnzipHandler_parentInv {env : UnzipEnv} {w : World} {ownerID parentID : String}
    {file : Option ZipUpload} {resp : Response} {wf : World}
    (hinv : ParentInvariant w.nodes)
    (hpar : parentID = "" ∨ FolderOf w.nodes ownerID parentID)
    (h : UnzipHandler env w ownerID parentID file = some (resp, wf))
    (h201 : resp.status = 201) : ParentInvariant wf.nodes := by
  have hno : ∀ {r0 : Response} {w0 : World}, some (r0, w0) = some (resp, wf) →
      r0.status ≠ 201 → ParentInvariant wf.nodes := by
    intro r0 w0 he hst
    cases he
    exact absurd h201 hst
  unfold UnzipHandler at h
  cases file with
  | none => exact hno h (by decide)
  | some fh =>
    obtain ⟨filename, size, arch⟩ := fh
    dsimp only at h
    by_cases h1 : min size (maxZipSize + 1) > maxZipSize
    · rw [if_pos h1] at h
      exact hno h (by decide)
    rw [if_neg h1] at h
    by_cases h2 : min size (maxZipSize + 1) = 0
    · rw [if_pos h2] at h
      exact hno h (by decide)
    rw [if_neg h2] at h
    cases arch with
    | none => exact hno h (by decide)
    | some es =>
      dsimp only at h
      cases hc : w.createNode env.now (env.ids 0)
          { ID := "", OwnerID := ownerID, ParentID := parentID,
            Name := rootFolderName filename env.now, Typ := "folder", Size := 0, Mime := "",
            Path := "", CreatedAt := 0, UpdatedAt := 0 } with
      | error e =>
        rw [hc] at h
        refine hno h ?_
        show (500 : Nat) ≠ 201
        decide
      | ok wn =>
        obtain ⟨w1, root⟩ := wn
        rw [hc] at h
        dsimp only at h
        have hinv0 : UnzipInv w ownerID root.ID w1 [root] [] [] := createRoot_inv hc rfl rfl
        have hspec := unzipLoop_spec env es ⟨w1, [root], [], [], 0, 0, 1⟩ hinv0
        cases hl : unzipLoop env ownerID root.ID ⟨w1, [root], [], [], 0, 0, 1⟩ es with
        | error x =>
          rw [hl] at h
          exact hno h (UnzipExit_status (hspec.2 x hl).1)
        | ok s =>
          rw [hl] at h
          cases h
          obtain ⟨⟨docs, t, hf⟩, -⟩ := hspec.1 s hl
          have hpre := unzipLoop_prefix env ownerID root.ID es _ s hl
          obtain ⟨d0, -, hnodes, hdid, hdo, hdp, -, -, -, -, hid, -⟩ := createNode_ok hc
          have hd0 : d0 ∈ docs := by
            have hp2 : w.nodes ++ [d0] <+: w.nodes ++ docs := by
              rw [← hnodes, ← hf.nodes_eq]
              exact hpre
            have hp3 : [d0] <+: docs := (List.prefix_append_right_inj _).1 hp2
            exact hp3.subset (List.mem_singleton.2 rfl)
          have hmono : ∀ id, FolderOf w.nodes ownerID id → FolderOf s.world.nodes ownerID id := by
            intro id hfo
            rw [hf.nodes_eq]
            exact FolderOf_append hfo _
          intro n hn hne
          have hfo : FolderOf s.world.nodes n.OwnerID n.ParentID := by
            rw [hf.nodes_eq] at hn
            unfold Store.nodes at hn
            rw [List.map_append] at hn
            rcases List.mem_append.1 hn with hn | hn
            · obtain ⟨p, hp, hrest⟩ := hinv n hn hne
              refine ⟨p, ?_, hrest⟩
              rw [hf.nodes_eq]
              unfold Store.nodes at hp ⊢
              rw [List.map_append]
              exact List.mem_append_left _ hp
            · obtain ⟨x, hx, rfl⟩ := List.mem_map.1 hn
              have hxo : x.decode.OwnerID = ownerID := hf.owner x hx
              rw [hxo]
              rcases hf.parent x hx with hroot | hfold
              · have hxid : x.id = d0.id := by
                  apply Hex_injective
                  rw [hroot, hid, hdid]
                have hxd : x = d0 :=
                  List.inj_on_of_nodup_map hf.nodup hx hd0 hxid
                have hxp : x.decode.ParentID = (createParentField parentID).decode := by
                  rw [hxd, ← hdp]
                  rfl
                rcases hpar with hp | hp
                · exfalso
                  apply hne
                  rw [hxp, hp]
                  rfl
                · rw [hxp, FolderOf_parent_field hp]
                  exact hmono _ hp
              · exact hfold
          obtain ⟨p, hp, hrest⟩ := hfo
          exact ⟨p, hp, hrest⟩

/-- C13 The creating handlers do not check the requested parent: the mixed store satisfies
the parent invariant and its folder with id 4 belongs to `v`; a create-folder, an upload and
an archive ingestion of `u` with that folder as parent are each answered 201 and each leave
a store that breaks the invariant (a node of `u` whose parent is a folder of `v`), while a
move of a node of `u` to the same parent is answered 403 with the store unchanged. -/
theorem creating_handlers_skip_parent_check :
    ParentInvariant mixedWorld.nodes ∧
    (∃ n, FindNodeByID mixedWorld.nodes (oidN 4).Hex = .ok (some n) ∧ n.OwnerID = "v" ∧
      n.Typ = "folder") ∧
    (∃ resp w1, CreateFolderHandler mixedWorld 7 (oidN 6) "u"
        (some ⟨"inbox", (oidN 4).Hex⟩) = some (resp, w1) ∧
      resp.status = 201 ∧ ¬ ParentInvariant w1.nodes) ∧
    (∃ resp w1, UploadHandler sampleStorage mixedWorld 7 (oidN 6) "u" (oidN 4).Hex
        (some ⟨"note.txt", 5, "text/plain"⟩) = some (resp, w1) ∧
      resp.status = 201 ∧ ¬ ParentInvariant w1.nodes) ∧
    (∃ resp w1, UnzipHandler lateEnv mixedWorld "u" (oidN 4).Hex
        (some ⟨"pack.zip", 100, some sampleArchive⟩) = some (resp, w1) ∧
      resp.status = 201 ∧ ¬ ParentInvariant w1.nodes) ∧
    MoveHandler mixedWorld 7 "u" (oidN 3).Hex (some ⟨(oidN 4).Hex⟩) =
      some (⟨403, .error "forbidden"⟩, mixedWorld) := by
  refine ⟨by decide, ⟨_, rfl, rfl, rfl⟩, ⟨_, _, rfl, rfl, by decide⟩,
    ⟨_, _, rfl, rfl, by decide⟩, ⟨_, _, rfl, rfl, by decide⟩, by decide⟩

/-- The parent invariant under requests with a valid parent: from a store in which every
non-empty `parent_id` is the id of a folder of the same owner, the property still holds
after every successful create-folder, upload or archive ingestion whose requested parent is
empty or the id of a folder of the caller, and after every successful move whose target is
empty or written the way the store prints ids (lower-case hex). -/
theorem parent_invariant_preserved (w : World) (hinv : ParentInvariant w.nodes) :
    (∀ now fresh ownerID req resp w1,
      CreateFolderHandler w now fresh ownerID req = some (resp, w1) → resp.status = 201 →
      (∀ rq, req = some rq → rq.ParentID = "" ∨ FolderOf w.nodes ownerID rq.ParentID) →
      ParentInvariant w1.nodes) ∧
    (∀ storage now fresh ownerID parentID file resp w1,
      UploadHandler storage w now fresh ownerID parentID file = some (resp, w1) →
      resp.status = 201 → (parentID = "" ∨ FolderOf w.nodes ownerID parentID) →
      ParentInvariant w1.nodes) ∧
    (∀ env ownerID parentID file resp w1,
      UnzipHandler env w ownerID parentID file = some (resp, w1) →
      resp.status = 201 → (parentID = "" ∨ FolderOf w.nodes ownerID parentID) →
      ParentInvariant w1.nodes) ∧
    (∀ now ownerID id req resp w1,
      MoveHandler w now ownerID id req = some (resp, w1) → resp.status = 200 →
      (∀ rq, req = some rq → ∀ o, ObjectIDFromHex rq.ParentID = some o → o.Hex = rq.ParentID) →
      ParentInvariant w1.nodes) :=
  ⟨fun _ _ _ _ _ _ h _ hpar => CreateFolderHandler_parentInv hinv hpar h,
   fun _ _ _ _ _ _ _ _ h _ hpar => UploadHandler_parentInv hinv hpar h,
   fun _ _ _ _ _ _ h h201 hpar => UnzipHandler_parentInv hinv hpar h h201,
   fun _ _ _ _ _ _ h _ hcanon => MoveHandler_parentInv hinv hcanon h⟩

theorem parent_invariant_preserved_witness :
    ParentInvariant mixedWorld.nodes ∧
    (∃ resp w1, CreateFolderHandler mixedWorld 7 (oidN 6) "u"
        (some ⟨"inbox", (oidN 1).Hex⟩) = some (resp, w1) ∧
      resp.status = 201 ∧ ParentInvariant w1.nodes) ∧
    (∃ resp w1, MoveHandler mixedWorld 7 "u" (oidN 3).Hex (some ⟨(oidN 2).Hex⟩) =
        some (resp, w1) ∧
      resp.status = 200 ∧ w1.nodes ≠ mixedWorld.nodes ∧ ParentInvariant w1.nodes) := by
  have hinv : ParentInvariant mixedWorld.nodes := by decide
  have hfo : FolderOf mixedWorld.nodes "u" (oidN 1).Hex :=
    ⟨(mkDoc 1 "u" .absent "folder" "").decode, by decide, rfl, rfl, rfl⟩
  refine ⟨hinv, ⟨_, _, rfl, rfl, ?_⟩, ⟨_, _, rfl, rfl, by decide, ?_⟩⟩
  · refine (parent_invariant_preserved mixedWorld hinv).1 7 (oidN 6) "u"
      (some ⟨"inbox", (oidN 1).Hex⟩) _ _ rfl rfl ?_
    intro rq hrq
    cases hrq
    exact Or.inr hfo
  · refine (parent_invariant_preserved mixedWorld hinv).2.2.2 7 "u" (oidN 3).Hex
      (some ⟨(oidN 2).Hex⟩) _ _ rfl rfl ?_
    intro rq hrq o ho
    cases hrq
    rw [ObjectIDFromHex_Hex] at ho
    cases ho
    rfl


/-! ## One bucket per key -/

theorem foldl_bump_keys (lower : Char → Char) (all : List Node) :
    ∀ (counts : List (String × Nat)) (k : String),
      k ∈ (all.foldl (fun counts n => bump (statKey lower n) counts) counts).map
          (fun kv => kv.1) ↔
        k ∈ counts.map (fun kv => kv.1) ∨ ∃ n ∈ all, statKey lower n = k := by
  induction all with
  | nil =>
    intro counts k
    simp
  | cons n ns ih =>
    intro counts k
    rw [List.foldl_cons, ih, bump_keys]
    constructor
    · rintro ((h | h) | ⟨m, hm, h⟩)
      · exact Or.inr ⟨n, List.mem_cons_self _ _, h.symm⟩
      · exact Or.inl h
      · exact Or.inr ⟨m, List.mem_cons_of_mem _ hm, h⟩
    · rintro (h | ⟨m, hm, h⟩)
      · exact Or.inl (Or.inr h)
      · rcases List.mem_cons.1 hm with hm | hm
        · subst hm
          exact Or.inl (Or.inl h.symm)
        · exact Or.inr ⟨m, hm, h⟩

theorem stats_keys (lower : Char → Char) (parentID : String) (all : List Node) :
    (statsResponse lower parentID all).Stats.map (fun e => e.Typ) =
      (countKeys lower all).map (fun kv => kv.1) := by
  simp [statsResponse, buildStats, List.map_map, Function.comp]

/-- C29 Stats buckets are unique per key: for every gathered list and every order of the
buckets, no two entries of Stats have the same key, the keys of the entries are exactly the
classification keys of the gathered nodes, and the Count of each entry is the number of
gathered nodes with its key. -/
theorem stats_buckets_unique (lower : Char → Char) (parentID : String) (all : List Node)
    (stats : List FolderStat) (hperm : stats.Perm (statsResponse lower parentID all).Stats) :
    (stats.map (fun e => e.Typ)).Nodup ∧
    (∀ k, k ∈ stats.map (fun e => e.Typ) ↔ ∃ n ∈ all, statKey lower n = k) ∧
    (∀ e ∈ stats, e.Count = all.countP (fun n => decide (statKey lower n = e.Typ))) := by
  have hp := hperm.map (fun e => e.Typ)
  refine ⟨?_, fun k => ?_, fun e he => ?_⟩
  · rw [hp.nodup_iff, stats_keys]
    exact countKeys_nodup lower all
  · rw [hp.mem_iff, stats_keys]
    unfold countKeys
    rw [foldl_bump_keys]
    simp
  · exact stats_entry_count lower parentID all (hperm.subset he)

theorem stats_buckets_unique_witness :
    ((statsResponse Char.toLower "" sampleGathered).Stats.reverse.Perm
      (statsResponse Char.toLower "" sampleGathered).Stats) ∧
    (((statsResponse Char.toLower "" sampleGathered).Stats.reverse.map
      (fun e => e.Typ)).Nodup ∧
    (∀ k, k ∈ (statsResponse Char.toLower "" sampleGathered).Stats.reverse.map
        (fun e => e.Typ) ↔ ∃ n ∈ sampleGathered, statKey Char.toLower n = k) ∧
    (∀ e ∈ (statsResponse Char.toLower "" sampleGathered).Stats.reverse,
      e.Count = sampleGathered.countP (fun n => decide (statKey Char.toLower n = e.Typ)))) :=
  ⟨List.reverse_perm _,
    stats_buckets_unique Char.toLower "" sampleGathered _ (List.reverse_perm _)⟩

/-! ## Deleting a folder that is its own parent -/

theorem selfParent_children :
    ListChildren selfParentWorld.nodes "u" (oidN 2).Hex = [selfParentNode] := by
  decide

theorem DeleteRecursive_selfParent (fuel : Nat) :
    DeleteRecursive fuel selfParentWorld selfParentNode = none := by
  induction fuel with
  | zero => rfl
  | succ k ih =>
    have hc : ListChildren selfParentWorld.nodes selfParentNode.OwnerID selfParentNode.ID =
        [selfParentNode] := selfParent_children
    have hty : ¬ selfParentNode.Typ = "file" := by decide
    rw [DeleteRecursive, hc, List.foldlM_cons, if_neg hty, ih]
    rfl

/-- C26 Delete does not terminate on a folder that is its own parent: the sample store is
brought into that state by an accepted move of the folder with id 2 under itself, and from
then on neither `DeleteRecursive` on that folder nor `DeleteHandler` on its id returns,
whatever depth of recursion is allowed. -/
theorem DeleteHandler_diverges_on_self_parent :
    MoveHandler sampleWorld 7 "u" (oidN 2).Hex (some ⟨(oidN 2).Hex⟩) =
      some (⟨200, .node { (mkDoc 2 "u" (.oid (oidN 1)) "folder" "").decode with
        ParentID := (oidN 2).Hex }⟩, selfParentWorld) ∧
    FindNodeByID selfParentWorld.nodes (oidN 2).Hex = .ok (some selfParentNode) ∧
    ∀ fuel, DeleteRecursive fuel selfParentWorld selfParentNode = none ∧
      DeleteHandler fuel selfParentWorld "u" (oidN 2).Hex = none := by
  refine ⟨by decide, rfl, fun fuel => ⟨DeleteRecursive_selfParent fuel, ?_⟩⟩
  have hf : FindNodeByID selfParentWorld.nodes (oidN 2).Hex = .ok (some selfParentNode) := rfl
  have ho : ¬ selfParentNode.OwnerID ≠ "u" := by decide
  have hty : selfParentNode.Typ = "folder" := rfl
  have hnf : ¬ selfParentNode.Typ = "file" := by decide
  unfold DeleteHandler
  rw [hf]
  dsimp only
  rw [if_neg ho, if_pos hty, selfParent_children, List.foldlM_cons, if_neg hnf,
    DeleteRecursive_selfParent]
  rfl

/-! ## The loop body in two steps -/

theorem processEntry_view (env : UnzipEnv) (ownerID rootID : String) (s : UnzipState)
    (f : ZipEntry) :
    processEntry env ownerID rootID s f = entryStep env ownerID rootID s f := by
  delta processEntry entryStep entryKind
  by_cases h1 : f.Name = ""
  · rw [if_pos h1, if_pos h1]
  rw [if_neg h1, if_neg h1]
  dsimp only
  generalize replaceChar '\\' '/' (Clean (trimLeftSlash (replaceChar '\\' '/' f.Name))) = clean
  by_cases h2 : clean = "." ∨ clean = ""
  · rw [if_pos h2, if_pos h2]
  rw [if_neg h2, if_neg h2]
  by_cases h3 : ((Split clean).any fun pseg => decide (pseg = "..")) = true
  · rw [if_pos h3, if_pos h3]
  rw [if_neg h3, if_neg h3]
  by_cases h4 : byteLen clean > 4096
  · rw [if_pos h4, if_pos h4]
  rw [if_neg h4, if_neg h4]
  by_cases h5 : f.IsDir = true ∨ hasSuffixSlash (trimLeftSlash (replaceChar '\\' '/' f.Name)) = true
  · rw [if_pos h5, if_pos h5]
    try rfl
  rw [if_neg h5, if_neg h5]
  by_cases h6 : f.IsSymlink = true
  · rw [if_pos h6, if_pos h6]
  rw [if_neg h6, if_neg h6]
  cases hfind : List.find? (fun comp => decide (comp = "" ∨ byteLen comp > maxFilenameLength))
      (Split clean) with
  | some comp =>
    dsimp only
    by_cases h7 : comp = ""
    · rw [if_pos h7, if_pos h7]
      try rfl
    · rw [if_neg h7, if_neg h7]
      try rfl
  | none =>
    dsimp only
    rfl


/-! ## Entries that are skipped or rejected -/

theorem rootedState_inv : rootedState.Inv emptyWorld "u1" sampleRoot.ID := by
  have hc : emptyWorld.createNode sampleEnv.now (sampleEnv.ids 0) sampleRootRequest =
      .ok (rootedWorld, sampleRoot) := rfl
  exact createRoot_inv hc rfl rfl

/-- C23, as stated, fails: a symbolic-link entry named `../link` makes the handler answer
400 (the check for `..` segments comes before the check of the symlink bit). -/
theorem symlink_with_dotdot_is_rejected :
    (UnzipHandler sampleEnv emptyWorld "u1" "" (some ⟨"pack.zip", 100, some [evilLink]⟩)).map
        (fun x => x.1) =
      some ⟨400, .error "zip contains invalid path segments"⟩ := by
  decide

/-- C23 Symbolic-link entries are skipped, as amended: an entry with the symlink bit that is
not a directory entry (no directory bit, no trailing separator) and whose cleaned name has
no `..` segment and at most 4096 bytes leaves the state of the loop as it is (no node, no
blob, no failure); within the entry cap the loop goes on with the next entry, only the entry
count raised by one. -/
theorem symlink_entry_skipped (env : UnzipEnv) (ownerID rootID : String) (s : UnzipState)
    (f : ZipEntry) (rest : List ZipEntry) (hsym : f.IsSymlink = true) (hdir : f.IsDir = false)
    (hslash : hasSuffixSlash (trimLeftSlash (replaceChar '\\' '/' f.Name)) = false)
    (hseg : (Split (replaceChar '\\' '/' (Clean (trimLeftSlash
      (replaceChar '\\' '/' f.Name))))).any (fun pseg => pseg = "..") = false)
    (hlen : byteLen (replaceChar '\\' '/' (Clean (trimLeftSlash
      (replaceChar '\\' '/' f.Name)))) ≤ 4096) :
    processEntry env ownerID rootID s f = .ok s ∧
    (s.totalEntries < maxEntries →
      unzipLoop env ownerID rootID s (f :: rest) =
        unzipLoop env ownerID rootID { s with totalEntries := s.totalEntries + 1 } rest) := by
  have hkind : entryKind f = .skip := by
    delta entryKind
    by_cases h1 : f.Name = ""
    · rw [if_pos h1]
    rw [if_neg h1]
    dsimp only
    by_cases h2 : replaceChar '\\' '/' (Clean (trimLeftSlash (replaceChar '\\' '/' f.Name))) = "."
        ∨ replaceChar '\\' '/' (Clean (trimLeftSlash (replaceChar '\\' '/' f.Name))) = ""
    · rw [if_pos h2]
    rw [if_neg h2, if_neg (by rw [hseg]; decide), if_neg (by omega),
      if_neg (by rw [hdir, hslash]; decide), if_pos hsym]
  have hstep : ∀ s0 : UnzipState, processEntry env ownerID rootID s0 f = .ok s0 := by
    intro s0
    rw [processEntry_view]
    unfold entryStep
    rw [hkind]
  refine ⟨hstep s, fun hcap => ?_⟩
  rw [unzipLoop_cons, if_neg (by omega), hstep]

theorem symlink_entry_skipped_witness :
    processEntry sampleEnv "u1" sampleRoot.ID rootedState plainLink = .ok rootedState ∧
    (rootedState.totalEntries < maxEntries →
      unzipLoop sampleEnv "u1" sampleRoot.ID rootedState (plainLink :: sampleArchive) =
        unzipLoop sampleEnv "u1" sampleRoot.ID
          { rootedState with totalEntries := rootedState.totalEntries + 1 } sampleArchive) :=
  symlink_entry_skipped sampleEnv "u1" sampleRoot.ID rootedState plainLink sampleArchive rfl rfl
    (by decide) (by decide) (by decide)

/-- C22 The cap on the length of a path segment does not apply to directory entries: a
directory entry whose only segment has 256 bytes is ingested with a 201 and a folder node
of that name is created, while a file entry below a directory of the same name is rejected
with 400 `filename component too long`. -/
theorem long_segment_of_directory_entry_accepted :
    (UnzipHandler sampleEnv emptyWorld "u1" ""
        (some ⟨"pack.zip", 100, some [longDirEntry]⟩)).map
        (fun x => (x.1.status, x.2.nodes.map (fun d => (d.type, byteLen d.name)))) =
      some (201, [("folder", 6), ("folder", 256)]) ∧
    256 > maxFilenameLength ∧
    (UnzipHandler sampleEnv emptyWorld "u1" ""
        (some ⟨"pack.zip", 100, some [longFileEntry]⟩)).map (fun x => x.1) =
      some ⟨400, .error "filename component too long"⟩ := by
  set_option maxRecDepth 100000 in
  exact ⟨by decide, by decide, by decide⟩

/-! ## The cap on the extracted bytes -/

theorem SaveFromReader_unlimited {st : StorageService} {ownerID relPath : String}
    {p : String} {n : Nat} (h0 : SaveFromReader st ownerID relPath 0 = .ok (p, n))
    (size : Nat) (hmax : st.MaxSize = 0 ∨ size ≤ st.MaxSize) :
    SaveFromReader st ownerID relPath size = .ok (p, size) := by
  unfold SaveFromReader at h0 ⊢
  by_cases h1 : st.BasePath = ""
  · rw [if_pos h1] at h0
    cases h0
  rw [if_neg h1] at h0 ⊢
  dsimp only at h0 ⊢
  generalize trimLeftSlash (Clean (String.mk ('/' :: (trimLeftSlash relPath).data))) = rel
    at h0 ⊢
  by_cases h2 : rel = ""
  · rw [if_pos h2] at h0
    cases h0
  rw [if_neg h2] at h0 ⊢
  by_cases h3 : ((Split rel).any fun seg => decide (seg = "..")) = true
  · rw [if_pos h3] at h0
    cases h0
  rw [if_neg h3] at h0 ⊢
  by_cases h4 : Abs st.cwd (Join [st.BasePath, "owners", ownerID, rel]) ≠ Abs st.cwd st.BasePath ∧
      ¬ HasPrefix (Abs st.cwd (Join [st.BasePath, "owners", ownerID, rel]))
        (String.mk ((Abs st.cwd st.BasePath).data ++ ['/'])) = true
  · rw [if_pos h4] at h0
    cases h0
  rw [if_neg h4] at h0 ⊢
  by_cases h5 : st.MaxSize > 0
  · have hle : size ≤ st.MaxSize := by
      rcases hmax with h | h
      · omega
      · exact h
    have h6 : ¬ (st.MaxSize > 0 ∧ min 0 (st.MaxSize + 1) > st.MaxSize) := by
      intro h
      have := h.2
      simp at this
    have h7 : ¬ (st.MaxSize > 0 ∧ min size (st.MaxSize + 1) > st.MaxSize) := by
      intro h
      have := h.2
      rw [Nat.min_eq_left (by omega)] at this
      omega
    rw [if_pos h5] at h0 ⊢
    rw [if_neg h6] at h0
    rw [if_neg h7, Nat.min_eq_left (by omega)]
    cases h0
    rfl
  · have h6 : ∀ k, ¬ (st.MaxSize > 0 ∧ k > st.MaxSize) := fun k h => h5 h.1
    rw [if_neg h5] at h0 ⊢
    rw [if_neg (h6 _)] at h0 ⊢
    cases h0
    rfl

/-- C21, as stated, fails: with the storage limit of `main.go` (100 MiB per file) an archive
whose single entry extracts to more than 1 GiB is answered with 500, the failure of
`SaveFromReader`, not with a Bad-Request. -/
theorem oversized_single_entry_is_500 :
    (UnzipHandler limitedEnv emptyWorld "u1" "" (some ⟨"pack.zip", 100, some [bigEntry]⟩)).map
        (fun x => x.1) =
      some ⟨500, .error
        "failed to save extracted file: file too large (max 104857600 bytes)"⟩ := by
  decide

theorem cap_exit {env : UnzipEnv} {w0 : World} {ownerID rootID : String} {s s1 : UnzipState}
    {f : ZipEntry} {clean parentForFile : String} {parts : List String}
    (hs : s.Inv w0 ownerID rootID) (hk : entryKind f = .file clean parts)
    (hmk : createDirNode env ownerID rootID parts.dropLast s = (s1, .ok parentForFile))
    (hopen : f.OpenFails = false) {savedPath : String} {size : Nat}
    (hsave : SaveFromReader env.storage ownerID (Join [rootID, clean])
      (min f.Size (maxTotalExtractSize + 1)) = .ok (savedPath, size))
    (hover : s1.totalExtractedSize + size > maxTotalExtractSize) :
    CapExit env w0 ownerID rootID s s1 f savedPath := by
  have hi1 : s1.Inv w0 ownerID rootID := by
    have := (createDirNode_inv env parts.dropLast s hs).1
    rw [hmk] at this
    exact this
  have hi2 : UnzipInv w0 ownerID rootID
      ((s1.world.saveFile savedPath).deleteFileWith env.deleteFileFails savedPath)
      s1.createdNodes (s1.createdPaths ++ [savedPath]) s1.dirNodeMap :=
    UnzipInv_deleteFileWith (UnzipInv_saveFile hi1 savedPath) _ _
  have hop : ¬ f.OpenFails = true := by
    rw [hopen]
    decide
  refine ⟨cleanupCreated env
    ((s1.world.saveFile savedPath).deleteFileWith env.deleteFileFails savedPath)
    (s1.createdPaths ++ [savedPath]) s1.createdNodes, ?_, ?_, fun hf hn => ?_⟩
  · rw [processEntry_view]
    unfold entryStep
    rw [hk]
    dsimp only
    rw [hmk]
    dsimp only
    unfold extractFile
    rw [if_neg hop]
    dsimp only
    rw [hsave]
    dsimp only
    rw [if_pos hover]
    rfl
  · refine ⟨(s1.createdPaths ++ [savedPath]).map Call.deleteFile ++
      s1.createdNodes.reverse.map (fun n => Call.deleteNode n.ID), ?_⟩
    rw [cleanupCreated_trace, (deleteFileWith_facts _ _ _).2.1]
    simp only [World.saveFile, List.append_assoc, List.singleton_append, List.cons_append,
      List.nil_append]
  · obtain ⟨h1, h2⟩ := cleanupCreated_undo hi2 hf hn
    refine ⟨h1, fun q hq => (h2 q hq).1, fun hq => ?_, fun p hp hq => ?_⟩
    · exact (h2 _ hq).2 (List.mem_append_right _ (List.mem_singleton.2 rfl))
    · exact (h2 _ hq).2 (List.mem_append_left _ hp)

theorem UnzipHandler_loop_error {env : UnzipEnv} {w : World}
    {ownerID parentID filename : String} {size : Nat} {pre : List ZipEntry} {w1 : World}
    {root : Node}
    (hpre : (UnzipHandler env w ownerID parentID (some ⟨filename, size, some pre⟩)).map
      (fun x => x.1.status) = some 201)
    (hc : w.createNode env.now (env.ids 0)
        { ID := "", OwnerID := ownerID, ParentID := parentID,
          Name := rootFolderName filename env.now, Typ := "folder", Size := 0, Mime := "",
          Path := "", CreatedAt := 0, UpdatedAt := 0 } = .ok (w1, root)) :
    ∀ es x, unzipLoop env ownerID root.ID ⟨w1, [root], [], [], 0, 0, 1⟩ es = .error x →
      UnzipHandler env w ownerID parentID (some ⟨filename, size, some es⟩) = some x := by
  intro es x hx
  by_cases h1 : min size (maxZipSize + 1) > maxZipSize
  · exfalso
    unfold UnzipHandler at hpre
    dsimp only at hpre
    rw [if_pos h1] at hpre
    simp only [Option.map_some', Option.some.injEq] at hpre
    exact absurd hpre (by decide)
  by_cases h2 : min size (maxZipSize + 1) = 0
  · exfalso
    unfold UnzipHandler at hpre
    dsimp only at hpre
    rw [if_neg h1, if_pos h2] at hpre
    simp only [Option.map_some', Option.some.injEq] at hpre
    exact absurd hpre (by decide)
  unfold UnzipHandler
  dsimp only
  rw [if_neg h1, if_neg h2, hc]
  dsimp only
  rw [hx]

theorem createDirLoop_total (env : UnzipEnv) (ownerID : String) :
    ∀ (parts : List String) (i : Nat) (cur : List String) (curParent : String)
      (s : UnzipState),
      (createDirLoop env ownerID parts i cur curParent s).1.totalExtractedSize =
        s.totalExtractedSize := by
  intro parts
  induction parts with
  | nil => intro i cur curParent s; rfl
  | cons p rest ih =>
    intro i cur curParent s
    rw [createDirLoop]
    dsimp only
    cases hlk : lookupDir s.dirNodeMap (joinSlash (cur ++ [p])) with
    | some id => exact ih _ _ _ _
    | none =>
      dsimp only
      cases hcn : s.world.createNode env.now (env.ids s.inserts)
          { ID := "", OwnerID := ownerID, ParentID := curParent, Name := p, Typ := "folder",
            Size := 0, Mime := "", Path := "", CreatedAt := 0, UpdatedAt := 0 } with
      | error e => rfl
      | ok r =>
        obtain ⟨w1, n1⟩ := r
        dsimp only
        by_cases hdeep : i > 1000
        · rw [if_pos hdeep]
        · rw [if_neg hdeep]
          exact (ih _ _ _ _).trans rfl

theorem cap_answer {env : UnzipEnv} {w : World} {ownerID parentID filename : String}
    {size : Nat} {pre post : List ZipEntry} {f : ZipEntry} {w1 : World} {root : Node}
    {s s1 : UnzipState} {clean parentForFile : String} {parts : List String}
    (hpre : (UnzipHandler env w ownerID parentID (some ⟨filename, size, some pre⟩)).map
      (fun x => x.1.status) = some 201)
    (hc : w.createNode env.now (env.ids 0)
        { ID := "", OwnerID := ownerID, ParentID := parentID,
          Name := rootFolderName filename env.now, Typ := "folder", Size := 0, Mime := "",
          Path := "", CreatedAt := 0, UpdatedAt := 0 } = .ok (w1, root))
    (hl : unzipLoop env ownerID root.ID ⟨w1, [root], [], [], 0, 0, 1⟩ pre = .ok s)
    (hcount : pre.length < maxEntries)
    (hk : entryKind f = .file clean parts)
    (hmk : createDirNode env ownerID root.ID parts.dropLast
      { s with totalEntries := s.totalEntries + 1 } = (s1, .ok parentForFile))
    (hopen : f.OpenFails = false) {savedPath : String} {n : Nat}
    (hsave : SaveFromReader env.storage ownerID (Join [root.ID, clean])
      (min f.Size (maxTotalExtractSize + 1)) = .ok (savedPath, n))
    (hover : s.totalExtractedSize + n > maxTotalExtractSize) :
    ∃ wf,
      UnzipHandler env w ownerID parentID (some ⟨filename, size, some (pre ++ f :: post)⟩) =
        some (⟨400, .error "zip extracts to too much data"⟩, wf) ∧
      (∃ t, wf.trace = s1.world.trace ++ [.saveFile savedPath, .deleteFile savedPath] ++ t) ∧
      ((∀ t p, env.deleteFileFails t p = false) → (∀ t id, env.deleteNodeFails t id = false) →
        wf.nodes = w.nodes ∧ (∀ q ∈ wf.blobs, q ∈ w.blobs) ∧ savedPath ∉ wf.blobs ∧
          ∀ p ∈ s1.createdPaths, p ∉ wf.blobs) := by
  have hinv0 : UnzipInv w ownerID root.ID w1 [root] [] [] := createRoot_inv hc rfl rfl
  obtain ⟨hinv, hte⟩ := (unzipLoop_spec env pre ⟨w1, [root], [], [], 0, 0, 1⟩ hinv0).1 s hl
  have hinv1 : UnzipState.Inv w ownerID root.ID { s with totalEntries := s.totalEntries + 1 } :=
    Inv_totalEntries hinv _
  have htot : s1.totalExtractedSize = s.totalExtractedSize := by
    have h := createDirLoop_total env ownerID parts.dropLast 0 [] root.ID
      { s with totalEntries := s.totalEntries + 1 }
    unfold createDirNode at hmk
    rw [hmk] at h
    exact h
  obtain ⟨wf, hpe, htr, hundo⟩ := cap_exit hinv1 hk hmk hopen hsave (by rw [htot]; exact hover)
  have hcap : ¬ s.totalEntries + 1 > maxEntries := by
    rw [hte]
    simp only [Nat.zero_add]
    omega
  have hloop : unzipLoop env ownerID root.ID ⟨w1, [root], [], [], 0, 0, 1⟩ (pre ++ f :: post) =
      .error (⟨400, .error "zip extracts to too much data"⟩, wf) := by
    rw [unzipLoop_append env ownerID root.ID (f :: post) pre _ s hl, unzipLoop_cons,
      if_neg hcap, hpe]
  exact ⟨wf, UnzipHandler_loop_error hpre hc _ _ hloop, htr, hundo⟩

/-- C21 Total-extraction cap, as amended: let the handler answer 201 on the entries `pre`,
with `s` the state of the loop after them, and let `f` be a file entry that passes the name
checks, whose folders are created and whose content opens, within the entry cap. When
`SaveFromReader` has written the blob of `f` and the running total then exceeds
`maxTotalExtractSize`, the handler answers the archive `pre ++ f :: post` with 400
`zip extracts to too much data`, deletes the blob just written right after saving it, and
when no delete fails the node store is the one before the call, every blob left was there
before the call, and neither the blob of `f` nor a blob saved earlier in the call is left.
In particular an entry that alone extracts to more than the cap is answered this way when
the storage service has no limit per file, or a limit above the cap, and accepts the
path. -/
theorem total_extraction_cap (env : UnzipEnv) (w : World)
    (ownerID parentID filename : String) (size : Nat) (pre post : List ZipEntry) (f : ZipEntry)
    (w1 : World) (root : Node) (s s1 : UnzipState) (clean parentForFile : String)
    (parts : List String)
    (hpre : (UnzipHandler env w ownerID parentID (some ⟨filename, size, some pre⟩)).map
      (fun x => x.1.status) = some 201)
    (hc : w.createNode env.now (env.ids 0)
        { ID := "", OwnerID := ownerID, ParentID := parentID,
          Name := rootFolderName filename env.now, Typ := "folder", Size := 0, Mime := "",
          Path := "", CreatedAt := 0, UpdatedAt := 0 } = .ok (w1, root))
    (hl : unzipLoop env ownerID root.ID ⟨w1, [root], [], [], 0, 0, 1⟩ pre = .ok s)
    (hcount : pre.length < maxEntries)
    (hk : entryKind f = .file clean parts)
    (hmk : createDirNode env ownerID root.ID parts.dropLast
      { s with totalEntries := s.totalEntries + 1 } = (s1, .ok parentForFile))
    (hopen : f.OpenFails = false) :
    (∀ savedPath n,
      SaveFromReader env.storage ownerID (Join [root.ID, clean])
        (min f.Size (maxTotalExtractSize + 1)) = .ok (savedPath, n) →
      s.totalExtractedSize + n > maxTotalExtractSize →
      ∃ wf,
        UnzipHandler env w ownerID parentID (some ⟨filename, size, some (pre ++ f :: post)⟩) =
          some (⟨400, .error "zip extracts to too much data"⟩, wf) ∧
        (∃ t, wf.trace =
          s1.world.trace ++ [.saveFile savedPath, .deleteFile savedPath] ++ t) ∧
        ((∀ t p, env.deleteFileFails t p = false) →
          (∀ t id, env.deleteNodeFails t id = false) →
          wf.nodes = w.nodes ∧ (∀ q ∈ wf.blobs, q ∈ w.blobs) ∧ savedPath ∉ wf.blobs ∧
            ∀ p ∈ s1.createdPaths, p ∉ wf.blobs)) ∧
    (f.Size > maxTotalExtractSize →
      (env.storage.MaxSize = 0 ∨ maxTotalExtractSize < env.storage.MaxSize) →
      ∀ savedPath n,
        SaveFromReader env.storage ownerID (Join [root.ID, clean]) 0 = .ok (savedPath, n) →
        ∃ wf,
          UnzipHandler env w ownerID parentID
              (some ⟨filename, size, some (pre ++ f :: post)⟩) =
            some (⟨400, .error "zip extracts to too much data"⟩, wf) ∧
          (∃ t, wf.trace =
            s1.world.trace ++ [.saveFile savedPath, .deleteFile savedPath] ++ t) ∧
          ((∀ t p, env.deleteFileFails t p = false) →
            (∀ t id, env.deleteNodeFails t id = false) →
            wf.nodes = w.nodes ∧ (∀ q ∈ wf.blobs, q ∈ w.blobs) ∧ savedPath ∉ wf.blobs ∧
              ∀ p ∈ s1.createdPaths, p ∉ wf.blobs)) := by
  refine ⟨fun savedPath n hsave hover => cap_answer hpre hc hl hcount hk hmk hopen hsave hover,
    fun hbig hmax savedPath n h0 => ?_⟩
  have hmin : min f.Size (maxTotalExtractSize + 1) = maxTotalExtractSize + 1 :=
    Nat.min_eq_right (by omega)
  have hsave := SaveFromReader_unlimited h0 (min f.Size (maxTotalExtractSize + 1))
    (by rw [hmin]; omega)
  refine cap_answer hpre hc hl hcount hk hmk hopen hsave ?_
  rw [hmin]
  omega

theorem total_extraction_cap_witness :
    (∃ s s1 savedPath,
      (UnzipHandler unlimitedEnv emptyWorld "u1" "" (some ⟨"pack.zip", 100,
        some [nearCapEntry]⟩)).map (fun x => x.1.status) = some 201 ∧
      unzipLoop unlimitedEnv "u1" sampleRoot.ID ⟨rootedWorld, [sampleRoot], [], [], 0, 0, 1⟩
        [nearCapEntry] = .ok s ∧
      s.totalExtractedSize = 2 ^ 30 - 10 ∧
      entryKind smallEntry = .file "b.bin" ["b.bin"] ∧
      createDirNode unlimitedEnv "u1" sampleRoot.ID (["b.bin"] : List String).dropLast
        { s with totalEntries := s.totalEntries + 1 } = (s1, .ok sampleRoot.ID) ∧
      SaveFromReader unlimitedEnv.storage "u1" (Join [sampleRoot.ID, "b.bin"])
        (min smallEntry.Size (maxTotalExtractSize + 1)) = .ok (savedPath, 20) ∧
      ∃ wf,
        UnzipHandler unlimitedEnv emptyWorld "u1" "" (some ⟨"pack.zip", 100,
            some ([nearCapEntry] ++ smallEntry :: [])⟩) =
          some (⟨400, .error "zip extracts to too much data"⟩, wf) ∧
        (∃ t, wf.trace =
          s1.world.trace ++ [.saveFile savedPath, .deleteFile savedPath] ++ t) ∧
        ((∀ t p, unlimitedEnv.deleteFileFails t p = false) →
          (∀ t id, unlimitedEnv.deleteNodeFails t id = false) →
          wf.nodes = emptyWorld.nodes ∧ (∀ q ∈ wf.blobs, q ∈ emptyWorld.blobs) ∧
            savedPath ∉ wf.blobs ∧ ∀ p ∈ s1.createdPaths, p ∉ wf.blobs)) ∧
    (∃ (s1 : UnzipState) (savedPath : String) (wf : World),
      UnzipHandler unlimitedEnv emptyWorld "u1" "" (some ⟨"pack.zip", 100,
          some ([] ++ bigEntry :: [])⟩) =
        some (⟨400, .error "zip extracts to too much data"⟩, wf) ∧
      (∃ t, wf.trace =
        s1.world.trace ++ [.saveFile savedPath, .deleteFile savedPath] ++ t) ∧
      ((∀ t p, unlimitedEnv.deleteFileFails t p = false) →
        (∀ t id, unlimitedEnv.deleteNodeFails t id = false) →
        wf.nodes = emptyWorld.nodes ∧ (∀ q ∈ wf.blobs, q ∈ emptyWorld.blobs) ∧
          savedPath ∉ wf.blobs ∧ ∀ p ∈ s1.createdPaths, p ∉ wf.blobs)) :=
  ⟨⟨_, _, _, by decide, rfl, rfl, by decide, rfl, rfl,
    (total_extraction_cap unlimitedEnv emptyWorld "u1" "" "pack.zip" 100 [nearCapEntry] []
      smallEntry rootedWorld sampleRoot _ _ "b.bin" sampleRoot.ID ["b.bin"] (by decide) rfl rfl
      (by decide) (by decide) rfl rfl).1 _ 20 rfl (by decide)⟩,
   ⟨_, _,
    (total_extraction_cap unlimitedEnv emptyWorld "u1" "" "pack.zip" 100 [] []
      bigEntry rootedWorld sampleRoot _ _ "big.bin" sampleRoot.ID ["big.bin"] (by decide) rfl
      rfl (by decide) (by decide) rfl rfl).2 (by decide) (Or.inl rfl) _ _ rfl⟩⟩


/-! ## The blob store stays below its base directory -/

theorem HasPrefix_data {s pre : String} (h : HasPrefix s pre = true) :
    ∃ rest, s.data = pre.data ++ rest := by
  unfold HasPrefix at h
  obtain ⟨t, ht⟩ := List.isPrefixOf_iff_prefix.1 h
  exact ⟨t, ht.symm⟩

/-- C25 Blob-store traversal defense: when `SaveFromReader` succeeds, the path it returns is
the absolute base directory or that directory followed by a separator and more; the model
with file-system calls gives the same result; and when the relative path normalizes to
empty, or the destination is neither the base directory nor below it, an error is returned
and no file-system call has been made. -/
theorem SaveFromReader_stays_in_base (st : StorageService) (ownerID relPath : String)
    (size : Nat) :
    (∀ p n, SaveFromReader st ownerID relPath size = .ok (p, n) →
      p = Abs st.cwd st.BasePath ∨
        ∃ rest, p.data = (Abs st.cwd st.BasePath).data ++ '/' :: rest) ∧
    (SaveFromReaderFs st ownerID relPath size).2 = SaveFromReader st ownerID relPath size ∧
    ((trimLeftSlash (Clean (String.mk ('/' :: (trimLeftSlash relPath).data))) = "" ∨
      (Abs st.cwd (Join [st.BasePath, "owners", ownerID,
          trimLeftSlash (Clean (String.mk ('/' :: (trimLeftSlash relPath).data)))]) ≠
        Abs st.cwd st.BasePath ∧
       HasPrefix (Abs st.cwd (Join [st.BasePath, "owners", ownerID,
          trimLeftSlash (Clean (String.mk ('/' :: (trimLeftSlash relPath).data)))]))
        (String.mk ((Abs st.cwd st.BasePath).data ++ ['/'])) = false)) →
      (SaveFromReaderFs st ownerID relPath size).1 = [] ∧
        ∃ e, SaveFromReader st ownerID relPath size = .error e) := by
  unfold SaveFromReader SaveFromReaderFs
  by_cases h1 : st.BasePath = ""
  · rw [if_pos h1, if_pos h1]
    exact ⟨(fun _ _ h => nomatch h), rfl, fun _ => ⟨rfl, _, rfl⟩⟩
  rw [if_neg h1, if_neg h1]
  dsimp only
  generalize trimLeftSlash (Clean (String.mk ('/' :: (trimLeftSlash relPath).data))) = rel
  by_cases h2 : rel = ""
  · rw [if_pos h2, if_pos h2]
    exact ⟨(fun _ _ h => nomatch h), rfl, fun _ => ⟨rfl, _, rfl⟩⟩
  rw [if_neg h2, if_neg h2]
  by_cases h3 : ((Split rel).any fun seg => decide (seg = "..")) = true
  · rw [if_pos h3, if_pos h3]
    exact ⟨(fun _ _ h => nomatch h), rfl, fun _ => ⟨rfl, _, rfl⟩⟩
  rw [if_neg h3, if_neg h3]
  generalize Abs st.cwd (Join [st.BasePath, "owners", ownerID, rel]) = absDest
  generalize hb : Abs st.cwd st.BasePath = absBase
  by_cases h4 : absDest ≠ absBase ∧
      ¬ HasPrefix absDest (String.mk (absBase.data ++ ['/'])) = true
  · rw [if_pos h4, if_pos h4]
    exact ⟨(fun _ _ h => nomatch h), rfl, fun _ => ⟨rfl, _, rfl⟩⟩
  rw [if_neg h4, if_neg h4]
  have hin : absDest = absBase ∨ ∃ rest, absDest.data = absBase.data ++ '/' :: rest := by
    by_cases he : absDest = absBase
    · exact Or.inl he
    · right
      have hp : HasPrefix absDest (String.mk (absBase.data ++ ['/'])) = true := by
        by_contra hc
        exact h4 ⟨he, hc⟩
      obtain ⟨rest, hr⟩ := HasPrefix_data hp
      exact ⟨rest, by rw [hr]; simp⟩
  have hout : ¬ (rel = "" ∨ (absDest ≠ absBase ∧
      HasPrefix absDest (String.mk (absBase.data ++ ['/'])) = false)) := by
    rintro (h | ⟨ha, hb2⟩)
    · exact h2 h
    · exact h4 ⟨ha, by rw [hb2]; decide⟩
  by_cases h5 : st.MaxSize > 0 ∧
      (if st.MaxSize > 0 then min size (st.MaxSize + 1) else size) > st.MaxSize
  · rw [if_pos h5, if_pos h5]
    exact ⟨(fun _ _ h => nomatch h), rfl, fun h => absurd h hout⟩
  · rw [if_neg h5, if_neg h5]
    refine ⟨fun p n h => ?_, rfl, fun h => absurd h hout⟩
    cases h
    exact hin

theorem SaveFromReader_stays_in_base_witness :
    SaveFromReader sampleStorage "u1" "root/../a.txt" 5 =
      .ok ("/srv/data/owners/u1/a.txt", 5) ∧
    SaveFromReaderFs sampleStorage "../../../etc" "passwd" 5 =
      ([], .error "invalid destination path") ∧
    ((∀ p n, SaveFromReader sampleStorage "../../../etc" "passwd" 5 = .ok (p, n) →
      p = Abs sampleStorage.cwd sampleStorage.BasePath ∨
        ∃ rest, p.data = (Abs sampleStorage.cwd sampleStorage.BasePath).data ++ '/' :: rest) ∧
    (SaveFromReaderFs sampleStorage "../../../etc" "passwd" 5).2 =
      SaveFromReader sampleStorage "../../../etc" "passwd" 5 ∧
    ((trimLeftSlash (Clean (String.mk ('/' :: (trimLeftSlash "passwd").data))) = "" ∨
      (Abs sampleStorage.cwd (Join [sampleStorage.BasePath, "owners", "../../../etc",
          trimLeftSlash (Clean (String.mk ('/' :: (trimLeftSlash "passwd").data)))]) ≠
        Abs sampleStorage.cwd sampleStorage.BasePath ∧
       HasPrefix (Abs sampleStorage.cwd (Join [sampleStorage.BasePath, "owners",
          "../../../etc",
          trimLeftSlash (Clean (String.mk ('/' :: (trimLeftSlash "passwd").data)))]))
        (String.mk ((Abs sampleStorage.cwd sampleStorage.BasePath).data ++ ['/'])) = false)) →
      (SaveFromReaderFs sampleStorage "../../../etc" "passwd" 5).1 = [] ∧
        ∃ e, SaveFromReader sampleStorage "../../../etc" "passwd" 5 = .error e)) :=
  ⟨rfl, rfl, SaveFromReader_stays_in_base sampleStorage "../../../etc" "passwd" 5⟩

/-! ## Order of creation and order of rollback -/

theorem StepSpec_ok {env : UnzipEnv} {Q : World → List Node → List String → Prop}
    {s1 : UnzipState} (h : Q s1.world s1.createdNodes s1.createdPaths) :
    StepSpec env Q (.ok s1) := by
  refine ⟨fun s2 h2 => ?_, fun x hx => ?_⟩
  · cases h2
    exact h
  · cases hx

theorem StepSpec_fail {env : UnzipEnv} {Q : World → List Node → List String → Prop}
    {s : UnzipState} {paths : List String} (h : Q s.world s.createdNodes paths)
    (status : Nat) (msg : String) : StepSpec env Q (unzipFail env s paths status msg) := by
  refine ⟨fun s2 h2 => ?_, fun x hx => ?_⟩
  · cases h2
  · unfold unzipFail at hx
    cases hx
    exact ⟨_, _, _, h, rfl⟩

theorem StepSpec_ite {env : UnzipEnv} {Q : World → List Node → List String → Prop}
    {c : Prop} [Decidable c] {a b : Except (Response × World) UnzipState}
    (ha : c → StepSpec env Q a) (hb : ¬c → StepSpec env Q b) :
    StepSpec env Q (if c then a else b) := by
  by_cases h : c
  · rw [if_pos h]
    exact ha h
  · rw [if_neg h]
    exact hb h

theorem createNode_node {w w1 : World} {now : Nat} {fresh : ObjectID} {n n1 : Node}
    (h : w.createNode now fresh n = .ok (w1, n1)) :
    n1 = { n with ID := fresh.Hex, CreatedAt := now, UpdatedAt := now } := by
  unfold World.createNode CreateNode at h
  by_cases hany : (w.nodes.any (fun d => decide (d.id = fresh))) = true
  · simp [hany] at h
  · simp only [hany, Bool.false_eq_true, if_false] at h
    injection h with h
    injection h with h1 h2
    exact h2.symm

theorem Aligned_createNode {tr0 : List Call} {rootID : String} {w w1 : World}
    {nodes : List Node} {paths : List String} {now : Nat} {fresh : ObjectID} {n n1 : Node}
    (ha : Aligned tr0 rootID w nodes paths) (h : w.createNode now fresh n = .ok (w1, n1)) :
    Aligned tr0 rootID w1 (nodes ++ [n1]) paths := by
  obtain ⟨t, h1, h2, h3⟩ := ha
  obtain ⟨d, -, -, -, -, -, -, -, -, htrace, hid, -⟩ := createNode_ok h
  refine ⟨t ++ [.createNode n1.ID], ?_, ?_, ?_⟩
  · rw [htrace, h1, hid]
    simp
  · rw [List.map_append, h2, List.filterMap_append]
    simp [createdId]
  · rw [List.filterMap_append, h3]
    simp [savedPath]

theorem Aligned_saveFile {tr0 : List Call} {rootID : String} {w : World}
    {nodes : List Node} {paths : List String} (ha : Aligned tr0 rootID w nodes paths)
    (p : String) : Aligned tr0 rootID (w.saveFile p) nodes (paths ++ [p]) := by
  obtain ⟨t, h1, h2, h3⟩ := ha
  refine ⟨t ++ [.saveFile p], ?_, ?_, ?_⟩
  · simp [World.saveFile, h1]
  · rw [h2, List.filterMap_append]
    simp [createdId]
  · rw [List.filterMap_append, h3]
    simp [savedPath]

theorem Aligned_deleteFileWith {tr0 : List Call} {rootID : String} {w : World}
    {nodes : List Node} {paths : List String} (ha : Aligned tr0 rootID w nodes paths)
    (fails : BlobFailures) (p : String) :
    Aligned tr0 rootID (w.deleteFileWith fails p) nodes paths := by
  obtain ⟨t, h1, h2, h3⟩ := ha
  refine ⟨t ++ [.deleteFile p], ?_, ?_, ?_⟩
  · rw [(deleteFileWith_facts fails w p).2.1, h1]
    simp
  · rw [h2, List.filterMap_append]
    simp [createdId]
  · rw [List.filterMap_append, h3]
    simp [savedPath]

theorem createDirLoop_aligned (env : UnzipEnv) (ownerID : String) {tr0 : List Call}
    {rootID : String} :
    ∀ (parts : List String) (i : Nat) (cur : List String) (curParent : String) (s : UnzipState),
      Aligned tr0 rootID s.world s.createdNodes s.createdPaths →
      Aligned tr0 rootID (createDirLoop env ownerID parts i cur curParent s).1.world
        (createDirLoop env ownerID parts i cur curParent s).1.createdNodes
        (createDirLoop env ownerID parts i cur curParent s).1.createdPaths := by
  intro parts
  induction parts with
  | nil =>
    intro i cur curParent s hs
    exact hs
  | cons p rest ih =>
    intro i cur curParent s hs
    unfold createDirLoop
    simp only
    cases hl : lookupDir s.dirNodeMap (joinSlash (cur ++ [p])) with
    | some id =>
      simp only
      exact ih (i + 1) (cur ++ [p]) id s hs
    | none =>
      simp only
      cases hc : s.world.createNode env.now (env.ids s.inserts)
          { ID := "", OwnerID := ownerID, ParentID := curParent, Name := p, Typ := "folder",
            Size := 0, Mime := "", Path := "", CreatedAt := 0, UpdatedAt := 0 } with
      | error e =>
        simp only
        exact hs
      | ok r =>
        obtain ⟨w1, n1⟩ := r
        simp only
        have h1 := Aligned_createNode hs hc
        split
        · exact h1
        · exact ih (i + 1) (cur ++ [p]) n1.ID
            ⟨w1, s.createdNodes ++ [n1], s.createdPaths,
              setDir s.dirNodeMap (joinSlash (cur ++ [p])) n1.ID, s.totalEntries,
              s.totalExtractedSize, s.inserts + 1⟩ h1

theorem extractFile_aligned (env : UnzipEnv) (ownerID rootID : String) {tr0 : List Call}
    (s1 : UnzipState) (parentForFile clean : String) (parts : List String) (f : ZipEntry)
    (hs : Aligned tr0 rootID s1.world s1.createdNodes s1.createdPaths) :
    StepSpec env (Aligned tr0 rootID)
      (extractFile env ownerID rootID s1 parentForFile clean parts f) := by
  unfold extractFile
  refine StepSpec_ite (fun _ => StepSpec_fail hs _ _) (fun _ => ?_)
  dsimp only
  generalize SaveFromReader env.storage ownerID (Join [rootID, clean])
    (f.Size ⊓ (maxTotalExtractSize + 1)) = saved
  cases saved with
  | error e => exact StepSpec_fail hs _ _
  | ok sp =>
    obtain ⟨sp1, size⟩ := sp
    dsimp only
    have h2 := Aligned_saveFile hs sp1
    refine StepSpec_ite (fun _ => ?_) (fun _ => ?_)
    · refine StepSpec_fail ?_ _ _
      exact Aligned_deleteFileWith h2 _ _
    · generalize hc : (s1.world.saveFile sp1).createNode env.now (env.ids s1.inserts) _ = created
      cases created with
      | error e =>
        refine StepSpec_fail ?_ _ _
        exact Aligned_deleteFileWith h2 _ _
      | ok wn =>
        obtain ⟨w3, n1⟩ := wn
        refine StepSpec_ok ?_
        exact Aligned_createNode h2 hc

theorem processEntry_aligned (env : UnzipEnv) (ownerID rootID : String) {tr0 : List Call}
    (s : UnzipState) (f : ZipEntry)
    (hs : Aligned tr0 rootID s.world s.createdNodes s.createdPaths) :
    StepSpec env (Aligned tr0 rootID) (processEntry env ownerID rootID s f) := by
  rw [processEntry_view]
  unfold entryStep
  cases entryKind f with
  | skip => exact StepSpec_ok hs
  | reject msg => exact StepSpec_fail hs _ _
  | dir parts =>
    dsimp only
    have hd := createDirLoop_aligned env ownerID parts 0 [] rootID s hs
    unfold createDirNode
    generalize createDirLoop env ownerID parts 0 [] rootID s = r at hd ⊢
    obtain ⟨s1, res⟩ := r
    cases res with
    | error e => exact StepSpec_fail hd _ _
    | ok id => exact StepSpec_ok hd
  | file clean parts =>
    dsimp only
    have hd := createDirLoop_aligned env ownerID parts.dropLast 0 [] rootID s hs
    unfold createDirNode
    generalize createDirLoop env ownerID parts.dropLast 0 [] rootID s = r at hd ⊢
    obtain ⟨s1, res⟩ := r
    cases res with
    | error e => exact StepSpec_fail hd _ _
    | ok parentForFile => exact extractFile_aligned env ownerID rootID s1 _ _ _ _ hd

theorem unzipLoop_aligned (env : UnzipEnv) (ownerID rootID : String) {tr0 : List Call} :
    ∀ (es : List ZipEntry) (s : UnzipState),
      Aligned tr0 rootID s.world s.createdNodes s.createdPaths →
      StepSpec env (Aligned tr0 rootID) (unzipLoop env ownerID rootID s es) := by
  intro es
  induction es with
  | nil =>
    intro s hs
    rw [unzipLoop]
    exact StepSpec_ok hs
  | cons f rest ih =>
    intro s hs
    rw [unzipLoop_cons]
    refine StepSpec_ite (fun _ => StepSpec_fail hs _ _) (fun _ => ?_)
    have hp := processEntry_aligned env ownerID rootID
      { s with totalEntries := s.totalEntries + 1 } f hs
    generalize processEntry env ownerID rootID { s with totalEntries := s.totalEntries + 1 } f
      = res at hp ⊢
    cases res with
    | error r =>
      refine ⟨fun s1 h => ?_, fun x h => ?_⟩
      · cases h
      · cases h
        exact hp.2 _ rfl
    | ok s2 => exact ih s2 (hp.1 s2 rfl)

theorem UnzipHandler_run {env : UnzipEnv} {w : World} {ownerID parentID : String}
    {file : Option ZipUpload} {resp : Response} {wf : World}
    (h : UnzipHandler env w ownerID parentID file = some (resp, wf)) :
    (wf = w ∧ resp.status ≠ 201) ∨
    ∃ filename size es w1 root,
      file = some ⟨filename, size, some es⟩ ∧
      w.createNode env.now (env.ids 0)
          { ID := "", OwnerID := ownerID, ParentID := parentID,
            Name := rootFolderName filename env.now, Typ := "folder", Size := 0, Mime := "",
            Path := "", CreatedAt := 0, UpdatedAt := 0 } = .ok (w1, root) ∧
      ((unzipLoop env ownerID root.ID ⟨w1, [root], [], [], 0, 0, 1⟩ es = .error (resp, wf)) ∨
       (∃ s, unzipLoop env ownerID root.ID ⟨w1, [root], [], [], 0, 0, 1⟩ es = .ok s ∧
          resp = ⟨201, .unzip ⟨"unzipped successfully", s.createdNodes.length, s.createdNodes,
            s.createdPaths, root.ID, env.now⟩⟩ ∧ wf = s.world)) := by
  have hno : ∀ {r0 : Response}, some (r0, w) = some (resp, wf) → r0.status ≠ 201 →
      (wf = w ∧ resp.status ≠ 201) := by
    intro r0 he hst
    cases he
    exact ⟨rfl, hst⟩
  unfold UnzipHandler at h
  cases file with
  | none => exact Or.inl (hno h (by decide))
  | some fh =>
    obtain ⟨filename, size, arch⟩ := fh
    dsimp only at h
    by_cases h1 : min size (maxZipSize + 1) > maxZipSize
    · rw [if_pos h1] at h
      exact Or.inl (hno h (by decide))
    rw [if_neg h1] at h
    by_cases h2 : min size (maxZipSize + 1) = 0
    · rw [if_pos h2] at h
      exact Or.inl (hno h (by decide))
    rw [if_neg h2] at h
    cases arch with
    | none => exact Or.inl (hno h (by decide))
    | some es =>
      dsimp only at h
      cases hc : w.createNode env.now (env.ids 0)
          { ID := "", OwnerID := ownerID, ParentID := parentID,
            Name := rootFolderName filename env.now, Typ := "folder", Size := 0, Mime := "",
            Path := "", CreatedAt := 0, UpdatedAt := 0 } with
      | error e =>
        rw [hc] at h
        refine Or.inl (hno h ?_)
        show (500 : Nat) ≠ 201
        decide
      | ok wn =>
        obtain ⟨w1, root⟩ := wn
        rw [hc] at h
        dsimp only at h
        right
        refine ⟨filename, size, es, w1, root, rfl, hc, ?_⟩
        cases hl : unzipLoop env ownerID root.ID ⟨w1, [root], [], [], 0, 0, 1⟩ es with
        | error x =>
          rw [hl] at h
          left
          cases h
          rfl
        | ok s =>
          rw [hl] at h
          right
          cases h
          exact ⟨s, rfl, rfl, rfl⟩

theorem createRoot_aligned {w w1 : World} {now : Nat} {fresh : ObjectID} {n root : Node}
    (hc : w.createNode now fresh n = .ok (w1, root)) :
    Aligned w.trace root.ID w1 [root] [] := by
  obtain ⟨d, -, -, -, -, -, -, -, -, htrace, hid, -⟩ := createNode_ok hc
  refine ⟨[], ?_, ?_, rfl⟩
  · rw [htrace, hid]
  · simp

/-- C28, as stated, fails: on the failed ingestion of two files followed by a rejected
entry, `a.txt` is saved before `b.txt` and is also deleted before it; the nodes are deleted
last to first, the root folder last. -/
theorem rollback_deletes_blobs_first_to_last :
    (UnzipHandler sampleEnv emptyWorld "u1" ""
        (some ⟨"pack.zip", 100, some twoFilesThenEvil⟩)).map (fun x => (x.1.status, x.2.trace)) =
      some (400,
        [.createNode (oidN 1).Hex,
         .saveFile "/srv/data/owners/u1/000000000000000000000001/a.txt",
         .createNode (oidN 2).Hex,
         .saveFile "/srv/data/owners/u1/000000000000000000000001/b.txt",
         .createNode (oidN 3).Hex,
         .deleteFile "/srv/data/owners/u1/000000000000000000000001/a.txt",
         .deleteFile "/srv/data/owners/u1/000000000000000000000001/b.txt",
         .deleteNode (oidN 3).Hex, .deleteNode (oidN 2).Hex, .deleteNode (oidN 1).Hex]) := by
  decide

/-- C28 Rollback order, as amended: `cleanupCreated` issues `DeleteFile` over `savedPaths`
from first to last and then `DeleteNode` over `createdNodes` from last to first; and every
failing answer of `UnzipHandler` either made no call, or its calls are the creation of the
root folder, the calls `t` of the extraction, `DeleteFile` on the paths saved in `t` in the
order they were saved, `DeleteNode` on the nodes created in `t` in the reverse of the order
they were created, and `DeleteNode` on the root folder last. -/
theorem rollback_order (env : UnzipEnv) (w : World) :
    (∀ paths nodes, (cleanupCreated env w paths nodes).trace =
      w.trace ++ (paths.map Call.deleteFile ++
        nodes.reverse.map (fun n => Call.deleteNode n.ID))) ∧
    (∀ ownerID parentID file resp wf,
      UnzipHandler env w ownerID parentID file = some (resp, wf) → resp.status ≠ 201 →
      wf.trace = w.trace ∨
      ∃ rootID t, wf.trace = w.trace ++ Call.createNode rootID :: t ++
        ((t.filterMap savedPath).map Call.deleteFile ++
          ((t.filterMap createdId).reverse.map Call.deleteNode ++
            [Call.deleteNode rootID]))) := by
  refine ⟨fun paths nodes => cleanupCreated_trace env w paths nodes,
    fun ownerID parentID file resp wf h hst => ?_⟩
  rcases UnzipHandler_run h with ⟨hw, -⟩ | ⟨filename, size, es, w1, root, -, hc, hl | hl⟩
  · left
    rw [hw]
  · right
    have hspec := unzipLoop_aligned env ownerID root.ID es ⟨w1, [root], [], [], 0, 0, 1⟩
      (createRoot_aligned hc)
    obtain ⟨w2, nodes, paths, ⟨t, h1, h2, h3⟩, hx⟩ := hspec.2 _ hl
    have hx2 : wf = cleanupCreated env w2 paths nodes := hx
    refine ⟨root.ID, t, ?_⟩
    have hrev : nodes.reverse.map (fun n => Call.deleteNode n.ID) =
        (t.filterMap createdId).reverse.map Call.deleteNode ++ [Call.deleteNode root.ID] := by
      have : nodes.reverse.map (fun n => Call.deleteNode n.ID) =
          ((nodes.map (fun n => n.ID)).reverse).map Call.deleteNode := by
        simp [List.map_reverse, List.map_map, Function.comp]
      rw [this, h2]
      simp
    rw [hx2, cleanupCreated_trace, h1, hrev, h3]
  · obtain ⟨s, -, hresp, -⟩ := hl
    rw [hresp] at hst
    exact absurd rfl hst

theorem rollback_order_witness :
    ∃ x, UnzipHandler sampleEnv emptyWorld "u1" ""
        (some ⟨"pack.zip", 100, some twoFilesThenEvil⟩) = some x ∧ x.1.status ≠ 201 ∧
      (x.2.trace = emptyWorld.trace ∨
      ∃ rootID t, x.2.trace = emptyWorld.trace ++ Call.createNode rootID :: t ++
        ((t.filterMap savedPath).map Call.deleteFile ++
          ((t.filterMap createdId).reverse.map Call.deleteNode ++
            [Call.deleteNode rootID]))) := by
  have hs : (UnzipHandler sampleEnv emptyWorld "u1" ""
      (some ⟨"pack.zip", 100, some twoFilesThenEvil⟩)).map (fun x => x.1.status) =
        some 400 := by
    decide
  cases h : UnzipHandler sampleEnv emptyWorld "u1" ""
      (some ⟨"pack.zip", 100, some twoFilesThenEvil⟩) with
  | none =>
    rw [h] at hs
    cases hs
  | some x =>
    rw [h] at hs
    have hst : x.1.status ≠ 201 := by
      simp only [Option.map_some', Option.some.injEq] at hs
      rw [hs]
      decide
    exact ⟨x, rfl, hst,
      (rollback_order sampleEnv emptyWorld).2 "u1" "" _ x.1 x.2 h hst⟩


/-! ## Expansion of a folder under two spellings of its id -/

/-- C27 A stored node can appear twice in the result of `collectNodesRecursive`: owner `u`
creates folder `x` and folder `y` inside it and moves `x` under the upper-case spelling of
its own id (all three requests are accepted); the ids of the store are unique; a recursive
collect started with that spelling then expands the folder `x` under the upper-case and
under the lower-case spelling of its id, returns `y` twice, and the folder statistics count
3 items in a store of 2 nodes. -/
theorem collect_lists_node_twice :
    (∃ r1 w1 r2 w2 r3,
      CreateFolderHandler emptyWorld 7 (oidN 10) "u" (some ⟨"x", ""⟩) = some (r1, w1) ∧
      r1.status = 201 ∧
      CreateFolderHandler w1 7 (oidN 2) "u" (some ⟨"y", (oidN 10).Hex⟩) = some (r2, w2) ∧
      r2.status = 201 ∧
      MoveHandler w2 8 "u" (oidN 10).Hex (some ⟨upperA⟩) = some (r3, aliasWorld) ∧
      r3.status = 200) ∧
    UniqueIds aliasWorld.nodes ∧
    (collectNodesRecursive aliasWorld.nodes "u" upperA).map (fun l => l.map (fun n => n.ID)) =
      some [(oidN 10).Hex, (oidN 2).Hex, (oidN 2).Hex] ∧
    (FolderStatsHandler Char.toLower aliasWorld "u" upperA "true").map
        (fun x => (x.1.status, match x.1.body with
          | .stats r => some r.TotalItems
          | _ => none)) =
      some (200, some 3) := by
  exact ⟨⟨_, _, _, _, _, rfl, rfl, rfl, rfl, rfl, rfl⟩, by decide, by decide, by decide⟩


/-! ## The tree of the created nodes -/

theorem lookupDir_some {m : List (String × String)} {key id : String}
    (h : lookupDir m key = some id) : (key, id) ∈ m := by
  unfold lookupDir at h
  obtain ⟨kv, hkv, rfl⟩ := Option.map_eq_some'.1 h
  have h1 := List.mem_of_find?_eq_some hkv
  have h2 := List.find?_some hkv
  simp only [decide_eq_true_eq] at h2
  obtain ⟨k, v⟩ := kv
  simp only at h2
  subst h2
  exact h1

theorem lookupDir_none {m : List (String × String)} {key : String}
    (h : lookupDir m key = none) : ∀ kv ∈ m, kv.1 ≠ key := by
  unfold lookupDir at h
  rw [Option.map_eq_none', List.find?_eq_none] at h
  intro kv hkv hk
  exact h kv hkv (by simpa using hk)

theorem setDir_fresh {m : List (String × String)} {key : String}
    (h : ∀ kv ∈ m, kv.1 ≠ key) (id : String) : setDir m key id = (key, id) :: m := by
  unfold setDir
  rw [List.filter_eq_self.2]
  intro kv hkv
  simpa using h kv hkv

theorem parents_append {nodes : List Node} {n1 : Node}
    (hp : ∀ pre n post, nodes = pre ++ n :: post → pre ≠ [] →
      ∃ p ∈ pre, p.ID = n.ParentID ∧ p.Typ = "folder")
    (h1 : ∃ q ∈ nodes, q.ID = n1.ParentID ∧ q.Typ = "folder") :
    ∀ pre n post, nodes ++ [n1] = pre ++ n :: post → pre ≠ [] →
      ∃ p ∈ pre, p.ID = n.ParentID ∧ p.Typ = "folder" := by
  intro pre n post heq hne
  rcases List.eq_nil_or_concat post with hpost | ⟨post1, x, hpost⟩
  · subst hpost
    obtain ⟨h2, h3⟩ := List.append_inj' heq rfl
    have h4 : n1 = n := by
      injection h3
    subst h4
    rw [← h2]
    exact h1
  · rw [hpost, List.concat_eq_append, ← List.cons_append, ← List.append_assoc] at heq
    obtain ⟨h2, -⟩ := List.append_inj' heq rfl
    exact hp pre n post1 h2 hne

theorem TreeFacts_append_folder {ownerID rootID : String} {nodes : List Node}
    {paths : List String} {m : List (String × String)}
    (hf : TreeFacts ownerID rootID nodes paths m) {n1 : Node} {cur : List String}
    {p curParent : String} (ho : n1.OwnerID = ownerID) (hty : n1.Typ = "folder")
    (hpa : n1.ParentID = curParent) (hna : n1.Name = p)
    (hpar : ∃ q ∈ nodes, q.ID = curParent ∧ q.Typ = "folder")
    (hkey : ∀ kv ∈ m, kv.1 ≠ joinSlash (cur ++ [p]))
    (hcur : (cur = [] ∧ curParent = rootID) ∨ (cur ≠ [] ∧ (joinSlash cur, curParent) ∈ m)) :
    TreeFacts ownerID rootID (nodes ++ [n1]) paths ((joinSlash (cur ++ [p]), n1.ID) :: m) := by
  obtain ⟨⟨howner, ⟨root, rest, hnodes, hrid, hrty⟩, hparents, hdirs⟩, hkeys, hfolders, hfiles,
    htypes⟩ := hf
  have hne : nodes ≠ [] := by
    rw [hnodes]
    exact List.cons_ne_nil _ _
  have htail : (nodes ++ [n1]).tail = nodes.tail ++ [n1] := List.tail_append_of_ne_nil hne
  refine ⟨⟨?_, ?_, ?_, ?_⟩, ?_, ?_, ?_, ?_⟩
  · intro n hn
    rcases List.mem_append.1 hn with hn | hn
    · exact howner n hn
    · rw [List.mem_singleton.1 hn]
      exact ho
  · exact ⟨root, rest ++ [n1], by rw [hnodes]; rfl, hrid, hrty⟩
  · exact parents_append hparents (by rw [hpa]; exact hpar)
  · intro kv hkv
    rcases List.mem_cons.1 hkv with hkv | hkv
    · subst hkv
      refine ⟨cur, p, n1, rfl, ?_, rfl, hty, hna, ?_, ?_⟩
      · rw [htail]
        exact List.mem_append_right _ (List.mem_singleton.2 rfl)
      · intro hc
        rcases hcur with ⟨-, h⟩ | ⟨h, -⟩
        · rw [hpa, h]
        · exact absurd hc h
      · intro hc
        rcases hcur with ⟨h, -⟩ | ⟨-, h⟩
        · exact absurd h hc
        · rw [hpa]
          exact List.mem_cons_of_mem _ h
    · obtain ⟨c, q, n, h1, h2, h3, h4, h5, h6, h7⟩ := hdirs kv hkv
      refine ⟨c, q, n, h1, ?_, h3, h4, h5, h6, fun hc => List.mem_cons_of_mem _ (h7 hc)⟩
      rw [htail]
      exact List.mem_append_left _ h2
  · rw [List.map_cons, List.nodup_cons]
    refine ⟨fun hmem => ?_, hkeys⟩
    obtain ⟨kv, hkv, hk⟩ := List.mem_map.1 hmem
    exact hkey kv hkv hk
  · rw [htail, List.filter_append, List.map_append, hfolders]
    simp [hty]
  · rw [List.filter_append, List.map_append, hfiles]
    simp [hty]
  · intro n hn
    rcases List.mem_append.1 hn with hn | hn
    · exact htypes n hn
    · rw [List.mem_singleton.1 hn]
      exact Or.inl hty

theorem TreeFacts_append_file {ownerID rootID : String} {nodes : List Node}
    {paths : List String} {m : List (String × String)}
    (hf : TreeFacts ownerID rootID nodes paths m) {n1 : Node}
    (ho : n1.OwnerID = ownerID) (hty : n1.Typ = "file")
    (hpar : ∃ q ∈ nodes, q.ID = n1.ParentID ∧ q.Typ = "folder") :
    TreeFacts ownerID rootID (nodes ++ [n1]) (paths ++ [n1.Path]) m := by
  obtain ⟨⟨howner, ⟨root, rest, hnodes, hrid, hrty⟩, hparents, hdirs⟩, hkeys, hfolders, hfiles,
    htypes⟩ := hf
  have hne : nodes ≠ [] := by
    rw [hnodes]
    exact List.cons_ne_nil _ _
  have htail : (nodes ++ [n1]).tail = nodes.tail ++ [n1] := List.tail_append_of_ne_nil hne
  refine ⟨⟨?_, ?_, ?_, ?_⟩, hkeys, ?_, ?_, ?_⟩
  · intro n hn
    rcases List.mem_append.1 hn with hn | hn
    · exact howner n hn
    · rw [List.mem_singleton.1 hn]
      exact ho
  · exact ⟨root, rest ++ [n1], by rw [hnodes]; rfl, hrid, hrty⟩
  · exact parents_append hparents hpar
  · intro kv hkv
    obtain ⟨c, q, n, h1, h2, h3, h4, h5, h6, h7⟩ := hdirs kv hkv
    refine ⟨c, q, n, h1, ?_, h3, h4, h5, h6, h7⟩
    rw [htail]
    exact List.mem_append_left _ h2
  · rw [htail, List.filter_append, List.map_append, hfolders]
    simp [hty]
  · rw [List.filter_append, List.map_append, hfiles]
    simp [hty]
  · intro n hn
    rcases List.mem_append.1 hn with hn | hn
    · exact htypes n hn
    · rw [List.mem_singleton.1 hn]
      exact Or.inr hty

theorem createDirLoop_tree (env : UnzipEnv) (ownerID rootID : String) :
    ∀ (parts : List String) (i : Nat) (cur : List String) (curParent : String) (s : UnzipState),
      TreeFacts ownerID rootID s.createdNodes s.createdPaths s.dirNodeMap →
      (∃ q ∈ s.createdNodes, q.ID = curParent ∧ q.Typ = "folder") →
      ((cur = [] ∧ curParent = rootID) ∨
        (cur ≠ [] ∧ (joinSlash cur, curParent) ∈ s.dirNodeMap)) →
      TreeFacts ownerID rootID
        (createDirLoop env ownerID parts i cur curParent s).1.createdNodes
        (createDirLoop env ownerID parts i cur curParent s).1.createdPaths
        (createDirLoop env ownerID parts i cur curParent s).1.dirNodeMap ∧
      (createDirLoop env ownerID parts i cur curParent s).1.createdPaths = s.createdPaths ∧
      ∀ id, (createDirLoop env ownerID parts i cur curParent s).2 = .ok id →
        (∃ q ∈ (createDirLoop env ownerID parts i cur curParent s).1.createdNodes,
          q.ID = id ∧ q.Typ = "folder") ∧
        ∀ k, k ∈ (createDirLoop env ownerID parts i cur curParent s).1.dirNodeMap.map
            (fun kv => kv.1) ↔
          k ∈ s.dirNodeMap.map (fun kv => kv.1) ∨ k ∈ prefixKeysFrom cur parts := by
  intro parts
  induction parts with
  | nil =>
    intro i cur curParent s hs hp hcur
    refine ⟨hs, rfl, fun id hid => ?_⟩
    simp only [createDirLoop] at hid ⊢
    cases hid
    exact ⟨hp, fun k => by simp [prefixKeysFrom]⟩
  | cons p rest ih =>
    intro i cur curParent s hs hp hcur
    unfold createDirLoop
    simp only
    cases hl : lookupDir s.dirNodeMap (joinSlash (cur ++ [p])) with
    | some id =>
      simp only
      have hmem := lookupDir_some hl
      have hfold : ∃ q ∈ s.createdNodes, q.ID = id ∧ q.Typ = "folder" := by
        obtain ⟨c, q, n, -, h2, h3, h4, -⟩ := hs.shape.2.2.2 _ hmem
        exact ⟨n, List.mem_of_mem_tail h2, h3, h4⟩
      obtain ⟨h1, h2, h3⟩ := ih (i + 1) (cur ++ [p]) id s hs hfold
        (Or.inr ⟨by simp, hmem⟩)
      refine ⟨h1, h2, fun id1 hid => ?_⟩
      obtain ⟨h4, h5⟩ := h3 id1 hid
      refine ⟨h4, fun k => ?_⟩
      rw [h5, prefixKeysFrom, List.mem_cons]
      constructor
      · rintro (h | h)
        · exact Or.inl h
        · exact Or.inr (Or.inr h)
      · rintro (h | h | h)
        · exact Or.inl h
        · left
          rw [h]
          exact List.mem_map.2 ⟨_, hmem, rfl⟩
        · exact Or.inr h
    | none =>
      simp only
      cases hc : s.world.createNode env.now (env.ids s.inserts)
          { ID := "", OwnerID := ownerID, ParentID := curParent, Name := p, Typ := "folder",
            Size := 0, Mime := "", Path := "", CreatedAt := 0, UpdatedAt := 0 } with
      | error e =>
        simp only
        exact ⟨hs, trivial, fun id hid => by cases hid⟩
      | ok r =>
        obtain ⟨w1, n1⟩ := r
        simp only
        have hn1 := createNode_node hc
        have hkey := lookupDir_none hl
        rw [setDir_fresh hkey]
        have hf1 : TreeFacts ownerID rootID (s.createdNodes ++ [n1]) s.createdPaths
            ((joinSlash (cur ++ [p]), n1.ID) :: s.dirNodeMap) :=
          TreeFacts_append_folder hs (by rw [hn1]) (by rw [hn1]) (by rw [hn1]) (by rw [hn1])
            hp hkey hcur
        split
        · exact ⟨hf1, rfl, fun id hid => by cases hid⟩
        · obtain ⟨h1, h2, h3⟩ := ih (i + 1) (cur ++ [p]) n1.ID
            ⟨w1, s.createdNodes ++ [n1], s.createdPaths,
              (joinSlash (cur ++ [p]), n1.ID) :: s.dirNodeMap, s.totalEntries,
              s.totalExtractedSize, s.inserts + 1⟩ hf1
            ⟨n1, List.mem_append_right _ (List.mem_singleton.2 rfl), rfl, by rw [hn1]⟩
            (Or.inr ⟨by simp, List.mem_cons_self _ _⟩)
          refine ⟨h1, h2, fun id1 hid => ?_⟩
          obtain ⟨h4, h5⟩ := h3 id1 hid
          refine ⟨h4, fun k => ?_⟩
          rw [h5, prefixKeysFrom, List.map_cons, List.mem_cons, List.mem_cons]
          constructor
          · rintro ((h | h) | h)
            · exact Or.inr (Or.inl h)
            · exact Or.inl h
            · exact Or.inr (Or.inr h)
          · rintro (h | h | h)
            · exact Or.inl (Or.inr h)
            · exact Or.inl (Or.inl h)
            · exact Or.inr h

theorem extractFile_tree (env : UnzipEnv) (ownerID rootID : String) (s1 : UnzipState)
    (parentForFile clean : String) (parts : List String) (f : ZipEntry)
    (hs : TreeFacts ownerID rootID s1.createdNodes s1.createdPaths s1.dirNodeMap)
    (hp : ∃ q ∈ s1.createdNodes, q.ID = parentForFile ∧ q.Typ = "folder") :
    ∀ s2, extractFile env ownerID rootID s1 parentForFile clean parts f = .ok s2 →
      TreeFacts ownerID rootID s2.createdNodes s2.createdPaths s2.dirNodeMap ∧
      s2.dirNodeMap = s1.dirNodeMap ∧
      s2.createdPaths.length = s1.createdPaths.length + 1 := by
  intro s2 h
  unfold extractFile at h
  by_cases hopen : f.OpenFails = true
  · rw [if_pos hopen] at h
    cases h
  rw [if_neg hopen] at h
  dsimp only at h
  cases hsave : SaveFromReader env.storage ownerID (Join [rootID, clean])
      (f.Size ⊓ (maxTotalExtractSize + 1)) with
  | error e =>
    rw [hsave] at h
    cases h
  | ok sp =>
    obtain ⟨sp1, size⟩ := sp
    rw [hsave] at h
    dsimp only at h
    by_cases hover : s1.totalExtractedSize + size > maxTotalExtractSize
    · rw [if_pos hover] at h
      cases h
    rw [if_neg hover] at h
    cases hc : (s1.world.saveFile sp1).createNode env.now (env.ids s1.inserts)
        { ID := "", OwnerID := ownerID, ParentID := parentForFile,
          Name := parts.getLast?.getD "", Typ := "file", Size := size,
          Mime := entryMime env f.Detected (parts.getLast?.getD ""), Path := sp1,
          CreatedAt := 0, UpdatedAt := 0 } with
    | error e =>
      rw [hc] at h
      cases h
    | ok wn =>
      obtain ⟨w3, n1⟩ := wn
      rw [hc] at h
      cases h
      have hn1 := createNode_node hc
      have hpath : n1.Path = sp1 := by rw [hn1]
      have hf : TreeFacts ownerID rootID (s1.createdNodes ++ [n1])
          (s1.createdPaths ++ [n1.Path]) s1.dirNodeMap :=
        TreeFacts_append_file hs (by rw [hn1]) (by rw [hn1]) (by rw [hn1]; exact hp)
      rw [hpath] at hf
      exact ⟨hf, rfl, by simp⟩

theorem TreeFacts_root {ownerID rootID : String} {nodes : List Node} {paths : List String}
    {m : List (String × String)} (hf : TreeFacts ownerID rootID nodes paths m) :
    ∃ q ∈ nodes, q.ID = rootID ∧ q.Typ = "folder" := by
  obtain ⟨root, rest, h1, h2, h3⟩ := hf.shape.2.1
  exact ⟨root, by rw [h1]; exact List.mem_cons_self _ _, h2, h3⟩

theorem processEntry_tree (env : UnzipEnv) (ownerID rootID : String) (s : UnzipState)
    (f : ZipEntry) (hs : TreeFacts ownerID rootID s.createdNodes s.createdPaths s.dirNodeMap) :
    ∀ s1, processEntry env ownerID rootID s f = .ok s1 →
      TreeFacts ownerID rootID s1.createdNodes s1.createdPaths s1.dirNodeMap ∧
      (∀ k, k ∈ s1.dirNodeMap.map (fun kv => kv.1) ↔
        k ∈ s.dirNodeMap.map (fun kv => kv.1) ∨ k ∈ prefixKeys (entryDirParts f)) ∧
      s1.createdPaths.length =
        s.createdPaths.length + (if entryIsFile f = true then 1 else 0) := by
  intro s1 h
  rw [processEntry_view] at h
  unfold entryStep at h
  unfold entryDirParts entryIsFile
  cases hk : entryKind f with
  | skip =>
    rw [hk] at h
    cases h
    exact ⟨hs, fun k => by simp [prefixKeys, prefixKeysFrom], by simp⟩
  | reject msg =>
    rw [hk] at h
    cases h
  | dir parts =>
    rw [hk] at h
    dsimp only at h ⊢
    have hd := createDirLoop_tree env ownerID rootID parts 0 [] rootID s hs
      (TreeFacts_root hs) (Or.inl ⟨rfl, rfl⟩)
    unfold createDirNode at h
    generalize createDirLoop env ownerID parts 0 [] rootID s = r at hd h
    obtain ⟨s2, res⟩ := r
    cases res with
    | error e => cases h
    | ok id =>
      cases h
      obtain ⟨h1, h2, h3⟩ := hd
      refine ⟨h1, (h3 id rfl).2, ?_⟩
      rw [h2]
      simp
  | file clean parts =>
    rw [hk] at h
    dsimp only at h ⊢
    have hd := createDirLoop_tree env ownerID rootID parts.dropLast 0 [] rootID s hs
      (TreeFacts_root hs) (Or.inl ⟨rfl, rfl⟩)
    unfold createDirNode at h
    generalize createDirLoop env ownerID parts.dropLast 0 [] rootID s = r at hd h
    obtain ⟨s2, res⟩ := r
    cases res with
    | error e => cases h
    | ok parentForFile =>
      dsimp only at h
      obtain ⟨h1, h2, h3⟩ := hd
      obtain ⟨h4, h5, h6⟩ := extractFile_tree env ownerID rootID s2 parentForFile clean parts f
        h1 (h3 _ rfl).1 s1 h
      refine ⟨h4, ?_, ?_⟩
      · rw [h5]
        exact (h3 _ rfl).2
      · rw [h6, h2]
        simp

theorem unzipLoop_tree (env : UnzipEnv) (ownerID rootID : String) :
    ∀ (es : List ZipEntry) (s s1 : UnzipState),
      TreeFacts ownerID rootID s.createdNodes s.createdPaths s.dirNodeMap →
      unzipLoop env ownerID rootID s es = .ok s1 →
      TreeFacts ownerID rootID s1.createdNodes s1.createdPaths s1.dirNodeMap ∧
      (∀ k, k ∈ s1.dirNodeMap.map (fun kv => kv.1) ↔
        k ∈ s.dirNodeMap.map (fun kv => kv.1) ∨ k ∈ archiveDirKeys es) ∧
      s1.createdPaths.length =
        s.createdPaths.length + (es.filter (fun f => entryIsFile f)).length := by
  intro es
  induction es with
  | nil =>
    intro s s1 hs h
    rw [unzipLoop] at h
    cases h
    exact ⟨hs, fun k => by simp [archiveDirKeys], by simp⟩
  | cons f rest ih =>
    intro s s1 hs h
    rw [unzipLoop_cons] at h
    by_cases hcap : s.totalEntries + 1 > maxEntries
    · rw [if_pos hcap] at h
      cases h
    rw [if_neg hcap] at h
    have hp := processEntry_tree env ownerID rootID
      { s with totalEntries := s.totalEntries + 1 } f hs
    generalize processEntry env ownerID rootID { s with totalEntries := s.totalEntries + 1 } f
      = res at h hp
    cases res with
    | error r => cases h
    | ok s2 =>
      obtain ⟨h1, h2, h3⟩ := hp s2 rfl
      obtain ⟨h4, h5, h6⟩ := ih s2 s1 h1 h
      refine ⟨h4, fun k => ?_, ?_⟩
      · rw [h5, h2]
        unfold archiveDirKeys
        rw [List.flatMap_cons, List.mem_append]
        exact or_assoc
      · rw [h6, h3, List.filter_cons]
        by_cases hfile : entryIsFile f = true
        · simp only [hfile, if_true, List.length_cons]
          omega
        · simp only [hfile, if_false, Bool.false_eq_true]
          omega

theorem createRoot_tree {w w1 : World} {now : Nat} {fresh : ObjectID} {n root : Node}
    {ownerID : String} (hc : w.createNode now fresh n = .ok (w1, root))
    (ho : n.OwnerID = ownerID) (ht : n.Typ = "folder") :
    TreeFacts ownerID root.ID [root] [] [] := by
  have hn := createNode_node hc
  have hty : root.Typ = "folder" := by rw [hn]; exact ht
  have hown : root.OwnerID = ownerID := by rw [hn]; exact ho
  refine ⟨⟨?_, ⟨root, [], rfl, rfl, hty⟩, ?_, ?_⟩, List.nodup_nil, rfl, ?_, ?_⟩
  · intro m hm
    rw [List.mem_singleton.1 hm]
    exact hown
  · intro pre m post heq hne
    exfalso
    have hlen := congrArg List.length heq
    simp only [List.length_cons, List.length_nil, List.length_append] at hlen
    have : pre.length ≠ 0 := fun h0 => hne (List.length_eq_zero.1 h0)
    omega
  · intro kv hkv
    cases hkv
  · simp [hty]
  · intro m hm
    rw [List.mem_singleton.1 hm]
    exact Or.inl hty

/-- C30 Ingested nodes form a tree under the new root: after the root folder was created,
in every state the loop reaches after any number of entries, and in the successful
response, every created node is owned by the caller, the first created node is the root
folder, every other created node has as `ParentID` the id of a folder created before it in
the same call, and every entry of `dirNodeMap` maps a joined prefix path to the id of the
folder created for its last segment, whose parent is the folder of the prefix one segment
shorter, or the root folder. -/
theorem ingested_nodes_form_tree (env : UnzipEnv) (w : World)
    (ownerID parentID filename : String) (w1 : World) (root : Node)
    (hc : w.createNode env.now (env.ids 0)
        { ID := "", OwnerID := ownerID, ParentID := parentID,
          Name := rootFolderName filename env.now, Typ := "folder", Size := 0, Mime := "",
          Path := "", CreatedAt := 0, UpdatedAt := 0 } = .ok (w1, root)) :
    (∀ es s, unzipLoop env ownerID root.ID ⟨w1, [root], [], [], 0, 0, 1⟩ es = .ok s →
      TreeShape ownerID root.ID s.createdNodes s.dirNodeMap) ∧
    (∀ size es resp wf,
      UnzipHandler env w ownerID parentID (some ⟨filename, size, some es⟩) = some (resp, wf) →
      resp.status = 201 →
      ∃ s, unzipLoop env ownerID root.ID ⟨w1, [root], [], [], 0, 0, 1⟩ es = .ok s ∧
        resp.body = .unzip ⟨"unzipped successfully", s.createdNodes.length, s.createdNodes,
          s.createdPaths, root.ID, env.now⟩ ∧
        TreeShape ownerID root.ID s.createdNodes s.dirNodeMap) := by
  have h0 : TreeFacts ownerID root.ID [root] [] [] := createRoot_tree hc rfl rfl
  have hloop : ∀ es s, unzipLoop env ownerID root.ID ⟨w1, [root], [], [], 0, 0, 1⟩ es = .ok s →
      TreeShape ownerID root.ID s.createdNodes s.dirNodeMap :=
    fun es s hl => (unzipLoop_tree env ownerID root.ID es _ s h0 hl).1.shape
  refine ⟨hloop, fun size es resp wf h h201 => ?_⟩
  rcases UnzipHandler_run h with ⟨-, hst⟩ | ⟨fn, sz, es1, w2, root2, hfile, hc2, hl | hl⟩
  · exact absurd h201 hst
  · exfalso
    have hinv : UnzipInv w ownerID root2.ID w2 [root2] [] [] := createRoot_inv hc2 rfl rfl
    have hsp := unzipLoop_spec env es1 ⟨w2, [root2], [], [], 0, 0, 1⟩ hinv
    exact UnzipExit_status (hsp.2 _ hl).1 h201
  · obtain ⟨s, hs, hresp, -⟩ := hl
    injection hfile with hfile
    injection hfile with e1 e2 e3
    injection e3 with e3
    subst e1
    subst e3
    rw [hc] at hc2
    injection hc2 with hc2
    injection hc2 with e4 e5
    subst e4
    subst e5
    refine ⟨s, hs, ?_, hloop es s hs⟩
    rw [hresp]

theorem ingested_nodes_form_tree_witness :
    emptyWorld.createNode sampleEnv.now (sampleEnv.ids 0)
        { ID := "", OwnerID := "u1", ParentID := "",
          Name := rootFolderName "pack.zip" sampleEnv.now, Typ := "folder", Size := 0,
          Mime := "", Path := "", CreatedAt := 0, UpdatedAt := 0 } =
      .ok (rootedWorld, sampleRoot) ∧
    ((∀ es s, unzipLoop sampleEnv "u1" sampleRoot.ID ⟨rootedWorld, [sampleRoot], [], [], 0, 0, 1⟩
        es = .ok s → TreeShape "u1" sampleRoot.ID s.createdNodes s.dirNodeMap) ∧
    (∀ size es resp wf,
      UnzipHandler sampleEnv emptyWorld "u1" "" (some ⟨"pack.zip", size, some es⟩) =
        some (resp, wf) →
      resp.status = 201 →
      ∃ s, unzipLoop sampleEnv "u1" sampleRoot.ID ⟨rootedWorld, [sampleRoot], [], [], 0, 0, 1⟩
          es = .ok s ∧
        resp.body = .unzip ⟨"unzipped successfully", s.createdNodes.length, s.createdNodes,
          s.createdPaths, sampleRoot.ID, sampleEnv.now⟩ ∧
        TreeShape "u1" sampleRoot.ID s.createdNodes s.dirNodeMap)) ∧
    (UnzipHandler sampleEnv emptyWorld "u1" "" (some ⟨"pack.zip", 100, some sampleArchive⟩)).map
        (fun x => x.1.status) = some 201 :=
  ⟨rfl, ingested_nodes_form_tree sampleEnv emptyWorld "u1" "" "pack.zip" rootedWorld sampleRoot
    rfl, by decide⟩

theorem created_ids_nodup {w0 : World} {ownerID rootID : String} {w : World}
    {nodes : List Node} {paths : List String} {dirMap : List (String × String)}
    (hi : UnzipInv w0 ownerID rootID w nodes paths dirMap) :
    (nodes.map (fun n => n.ID)).Nodup := by
  obtain ⟨docs, t, hf⟩ := hi
  rw [← hf.ids]
  have h := hf.nodup
  have hmap : docs.map (fun d => d.id.Hex) = (docs.map (fun d => d.id)).map ObjectID.Hex := by
    rw [List.map_map]
    rfl
  rw [hmap]
  exact h.map (fun a b hab => Hex_injective hab)

theorem length_by_type {l : List Node}
    (h : ∀ n ∈ l, n.Typ = "folder" ∨ n.Typ = "file") :
    l.length = (l.filter (fun n => n.Typ = "folder")).length +
      (l.filter (fun n => n.Typ = "file")).length := by
  induction l with
  | nil => rfl
  | cons a as ih =>
    have ih1 := ih (fun n hn => h n (List.mem_cons_of_mem _ hn))
    rcases h a (List.mem_cons_self _ _) with ha | ha
    · simp only [List.filter_cons, ha, decide_True, if_true, List.length_cons]
      have : ¬ ("folder" = "file") := by decide
      simp only [this, decide_False, Bool.false_eq_true, if_false]
      omega
    · simp only [List.filter_cons, ha, decide_True, if_true, List.length_cons]
      have : ¬ ("file" = "folder") := by decide
      simp only [this, decide_False, Bool.false_eq_true, if_false]
      omega

/-- C24 Directory de-duplication and created count: in every successful answer the created
nodes are the root folder followed by folders and files only; the folders below the root
are, one for one and in order of creation, the folders that a map with one entry per
distinct directory prefix path of the entries holds (with distinct ids, and with name and
parent as the tree shape says); the files are as many as the extracted file entries; and
`created_count` is the number of created nodes, which is one plus the number of distinct
directory prefix paths plus the number of extracted file entries. -/
theorem created_count (env : UnzipEnv) (w : World) (ownerID parentID filename : String)
    (size : Nat) (es : List ZipEntry) (resp : Response) (wf : World)
    (h : UnzipHandler env w ownerID parentID (some ⟨filename, size, some es⟩) =
      some (resp, wf))
    (h201 : resp.status = 201) :
    ∃ r root rest dirMap, resp.body = .unzip r ∧
      r.CreatedNodes = root :: rest ∧ root.ID = r.RootParentID ∧ root.Typ = "folder" ∧
      (∀ n ∈ rest, n.Typ = "folder" ∨ n.Typ = "file") ∧
      (dirMap.map (fun kv => kv.1)).Perm (archiveDirKeys es).dedup ∧
      (rest.filter (fun n => n.Typ = "folder")).map (fun n => n.ID) =
        (dirMap.map (fun kv => kv.2)).reverse ∧
      ((rest.filter (fun n => n.Typ = "folder")).map (fun n => n.ID)).Nodup ∧
      TreeShape ownerID root.ID r.CreatedNodes dirMap ∧
      (rest.filter (fun n => n.Typ = "file")).length =
        (es.filter (fun f => entryIsFile f)).length ∧
      r.CreatedCount = r.CreatedNodes.length ∧
      r.CreatedCount =
        1 + (archiveDirKeys es).dedup.length + (es.filter (fun f => entryIsFile f)).length := by
  rcases UnzipHandler_run h with ⟨-, hst⟩ | ⟨fn, sz, es1, w1, root, hfile, hc, hl | hl⟩
  · exact absurd h201 hst
  · exfalso
    have hinv : UnzipInv w ownerID root.ID w1 [root] [] [] := createRoot_inv hc rfl rfl
    have hsp := unzipLoop_spec env es1 ⟨w1, [root], [], [], 0, 0, 1⟩ hinv
    exact UnzipExit_status (hsp.2 _ hl).1 h201
  · obtain ⟨s, hs, hresp, -⟩ := hl
    injection hfile with hfile
    injection hfile with e1 e2 e3
    injection e3 with e3
    subst e1
    subst e3
    have hinv : UnzipInv w ownerID root.ID w1 [root] [] [] := createRoot_inv hc rfl rfl
    have hsp := (unzipLoop_spec env es ⟨w1, [root], [], [], 0, 0, 1⟩ hinv).1 s hs
    have hnd := created_ids_nodup hsp.1
    obtain ⟨hf, hkeys, hcount⟩ := unzipLoop_tree env ownerID root.ID es
      ⟨w1, [root], [], [], 0, 0, 1⟩ s (createRoot_tree hc rfl rfl) hs
    obtain ⟨r0, rest, hnodes, hrid, hrty⟩ := hf.shape.2.1
    have htail : s.createdNodes.tail = rest := by rw [hnodes]; rfl
    have htypes : ∀ n ∈ rest, n.Typ = "folder" ∨ n.Typ = "file" := fun n hn =>
      hf.types n (by rw [hnodes]; exact List.mem_cons_of_mem _ hn)
    have hperm : (s.dirNodeMap.map (fun kv => kv.1)).Perm (archiveDirKeys es).dedup := by
      rw [List.perm_ext_iff_of_nodup hf.keys (List.nodup_dedup _)]
      intro k
      rw [hkeys, List.mem_dedup]
      simp
    have hfolders : (rest.filter (fun n => n.Typ = "folder")).map (fun n => n.ID) =
        (s.dirNodeMap.map (fun kv => kv.2)).reverse := by
      rw [← htail]
      exact hf.folders
    have hfiles : (rest.filter (fun n => n.Typ = "file")).length =
        (es.filter (fun f => entryIsFile f)).length := by
      have h1 := congrArg List.length hf.files
      rw [List.length_map, hnodes, List.filter_cons] at h1
      have h2 : ¬ (r0.Typ = "file") := by rw [hrty]; decide
      simp only [h2, decide_False, Bool.false_eq_true, if_false] at h1
      rw [h1, hcount]
      simp
    have hlenf : (rest.filter (fun n => n.Typ = "folder")).length =
        (archiveDirKeys es).dedup.length := by
      have h1 := congrArg List.length hfolders
      rw [List.length_map, List.length_reverse, List.length_map] at h1
      rw [h1, ← hperm.length_eq, List.length_map]
    have hbody : resp.body = .unzip ⟨"unzipped successfully", s.createdNodes.length,
        s.createdNodes, s.createdPaths, root.ID, env.now⟩ := by rw [hresp]
    refine ⟨⟨"unzipped successfully", s.createdNodes.length, s.createdNodes, s.createdPaths,
      root.ID, env.now⟩, r0, rest, s.dirNodeMap, hbody, hnodes, hrid, hrty, htypes, hperm,
      hfolders, ?_, ?_, hfiles, rfl, ?_⟩
    · have hsub : ((rest.filter (fun n => n.Typ = "folder")).map (fun n => n.ID)).Sublist
          (s.createdNodes.map (fun n => n.ID)) := by
        rw [hnodes]
        exact ((List.filter_sublist rest).map _).trans
          ((List.sublist_cons_self r0 rest).map _)
      exact hnd.sublist hsub
    · rw [hrid]
      exact hf.shape
    · show s.createdNodes.length = _
      rw [hnodes, List.length_cons, length_by_type htypes, hlenf, hfiles]
      omega

theorem created_count_witness :
    (UnzipHandler sampleEnv emptyWorld "u1" "" (some ⟨"pack.zip", 100, some sampleArchive⟩)).map
        (fun x => (x.1.status, match x.1.body with
          | .unzip r => some r.CreatedCount
          | _ => none)) = some (201, some 4) ∧
    (UnzipHandler sampleEnv emptyWorld "u1" ""
        (some ⟨"pack.zip", 100, some sharedDirArchive⟩)).map
        (fun x => x.1.body.nodesOf.map (fun n => (n.Typ, n.Name))) =
      some [("folder", "pack_7"), ("folder", "a"), ("folder", "b"), ("file", "x.txt"),
        ("file", "y.txt")] ∧
    (archiveDirKeys sharedDirArchive).dedup = ["a", "a/b"] ∧
    ∃ x, UnzipHandler sampleEnv emptyWorld "u1" ""
        (some ⟨"pack.zip", 100, some sharedDirArchive⟩) = some x ∧ x.1.status = 201 ∧
      ∃ r root rest dirMap, x.1.body = .unzip r ∧
        r.CreatedNodes = root :: rest ∧ root.ID = r.RootParentID ∧ root.Typ = "folder" ∧
        (∀ n ∈ rest, n.Typ = "folder" ∨ n.Typ = "file") ∧
        (dirMap.map (fun kv => kv.1)).Perm (archiveDirKeys sharedDirArchive).dedup ∧
        (rest.filter (fun n => n.Typ = "folder")).map (fun n => n.ID) =
          (dirMap.map (fun kv => kv.2)).reverse ∧
        ((rest.filter (fun n => n.Typ = "folder")).map (fun n => n.ID)).Nodup ∧
        TreeShape "u1" root.ID r.CreatedNodes dirMap ∧
        (rest.filter (fun n => n.Typ = "file")).length =
          (sharedDirArchive.filter (fun f => entryIsFile f)).length ∧
        r.CreatedCount = r.CreatedNodes.length ∧
        r.CreatedCount = 1 + (archiveDirKeys sharedDirArchive).dedup.length +
          (sharedDirArchive.filter (fun f => entryIsFile f)).length := by
  have hs : (UnzipHandler sampleEnv emptyWorld "u1" ""
      (some ⟨"pack.zip", 100, some sharedDirArchive⟩)).map (fun x => x.1.status) =
        some 201 := by
    decide
  refine ⟨by decide, by decide, by decide, ?_⟩
  cases h : UnzipHandler sampleEnv emptyWorld "u1" ""
      (some ⟨"pack.zip", 100, some sharedDirArchive⟩) with
  | none =>
    rw [h] at hs
    cases hs
  | some x =>
    rw [h] at hs
    have hst : x.1.status = 201 := by
      simpa using hs
    exact ⟨x, rfl, hst,
      created_count sampleEnv emptyWorld "u1" "" "pack.zip" 100 sharedDirArchive x.1 x.2 h hst⟩


/-! ## Requests that write an id in upper case -/

theorem nestedStore_wellFormed : WellFormed nestedStore where
  unique := by decide
  parents := by decide
  acyclic := acyclic_of_rank sampleRank (by decide)

theorem filedStore_wellFormed : WellFormed filedWorld.nodes where
  unique := by decide
  parents := by decide
  acyclic := acyclic_of_rank sampleRank (by decide)

/-- C1 A move of a folder under its own descendant is accepted when the request writes the
descendant's id in upper case: the nested store is well-formed, the folder `…0a` is a
descendant of the folder `…01`, both are folders of `u`, and the id `…0A` names the folder
`…0a`; yet MoveHandler on `…01` with target parent `…0A` calls UpdateNodeParent and answers
200, where the claim asks for a 400 and an unchanged store. With the id written in lower
case the same request is answered 400. -/
theorem MoveHandler_accepts_descendant_in_upper_case :
    WellFormed nestedWorld.nodes ∧
    Descendant nestedWorld.nodes (mkDoc 1 "u" .absent "folder" "").decode
      (mkDoc 10 "u" (.oid (oidN 1)) "folder" "").decode ∧
    FindNodeByID nestedWorld.nodes upperA =
      .ok (some (mkDoc 10 "u" (.oid (oidN 1)) "folder" "").decode) ∧
    MoveHandler nestedWorld 7 "u" (oidN 1).Hex (some ⟨upperA⟩) =
      some (⟨200, .node { (mkDoc 1 "u" .absent "folder" "").decode with ParentID := upperA }⟩,
        { nodes := [{ mkDoc 1 "u" .absent "folder" "" with
                        parent_id := .str upperA, updated_at := 7 },
                    mkDoc 10 "u" (.oid (oidN 1)) "folder" ""],
          blobs := [],
          trace := [.updateNodeParent "u" (oidN 1).Hex upperA] }) ∧
    MoveHandler nestedWorld 7 "u" (oidN 1).Hex (some ⟨(oidN 10).Hex⟩) =
      some (⟨400, .error "cannot move folder into its own descendant"⟩, nestedWorld) := by
  refine ⟨nestedStore_wellFormed, Relation.TransGen.single ⟨?_, ?_, ?_⟩, rfl, ?_, ?_⟩
  · decide
  · decide
  · decide
  · decide
  · decide

/-- C9 A delete that writes the folder's id in upper case leaves a child behind: the file
`…02` is moved into the folder `…0a` by an accepted request, the store is then a well-formed
tree of `u`; DeleteHandler on `…0A` finds the folder, lists no child under that spelling,
deletes the folder's record and answers 204, and the file's record and blob remain, with no
DeleteFile call made. With the id written in lower case the file and its blob are deleted
too. -/
theorem DeleteHandler_upper_case_id_leaves_child :
    MoveHandler flatWorld 7 "u" (oidN 2).Hex (some ⟨(oidN 10).Hex⟩) =
      some (⟨200, .node { (mkDoc 2 "u" .absent "file" "/data/u/b.txt").decode with
        ParentID := (oidN 10).Hex }⟩, filedWorld) ∧
    WellFormed filedWorld.nodes ∧
    (∀ n ∈ filedWorld.nodes.nodes, n.OwnerID = "u") ∧
    FindNodeByID filedWorld.nodes upperA =
      .ok (some (mkDoc 10 "u" .absent "folder" "").decode) ∧
    (∀ fuel, DeleteHandler fuel filedWorld "u" upperA =
      some (⟨204, .none⟩,
        { nodes := [{ mkDoc 2 "u" .absent "file" "/data/u/b.txt" with
                        parent_id := .str (oidN 10).Hex, updated_at := 7 }],
          blobs := ["/data/u/b.txt"],
          trace := [.updateNodeParent "u" (oidN 2).Hex (oidN 10).Hex, .deleteNode upperA] })) ∧
    (∀ fuel, DeleteHandler fuel filedWorld "u" (oidN 10).Hex =
      some (⟨204, .none⟩,
        { nodes := [],
          blobs := [],
          trace := [.updateNodeParent "u" (oidN 2).Hex (oidN 10).Hex,
                    .deleteFile "/data/u/b.txt", .deleteNode (oidN 2).Hex,
                    .deleteNode (oidN 10).Hex] })) := by
  exact ⟨by decide, filedStore_wellFormed, by decide, rfl, fun _ => rfl, fun _ => rfl⟩

theorem DeleteHandler_selfParent (fuel : Nat) :
    DeleteHandler fuel selfParentWorld "u" (oidN 2).Hex = none := by
  have hf : FindNodeByID selfParentWorld.nodes (oidN 2).Hex = .ok (some selfParentNode) := rfl
  have ho : ¬ selfParentNode.OwnerID ≠ "u" := by decide
  have hty : selfParentNode.Typ = "folder" := rfl
  have hnf : ¬ selfParentNode.Typ = "file" := by decide
  unfold DeleteHandler
  rw [hf]
  dsimp only
  rw [if_neg ho, if_pos hty, selfParent_children, List.foldlM_cons, if_neg hnf,
    DeleteRecursive_selfParent]
  rfl

/-- C11 On a folder that is its own parent DeleteHandler answers nothing, whatever the
pattern of DeleteFile failures: the folder with id 2 of the self-parent store is a node of
the caller `u`, and for every failure pattern and every bound on the recursion depth the
handler does not return, so no 204 is sent and no record is removed. -/
theorem DeleteHandler_no_answer_on_self_parent :
    FindNodeByID selfParentWorld.nodes (oidN 2).Hex = .ok (some selfParentNode) ∧
    selfParentNode.OwnerID = "u" ∧
    ∀ (fails : BlobFailures) (fuel : Nat),
      DeleteHandlerWith fails fuel selfParentWorld "u" (oidN 2).Hex = none := by
  refine ⟨rfl, rfl, fun fails fuel => ?_⟩
  have h := DeleteHandlerWith_logical fails fuel selfParentWorld "u" (oidN 2).Hex
  rw [DeleteHandler_selfParent fuel] at h
  cases hw : DeleteHandlerWith fails fuel selfParentWorld "u" (oidN 2).Hex with
  | none => rfl
  | some r => rw [hw] at h; cases h

end ECloud
